import Mathlib

/-!
# LemonOS process core: lifecycle, watchers and termination

A shallow embedding of `kernel/src/Objects/Process.cpp`, of `le_handle_dup` of
`kernel/src/sys/le_core.cpp`, and of the block transfer functions of
`Kernel/src/storage/ahciport.cpp`.

Kernel objects live in explicit heaps: threads are addressed by a `ThreadPtr`
(`0` is `nullptr`), processes by their PID.  Every operation is a function on
the whole `Kernel` state and returns `Except (Stop × Kernel) Kernel`: the left
side is a call that does not return to its caller (failed assertion, kernel
panic, a thread that parks or is switched away), together with the state at
that point.  Calls into collaborators whose code is outside `Process.cpp`
(signal delivery, inter-processor interrupts, blocker interruption) are
recorded in `Kernel.log` in program order, as are the writes to the process
and thread state fields.
-/

namespace Lemon

/-- Pointer to a `Thread`; `0` is the null pointer. -/
abbrev ThreadPtr := Nat

/-- Process identifier, also the address of the `Process` object in the model. -/
abbrev Pid := Nat

/-- Pointer to a `KernelObjectWatcher`. -/
abbrev WatcherPtr := Nat

/-- Lifecycle state of a process (`m_state`). -/
inductive ProcessState
  | Process_Running
  | Process_Dying
  | Process_Dead
  deriving DecidableEq, Repr

/-- Scheduling state of a thread (`Thread::state`). -/
inductive ThreadState
  | ThreadStateRunning
  | ThreadStateBlocked
  | ThreadStateZombie
  | ThreadStateDying
  deriving DecidableEq, Repr

/-- The two signals `Process.cpp` delivers. -/
inductive Signal
  | SIGKILL
  | SIGCHLD
  deriving DecidableEq, Repr

/-- Destination shorthand of an inter-processor interrupt. -/
inductive IcrShorthand
  | ICR_DSH_SELF
  | ICR_DSH_OTHER
  deriving DecidableEq, Repr

/-- Calls into collaborators and writes to state fields, in program order. -/
inductive Event
  /-- `thread->signal(sig)` -/
  | signal (t : ThreadPtr) (sig : Signal)
  /-- `thread->blocker->interrupt()` -/
  | blockerInterrupt (t : ThreadPtr) (blocker : Nat)
  /-- `watcher->signal()` -/
  | watcherSignal (w : WatcherPtr)
  /-- `APIC::Local::SendIPI(dest, dsh, ICR_MESSAGE_TYPE_FIXED, IPI_SCHEDULE)` -/
  | sendIPI (dest : Nat) (dsh : IcrShorthand)
  /-- `acquireLockIntDisable(&thread->stateLock)` -/
  | acquireStateLock (t : ThreadPtr)
  /-- `releaseLock(&thread->stateLock)` -/
  | releaseStateLock (t : ThreadPtr)
  /-- `thread->state = s` -/
  | threadState (t : ThreadPtr) (s : ThreadState)
  /-- `m_state = s` of process `p` -/
  | processState (p : Pid) (s : ProcessState)
  /-- `m_handles.clear()` of process `p` -/
  | handlesCleared (p : Pid)
  /-- `Scheduler::MarkProcessForDestruction(p)` -/
  | markedForDestruction (p : Pid)
  /-- `Scheduler::RegisterProcess(p)` -/
  | registered (p : Pid)
  /-- `Scheduler::InsertNewThreadIntoQueue(t)` -/
  | insertedIntoQueue (t : ThreadPtr)
  /-- `delete space` of an `AddressSpace` -/
  | spaceDeleted (space : Nat)
  /-- `Scheduler::DoSwitch(cpu)` -/
  | doSwitch (cpu : Nat)
  deriving DecidableEq, Repr

/-- The fields of `Thread` that `Process.cpp` reads or writes. -/
structure Thread where
  tid : Nat
  /-- Owning process (`Thread::parent`). -/
  parent : Pid
  state : ThreadState
  /-- `Thread::blocker`, `none` for `nullptr`. -/
  blocker : Option Nat
  /-- `Thread::kernelLock`: `true` while the lock word is set. -/
  kernelLock : Bool
  timeSlice : Nat
  timeSliceDefault : Nat
  priority : Nat
  rip : Nat
  rsp : Nat
  rbp : Nat
  gsBase : Nat
  /-- `scRegisters->rip`, the saved system-call context. -/
  scRip : Nat
  /-- `scRegisters->rsp` -/
  scRsp : Nat
  /-- `scRegisters->rbp` -/
  scRbp : Nat
  deriving DecidableEq, Repr

/-- An entry of the handle table: kernel object and close-on-exec flag. -/
structure Handle where
  /-- Kernel object referred to, `none` for the null handle. -/
  ko : Option Nat
  closeOnExec : Bool
  deriving DecidableEq, Repr

/-- The null handle (`HANDLE_NULL`). -/
def HANDLE_NULL : Handle := { ko := none, closeOnExec := false }

/-- A mapped region, by base and size, and the address space it was mapped into. -/
structure MappedRegion where
  base : Nat
  size : Nat
  /-- The `AddressSpace` whose `MapVMO` or `AllocateAnonymousVMObject` returned the region. -/
  space : Nat
  deriving DecidableEq, Repr

/-- Contents of the process environment block (`abi/peb.h`). -/
structure ProcessEnvironmentBlock where
  self : Nat
  pid : Nat
  executableBaseAddress : Nat
  sharedDataBase : Nat
  sharedDataSize : Nat
  hirakuBase : Nat
  hirakuSize : Nat
  deriving DecidableEq, Repr

/-- The fields of `Process` that `Process.cpp` reads or writes. -/
structure Process where
  m_pid : Pid
  m_state : ProcessState
  /-- `m_parent`, `none` for `nullptr`. -/
  m_parent : Option Pid
  m_children : List Pid
  m_mainThread : ThreadPtr
  m_threads : List ThreadPtr
  m_nextThreadID : Nat
  m_handles : List Handle
  m_watching : List WatcherPtr
  m_started : Bool
  /-- `addressSpace`, `none` for `nullptr`. -/
  addressSpace : Option Nat
  pebRegion : Option MappedRegion
  userSharedDataRegion : Option MappedRegion
  /-- The environment block stored at the main thread's `gsBase`. -/
  peb : ProcessEnvironmentBlock
  uid : Nat
  gid : Nat
  euid : Nat
  egid : Nat
  deriving DecidableEq, Repr

/-- Per-processor scheduler state (`CPU`). -/
structure CPU where
  /-- `currentThread`, `0` for `nullptr`. -/
  currentThread : ThreadPtr
  idleThread : ThreadPtr
  runQueue : List ThreadPtr
  deriving DecidableEq, Repr

/-- The whole kernel state the process core works on. -/
structure Kernel where
  /-- Thread heap. -/
  threads : ThreadPtr → Thread
  /-- Process heap. -/
  procs : Pid → Process
  /-- `SMP::cpus`, indexed by processor id. -/
  cpus : Nat → CPU
  /-- `SMP::processorCount`. -/
  processorCount : Nat
  /-- Next value of `Scheduler::GetNextPID()`. -/
  nextPID : Nat
  /-- Next free thread address. -/
  nextThread : ThreadPtr
  /-- Next free address-space identity. -/
  nextSpace : Nat
  /-- User memory as seen through the page map of each process: the byte at each address. -/
  userMem : Pid → Nat → Nat
  log : List Event

/-- Why a call did not return to its caller. -/
inductive Stop
  /-- `assert` failed at the given source line. -/
  | assertFailed (line : Nat)
  /-- `KernelPanic` at the given source line. -/
  | kernelPanic (line : Nat)
  /-- A null pointer was dereferenced at the given source line. -/
  | nullDeref (line : Nat)
  /-- A store at the given source line went through a pointer that does not point to the
  object it is meant for: the code faults or overwrites other memory. -/
  | strayStore (line : Nat)
  /-- The caller yields forever (`for (;;) Scheduler::Yield()`). -/
  | parked
  /-- The caller was switched away for good (`Scheduler::DoSwitch`). -/
  | switchedAway
  /-- The caller waits for an event the environment never produces. -/
  | waitsForever
  /-- The loop budget of the model ran out. -/
  | outOfFuel
  deriving DecidableEq, Repr

/-- Result of a kernel operation: the new state, or the reason it did not return and the state
at that point. -/
abbrev Run := Except (Stop × Kernel) Kernel

/-- Behaviour of the other processors while `die` runs. -/
structure Env where
  /-- Whether the processor pinning thread `t` has released its kernel lock by the end of
  sweep number `n`. -/
  unpins : Nat → ThreadPtr → Bool
  /-- Whether child `c` is driven to `Process_Dead` by its own main thread while the parent
  waits for it. -/
  childDies : Pid → Bool
  /-- Address of the stack-allocated `KernelObjectWatcher w` used to wait for a dying child. -/
  localWatcher : WatcherPtr
  /-- Processor the driving thread runs on at line 772 (`cpu = GetCPULocal()`). -/
  exitCPU : Nat
  /-- Whether `Scheduler::DoSwitch` hands control back to the dead thread. -/
  switchReturns : Bool

/-- The fields of `ELFData` that `Process.cpp` reads. -/
structure ELFData where
  entry : Nat
  pHdrSegment : Nat
  phEntrySize : Nat
  phNum : Nat
  /-- Whether `linkerPath` is non-null. -/
  linkerPath : Bool
  deriving DecidableEq, Repr

/-- A `JUMP_SLOT` candidate of the interpreter's PLT as `load_elf` sees it. -/
structure PltEntry where
  /-- `ELF64_R_TYPE(plt->info) == ELF64_R_X86_64_JUMP_SLOT` -/
  jumpSlot : Bool
  /-- `sym.name` is non-zero. -/
  named : Bool
  /-- `ELF64_SYM_BIND(sym.info)` -/
  binding : Nat
  /-- `ResolveHirakuSymbol(name)->address`, `none` when the symbol is not found. -/
  symbol : Option Nat
  /-- `plt->offset` -/
  offset : Nat
  /-- `plt->addend` -/
  addend : Nat
  deriving DecidableEq, Repr

/-- What loading `/lib/ld.so` yields in `load_elf` (lines 299-318). -/
inductive LinkerLoad
  /-- `fs::ResolvePath` found no node. -/
  | missing
  /-- `fs::Open` failed with the error. -/
  | openFailed (err : Nat)
  /-- `elf_load_file` failed with the error. -/
  | parseFailed (err : Nat)
  /-- The interpreter was loaded: its entry, whether it has a dynamic section, whether
  `DT_JMPREL`, `DT_SYMTAB` and `DT_STRTAB` were all found, and its PLT entries. -/
  | loaded (entry : Nat) (dynamic : Bool) (tables : Bool) (plt : List PltEntry)
  deriving DecidableEq, Repr

/-- Constants and collaborators that are declared outside `Process.cpp`. -/
structure Ext where
  THREAD_TIMESLICE_DEFAULT : Nat
  PROC_USER_SHARED_DATA_BASE : Nat
  PROC_PEB_BASE : Nat
  /-- Size of the shared-data object. -/
  sharedDataSize : Nat
  /-- `PAGE_COUNT_4K(sizeof(ProcessEnvironmentBlock)) << PAGE_SHIFT_4K` -/
  pebSize : Nat
  /-- `_hiraku - _user_shared_data` -/
  hirakuOffset : Nat
  /-- `_hiraku_end - _hiraku` -/
  hirakuSize : Nat
  /-- Initial value of `m_nextThreadID`. -/
  firstThreadID : Nat
  /-- Base chosen by `AllocateAnonymousVMObject(size, hint, false)`. -/
  anonBase : Nat → Nat → Nat
  /-- Whether the working directory resolves to a directory that opens. -/
  workingDirOk : Bool
  /-- Whether the forked address space still maps the shared data at the parent's base. -/
  forkKeepsSharedData : Bool
  /-- Result of `elf_load_segments` for the executable, `none` for `ERROR_NONE`. -/
  elfLoadSegments : Option Nat
  /-- Result of `elf_load_file` for the image given to `create_elf_process`, `none` for
  `ERROR_NONE`. -/
  elfLoadFile : Option Nat
  /-- The open file of `/dev/null`, `none` when the path does not resolve. -/
  nullDev : Option Nat
  /-- The open file of `/dev/kernellog`, `none` when the path does not resolve. -/
  logDev : Option Nat
  /-- Result of loading the program interpreter. -/
  linker : LinkerLoad

/-- `STB_WEAK` of the ELF specification. -/
def STB_WEAK : Nat := 2

/-- The auxiliary-vector types of the System V ABI that `load_elf` uses. -/
def AT_NULL : Nat := 0

/-- `AT_PHDR` of the System V ABI. -/
def AT_PHDR : Nat := 3

/-- `AT_PHENT` of the System V ABI. -/
def AT_PHENT : Nat := 4

/-- `AT_PHNUM` of the System V ABI. -/
def AT_PHNUM : Nat := 5

/-- `AT_ENTRY` of the System V ABI. -/
def AT_ENTRY : Nat := 9

/-- `AT_SYSINFO_EHDR` of the System V ABI. -/
def AT_SYSINFO_EHDR : Nat := 33

/-- The `linkerBaseAddress` of `load_elf` (line 293). -/
def linkerBaseAddress : Nat := 0x7FC0000000

/-- Subtraction on `uintptr_t`: the difference modulo `2 ^ 64`. -/
def sub64 (a b : Nat) : Nat :=
  if b % 2 ^ 64 ≤ a % 2 ^ 64 then a % 2 ^ 64 - b % 2 ^ 64
  else a % 2 ^ 64 + 2 ^ 64 - b % 2 ^ 64

/-- Addition on `uintptr_t`: the sum modulo `2 ^ 64`. -/
def add64 (a b : Nat) : Nat := (a + b) % 2 ^ 64

/-- User memory of one address space: the byte at each address. -/
abbrev Mem := Nat → Nat

/-- Store of one byte at address `a`. -/
def storeByte (m : Mem) (a b : Nat) : Mem :=
  fun y => if y = a % 2 ^ 64 then b % 256 else m y

/-- Store of consecutive bytes from address `a` upwards. -/
def storeBytes (m : Mem) (a : Nat) : List Nat → Mem
  | [] => m
  | b :: bs => storeBytes (storeByte m a b) (add64 a 1) bs

/-- The eight bytes of a 64-bit word, least significant first. -/
def wordBytes (v : Nat) : List Nat :=
  [v % 256, v / 256 % 256, v / 256 ^ 2 % 256, v / 256 ^ 3 % 256, v / 256 ^ 4 % 256,
    v / 256 ^ 5 % 256, v / 256 ^ 6 % 256, v / 256 ^ 7 % 256]

/-- The store `*(uint64_t*)a = v`. -/
def storeWord (m : Mem) (a v : Nat) : Mem := storeBytes m a (wordBytes v)

/-- The 64-bit word read at address `a`. -/
def loadWord (m : Mem) (a : Nat) : Nat :=
  m (add64 a 0) + m (add64 a 1) * 256 + m (add64 a 2) * 256 ^ 2 + m (add64 a 3) * 256 ^ 3 +
    m (add64 a 4) * 256 ^ 4 + m (add64 a 5) * 256 ^ 5 + m (add64 a 6) * 256 ^ 6 +
    m (add64 a 7) * 256 ^ 7

/-- `strlen`: the number of bytes before the first NUL. -/
def strlen (s : List Nat) : Nat := (s.takeWhile fun c => c ≠ 0).length

/-- `strcpy(dst, src)`: the bytes of `src` before its first NUL, then a NUL. -/
def strcpy (m : Mem) (dst : Nat) (src : List Nat) : Mem :=
  storeBytes m dst ((src.takeWhile fun c => c ≠ 0) ++ [0])

/-- The stores `*(stack + i) = words[i]` for every index `i` (loops of lines 435-437 and
443-445). -/
def storeWords (m : Mem) (stack : Nat) : List Nat → Mem
  | [] => m
  | w :: ws => storeWords (storeWord m stack w) (add64 stack 8) ws

/-- The store `*((auxv_t*)stack) = {.a_type = t, .a_val = v}`. -/
def storeAux (m : Mem) (stack t v : Nat) : Mem :=
  storeWord (storeWord m stack t) (add64 stack 8) v

/-- Bytes the strings of the list take on the stack, terminators included. -/
def stringsSize : List (List Nat) → Nat
  | [] => 0
  | a :: rest => a.length + 1 + stringsSize rest

/-- Addresses at which strings copied downwards from `top` start. -/
def stringAddrs (top : Nat) : List (List Nat) → List Nat
  | [] => []
  | a :: rest => (top - (a.length + 1)) :: stringAddrs (top - (a.length + 1)) rest

/-- A string of non-zero bytes. -/
def CString (s : List Nat) : Prop := ∀ c ∈ s, c ≠ 0 ∧ c < 256

/-- Address `p` holds a NUL-terminated copy of `s`. -/
def HoldsString (m : Mem) (p : Nat) (s : List Nat) : Prop :=
  (∀ j, j < s.length → m (p + j) = s.getD j 0) ∧ m (p + s.length) = 0

/-- Size of the copy of `execPath` on the stack. -/
def execPathSize : Option (List Nat) → Nat
  | some path => strlen path + 1
  | none => 0

/-- Upper bound of the bytes `load_elf` takes from the stack. -/
def stackBytes (argv envp : List (List Nat)) (execPath : Option (List Nat)) : Nat :=
  stringsSize argv + stringsSize envp + execPathSize execPath
    + 8 * (argv.length + envp.length) + 135

/-- The initial stack of the System V calling convention at `st`, built below `sp`: `argc`,
the `argv` pointers and a null word, the `envp` pointers and a null word, the auxiliary vector
with its `AT_NULL` word, every pointer at a NUL-terminated copy of its string, and the strings
above the words and apart from each other. -/
structure StackImage (M : Mem) (st sp : Nat) (elfInfo : ELFData) (hirakuBase : Nat)
    (argv envp : List (List Nat)) : Prop where
  argc : loadWord M st = argv.length
  argvString : ∀ i, i < argv.length →
    HoldsString M (loadWord M (st + 8 + 8 * i)) (argv.getD i [])
  argvNull : loadWord M (st + 8 + 8 * argv.length) = 0
  envpString : ∀ i, i < envp.length →
    HoldsString M (loadWord M (st + 16 + 8 * argv.length + 8 * i)) (envp.getD i [])
  envpNull : loadWord M (st + 16 + 8 * argv.length + 8 * envp.length) = 0
  auxv : ∀ k, k < 11 →
    loadWord M (st + 24 + 8 * argv.length + 8 * envp.length + 8 * k)
      = ([AT_SYSINFO_EHDR, hirakuBase, AT_ENTRY, elfInfo.entry, AT_PHNUM, elfInfo.phNum,
          AT_PHENT, elfInfo.phEntrySize, AT_PHDR, elfInfo.pHdrSegment, AT_NULL].getD k 0)
        % 2 ^ 64
  argvAbove : ∀ i, i < argv.length →
    st + 24 + 8 * argv.length + 8 * envp.length + 88 ≤ loadWord M (st + 8 + 8 * i) ∧
    loadWord M (st + 8 + 8 * i) + (argv.getD i []).length + 1 ≤ sp
  envpAbove : ∀ i, i < envp.length →
    st + 24 + 8 * argv.length + 8 * envp.length + 88
      ≤ loadWord M (st + 16 + 8 * argv.length + 8 * i) ∧
    loadWord M (st + 16 + 8 * argv.length + 8 * i) + (envp.getD i []).length + 1 ≤ sp
  argvApart : ∀ i j, i < j → j < argv.length →
    loadWord M (st + 8 + 8 * j) + (argv.getD j []).length + 1 ≤ loadWord M (st + 8 + 8 * i)
  envpApart : ∀ i j, i < j → j < envp.length →
    loadWord M (st + 16 + 8 * argv.length + 8 * j) + (envp.getD j []).length + 1
      ≤ loadWord M (st + 16 + 8 * argv.length + 8 * i)
  envpBelowArgv : ∀ i j, i < argv.length → j < envp.length →
    loadWord M (st + 16 + 8 * argv.length + 8 * j) + (envp.getD j []).length + 1
      ≤ loadWord M (st + 8 + 8 * i)

/-- The second memory has the bytes of the first at every address from `T` on. -/
def AgreeAbove (T : Nat) (m1 m2 : Mem) : Prop := ∀ y, T ≤ y → m2 y = m1 y

namespace Kernel

/-- Append one event to the log. -/
def emit (k : Kernel) (e : Event) : Kernel :=
  { k with log := k.log ++ [e] }

/-- Overwrite the thread at `t`. -/
def setThread (k : Kernel) (t : ThreadPtr) (th : Thread) : Kernel :=
  { k with threads := fun x => if x = t then th else k.threads x }

/-- Overwrite the process at `p`. -/
def setProc (k : Kernel) (p : Pid) (pr : Process) : Kernel :=
  { k with procs := fun x => if x = p then pr else k.procs x }

/-- Overwrite the processor at `i`. -/
def setCPU (k : Kernel) (i : Nat) (c : CPU) : Kernel :=
  { k with cpus := fun x => if x = i then c else k.cpus x }

/-- Overwrite the user memory of process `p`. -/
def setUserMem (k : Kernel) (p : Pid) (m : Mem) : Kernel :=
  { k with userMem := fun x => if x = p then m else k.userMem x }

/-- The write `thread->state = s`. -/
def writeThreadState (k : Kernel) (t : ThreadPtr) (s : ThreadState) : Kernel :=
  (k.setThread t { k.threads t with state := s }).emit (Event.threadState t s)

/-- The write `m_state = s` of process `p`. -/
def writeProcessState (k : Kernel) (p : Pid) (s : ProcessState) : Kernel :=
  (k.setProc p { k.procs p with m_state := s }).emit (Event.processState p s)

end Kernel

/-- Modelled from the spec: `remove(value)` of the kernel list classes (List.h is not part of
the sources) takes the value off the list: afterwards the list does not hold it, the other
entries keep their order, and nothing happens when the value is absent. -/
def listRemove (l : List Nat) (v : Nat) : List Nat := l.filter (fun x => x ≠ v)

/-- Modelled from the spec: `acquireTestLock` (Lock.h is not part of the sources) is a
non-blocking test-and-set; it returns the previous lock word, so `false` means the caller
now holds the lock, and the lock is set afterwards either way. -/
def acquireTestLock (k : Kernel) (t : ThreadPtr) : Bool × Kernel :=
  ((k.threads t).kernelLock, k.setThread t { k.threads t with kernelLock := true })

/-- A thread that is marked dying has no time slice left. -/
def Retired (k : Kernel) (t : ThreadPtr) : Prop :=
  (k.threads t).state = ThreadState.ThreadStateDying →
    (k.threads t).timeSlice = 0 ∧ (k.threads t).timeSliceDefault = 0

/-- Number of `watcher->signal()` calls for `w` recorded in the log. -/
def signalCount (k : Kernel) (w : WatcherPtr) : Nat :=
  k.log.count (Event.watcherSignal w)

/-- `k1` comes from `k` by a step that leaves the process table alone, signals no watcher and
gives no dying thread its time slice back. -/
structure Quiet (k k1 : Kernel) : Prop where
  procs : k1.procs = k.procs
  processorCount : k1.processorCount = k.processorCount
  signals : ∀ w, signalCount k1 w = signalCount k w
  retired : ∀ t, Retired k t → Retired k1 t
  parents : ∀ t, (k1.threads t).parent = (k.threads t).parent

/-- `k1` comes from `k` by steps of the child loop of `die`: threads, processors and thread
lists are untouched, no watcher of the dying process is signalled, a dead process stays dead
and an orphan stays an orphan. -/
structure ChildFrame (k k1 : Kernel) : Prop where
  threads : k1.threads = k.threads
  cpus : k1.cpus = k.cpus
  processorCount : k1.processorCount = k.processorCount
  signals : ∀ w, signalCount k1 w = signalCount k w
  mthreads : ∀ p, (k1.procs p).m_threads = (k.procs p).m_threads
  dead : ∀ p, (k.procs p).m_state = ProcessState.Process_Dead →
    (k1.procs p).m_state = ProcessState.Process_Dead
  orphan : ∀ p, (k.procs p).m_parent = none → (k1.procs p).m_parent = none

/-- Whether the stop is one of the alignment assertions on the stack pointer that `load_elf`
writes back (lines 134, 452 and 514). -/
def Stop.isAlignment : Stop → Bool
  | .assertFailed 134 => true
  | .assertFailed 452 => true
  | .assertFailed 514 => true
  | _ => false

/-- Whether the event is a call of `blocker->interrupt()`. -/
def Event.isInterrupt : Event → Bool
  | .blockerInterrupt _ _ => true
  | _ => false

/-- Whether the event is anything but a call of `blocker->interrupt()`. -/
def Event.notInterrupt (e : Event) : Bool := !e.isInterrupt

/-- Whether the event is a write of `Zombie` or of `Dying` to the state of thread `t`. -/
def Event.retires (t : ThreadPtr) (e : Event) : Bool :=
  e = Event.threadState t ThreadState.ThreadStateZombie ∨
    e = Event.threadState t ThreadState.ThreadStateDying

/-- The log of `k1` is the log of `k` followed by events that satisfy `P`. -/
structure LogFrame (P : Event → Bool) (k k1 : Kernel) : Prop where
  grows : ∃ evs, k1.log = k.log ++ evs ∧ ∀ e ∈ evs, P e = true

/-- The image of process `p` lives in the address space `space`: that is the address space
of the process, and its two region references, when set, are regions of that space. -/
structure InSpace (k : Kernel) (p : Pid) (sp : Nat) : Prop where
  own : (k.procs p).addressSpace = some sp
  peb : ∀ r, (k.procs p).pebRegion = some r → r.space = sp
  usd : ∀ r, (k.procs p).userSharedDataRegion = some r → r.space = sp

/-- What `fork` hands down from the parent: the handle table and the four credentials, in the
order `uid`, `gid`, `euid`, `egid`. -/
def Process.inherited (pr : Process) : List Handle × Nat × Nat × Nat × Nat :=
  (pr.m_handles, pr.uid, pr.gid, pr.euid, pr.egid)

/-- State in which a call ends, whether it returned or not. -/
def finalState {α : Type} (proj : α → Kernel) : Except (Stop × Kernel) α → Kernel
  | .ok a => proj a
  | .error e => e.2

/-- Reason a call did not return, `none` when it returned. -/
def stopOf {α : Type} : Except (Stop × Kernel) α → Option Stop
  | .ok _ => none
  | .error e => some e.1

/-- Whether the call returned or stopped for another reason than an alignment assertion. -/
def noAlignment {α : Type} (r : Except (Stop × Kernel) α) : Bool :=
  match stopOf r with
  | some s => !s.isAlignment
  | none => true

/-- Value a call returned next to the state, `none` when it did not return. -/
def valueOf {α : Type} : Except (Stop × Kernel) (Kernel × α) → Option α
  | .ok v => some v.2
  | .error _ => none

/-- Entry point and stack pointer that `load_elf` returned, `none` when it did not return or
returned an error. -/
def stackOf : Except (Stop × Kernel) (Kernel × Except Nat (Nat × Nat)) → Option (Nat × Nat)
  | .ok (_, .ok v) => some v
  | _ => none

/-- Events a call appended to the log of `k`. -/
def emitted {α : Type} (proj : α → Kernel) (k : Kernel) (r : Except (Stop × Kernel) α) :
    List Event :=
  (finalState proj r).log.drop k.log.length

/-- The thread is `Dying` and has neither a time slice nor a default time slice. -/
def Gone (k : Kernel) (t : ThreadPtr) : Prop :=
  (k.threads t).state = ThreadState.ThreadStateDying ∧ (k.threads t).timeSlice = 0 ∧
    (k.threads t).timeSliceDefault = 0

/-- The environment block of process `p` describes the process: the block lies at the base of
the region `pebRegion`, which is the `gsBase` of the main thread, and holds the PID of the
process, the base and the size of the region `userSharedDataRegion`, and the address of the
vector table inside that region. -/
def PebMatches (x : Ext) (k : Kernel) (p : Pid) : Prop :=
  ∃ peb usd, (k.procs p).pebRegion = some peb ∧ (k.procs p).userSharedDataRegion = some usd ∧
    (k.threads (k.procs p).m_mainThread).gsBase = peb.base ∧
    (k.procs p).peb.self = peb.base ∧
    (k.procs p).peb.pid = (k.procs p).m_pid ∧
    (k.procs p).peb.sharedDataBase = usd.base ∧
    (k.procs p).peb.sharedDataSize = usd.size ∧
    (k.procs p).peb.hirakuBase = usd.base + x.hirakuOffset

/-- PID that `create_elf_process` returned, `none` when it did not return or returned an
error. -/
def pidOf : Except (Stop × Kernel) (Kernel × Except Nat Pid) → Option Pid
  | .ok (_, .ok pid) => some pid
  | _ => none

/-- Error numbers that `le_handle_dup` returns. -/
inductive Errno
  | EFAULT
  | EINVAL
  | EBADF
  deriving DecidableEq, Repr

/-- What `le_handle_dup` takes from outside `le_core.cpp`: the flag constant of the ABI
headers and the caller's memory behind `_newHandle`. -/
structure DupEnv where
  /-- The bit `O_CLOEXEC`. -/
  O_CLOEXEC : Nat
  /-- Value that `_newHandle.get` reads, `none` when the read faults. -/
  load : Option Int
  /-- Whether `_newHandle.store` faults. -/
  storeFaults : Bool

/-- Modelled from the spec: `Handle::IsValid` (the handle header is not part of the sources)
tells whether the handle refers to a kernel object. -/
def Handle.IsValid (h : Handle) : Bool := h.ko.isSome

namespace Process

/-- The watcher block of `die` (lines 737-747): under the watcher lock set the state to
`Process_Dead`, signal every watcher in list order, clear the list. -/
def signalWatchers (k : Kernel) (this : Pid) : Kernel :=
  let k1 := k.writeProcessState this ProcessState.Process_Dead
  let k2 := (k1.procs this).m_watching.foldl (fun acc w => acc.emit (Event.watcherSignal w)) k1
  k2.setProc this { k2.procs this with m_watching := [] }

/-- Translation of `Process::Watch` (lines 793-804). `hasTerminated` is the value of
`HAS_KOEVENT(events, KOEvent::ProcessTerminated)`. -/
def Watch (k : Kernel) (this : Pid) (watcher : WatcherPtr) (hasTerminated : Bool) : Run :=
  if !hasTerminated then
    .error (Stop.assertFailed 794, k)
  else if (k.procs this).m_state = ProcessState.Process_Dead then
    .ok (k.emit (Event.watcherSignal watcher))
  else
    .ok (k.setProc this
      { k.procs this with m_watching := (k.procs this).m_watching ++ [watcher] })

/-- Translation of `Process::Unwatch` (lines 806-814). -/
def Unwatch (k : Kernel) (this : Pid) (watcher : WatcherPtr) : Run :=
  if (k.procs this).m_state = ProcessState.Process_Dead then
    .ok k
  else
    .ok (k.setProc this
      { k.procs this with m_watching := listRemove (k.procs this).m_watching watcher })

/-- Lines 543-567 of `die`: the entry assertion, the redirection of a caller that is not the
main thread of its own process, the write of `Process_Dying`, and the check that the caller
holds its own kernel lock. -/
def dieEnter (k : Kernel) (this : Pid) (thisThread : ThreadPtr) : Run :=
  if (k.procs this).m_state ≠ ProcessState.Process_Running then
    .error (Stop.assertFailed 543, k)
  else
    let owner := (k.threads thisThread).parent
    if thisThread ≠ (k.procs owner).m_mainThread then
      let k1 :=
        if (k.procs this).m_state ≠ ProcessState.Process_Dying then
          k.emit (Event.signal (k.procs owner).m_mainThread Signal.SIGKILL)
        else k
      if owner ≠ this then
        .error (Stop.assertFailed 555, k1)
      else
        .error (Stop.parked,
          k1.setThread thisThread { k1.threads thisThread with kernelLock := false })
    else
      let k1 := k.writeProcessState this ProcessState.Process_Dying
      let r := acquireTestLock k1 thisThread
      if !r.1 then .error (Stop.assertFailed 567, r.2) else .ok r.2

/-- The two writes `thread->state = ThreadStateDying; thread->timeSlice =
thread->timeSliceDefault = 0` (lines 594-596, 648-649, 190-192, 216-217). -/
def markDying (k : Kernel) (thread : ThreadPtr) : Kernel :=
  let k1 := k.writeThreadState thread ThreadState.ThreadStateDying
  k1.setThread thread { k1.threads thread with timeSlice := 0, timeSliceDefault := 0 }

/-- Lines 575-589 of `die`: take the state lock, release it when the thread is already dying,
and interrupt the blocker of a blocked thread. -/
def dieWakeThread (k : Kernel) (thread : ThreadPtr) : Kernel :=
  let k1 := k.emit (Event.acquireStateLock thread)
  let k2 :=
    if (k1.threads thread).state = ThreadState.ThreadStateDying then
      k1.emit (Event.releaseStateLock thread)
    else k1
  match (k2.threads thread).blocker with
  | some b =>
    if (k2.threads thread).state = ThreadState.ThreadStateBlocked then
      ((((k2.writeThreadState thread ThreadState.ThreadStateZombie).emit
        (Event.releaseStateLock thread)).emit
        (Event.blockerInterrupt thread b)).emit
        (Event.acquireStateLock thread))
    else k2
  | none => k2

/-- Lines 591-605 of `die`: mark the thread a zombie and try its kernel lock. The second
component tells whether the thread is still pinned and goes to `runningThreads`. -/
def dieRetireThread (k : Kernel) (thread : ThreadPtr) : Kernel × Bool :=
  let k1 := k.writeThreadState thread ThreadState.ThreadStateZombie
  let r := acquireTestLock k1 thread
  if !r.1 then
    ((markDying r.2 thread).emit (Event.releaseStateLock thread), false)
  else
    (r.2.emit (Event.releaseStateLock thread), true)

/-- Body of the first thread loop of `die` (lines 573-606) for one entry of `m_threads`. The
second component is `runningThreads`. -/
def dieVisitThread (thisThread : ThreadPtr) (acc : Kernel × List ThreadPtr)
    (thread : ThreadPtr) : Kernel × List ThreadPtr :=
  if thread ≠ thisThread ∧ thread ≠ 0 then
    let r := dieRetireThread (dieWakeThread acc.1 thread) thread
    (r.1, if r.2 then acc.2 ++ [thread] else acc.2)
  else acc

/-- First thread loop of `die` (lines 570-607). -/
def dieThreads (k : Kernel) (this : Pid) (thisThread : ThreadPtr) : Kernel × List ThreadPtr :=
  (k.procs this).m_threads.foldl (dieVisitThread thisThread) (k, [])

/-- Events that one pass of the loop body of lines 573-606 logs for a visited thread, as a
function of the fields the thread has when the pass starts. -/
def dieVisitEvents (th : Thread) (thread : ThreadPtr) : List Event :=
  [Event.acquireStateLock thread] ++
  (if th.state = ThreadState.ThreadStateDying then [Event.releaseStateLock thread] else []) ++
  (match th.blocker with
    | some b =>
      if th.state = ThreadState.ThreadStateBlocked then
        [Event.threadState thread ThreadState.ThreadStateZombie, Event.releaseStateLock thread,
          Event.blockerInterrupt thread b, Event.acquireStateLock thread]
      else []
    | none => []) ++
  [Event.threadState thread ThreadState.ThreadStateZombie] ++
  (if th.kernelLock then [Event.releaseStateLock thread]
    else [Event.threadState thread ThreadState.ThreadStateDying, Event.releaseStateLock thread])

/-- Net effect, on the fields its parent reads, of a child finishing its own `die` on another
processor: the state is `Process_Dead` and the watcher list has been signalled and cleared. -/
def childTerminates (k : Kernel) (child : Pid) : Kernel :=
  k.setProc child
    { k.procs child with m_state := ProcessState.Process_Dead, m_watching := [] }

/-- Lines 615-629 of `die`: wait until the front child is dead. A running child is sent
`SIGKILL` and polled; a dying child is watched with the local watcher `w`. -/
def dieAwaitChild (env : Env) (k : Kernel) (child : Pid) : Run :=
  if (k.procs child).m_state = ProcessState.Process_Running then
    let k1 := k.emit (Event.signal (k.procs child).m_mainThread Signal.SIGKILL)
    if env.childDies child then .ok (childTerminates k1 child)
    else .error (Stop.waitsForever, k1)
  else if (k.procs child).m_state = ProcessState.Process_Dying then
    match Watch k child env.localWatcher true with
    | .ok k1 =>
      if env.childDies child then .ok (childTerminates k1 child)
      else .error (Stop.waitsForever, k1)
    | .error e => .error e
  else .ok k

/-- Lines 631-633 of `die`: clear the child's parent reference and take it off `m_children`. -/
def dieUnlinkChild (k : Kernel) (this : Pid) (child : Pid) : Kernel :=
  let k1 := k.setProc child { k.procs child with m_parent := none }
  k1.setProc this
    { k1.procs this with m_children := listRemove (k1.procs this).m_children child }

/-- Body of the child loop of `die` (lines 611-633) for the front child. -/
def dieChild (env : Env) (k : Kernel) (this : Pid) (child : Pid) : Run :=
  dieAwaitChild env k child >>= fun k1 => .ok (dieUnlinkChild k1 this child)

/-- Child loop of `die` (lines 610-634). -/
def dieChildren (env : Env) : Nat → Kernel → Pid → Run
  | 0, k, _ => .error (Stop.outOfFuel, k)
  | fuel + 1, k, this =>
    match (k.procs this).m_children with
    | [] => .ok k
    | child :: _ => dieChild env k this child >>= fun k1 => dieChildren env fuel k1 this

/-- Inner loop of the sweep (lines 642-659); `it` is the position of the iterator in
`runningThreads`. -/
def dieSweepPass : Nat → Kernel → List ThreadPtr → Nat → Except (Stop × Kernel) (Kernel × List ThreadPtr)
  | 0, k, _, _ => .error (Stop.outOfFuel, k)
  | fuel + 1, k, running, it =>
    if it < running.length then
      let thread := running.getD it 0
      let r := acquireTestLock k thread
      if !r.1 then
        let k1 := markDying (r.2.emit (Event.acquireStateLock thread)) thread
        dieSweepPass fuel (k1.emit (Event.releaseStateLock thread)) (running.eraseIdx it) 0
      else
        dieSweepPass fuel r.2 running (it + 1)
    else .ok (k, running)

/-- What the other processors do during `thisThread->sleep(50000)` after sweep number `n`:
the still pinned threads whose processor left kernel mode have their kernel lock released. -/
def envUnpin (env : Env) (n : Nat) (k : Kernel) (running : List ThreadPtr) : Kernel :=
  { k with threads := fun t =>
      if t ∈ running ∧ env.unpins n t then { k.threads t with kernelLock := false }
      else k.threads t }

/-- Sweep of `runningThreads` (lines 641-664); `n` counts the sweeps done so far. -/
def dieSweep (env : Env) : Nat → Nat → Kernel → List ThreadPtr → Run
  | 0, _, k, _ => .error (Stop.outOfFuel, k)
  | fuel + 1, n, k, running =>
    if running.length ≠ 0 then
      match dieSweepPass ((running.length + 1) * (running.length + 1)) k running 0 with
      | .ok (k1, running1) => dieSweep env fuel (n + 1) (envUnpin env n k1 running1) running1
      | .error e => .error e
    else .ok k

/-- Check of one entry of `m_threads` (lines 674-679). -/
def dieCheckThread (k : Kernel) (this : Pid) (thisThread : ThreadPtr) (t : ThreadPtr) :
    Except (Stop × Kernel) Unit :=
  if t = 0 then .error (Stop.nullDeref 674, k)
  else if (k.threads t).parent ≠ this then .error (Stop.assertFailed 674, k)
  else if (k.threads t).state ≠ ThreadState.ThreadStateDying ∧ t ≠ thisThread then
    .error (Stop.kernelPanic 678, k)
  else .ok ()

/-- The loop of lines 673-680 over the given entries of `m_threads`. -/
def dieCheckThreads (k : Kernel) (this : Pid) (thisThread : ThreadPtr) : List ThreadPtr → Run
  | [] => .ok k
  | t :: ts =>
    match dieCheckThread k this thisThread t with
    | .ok _ => dieCheckThreads k this thisThread ts
    | .error e => .error e

/-- Eviction loop on the processor running `die` (lines 684-689); `j` is the loop index at
the loop test. After a removal the body sets `j = 0` and the loop increment runs next. -/
def dieEvictLocal : Nat → Kernel → Pid → Nat → Nat → Run
  | 0, k, _, _, _ => .error (Stop.outOfFuel, k)
  | fuel + 1, k, this, cpu, j =>
    if j < (k.cpus cpu).runQueue.length then
      let thread := (k.cpus cpu).runQueue.getD j 0
      if thread ≠ (k.cpus cpu).currentThread then
        if thread = 0 then .error (Stop.nullDeref 685, k)
        else if (k.threads thread).parent = this then
          let k1 := k.setCPU cpu
            { k.cpus cpu with runQueue := (k.cpus cpu).runQueue.eraseIdx j }
          dieEvictLocal fuel k1 this cpu (0 + 1)
        else dieEvictLocal fuel k this cpu (j + 1)
      else dieEvictLocal fuel k this cpu (j + 1)
    else .ok k

/-- Run-queue loop for a remote processor `i` (lines 707-716); `j` is the loop index at the
loop test. -/
def dieEvictQueue : Nat → Kernel → Pid → Nat → Nat → Run
  | 0, k, _, _, _ => .error (Stop.outOfFuel, k)
  | fuel + 1, k, this, i, j =>
    if j < (k.cpus i).runQueue.length then
      let thread := (k.cpus i).runQueue.getD j 0
      if thread = 0 then .error (Stop.assertFailed 710, k)
      else if (k.threads thread).parent = this then
        let k1 := k.setCPU i
          { k.cpus i with runQueue := listRemove (k.cpus i).runQueue thread }
        dieEvictQueue fuel k1 this i (0 + 1)
      else dieEvictQueue fuel k this i (j + 1)
    else .ok k

/-- Lines 701-705 of `die`: a remote processor whose current thread belongs to the dying
process loses its current-thread pointer. -/
def dieClearCurrent (k : Kernel) (this : Pid) (i : Nat) : Run :=
  if (k.cpus i).currentThread ≠ 0 ∧ (k.threads (k.cpus i).currentThread).parent = this then
    if (k.threads (k.cpus i).currentThread).state ≠ ThreadState.ThreadStateDying then
      .error (Stop.assertFailed 702, k)
    else .ok (k.setCPU i { k.cpus i with currentThread := 0 })
  else .ok k

/-- Lines 718-727 of `die`: the reschedule interrupt for processor `i`, once before and once
after its run-queue lock is released. -/
def dieSendIPIs (k : Kernel) (i : Nat) : Kernel :=
  let k1 :=
    if (k.cpus i).currentThread = 0 then
      k.emit (Event.sendIPI i IcrShorthand.ICR_DSH_SELF)
    else k
  if (k1.cpus i).currentThread = 0 then
    k1.emit (Event.sendIPI i IcrShorthand.ICR_DSH_SELF)
  else k1

/-- Body of the processor loop of `die` for a remote processor `i` (lines 697-727). -/
def dieEvictOther (fuel : Nat) (k : Kernel) (this : Pid) (i : Nat) : Run :=
  dieClearCurrent k this i >>= fun k1 =>
  dieEvictQueue fuel k1 this i 0 >>= fun k2 =>
  .ok (dieSendIPIs k2 i)

/-- Processor loop of `die` (lines 693-728) from processor `i` on; `n` is the number of
processors still to visit. -/
def dieEvictRemote (fuel : Nat) (this : Pid) (cpu : Nat) : Nat → Nat → Kernel → Run
  | 0, _, k => .ok k
  | n + 1, i, k =>
    if i = cpu then dieEvictRemote fuel this cpu n (i + 1) k
    else
      match dieEvictOther fuel k this i with
      | .ok k1 => dieEvictRemote fuel this cpu n (i + 1) k1
      | .error e => .error e

/-- Line 734: `m_handles.clear()`. -/
def dieCloseHandles (k : Kernel) (this : Pid) : Kernel :=
  (k.setProc this { k.procs this with m_handles := [] }).emit (Event.handlesCleared this)

/-- Lines 749-752: `SIGCHLD` for a parent that is still running. -/
def dieNotifyParent (k : Kernel) (this : Pid) : Kernel :=
  match (k.procs this).m_parent with
  | some parent =>
    if (k.procs parent).m_state = ProcessState.Process_Running then
      k.emit (Event.signal (k.procs parent).m_mainThread Signal.SIGCHLD)
    else k
  | none => k

/-- Lines 758-782: the driving thread retires itself when it belongs to the dead process,
otherwise `die` returns. -/
def dieExit (env : Env) (k : Kernel) (this : Pid) (thisThread : ThreadPtr) : Run :=
  if (k.threads thisThread).parent = this then
    let k1 := k.writeThreadState thisThread ThreadState.ThreadStateDying
    let k2 := k1.setThread thisThread { k1.threads thisThread with timeSlice := 0 }
    let cpu := env.exitCPU
    let k3 := k2.setCPU cpu
      { k2.cpus cpu with runQueue := listRemove (k2.cpus cpu).runQueue thisThread }
    let k4 := k3.setCPU cpu { k3.cpus cpu with currentThread := (k3.cpus cpu).idleThread }
    let k5 := k4.emit (Event.doSwitch cpu)
    if env.switchReturns then .error (Stop.kernelPanic 779, k5)
    else .error (Stop.switchedAway, k5)
  else .ok k

/-- Lines 569-664 of `die`: the thread loop, the child loop and the sweep. -/
def dieQuiesce (env : Env) (fuel : Nat) (k : Kernel) (this : Pid) (thisThread : ThreadPtr) :
    Run :=
  dieChildren env fuel (dieThreads k this thisThread).1 this >>= fun k1 =>
  dieSweep env fuel 0 k1 (dieThreads k this thisThread).2

/-- Lines 667-728 of `die`: the broadcast interrupt, the check of the thread list and the
eviction from every run queue. `cpu` is the processor `die` runs on (`GetCPULocal()`, line
670). -/
def dieEvict (fuel : Nat) (k : Kernel) (this : Pid) (thisThread : ThreadPtr) (cpu : Nat) :
    Run :=
  dieCheckThreads (k.emit (Event.sendIPI cpu IcrShorthand.ICR_DSH_OTHER)) this thisThread
    (k.procs this).m_threads >>= fun k2 =>
  dieEvictLocal fuel k2 this cpu 0 >>= fun k3 =>
  dieEvictRemote fuel this cpu k3.processorCount 0 k3

/-- Lines 540-734 of `die`: everything before the watcher block that writes `Process_Dead`. -/
def dieUntilDead (env : Env) (fuel : Nat) (k : Kernel) (this : Pid) (thisThread : ThreadPtr)
    (cpu : Nat) : Run :=
  dieEnter k this thisThread >>= fun k1 =>
  dieQuiesce env fuel k1 this thisThread >>= fun k2 =>
  dieEvict fuel k2 this thisThread cpu >>= fun k3 =>
  .ok (dieCloseHandles k3 this)

/-- Lines 736-783 of `die`: the watcher block, the parent notification, the hand-over to the
reaper and the exit of the driving thread. -/
def dieFromDead (env : Env) (k : Kernel) (this : Pid) (thisThread : ThreadPtr) : Run :=
  let k1 := signalWatchers k this
  let k2 := dieNotifyParent k1 this
  dieExit env (k2.emit (Event.markedForDestruction this)) this thisThread

/-- Translation of `Process::die` (lines 540-783), run by thread `thisThread`
(`Thread::current()`) on processor `cpu`. -/
def die (env : Env) (fuel : Nat) (k : Kernel) (this : Pid) (thisThread : ThreadPtr)
    (cpu : Nat) : Run :=
  dieUntilDead env fuel k this thisThread cpu >>= fun k1 => dieFromDead env k1 this thisThread

/-- Translation of `Process::start` (lines 785-791). -/
def start (k : Kernel) (this : Pid) : Run :=
  if (k.procs this).m_started then .error (Stop.assertFailed 787, k)
  else
    let k1 := k.emit (Event.insertedIntoQueue (k.procs this).m_mainThread)
    .ok (k1.setProc this { k1.procs this with m_started := true })

/-- Modelled from the spec: the `Thread` constructor (Thread.h and its implementation are not
part of the sources) yields a runnable thread of its process with the given TID, no blocker
and a free kernel lock. -/
def newThread (parent : Pid) (tid : Nat) : Thread :=
  { tid := tid, parent := parent, state := ThreadState.ThreadStateRunning, blocker := none,
    kernelLock := false, timeSlice := 0, timeSliceDefault := 0, priority := 0,
    rip := 0, rsp := 0, rbp := 0, gsBase := 0, scRip := 0, scRsp := 0, scRbp := 0 }

/-- Translation of the constructor `Process::Process` (lines 246-288) for the process object at
`pid`; the member initialisers of the header are `Process_Running`, no children, no watchers,
not started. -/
def construct (x : Ext) (k : Kernel) (pid : Pid) (parent : Option Pid) : Run :=
  if !x.workingDirOk then .error (Stop.assertFailed 255, k)
  else
    let space := k.nextSpace
    let mainThread := k.nextThread + 1
    let k1 := { k with nextSpace := k.nextSpace + 1, nextThread := k.nextThread + 1 }
    let k2 := k1.setThread mainThread (newThread pid x.firstThreadID)
    .ok (k2.setProc pid
      { m_pid := pid, m_state := ProcessState.Process_Running, m_parent := parent,
        m_children := [], m_mainThread := mainThread, m_threads := [mainThread],
        m_nextThreadID := x.firstThreadID + 1,
        m_handles := [HANDLE_NULL, HANDLE_NULL, HANDLE_NULL], m_watching := [],
        m_started := false, addressSpace := some space, pebRegion := none,
        userSharedDataRegion := none,
        peb := { self := 0, pid := 0, executableBaseAddress := 0, sharedDataBase := 0,
                 sharedDataSize := 0, hirakuBase := 0, hirakuSize := 0 },
        uid := 0, gid := 0, euid := 0, egid := 0 })

/-- Translation of `Process::map_user_shared_data` (lines 915-943), as far as the region
reference goes: the shared data is mapped at its fixed base in the process's address space. -/
def map_user_shared_data (x : Ext) (k : Kernel) (this : Pid) : Run :=
  match (k.procs this).addressSpace with
  | none => .error (Stop.nullDeref 927, k)
  | some space =>
    .ok (k.setProc this
      { k.procs this with
        userSharedDataRegion :=
          some { base := x.PROC_USER_SHARED_DATA_BASE, size := x.sharedDataSize,
                 space := space } })

/-- Translation of `Process::map_process_environment_block` (lines 945-949). -/
def map_process_environment_block (x : Ext) (k : Kernel) (this : Pid) : Run :=
  match (k.procs this).addressSpace with
  | none => .error (Stop.nullDeref 946, k)
  | some space =>
    .ok (k.setProc this
      { k.procs this with
        pebRegion :=
          some { base := x.anonBase x.pebSize x.PROC_PEB_BASE, size := x.pebSize,
                 space := space } })

/-- Translation of `Process::initialize_peb` (lines 951-960). The block is written through
the pointer `(ProcessEnvironmentBlock*)m_mainThread->gsBase` (lines 952-953); the field `peb`
of the model is the block behind that pointer when it is the base of the environment-block
region of the process. With any other pointer the store of line 953 is a null dereference or
a stray store. -/
def initialize_peb (x : Ext) (k : Kernel) (this : Pid) : Run :=
  let peb := (k.threads (k.procs this).m_mainThread).gsBase
  if (k.procs this).pebRegion.map (fun region => region.base) ≠ some peb then
    if peb = 0 then .error (Stop.nullDeref 953, k) else .error (Stop.strayStore 953, k)
  else
    match (k.procs this).userSharedDataRegion with
    | none => .error (Stop.nullDeref 956, k)
    | some usd =>
      .ok (k.setProc this
        { k.procs this with
          peb :=
            { self := peb,
              pid := (k.procs this).m_pid,
              executableBaseAddress := 0x80000000,
              sharedDataBase := usd.base,
              sharedDataSize := usd.size,
              hirakuBase := usd.base + x.hirakuOffset,
              hirakuSize := x.hirakuSize } })

/-- Lines 822-823 of `fork`: the fresh address space of the new process is deleted and
replaced by a fork of the caller's. -/
def forkAddressSpace (k : Kernel) (this pid : Pid) : Run :=
  match (k.procs this).addressSpace, (k.procs pid).addressSpace with
  | some _, some fresh =>
    let k1 := k.emit (Event.spaceDeleted fresh)
    let k2 := { k1 with nextSpace := k1.nextSpace + 1 }
    .ok (k2.setProc pid { k2.procs pid with addressSpace := some k1.nextSpace })
  | _, _ => .error (Stop.nullDeref 823, k)

/-- Modelled from the spec: `Vector::resize(n)` (Vector.h is not part of the sources) keeps
the first `n` entries and fills up with default-constructed handles. -/
def resizeHandles (l : List Handle) (n : Nat) : List Handle :=
  l.take n ++ List.replicate (n - l.length) HANDLE_NULL

/-- The loop of lines 837-839 of `fork` after `n` rounds:
`newProcess->m_handles[i] = m_handles[i]` for `i = 0, ..., n - 1`. -/
def forkCopyHandles (src : List Handle) : Nat → List Handle → List Handle
  | 0, dst => dst
  | n + 1, dst => (forkCopyHandles src n dst).set n (src.getD n HANDLE_NULL)

/-- Lines 831-841 of `fork`: the four credential assignments in source order, the copy of
the handle table and the link into `m_children`. -/
def forkInherit (k : Kernel) (this pid : Pid) : Kernel :=
  let parent := k.procs this
  let child := k.procs pid
  let child1 := { child with euid := parent.euid }
  let child2 := { child1 with uid := parent.uid }
  let child3 := { child2 with euid := parent.egid }
  let child4 := { child3 with gid := parent.gid }
  let child5 :=
    { child4 with m_handles := resizeHandles child4.m_handles parent.m_handles.length }
  let child6 :=
    { child5 with
      m_handles := forkCopyHandles parent.m_handles parent.m_handles.length child5.m_handles }
  let k1 := k.setProc pid child6
  k1.setProc this { k1.procs this with m_children := (k1.procs this).m_children ++ [pid] }

/-- Lines 851-857 of `fork`: the child keeps the shared-data mapping at the parent's base,
or maps it again. -/
def forkSharedData (x : Ext) (k : Kernel) (this pid : Pid) : Run :=
  match (k.procs this).userSharedDataRegion, (k.procs pid).addressSpace with
  | some usd, some space =>
    if x.forkKeepsSharedData then
      .ok (k.setProc pid
        { k.procs pid with userSharedDataRegion := some { usd with space := space } })
    else map_user_shared_data x k pid
  | _, _ => .error (Stop.nullDeref 851, k)

/-- Lines 861-877 of `fork`: a new environment block for the child, initialised before the
child is registered with the scheduler. -/
def forkEnvironment (x : Ext) (k : Kernel) (pid : Pid) : Run :=
  map_process_environment_block x k pid >>= fun k1 =>
  match (k1.procs pid).pebRegion with
  | none => .error (Stop.nullDeref 862, k1)
  | some peb =>
    let mainThread := (k1.procs pid).m_mainThread
    let k2 := k1.setThread mainThread { k1.threads mainThread with gsBase := peb.base }
    initialize_peb x k2 pid >>= fun k3 => .ok (k3.emit (Event.registered pid))

/-- Translation of `Process::fork` (lines 816-879), called by thread `thisThread`; returns the
state and the PID of the new process. -/
def fork (x : Ext) (k : Kernel) (this : Pid) (thisThread : ThreadPtr) :
    Except (Stop × Kernel) (Kernel × Pid) :=
  if (k.threads thisThread).parent ≠ this then .error (Stop.assertFailed 817, k)
  else
    construct x { k with nextPID := k.nextPID + 1 } k.nextPID (some this) >>= fun k1 =>
    forkAddressSpace k1 this k.nextPID >>= fun k2 =>
    forkSharedData x (forkInherit k2 this k.nextPID) this k.nextPID >>= fun k3 =>
    forkEnvironment x k3 k.nextPID >>= fun k4 =>
    .ok (k4, k.nextPID)

/-- Translation of `Process::create_child_thread` (lines 881-903); returns the state and the
new thread. -/
def create_child_thread (x : Ext) (k : Kernel) (this : Pid) (entry stack : Nat) :
    Kernel × ThreadPtr :=
  let threadID := (k.procs this).m_nextThreadID
  let thread := k.nextThread + 1
  let k1 := { k with nextThread := k.nextThread + 1 }
  let k2 := k1.setProc this
    { k1.procs this with
      m_nextThreadID := threadID + 1, m_threads := (k1.procs this).m_threads ++ [thread] }
  let k3 := k2.setThread thread
    { newThread this threadID with
      rip := entry, rsp := stack, rbp := stack, state := ThreadState.ThreadStateRunning,
      timeSliceDefault := x.THREAD_TIMESLICE_DEFAULT, timeSlice := x.THREAD_TIMESLICE_DEFAULT,
      priority := 4 }
  (k3.emit (Event.insertedIntoQueue thread), thread)

/-- Inner loop of the sweep of `kill_all_other_threads` (lines 208-227); `it` is the position
of the iterator in `runningThreads`. -/
def killSweepPass : Nat → Kernel → List ThreadPtr → Nat → Except (Stop × Kernel) (Kernel × List ThreadPtr)
  | 0, k, _, _ => .error (Stop.outOfFuel, k)
  | fuel + 1, k, running, it =>
    if it < running.length then
      let thread := running.getD it 0
      if (k.threads thread).state = ThreadState.ThreadStateRunning then
        .error (Stop.assertFailed 210, k)
      else
        let r := acquireTestLock k thread
        if !r.1 then
          let k1 := markDying (r.2.emit (Event.acquireStateLock thread)) thread
          killSweepPass fuel (k1.emit (Event.releaseStateLock thread)) (running.eraseIdx it) 0
        else
          killSweepPass fuel r.2 running (it + 1)
    else .ok (k, running)

/-- Sweep of `kill_all_other_threads` (lines 207-232); `n` counts the sweeps done so far. -/
def killSweep (env : Env) : Nat → Nat → Kernel → List ThreadPtr → Run
  | 0, _, k, _ => .error (Stop.outOfFuel, k)
  | fuel + 1, n, k, running =>
    if running.length ≠ 0 then
      match killSweepPass ((running.length + 1) * (running.length + 1)) k running 0 with
      | .ok (k1, running1) => killSweep env fuel (n + 1) (envUnpin env n k1 running1) running1
      | .error e => .error e
    else .ok k

/-- Removal loop of `kill_all_other_threads` (lines 237-243); `it` is the position of the
iterator in `m_threads` at the loop test. After a removal the body sets `it = begin()` and the
loop increment runs next. -/
def killRemove : Nat → Kernel → Pid → ThreadPtr → Nat → Run
  | 0, k, _, _, _ => .error (Stop.outOfFuel, k)
  | fuel + 1, k, this, thisThreadRef, it =>
    if it = (k.procs this).m_threads.length then .ok k
    else if (k.procs this).m_threads.length < it then .error (Stop.nullDeref 237, k)
    else if (k.procs this).m_threads.getD it 0 ≠ thisThreadRef then
      let k1 := k.setProc this
        { k.procs this with m_threads := (k.procs this).m_threads.eraseIdx it }
      killRemove fuel k1 this thisThreadRef (0 + 1)
    else killRemove fuel k this thisThreadRef (it + 1)

/-- Translation of `Process::kill_all_other_threads` (lines 157-244), called by thread
`thisThread`. The loop body of lines 169-202 is the one of `die` (lines 573-606). -/
def kill_all_other_threads (env : Env) (fuel : Nat) (k : Kernel) (this : Pid)
    (thisThread : ThreadPtr) : Run :=
  if (k.threads thisThread).parent ≠ this then .error (Stop.assertFailed 161, k)
  else
    let thisThreadRef := if thisThread ∈ (k.procs this).m_threads then thisThread else 0
    let r := dieThreads k this thisThread
    match killSweep env fuel 0 r.1 r.2 with
    | .error e => .error e
    | .ok k1 =>
      let k2 := k1.setProc this { k1.procs this with m_mainThread := thisThreadRef }
      killRemove fuel k2 this thisThreadRef 0

/-- The PLT loop of `load_elf` (lines 354-378): a named `JUMP_SLOT` entry must have binding
`STB_WEAK`, and when its symbol resolves the slot is filled in. -/
def loadElfPlt (m : Mem) (hirakuBase : Nat) : List PltEntry → Except (Stop × Mem) Mem
  | [] => .ok m
  | e :: rest =>
    if e.jumpSlot then
      if !e.named then loadElfPlt m hirakuBase rest
      else if e.binding ≠ STB_WEAK then .error (Stop.assertFailed 365, m)
      else
        match e.symbol with
        | some address =>
          loadElfPlt
            (storeWord m (add64 linkerBaseAddress e.offset) (hirakuBase + address + e.addend))
            hirakuBase rest
        | none => loadElfPlt m hirakuBase rest
    else loadElfPlt m hirakuBase rest

/-- Lines 333-381 of `load_elf`: the relocation of the interpreter's PLT, with the assertions
of lines 351 and 365. -/
def loadElfRelocate (k : Kernel) (this : Pid) (dynamic tables : Bool) (plt : List PltEntry) :
    Run :=
  if dynamic then
    if !tables then .error (Stop.assertFailed 351, k)
    else
      match loadElfPlt (k.userMem this) (k.procs this).peb.hirakuBase plt with
      | .ok m => .ok (k.setUserMem this m)
      | .error e => .error (e.1, k.setUserMem this e.2)
  else .ok k

/-- The copy loops of lines 384-394: every string goes right below the previous one. Returns
the memory, the new `stackStr` and the addresses saved in `tempArgv` or `tempEnvp`. -/
def copyStrings (m : Mem) (stackStr : Nat) : List (List Nat) → Mem × Nat × List Nat
  | [] => (m, stackStr, [])
  | a :: rest =>
    let r := copyStrings (strcpy m (sub64 stackStr (a.length + 1)) a)
      (sub64 stackStr (a.length + 1)) rest
    (r.1, r.2.1, sub64 stackStr (a.length + 1) :: r.2.2)

/-- Lines 396-402: the copy of `execPath`, when there is one. -/
def copyExecPath (m : Mem) (stackStr : Nat) : Option (List Nat) → Mem × Nat
  | some path => (strcpy m (sub64 stackStr (strlen path + 1)) path,
      sub64 stackStr (strlen path + 1))
  | none => (m, stackStr)

/-- Lines 404-426: the alignment, the padding word, the `AT_NULL` word and the five auxiliary
entries. -/
def pushAuxv (m : Mem) (stackStr argc envc : Nat) (elfInfo : ELFData) (hirakuBase : Nat) :
    Mem × Nat :=
  let aligned := sub64 stackStr (stackStr % 16)
  let s1 := sub64 aligned (8 * ((argc + envc) % 2))
  let s2 := sub64 s1 8
  let m2 := storeWord m s2 0
  let s3 := sub64 s2 16
  let m3 := storeAux m2 s3 AT_PHDR elfInfo.pHdrSegment
  let s4 := sub64 s3 16
  let m4 := storeAux m3 s4 AT_PHENT elfInfo.phEntrySize
  let s5 := sub64 s4 16
  let m5 := storeAux m4 s5 AT_PHNUM elfInfo.phNum
  let s6 := sub64 s5 16
  let m6 := storeAux m5 s6 AT_ENTRY elfInfo.entry
  let s7 := sub64 s6 16
  (storeAux m6 s7 AT_SYSINFO_EHDR hirakuBase, s7)

/-- Lines 433-437 and 440-445: a null word, and below it the array of the saved string
addresses. -/
def pushPointers (m : Mem) (stack : Nat) (ptrs : List Nat) : Mem × Nat :=
  let s1 := sub64 stack 8
  let m1 := storeWord m s1 0
  let s2 := sub64 s1 (8 * ptrs.length)
  (storeWords m1 s2 ptrs, s2)

/-- Lines 383-450 of `load_elf`: what is written to the stack, and the final stack pointer. -/
def loadElfStack (m : Mem) (sp : Nat) (elfInfo : ELFData) (hirakuBase : Nat)
    (argv envp : List (List Nat)) (execPath : Option (List Nat)) : Mem × Nat :=
  let a := copyStrings m sp argv
  let e := copyStrings a.1 a.2.1 envp
  let p := copyExecPath e.1 e.2.1 execPath
  let x := pushAuxv p.1 p.2 argv.length envp.length elfInfo hirakuBase
  let ev := pushPointers x.1 x.2 e.2.2
  let av := pushPointers ev.1 ev.2 a.2.2
  (storeWord av.1 (sub64 av.2 8) argv.length, sub64 av.2 8)

/-- Lines 383-460 of `load_elf`: the stack layout, the alignment assertion and the result. -/
def loadElfLayout (k : Kernel) (this : Pid) (rip stackPointer : Nat) (elfInfo : ELFData)
    (argv envp : List (List Nat)) (execPath : Option (List Nat)) :
    Except (Stop × Kernel) (Kernel × Except Nat (Nat × Nat)) :=
  let r := loadElfStack (k.userMem this) stackPointer elfInfo (k.procs this).peb.hirakuBase
    argv envp execPath
  if r.2 % 16 ≠ 0 then .error (Stop.assertFailed 452, k.setUserMem this r.1)
  else .ok (k.setUserMem this r.1, .ok (rip, r.2))

/-- Translation of `Process::load_elf` (lines 290-461). Strings are lists of bytes. Returns
the error, or the entry point and the new stack pointer. -/
def load_elf (x : Ext) (k : Kernel) (this : Pid) (stackPointer : Nat) (elfInfo : ELFData)
    (argv envp : List (List Nat)) (execPath : Option (List Nat)) :
    Except (Stop × Kernel) (Kernel × Except Nat (Nat × Nat)) :=
  if elfInfo.linkerPath then
    match x.linker with
    | LinkerLoad.missing => .error (Stop.kernelPanic 301, k)
    | LinkerLoad.openFailed err => .ok (k, .error err)
    | LinkerLoad.parseFailed err => .ok (k, .error err)
    | LinkerLoad.loaded entry dynamic tables plt =>
      initialize_peb x k this >>= fun k1 =>
      loadElfRelocate k1 this dynamic tables plt >>= fun k2 =>
      loadElfLayout k2 this entry stackPointer elfInfo argv envp execPath
  else
    initialize_peb x k this >>= fun k1 =>
    loadElfLayout k1 this elfInfo.entry stackPointer elfInfo argv envp execPath

/-- Lines 470-479 of `execve`: a new address space replaces the old one, which is deleted;
the region references are reset. -/
def execveSwapSpace (k : Kernel) (this : Pid) : Kernel :=
  let oldSpace := (k.procs this).addressSpace
  let k1 := { k with nextSpace := k.nextSpace + 1 }
  let k2 := k1.setProc this
    { k1.procs this with
      addressSpace := some k.nextSpace, pebRegion := none, userSharedDataRegion := none }
  match oldSpace with
  | some space => k2.emit (Event.spaceDeleted space)
  | none => k2

/-- Lines 486-501 of `execve`: the new stack, the shared data, the environment block and the
`gsBase` of the calling thread. -/
def execveMap (x : Ext) (k : Kernel) (this : Pid) (thisThread : ThreadPtr) : Run :=
  let stackBase := x.anonBase 0x400000 0x7000000000
  let k1 := k.setThread thisThread
    { k.threads thisThread with scRsp := stackBase + 0x400000, scRbp := stackBase + 0x400000 }
  map_user_shared_data x k1 this >>= fun k2 =>
  map_process_environment_block x k2 this >>= fun k3 =>
  match (k3.procs this).pebRegion with
  | none => .error (Stop.nullDeref 501, k3)
  | some peb => .ok (k3.setThread thisThread { k3.threads thisThread with gsBase := peb.base })

/-- Lines 503-526 of `execve`: what is done with the result of `load_elf`. -/
def execveFinish (thisThread : ThreadPtr) (r : Kernel × Except Nat (Nat × Nat)) :
    Except (Stop × Kernel) (Kernel × Option Nat) :=
  match r.2 with
  | .error e => .ok (r.1, some e)
  | .ok v =>
    let k1 := r.1.setThread thisThread { r.1.threads thisThread with scRsp := v.2, scRip := v.1 }
    if v.2 % 16 ≠ 0 then .error (Stop.assertFailed 514, k1)
    else .ok (k1, none)

/-- Translation of `Process::execve` (lines 463-527), called by thread `thisThread`; returns
the state and the error (`none` for `ERROR_NONE`). -/
def execve (x : Ext) (k : Kernel) (this : Pid) (thisThread : ThreadPtr) (exe : ELFData)
    (argv envp : List (List Nat)) (execPath : Option (List Nat)) :
    Except (Stop × Kernel) (Kernel × Option Nat) :=
  if (k.threads thisThread).parent ≠ this then .error (Stop.assertFailed 468, k)
  else
    match x.elfLoadSegments with
    | some e => .ok (execveSwapSpace k this, some e)
    | none =>
      execveMap x (execveSwapSpace k this) this thisThread >>= fun k1 =>
      load_elf x k1 this (k1.threads thisThread).scRsp exe argv envp execPath >>= fun r =>
      execveFinish thisThread r

/-- Modelled from the spec: `MakeHandle(id, file)` (the handle header is not part of the
sources) yields a handle for the open file that is not close-on-exec. -/
def MakeHandle (file : Nat) : Handle := { ko := some file, closeOnExec := false }

/-- The failure path of `create_elf_process` (lines 98-102 and 124-129): the new process is
taken through `die`, its address space is deleted, and the error is returned. -/
def createElfAbort (env : Env) (fuel : Nat) (k : Kernel) (pid : Pid) (thisThread : ThreadPtr)
    (cpu : Nat) (err : Nat) : Except (Stop × Kernel) (Kernel × Except Nat Pid) :=
  die env fuel k pid thisThread cpu >>= fun k1 =>
  let k2 :=
    match (k1.procs pid).addressSpace with
    | some space => k1.emit (Event.spaceDeleted space)
    | none => k1
  .ok (k2.setProc pid { k2.procs pid with addressSpace := none }, .error err)

/-- Lines 136-154 of `create_elf_process`: the three standard handles and the registration
with the scheduler. -/
def createElfRegister (x : Ext) (k : Kernel) (pid : Pid) : Kernel :=
  let k1 :=
    match x.nullDev with
    | some file =>
      k.setProc pid { k.procs pid with m_handles := (k.procs pid).m_handles.set 0 (MakeHandle file) }
    | none => k
  let k2 :=
    match x.logDev with
    | some file =>
      k1.setProc pid
        { k1.procs pid with
          m_handles := ((k1.procs pid).m_handles.set 1 (MakeHandle file)).set 2 (MakeHandle file) }
    | none => k1
  k2.emit (Event.registered pid)

/-- Lines 122-154 of `create_elf_process`: what is done with the result of `load_elf`. -/
def createElfFinish (env : Env) (x : Ext) (fuel : Nat) (pid : Pid) (thisThread : ThreadPtr)
    (cpu : Nat) (r : Kernel × Except Nat (Nat × Nat)) :
    Except (Stop × Kernel) (Kernel × Except Nat Pid) :=
  match r.2 with
  | .error err => createElfAbort env fuel r.1 pid thisThread cpu err
  | .ok v =>
    let thread := (r.1.procs pid).m_mainThread
    let k1 := r.1.setThread thread { r.1.threads thread with rsp := v.2, rip := v.1 }
    if v.2 % 16 ≠ 0 then .error (Stop.assertFailed 134, k1)
    else .ok (createElfRegister x k1 pid, .ok pid)

/-- Lines 104-121 of `create_elf_process`: the stack, the shared data, the environment block
and the `gsBase` of the main thread. -/
def createElfMap (x : Ext) (k : Kernel) (pid : Pid) : Run :=
  match (k.procs pid).addressSpace with
  | none => .error (Stop.nullDeref 106, k)
  | some _ =>
    let thread := (k.procs pid).m_mainThread
    let stackBase := x.anonBase 0x400000 0x7000000000
    let k1 := k.setThread thread
      { k.threads thread with rsp := stackBase + 0x400000, rbp := stackBase + 0x400000 }
    map_user_shared_data x k1 pid >>= fun k2 =>
    map_process_environment_block x k2 pid >>= fun k3 =>
    match (k3.procs pid).pebRegion with
    | none => .error (Stop.nullDeref 120, k3)
    | some peb => .ok (k3.setThread thread { k3.threads thread with gsBase := peb.base })

/-- Translation of `Process::create_elf_process` (lines 75-155), called by thread
`thisThread` on processor `cpu`; `exe` is what `elf_load_file` read from the image. Returns
the state and the error or the PID of the new process. -/
def create_elf_process (env : Env) (x : Ext) (fuel : Nat) (k : Kernel)
    (thisThread : ThreadPtr) (cpu : Nat) (exe : ELFData) (argv envp : List (List Nat))
    (execPath : Option (List Nat)) (parent : Option Pid) :
    Except (Stop × Kernel) (Kernel × Except Nat Pid) :=
  match x.elfLoadFile with
  | some err => .ok (k, .error err)
  | none =>
    construct x { k with nextPID := k.nextPID + 1 } k.nextPID parent >>= fun k1 =>
    let thread := (k1.procs k.nextPID).m_mainThread
    let k2 := k1.setThread thread
      { k1.threads thread with
        timeSliceDefault := x.THREAD_TIMESLICE_DEFAULT,
        timeSlice := x.THREAD_TIMESLICE_DEFAULT, priority := 4 }
    match x.elfLoadSegments with
    | some err => createElfAbort env fuel k2 k.nextPID thisThread cpu err
    | none =>
      createElfMap x k2 k.nextPID >>= fun k3 =>
      load_elf x k3 k.nextPID (k3.threads (k3.procs k.nextPID).m_mainThread).rsp exe argv envp
        execPath >>= fun r =>
      createElfFinish env x fuel k.nextPID thisThread cpu r

/-- Translation of the destructor `Process::~Process` (lines 529-538). -/
def destructor (k : Kernel) (this : Pid) : Run :=
  if (k.procs this).m_state ≠ ProcessState.Process_Dead then .error (Stop.assertFailed 531, k)
  else if (k.procs this).m_parent ≠ none then .error (Stop.assertFailed 532, k)
  else
    match (k.procs this).addressSpace with
    | some space =>
      let k1 := k.emit (Event.spaceDeleted space)
      .ok (k1.setProc this { k1.procs this with addressSpace := none })
    | none => .ok k

/-- The calls `create_child_thread(entry, stack)` of the list, one after the other, on
process `this`. -/
def createThreads (x : Ext) (k : Kernel) (this : Pid) : List (Nat × Nat) → Kernel
  | [] => k
  | c :: rest => createThreads x (create_child_thread x k this c.1 c.2).1 this rest

/-- The TIDs of the threads of process `p`, in the order of its thread list. -/
def threadIDs (k : Kernel) (p : Pid) : List Nat :=
  (k.procs p).m_threads.map fun t => (k.threads t).tid

/-- The thread list holds addresses that are in use, the TIDs along the list increase, and
all of them are below the counter. -/
structure TidOrder (k : Kernel) (p : Pid) : Prop where
  used : ∀ t ∈ (k.procs p).m_threads, t ≤ k.nextThread
  increasing : (threadIDs k p).Pairwise (· < ·)
  below : ∀ tid ∈ threadIDs k p, tid < (k.procs p).m_nextThreadID

/-- Modelled from the spec: `Process::get_handle(id)` (Process.h is not part of the sources)
returns a copy of the entry `id` of the handle table, and the null handle when the table has
no such entry. -/
def get_handle (k : Kernel) (this : Pid) (id : Int) : Handle :=
  if 0 ≤ id then (k.procs this).m_handles.getD id.toNat HANDLE_NULL else HANDLE_NULL

/-- Modelled from the spec: `Process::handle_replace(id, h)` (Process.h is not part of the
sources) puts `h` in the place of entry `id` of the handle table and returns 0; it returns
`EBADF` and changes nothing when the table has no such entry. -/
def handle_replace (k : Kernel) (this : Pid) (id : Int) (h : Handle) :
    Kernel × Option Errno :=
  if 0 ≤ id ∧ id.toNat < (k.procs this).m_handles.length then
    (k.setProc this
      { k.procs this with m_handles := (k.procs this).m_handles.set id.toNat h }, none)
  else (k, some Errno.EBADF)

/-- Modelled from the spec: `Process::allocate_handle(ko, closeOnExec)` (Process.h is not part
of the sources) adds a handle for the object at the end of the handle table and returns its
index. -/
def allocate_handle (k : Kernel) (this : Pid) (ko : Option Nat) (closeOnExec : Bool) :
    Kernel × Int :=
  (k.setProc this
    { k.procs this with
      m_handles := (k.procs this).m_handles ++ [{ ko := ko, closeOnExec := closeOnExec }] },
    ((k.procs this).m_handles.length : Int))

/-- Modelled from the spec: `Process::handle_destroy(id)` (Process.h is not part of the
sources) makes entry `id` of the handle table the null handle. -/
def handle_destroy (k : Kernel) (this : Pid) (id : Int) : Kernel :=
  if 0 ≤ id ∧ id.toNat < (k.procs this).m_handles.length then
    k.setProc this
      { k.procs this with m_handles := (k.procs this).m_handles.set id.toNat HANDLE_NULL }
  else k

end Process

/-- Translation of `le_handle_dup` (le_core.cpp, lines 34-72), called in process `this`;
`flags` is the bit pattern of the `int` argument. Returns the state, the error (`none` for 0)
and the value stored through `_newHandle`, if any. -/
def le_handle_dup (e : DupEnv) (k : Kernel) (this : Pid) (oldHandle : Int) (flags : Nat) :
    Kernel × Option Errno × Option Int :=
  match e.load with
  | none => (k, some Errno.EFAULT, none)
  | some newHandle =>
    if oldHandle = newHandle then (k, some Errno.EINVAL, none)
    else if flags &&& (0xFFFFFFFF ^^^ e.O_CLOEXEC) ≠ 0 then (k, some Errno.EINVAL, none)
    else
      let h := Process.get_handle k this oldHandle
      if !h.IsValid then (k, some Errno.EBADF, none)
      else
        let h1 := if flags &&& e.O_CLOEXEC ≠ 0 then { h with closeOnExec := true } else h
        if 0 ≤ newHandle then
          let r := Process.handle_replace k this newHandle h1
          (r.1, r.2, none)
        else
          let r := Process.allocate_handle k this h1.ko h1.closeOnExec
          if e.storeFaults then (Process.handle_destroy r.1 this r.2, some Errno.EFAULT, none)
          else (r.1, none, some r.2)

/-- The handle that `le_handle_dup` installs: the copy of the old entry, close-on-exec when
the flag asks for it. -/
def dupHandle (e : DupEnv) (k : Kernel) (this : Pid) (oldHandle : Int) (flags : Nat) : Handle :=
  if flags &&& e.O_CLOEXEC ≠ 0 then
    { Process.get_handle k this oldHandle with closeOnExec := true }
  else Process.get_handle k this oldHandle

namespace AHCI

/-- What a port does to the controller and to the caller's buffer, in program order. -/
inductive PortEvent
  /-- `Access(lba, count, write)` -/
  | access (lba count : Nat) (write : Bool)
  /-- `memcpy(buffer, bufVirt, size)` -/
  | copyOut (buffer size : Nat)
  /-- `memcpy(bufVirt, buffer, size)` -/
  | copyIn (buffer size : Nat)
  deriving DecidableEq, Repr

/-- The controller as `ReadDiskBlock` and `WriteDiskBlock` see it: the value that `Access`
returns for a command, 0 when the transfer was carried out. -/
structure Device where
  status : Nat → Nat → Bool → Nat

/-- The port, the disk behind it and the memory of the caller. -/
structure Port where
  /-- Byte `o` of sector `s` of the disk. -/
  disk : Nat → Nat → Nat
  /-- The page `bufVirt` that the controller transfers to and from, by offset. -/
  bufVirt : Nat → Nat
  /-- Memory by address; the caller's buffer lies here. -/
  mem : Nat → Nat
  log : List PortEvent

/-- The local variables of `ReadDiskBlock` and `WriteDiskBlock`, and the port. -/
structure Xfer where
  port : Port
  lba : Nat
  count : Nat
  buffer : Nat
  blockCount : Nat

/-- How a loop of `ReadDiskBlock` or `WriteDiskBlock` ends. -/
inductive Exit
  /-- The loop test failed; the function goes on with these variables. -/
  | falls (s : Xfer)
  /-- The function returned the value from inside the loop. -/
  | returns (code : Nat) (port : Port)
  /-- The loop budget of the model ran out. -/
  | outOfFuel (port : Port)

/-- Number of bytes that the `memcpy` calls of the log wrote to the caller's buffer. -/
def bytesOut : List PortEvent → Nat
  | [] => 0
  | PortEvent.copyOut _ size :: rest => size + bytesOut rest
  | _ :: rest => bytesOut rest

/-- Number of bytes that the `memcpy` calls of the log read from the caller's buffer. -/
def bytesIn : List PortEvent → Nat
  | [] => 0
  | PortEvent.copyIn _ size :: rest => size + bytesIn rest
  | _ :: rest => bytesIn rest

/-- The commands of the log: first sector, number of sectors, direction. -/
def commands : List PortEvent → List (Nat × Nat × Bool)
  | [] => []
  | PortEvent.access lba count write :: rest => (lba, count, write) :: commands rest
  | _ :: rest => commands rest

/-- The read commands for `q` chunks of `n` sectors each that follow each other from sector
`lba` on. -/
def chunkCommands (n : Nat) (write : Bool) : Nat → Nat → List (Nat × Nat × Bool)
  | _, 0 => []
  | lba, q + 1 => (lba, n, write) :: chunkCommands n write (add64 lba n) q

/-- The commands that read `blockCount` sectors from `lba` on in chunks of 8 sectors, then of
2 sectors, then of 1 sector. -/
def readPlan (lba blockCount : Nat) : List (Nat × Nat × Bool) :=
  chunkCommands 8 false lba (blockCount / 8) ++
    chunkCommands 2 false (add64 lba (8 * (blockCount / 8))) (blockCount % 8 / 2) ++
    chunkCommands 1 false (add64 lba (blockCount - blockCount % 2)) (blockCount % 2)

namespace Port

/-- `memcpy(buffer, bufVirt, size)` -/
def copyToBuffer (p : Port) (buffer size : Nat) : Port :=
  { p with
    mem := fun a => if buffer ≤ a ∧ a < buffer + size then p.bufVirt (a - buffer) else p.mem a,
    log := p.log ++ [PortEvent.copyOut buffer size] }

/-- `memcpy(bufVirt, buffer, size)` -/
def copyFromBuffer (p : Port) (buffer size : Nat) : Port :=
  { p with
    bufVirt := fun o => if o < size then p.mem (buffer + o) else p.bufVirt o,
    log := p.log ++ [PortEvent.copyIn buffer size] }

/-- `Port::Access` (lines 187-278) as its callers see it: the controller is given one command
for `count` sectors and the page `bufVirt`. The command names the first sector by the bits 0
to 47 of `lba` (lines 234-241). When the command succeeds, which the returned status 0 tells,
a read has filled the page with those sectors and a write has filled those sectors from the
page. -/
def Access (dev : Device) (p : Port) (lba count : Nat) (write : Bool) : Nat × Port :=
  let p1 := { p with log := p.log ++ [PortEvent.access lba count write] }
  let first := lba % 2 ^ 48
  if dev.status lba count write ≠ 0 then (dev.status lba count write, p1)
  else if write then
    (0, { p1 with
          disk := fun s o =>
            if first ≤ s ∧ s < first + count ∧ o < 512 then p.bufVirt (512 * (s - first) + o)
            else p.disk s o })
  else
    (0, { p1 with
          bufVirt := fun o =>
            if o < 512 * count then p.disk (first + o / 512) (o % 512) else p.bufVirt o })

/-- The first loop of `ReadDiskBlock` (lines 108-124) for `n = 8` and its second loop (lines
126-142) for `n = 2`; the two loops differ in this number only. `count` is a `uint32_t`; the
subtraction from `blockCount` is under the loop test `blockCount >= n`. -/
def readChunks (dev : Device) (n : Nat) : Nat → Xfer → Exit
  | 0, s => .outOfFuel s.port
  | fuel + 1, s =>
    if n ≤ s.blockCount ∧ s.count ≠ 0 then
      let size := if s.count < 512 * n then s.count else 512 * n
      if size = 0 then readChunks dev n fuel s
      else
        let r := Access dev s.port s.lba n false
        if r.1 ≠ 0 then .returns 1 r.2
        else
          readChunks dev n fuel
            { port := copyToBuffer r.2 s.buffer size, buffer := s.buffer + size,
              lba := add64 s.lba n, blockCount := s.blockCount - n,
              count := (s.count - size) % 2 ^ 32 }
    else .falls s

/-- The last loop of `ReadDiskBlock` (lines 144-158). The test `blockCount-- && count`
decrements `blockCount` whatever its outcome; `count` is not changed in the loop. -/
def readSingles (dev : Device) : Nat → Xfer → Exit
  | 0, s => .outOfFuel s.port
  | fuel + 1, s =>
    let s1 := { s with blockCount := sub64 s.blockCount 1 }
    if s.blockCount ≠ 0 ∧ s.count ≠ 0 then
      let size := if s.count < 512 then s.count else 512
      if size = 0 then readSingles dev fuel s1
      else
        let r := Access dev s.port s.lba 1 false
        if r.1 ≠ 0 then .returns 1 r.2
        else
          readSingles dev fuel
            { s1 with
              port := copyToBuffer r.2 s.buffer size, buffer := s.buffer + size,
              lba := add64 s.lba 1 }
    else .falls s1

/-- Translation of `Port::ReadDiskBlock` (lines 105-161); `count + 511` is computed in
`uint32_t`. Returns the value returned and the port, `none` when the loop budget of the model
ran out. -/
def ReadDiskBlock (dev : Device) (fuel : Nat) (p : Port) (lba count buffer : Nat) :
    Option (Nat × Port) :=
  let blockCount := (count + 511) % 2 ^ 32 / 512
  match readChunks dev 8 fuel
      { port := p, lba := lba, count := count, buffer := buffer, blockCount := blockCount } with
  | .returns code q => some (code, q)
  | .outOfFuel _ => none
  | .falls s1 =>
    match readChunks dev 2 fuel s1 with
    | .returns code q => some (code, q)
    | .outOfFuel _ => none
    | .falls s2 =>
      match readSingles dev fuel s2 with
      | .returns code q => some (code, q)
      | .outOfFuel _ => none
      | .falls s3 => some (0, s3.port)

/-- The loop of `WriteDiskBlock` (lines 167-182). The test `blockCount-- && count` decrements
`blockCount` whatever its outcome; `count` is not changed in the loop. -/
def writeSingles (dev : Device) : Nat → Xfer → Exit
  | 0, s => .outOfFuel s.port
  | fuel + 1, s =>
    let s1 := { s with blockCount := sub64 s.blockCount 1 }
    if s.blockCount ≠ 0 ∧ s.count ≠ 0 then
      let size := if s.count < 512 then s.count else 512
      if size = 0 then writeSingles dev fuel s1
      else
        let r := Access dev (copyFromBuffer s.port s.buffer size) s.lba 1 true
        if r.1 ≠ 0 then .returns 1 r.2
        else
          writeSingles dev fuel
            { s1 with port := r.2, buffer := s.buffer + size, lba := add64 s.lba 1 }
    else .falls s1

/-- Translation of `Port::WriteDiskBlock` (lines 164-185). Returns the value returned and the
port, `none` when the loop budget of the model ran out. -/
def WriteDiskBlock (dev : Device) (fuel : Nat) (p : Port) (lba count buffer : Nat) :
    Option (Nat × Port) :=
  let blockCount := if count / 512 * 512 < count then count / 512 + 1 else count / 512
  match writeSingles dev fuel
      { port := p, lba := lba, count := count, buffer := buffer, blockCount := blockCount } with
  | .returns code q => some (code, q)
  | .outOfFuel _ => none
  | .falls s1 => some (0, s1.port)

end Port

/-- Between the states `s` and `s1` the bytes of the sectors from `s.lba` on were copied to
the caller's memory from `s.buffer` on, `done` bytes in all, with the commands `cmds`; the
variables `buffer` and `lba` moved on by `done` bytes and `secs` sectors. -/
structure Moved (s s1 : Xfer) (secs done : Nat) (cmds : List (Nat × Nat × Bool)) : Prop where
  buffer : s1.buffer = s.buffer + done
  lba : s1.lba = s.lba + secs
  disk : s1.port.disk = s.port.disk
  data : ∀ j, j < done →
    s1.port.mem (s.buffer + j) = s.port.disk (s.lba + j / 512) (j % 512)
  frame : ∀ a, a < s.buffer ∨ s.buffer + done ≤ a → s1.port.mem a = s.port.mem a
  bytes : bytesOut s1.port.log = bytesOut s.port.log + done
  issued : commands s1.port.log = commands s.port.log ++ cmds

end AHCI

/-! ## Sample states -/

/-- A thread of process `parent` with five ticks of time slice. -/
def sampleThread (parent : Pid) (state : ThreadState) (kernelLock : Bool)
    (blocker : Option Nat) : Thread :=
  { Process.newThread parent 0 with
    state := state, kernelLock := kernelLock, blocker := blocker, timeSlice := 5,
    timeSliceDefault := 5 }

/-- A started process with one open handle. -/
def sampleProcess (pid : Pid) (state : ProcessState) (mainThread : ThreadPtr)
    (threads : List ThreadPtr) (children : List Pid) (watching : List WatcherPtr)
    (parent : Option Pid) : Process :=
  { m_pid := pid, m_state := state, m_parent := parent, m_children := children,
    m_mainThread := mainThread, m_threads := threads, m_nextThreadID := 10,
    m_handles := [{ ko := some 40, closeOnExec := false }], m_watching := watching,
    m_started := true, addressSpace := some 1,
    pebRegion := some { base := 4096, size := 4096, space := 1 },
    userSharedDataRegion := some { base := 8192, size := 4096, space := 1 },
    peb := { self := 0, pid := 0, executableBaseAddress := 0, sharedDataBase := 0,
             sharedDataSize := 0, hirakuBase := 0, hirakuSize := 0 },
    uid := 1000, gid := 1001, euid := 1002, egid := 1003 }

/-- Two processors and four processes. Process 1 runs on processor 0 in its main thread 1;
its thread 2 is blocked, its thread 3 is pinned in the kernel as the current thread of
processor 1. Its children are the running process 2 and the dying process 3; watchers 100 and
101 are registered on it. Process 4 is dead. -/
def sampleKernel : Kernel :=
  { threads := fun t =>
      match t with
      | 1 => { sampleThread 1 ThreadState.ThreadStateRunning true none with gsBase := 4096 }
      | 2 => sampleThread 1 ThreadState.ThreadStateBlocked false (some 77)
      | 3 => sampleThread 1 ThreadState.ThreadStateRunning true none
      | 4 => { sampleThread 2 ThreadState.ThreadStateRunning true none with gsBase := 4096 }
      | 5 => { sampleThread 3 ThreadState.ThreadStateRunning true none with gsBase := 4096 }
      | _ => sampleThread 0 ThreadState.ThreadStateRunning false none
    procs := fun p =>
      match p with
      | 1 => sampleProcess 1 ProcessState.Process_Running 1 [1, 2, 3] [2, 3] [100, 101] none
      | 2 => sampleProcess 2 ProcessState.Process_Running 4 [4] [] [] (some 1)
      | 3 => sampleProcess 3 ProcessState.Process_Dying 5 [5] [] [200] (some 1)
      | q => sampleProcess q ProcessState.Process_Dead 0 [] [] [300] none
    cpus := fun i =>
      match i with
      | 0 => { currentThread := 1, idleThread := 90, runQueue := [1, 2] }
      | 1 => { currentThread := 3, idleThread := 91, runQueue := [3, 4] }
      | _ => { currentThread := 0, idleThread := 92, runQueue := [] }
    processorCount := 2, nextPID := 10, nextThread := 10, nextSpace := 10,
    userMem := fun _ _ => 0, log := [] }

/-- Other processors release every pinned thread during the second sweep, every child dies,
and the final switch does not come back. -/
def sampleEnv : Env :=
  { unpins := fun n _ => decide (1 ≤ n), childDies := fun _ => true, localWatcher := 999,
    exitCPU := 0, switchReturns := false }

/-- Collaborators for the sample states: every load succeeds, no program interpreter. -/
def sampleExt : Ext :=
  { THREAD_TIMESLICE_DEFAULT := 10, PROC_USER_SHARED_DATA_BASE := 8192, PROC_PEB_BASE := 4096,
    sharedDataSize := 4096, pebSize := 4096, hirakuOffset := 256, hirakuSize := 512,
    firstThreadID := 1, anonBase := fun _ hint => hint, workingDirOk := true,
    forkKeepsSharedData := true, elfLoadSegments := none, elfLoadFile := none,
    nullDev := some 50, logDev := some 51, linker := LinkerLoad.missing }

/-- The collaborators of the sample states, with an image whose segments fail to load with
error 5. -/
def sampleBadImage : Ext := { sampleExt with elfLoadSegments := some 5 }

/-- The collaborators of the sample states, with a program interpreter whose second PLT entry
names a symbol of binding 1 (`STB_GLOBAL`). -/
def sampleStrongPlt : Ext :=
  { sampleExt with
    linker := LinkerLoad.loaded 547608330240 true true
      [{ jumpSlot := true, named := true, binding := 2, symbol := some 64, offset := 4096,
         addend := 0 },
       { jumpSlot := true, named := true, binding := 1, symbol := some 128, offset := 4104,
         addend := 0 }] }

/-- An executable that asks for the program interpreter. -/
def sampleDynELF : ELFData :=
  { entry := 4194304, pHdrSegment := 4194368, phEntrySize := 56, phNum := 4,
    linkerPath := true }

/-- An executable without program interpreter. -/
def sampleELF : ELFData :=
  { entry := 4194304, pHdrSegment := 4194368, phEntrySize := 56, phNum := 4,
    linkerPath := false }

/-- The sample state with threads 2 and 3 of process 1 next to each other at the front of
the run queue of processor 1, whose current thread is thread 4 of process 2. -/
def sampleCrowded : Kernel :=
  (sampleKernel.setCPU 0 { currentThread := 1, idleThread := 90, runQueue := [1] }).setCPU 1
    { currentThread := 4, idleThread := 91, runQueue := [2, 3, 4] }

/-- The sample state with thread 2 of process 1 already retired: it is `Dying`, has no time
slice and no blocker, and its kernel lock is held by the thread that retired it. -/
def sampleDying : Kernel :=
  sampleKernel.setThread 2
    { sampleKernel.threads 2 with
      state := ThreadState.ThreadStateDying, kernelLock := true, blocker := none,
      timeSlice := 0, timeSliceDefault := 0 }

/-- The sample state with two open handles in process 1, the second one close-on-exec. -/
def sampleHandles : Kernel :=
  sampleKernel.setProc 1
    { sampleKernel.procs 1 with
      m_handles := [{ ko := some 40, closeOnExec := false }, { ko := some 41, closeOnExec := true }] }

/-- A caller of `le_handle_dup` whose memory holds `newHandle` behind `_newHandle` and takes
the store; `O_CLOEXEC` is the bit 19. -/
def sampleDup (newHandle : Int) : DupEnv :=
  { O_CLOEXEC := 524288, load := some newHandle, storeFaults := false }

namespace AHCI

/-- A controller that carries out every command. -/
def sampleDevice : Device := { status := fun _ _ _ => 0 }

/-- A port with an empty disk and an empty page `bufVirt`; the byte of the memory at address
`a` is `a % 251`. -/
def samplePort : Port :=
  { disk := fun _ _ => 0, bufVirt := fun _ => 0, mem := fun a => a % 251, log := [] }

/-- A port whose disk holds the byte `(7 * s + o) % 251` at offset `o` of sector `s`, with an
empty page `bufVirt` and an empty memory. -/
def sampleDisk : Port :=
  { disk := fun s o => (7 * s + o) % 251, bufVirt := fun _ => 0, mem := fun _ => 0, log := [] }

end AHCI

/-- A state from which `die` on process `this`, driven by `thisThread` on processor `cpu`,
runs through to its watcher block: the process is running; the driving thread is the main
thread of its own process and holds its kernel lock; every child is dead or is brought there
by the environment, and the process is not its own child; the thread list has no null entry and no entry twice, and its entries
belong to the process; the other processors release every pinned thread of the process during
one of the sweeps `0` to `N`; no run queue holds a null entry; and a thread of the process that
is current on another processor is on the thread list and is not the driving thread. -/
structure DieReady (env : Env) (N : Nat) (k : Kernel) (this : Pid) (thisThread : ThreadPtr)
    (cpu : Nat) : Prop where
  running : (k.procs this).m_state = ProcessState.Process_Running
  main : thisThread = (k.procs (k.threads thisThread).parent).m_mainThread
  locked : (k.threads thisThread).kernelLock = true
  children : ∀ c ∈ (k.procs this).m_children,
    (k.procs c).m_state = ProcessState.Process_Dead ∨ env.childDies c = true
  threads : ∀ t ∈ (k.procs this).m_threads, t ≠ 0 ∧ (k.threads t).parent = this
  nodup : (k.procs this).m_threads.Nodup
  notOwnChild : this ∉ (k.procs this).m_children
  unpins : ∀ t ∈ (k.procs this).m_threads, ∃ m, m ≤ N ∧ env.unpins m t = true
  queues : ∀ c, (0 : Nat) ∉ (k.cpus c).runQueue
  current : ∀ c, c ≠ cpu → (k.cpus c).currentThread ≠ 0 →
    (k.threads (k.cpus c).currentThread).parent = this →
    (k.cpus c).currentThread ∈ (k.procs this).m_threads ∧ (k.cpus c).currentThread ≠ thisThread

/-! ## Frame lemmas for the state updates -/

namespace Kernel

@[simp] theorem emit_threads (k : Kernel) (e : Event) : (k.emit e).threads = k.threads := rfl
@[simp] theorem emit_procs (k : Kernel) (e : Event) : (k.emit e).procs = k.procs := rfl
@[simp] theorem emit_cpus (k : Kernel) (e : Event) : (k.emit e).cpus = k.cpus := rfl
@[simp] theorem emit_processorCount (k : Kernel) (e : Event) :
    (k.emit e).processorCount = k.processorCount := rfl
@[simp] theorem emit_nextPID (k : Kernel) (e : Event) : (k.emit e).nextPID = k.nextPID := rfl
@[simp] theorem emit_log (k : Kernel) (e : Event) : (k.emit e).log = k.log ++ [e] := rfl

@[simp] theorem setThread_threads (k : Kernel) (t : ThreadPtr) (th : Thread) (x : ThreadPtr) :
    (k.setThread t th).threads x = if x = t then th else k.threads x := rfl
@[simp] theorem setThread_procs (k : Kernel) (t : ThreadPtr) (th : Thread) :
    (k.setThread t th).procs = k.procs := rfl
@[simp] theorem setThread_cpus (k : Kernel) (t : ThreadPtr) (th : Thread) :
    (k.setThread t th).cpus = k.cpus := rfl
@[simp] theorem setThread_processorCount (k : Kernel) (t : ThreadPtr) (th : Thread) :
    (k.setThread t th).processorCount = k.processorCount := rfl
@[simp] theorem setThread_nextPID (k : Kernel) (t : ThreadPtr) (th : Thread) :
    (k.setThread t th).nextPID = k.nextPID := rfl
@[simp] theorem setThread_log (k : Kernel) (t : ThreadPtr) (th : Thread) :
    (k.setThread t th).log = k.log := rfl

@[simp] theorem setProc_procs (k : Kernel) (p : Pid) (pr : Process) (x : Pid) :
    (k.setProc p pr).procs x = if x = p then pr else k.procs x := rfl
@[simp] theorem setProc_threads (k : Kernel) (p : Pid) (pr : Process) :
    (k.setProc p pr).threads = k.threads := rfl
@[simp] theorem setProc_cpus (k : Kernel) (p : Pid) (pr : Process) :
    (k.setProc p pr).cpus = k.cpus := rfl
@[simp] theorem setProc_processorCount (k : Kernel) (p : Pid) (pr : Process) :
    (k.setProc p pr).processorCount = k.processorCount := rfl
@[simp] theorem setProc_nextPID (k : Kernel) (p : Pid) (pr : Process) :
    (k.setProc p pr).nextPID = k.nextPID := rfl
@[simp] theorem setProc_log (k : Kernel) (p : Pid) (pr : Process) :
    (k.setProc p pr).log = k.log := rfl

@[simp] theorem setCPU_cpus (k : Kernel) (i : Nat) (c : CPU) (x : Nat) :
    (k.setCPU i c).cpus x = if x = i then c else k.cpus x := rfl
@[simp] theorem setCPU_threads (k : Kernel) (i : Nat) (c : CPU) :
    (k.setCPU i c).threads = k.threads := rfl
@[simp] theorem setCPU_procs (k : Kernel) (i : Nat) (c : CPU) :
    (k.setCPU i c).procs = k.procs := rfl
@[simp] theorem setCPU_processorCount (k : Kernel) (i : Nat) (c : CPU) :
    (k.setCPU i c).processorCount = k.processorCount := rfl
@[simp] theorem setCPU_nextPID (k : Kernel) (i : Nat) (c : CPU) :
    (k.setCPU i c).nextPID = k.nextPID := rfl
@[simp] theorem setCPU_log (k : Kernel) (i : Nat) (c : CPU) :
    (k.setCPU i c).log = k.log := rfl

@[simp] theorem writeThreadState_procs (k : Kernel) (t : ThreadPtr) (s : ThreadState) :
    (k.writeThreadState t s).procs = k.procs := rfl
@[simp] theorem writeThreadState_cpus (k : Kernel) (t : ThreadPtr) (s : ThreadState) :
    (k.writeThreadState t s).cpus = k.cpus := rfl
@[simp] theorem writeThreadState_processorCount (k : Kernel) (t : ThreadPtr) (s : ThreadState) :
    (k.writeThreadState t s).processorCount = k.processorCount := rfl
@[simp] theorem writeThreadState_log (k : Kernel) (t : ThreadPtr) (s : ThreadState) :
    (k.writeThreadState t s).log = k.log ++ [Event.threadState t s] := rfl
@[simp] theorem writeThreadState_threads (k : Kernel) (t : ThreadPtr) (s : ThreadState)
    (x : ThreadPtr) :
    (k.writeThreadState t s).threads x
      = if x = t then { k.threads t with state := s } else k.threads x := rfl

@[simp] theorem writeProcessState_threads (k : Kernel) (p : Pid) (s : ProcessState) :
    (k.writeProcessState p s).threads = k.threads := rfl
@[simp] theorem writeProcessState_cpus (k : Kernel) (p : Pid) (s : ProcessState) :
    (k.writeProcessState p s).cpus = k.cpus := rfl
@[simp] theorem writeProcessState_processorCount (k : Kernel) (p : Pid) (s : ProcessState) :
    (k.writeProcessState p s).processorCount = k.processorCount := rfl
@[simp] theorem writeProcessState_log (k : Kernel) (p : Pid) (s : ProcessState) :
    (k.writeProcessState p s).log = k.log ++ [Event.processState p s] := rfl
@[simp] theorem writeProcessState_procs (k : Kernel) (p : Pid) (s : ProcessState) (x : Pid) :
    (k.writeProcessState p s).procs x
      = if x = p then { k.procs p with m_state := s } else k.procs x := rfl

end Kernel

@[simp] theorem acquireTestLock_fst (k : Kernel) (t : ThreadPtr) :
    (acquireTestLock k t).1 = (k.threads t).kernelLock := rfl
@[simp] theorem acquireTestLock_snd (k : Kernel) (t : ThreadPtr) :
    (acquireTestLock k t).2 = k.setThread t { k.threads t with kernelLock := true } := rfl

@[simp] theorem finalState_ok {α : Type} (proj : α → Kernel) (a : α) :
    finalState proj (.ok a) = proj a := rfl
@[simp] theorem finalState_error {α : Type} (proj : α → Kernel) (e : Stop × Kernel) :
    finalState proj (.error e : Except (Stop × Kernel) α) = e.2 := rfl

theorem run_eq_ok (r : Run) (h : stopOf r = none) : r = .ok (finalState id r) := by
  cases r with
  | ok k => rfl
  | error e => cases h

theorem pair_eq_ok {α : Type} (r : Except (Stop × Kernel) (Kernel × α)) (a : α)
    (h : valueOf r = some a) : r = .ok (finalState Prod.fst r, a) := by
  cases r with
  | ok v =>
    obtain ⟨k, b⟩ := v
    cases h
    rfl
  | error e => cases h

theorem bind_ok {α β : Type} (a : α) (f : α → Except (Stop × Kernel) β) :
    ((.ok a : Except (Stop × Kernel) α) >>= f) = f a := rfl

theorem bind_error {α β : Type} (e : Stop × Kernel) (f : α → Except (Stop × Kernel) β) :
    ((.error e : Except (Stop × Kernel) α) >>= f) = .error e := rfl

theorem bind_eq_ok {α β : Type} {r : Except (Stop × Kernel) α}
    {f : α → Except (Stop × Kernel) β} {b : β} (h : (r >>= f) = .ok b) :
    ∃ a, r = .ok a ∧ f a = .ok b := by
  cases r with
  | ok a => exact ⟨a, rfl, h⟩
  | error e => cases h

/-! ## Steps that leave the process table alone -/

theorem Quiet.qrefl (k : Kernel) : Quiet k k :=
  ⟨rfl, rfl, fun _ => rfl, fun _ h => h, fun _ => rfl⟩

theorem Quiet.qtrans {k k1 k2 : Kernel} (h1 : Quiet k k1) (h2 : Quiet k1 k2) : Quiet k k2 :=
  ⟨h2.procs.trans h1.procs, h2.processorCount.trans h1.processorCount,
    fun w => (h2.signals w).trans (h1.signals w), fun t h => h2.retired t (h1.retired t h),
    fun t => (h2.parents t).trans (h1.parents t)⟩

theorem signalCount_emit (k : Kernel) (e : Event) (w : WatcherPtr) :
    signalCount (k.emit e) w = signalCount k w + if e = Event.watcherSignal w then 1 else 0 := by
  simp [signalCount, List.count_append, List.count_singleton]

theorem quiet_emit (k : Kernel) (e : Event) (h : ∀ w, e ≠ Event.watcherSignal w) :
    Quiet k (k.emit e) :=
  ⟨rfl, rfl, fun w => by rw [signalCount_emit]; simp [h w], fun _ h => h, fun _ => rfl⟩

theorem quiet_setCPU (k : Kernel) (i : Nat) (c : CPU) : Quiet k (k.setCPU i c) :=
  ⟨rfl, rfl, fun _ => rfl, fun _ h => h, fun _ => rfl⟩

theorem quiet_of_threads (k k1 : Kernel) (hp : k1.procs = k.procs)
    (hc : k1.processorCount = k.processorCount) (hl : k1.log = k.log)
    (hr : ∀ t, Retired k t → Retired k1 t)
    (hpar : ∀ t, (k1.threads t).parent = (k.threads t).parent) : Quiet k k1 :=
  ⟨hp, hc, fun w => by simp [signalCount, hl], hr, hpar⟩

theorem quiet_setLock (k : Kernel) (t : ThreadPtr) (b : Bool) :
    Quiet k (k.setThread t { k.threads t with kernelLock := b }) := by
  refine quiet_of_threads _ _ rfl rfl rfl ?_ ?_
  · intro x hx
    unfold Retired at *
    by_cases hxt : x = t
    · subst hxt; simpa using hx
    · simpa [hxt] using hx
  · intro x
    by_cases hxt : x = t
    · subst hxt; simp
    · simp [hxt]

theorem quiet_writeThreadState (k : Kernel) (t : ThreadPtr) (s : ThreadState)
    (hs : s ≠ ThreadState.ThreadStateDying) : Quiet k (k.writeThreadState t s) := by
  refine ⟨rfl, rfl, fun w => ?_, ?_, ?_⟩
  · simp [signalCount, List.count_append]
  · intro x hx
    unfold Retired at *
    by_cases hxt : x = t
    · subst hxt; simp [hs]
    · simpa [hxt] using hx
  · intro x
    by_cases hxt : x = t
    · subst hxt; simp
    · simp [hxt]

namespace Process

theorem markDying_threads (k : Kernel) (t x : ThreadPtr) :
    (markDying k t).threads x
      = if x = t then
          { k.threads t with
            state := ThreadState.ThreadStateDying, timeSlice := 0, timeSliceDefault := 0 }
        else k.threads x := by
  by_cases h : x = t <;> simp [markDying, h]

@[simp] theorem markDying_cpus (k : Kernel) (t : ThreadPtr) : (markDying k t).cpus = k.cpus := rfl

theorem markDying_quiet (k : Kernel) (t : ThreadPtr) : Quiet k (markDying k t) := by
  refine ⟨rfl, rfl, fun w => ?_, ?_, ?_⟩
  · simp [signalCount, List.count_append, markDying]
  · intro x hx
    unfold Retired at *
    by_cases hxt : x = t
    · subst hxt; simp [markDying_threads]
    · simpa [markDying_threads, hxt] using hx
  · intro x
    by_cases hxt : x = t
    · subst hxt; simp [markDying_threads]
    · simp [markDying_threads, hxt]

theorem markDying_retired (k : Kernel) (t : ThreadPtr) : Retired (markDying k t) t := by
  unfold Retired
  simp [markDying_threads]

theorem dieWakeThread_quiet (k : Kernel) (t : ThreadPtr) : Quiet k (dieWakeThread k t) := by
  have h1 : Quiet k (k.emit (Event.acquireStateLock t)) := quiet_emit _ _ (by intro w; simp)
  have h3 : ∀ k2 : Kernel, Quiet k k2 →
      Quiet k (match (k2.threads t).blocker with
        | some b =>
          if (k2.threads t).state = ThreadState.ThreadStateBlocked then
            ((((k2.writeThreadState t ThreadState.ThreadStateZombie).emit
              (Event.releaseStateLock t)).emit
              (Event.blockerInterrupt t b)).emit
              (Event.acquireStateLock t))
          else k2
        | none => k2) := by
    intro k2 hk2
    split
    · split
      · refine hk2.qtrans ?_
        refine Quiet.qtrans (quiet_writeThreadState _ t ThreadState.ThreadStateZombie (by decide)) ?_
        refine Quiet.qtrans (quiet_emit _ _ ?_) (Quiet.qtrans (quiet_emit _ _ ?_) (quiet_emit _ _ ?_))
        all_goals (intro w; simp)
      · exact hk2
    · exact hk2
  unfold dieWakeThread
  simp only []
  apply h3
  split
  · exact h1.qtrans (quiet_emit _ _ (by intro w; simp))
  · exact h1

@[simp] theorem dieWakeThread_cpus (k : Kernel) (t : ThreadPtr) :
    (dieWakeThread k t).cpus = k.cpus := by
  unfold dieWakeThread
  simp only []
  repeat' split
  all_goals rfl

theorem dieWakeThread_threads_ne (k : Kernel) (t x : ThreadPtr) (h : x ≠ t) :
    (dieWakeThread k t).threads x = k.threads x := by
  unfold dieWakeThread
  simp only []
  repeat' split
  all_goals simp [h]

theorem dieRetireThread_quiet (k : Kernel) (t : ThreadPtr) :
    Quiet k (dieRetireThread k t).1 := by
  have h1 : Quiet k ((k.writeThreadState t ThreadState.ThreadStateZombie).setThread t
      { (k.writeThreadState t ThreadState.ThreadStateZombie).threads t with kernelLock := true }) :=
    (quiet_writeThreadState k t _ (by decide)).qtrans (quiet_setLock _ _ _)
  unfold dieRetireThread
  simp only [acquireTestLock_fst, acquireTestLock_snd]
  split
  · exact (h1.qtrans (markDying_quiet _ _)).qtrans (quiet_emit _ _ (by intro w; simp))
  · exact h1.qtrans (quiet_emit _ _ (by intro w; simp))

@[simp] theorem dieRetireThread_cpus (k : Kernel) (t : ThreadPtr) :
    (dieRetireThread k t).1.cpus = k.cpus := by
  unfold dieRetireThread
  simp only []
  split <;> rfl

theorem dieRetireThread_threads_ne (k : Kernel) (t x : ThreadPtr) (h : x ≠ t) :
    (dieRetireThread k t).1.threads x = k.threads x := by
  unfold dieRetireThread
  simp only []
  split <;> simp [markDying_threads, h]

theorem dieRetireThread_retired (k : Kernel) (t : ThreadPtr) :
    Retired (dieRetireThread k t).1 t := by
  unfold dieRetireThread Retired
  simp only []
  split <;> simp [markDying_threads]

theorem dieVisitThread_quiet (thisThread : ThreadPtr) (acc : Kernel × List ThreadPtr)
    (thread : ThreadPtr) : Quiet acc.1 (dieVisitThread thisThread acc thread).1 := by
  unfold dieVisitThread
  split
  · exact (dieWakeThread_quiet _ _).qtrans (dieRetireThread_quiet _ _)
  · exact Quiet.qrefl _

@[simp] theorem dieVisitThread_cpus (thisThread : ThreadPtr) (acc : Kernel × List ThreadPtr)
    (thread : ThreadPtr) : (dieVisitThread thisThread acc thread).1.cpus = acc.1.cpus := by
  unfold dieVisitThread
  split <;> simp

theorem dieVisitThread_retired (thisThread : ThreadPtr) (acc : Kernel × List ThreadPtr)
    (thread : ThreadPtr) (h1 : thread ≠ thisThread) (h0 : thread ≠ 0) :
    Retired (dieVisitThread thisThread acc thread).1 thread := by
  unfold dieVisitThread
  rw [if_pos ⟨h1, h0⟩]
  exact dieRetireThread_retired _ _

theorem foldl_dieVisitThread_quiet (thisThread : ThreadPtr) (l : List ThreadPtr)
    (acc : Kernel × List ThreadPtr) :
    Quiet acc.1 (l.foldl (dieVisitThread thisThread) acc).1 := by
  induction l generalizing acc with
  | nil => exact Quiet.qrefl _
  | cons a rest ih => exact (dieVisitThread_quiet thisThread acc a).qtrans (ih _)

theorem foldl_dieVisitThread_cpus (thisThread : ThreadPtr) (l : List ThreadPtr)
    (acc : Kernel × List ThreadPtr) :
    (l.foldl (dieVisitThread thisThread) acc).1.cpus = acc.1.cpus := by
  induction l generalizing acc with
  | nil => rfl
  | cons a rest ih => simp [List.foldl, ih]

theorem foldl_dieVisitThread_retired (thisThread : ThreadPtr) (l : List ThreadPtr)
    (acc : Kernel × List ThreadPtr) (t : ThreadPtr) (ht : t ∈ l) (h1 : t ≠ thisThread)
    (h0 : t ≠ 0) : Retired (l.foldl (dieVisitThread thisThread) acc).1 t := by
  induction l generalizing acc with
  | nil => cases ht
  | cons a rest ih =>
    rcases List.mem_cons.mp ht with h | h
    · subst h
      exact (foldl_dieVisitThread_quiet thisThread rest _).retired _
        (dieVisitThread_retired thisThread acc t h1 h0)
    · exact ih _ h

theorem dieThreads_quiet (k : Kernel) (this : Pid) (thisThread : ThreadPtr) :
    Quiet k (dieThreads k this thisThread).1 :=
  foldl_dieVisitThread_quiet thisThread _ (k, [])

@[simp] theorem dieThreads_cpus (k : Kernel) (this : Pid) (thisThread : ThreadPtr) :
    (dieThreads k this thisThread).1.cpus = k.cpus :=
  foldl_dieVisitThread_cpus thisThread _ (k, [])

theorem dieThreads_retired (k : Kernel) (this : Pid) (thisThread t : ThreadPtr)
    (ht : t ∈ (k.procs this).m_threads) (h1 : t ≠ thisThread) (h0 : t ≠ 0) :
    Retired (dieThreads k this thisThread).1 t :=
  foldl_dieVisitThread_retired thisThread _ (k, []) t ht h1 h0

theorem acquireTestLock_quiet (k : Kernel) (t : ThreadPtr) : Quiet k (acquireTestLock k t).2 :=
  quiet_setLock k t true

theorem dieSweepPass_quiet (fuel : Nat) (k : Kernel) (running : List ThreadPtr) (it : Nat) :
    Quiet k (finalState Prod.fst (dieSweepPass fuel k running it)) := by
  induction fuel generalizing k running it with
  | zero => exact Quiet.qrefl _
  | succ fuel ih =>
    unfold dieSweepPass
    simp only []
    split
    · split
      · refine Quiet.qtrans ?_ (ih _ _ _)
        refine Quiet.qtrans (acquireTestLock_quiet k (running.getD it 0)) ?_
        refine Quiet.qtrans (quiet_emit _ _ ?_) (Quiet.qtrans (markDying_quiet _ _) (quiet_emit _ _ ?_))
        all_goals (intro w; simp)
      · exact (acquireTestLock_quiet k (running.getD it 0)).qtrans (ih _ _ _)
    · exact Quiet.qrefl _

theorem dieSweepPass_cpus (fuel : Nat) (k : Kernel) (running : List ThreadPtr) (it : Nat) :
    (finalState Prod.fst (dieSweepPass fuel k running it)).cpus = k.cpus := by
  induction fuel generalizing k running it with
  | zero => rfl
  | succ fuel ih =>
    unfold dieSweepPass
    simp only []
    split
    · split
      · rw [ih]; rfl
      · rw [ih]; rfl
    · rfl

theorem envUnpin_quiet (env : Env) (n : Nat) (k : Kernel) (running : List ThreadPtr) :
    Quiet k (envUnpin env n k running) := by
  refine quiet_of_threads _ _ rfl rfl rfl ?_ ?_
  · intro x hx
    unfold Retired envUnpin at *
    simp only []
    split
    · simpa using hx
    · exact hx
  · intro x
    unfold envUnpin
    simp only []
    split <;> rfl

theorem dieSweep_quiet (env : Env) (fuel n : Nat) (k : Kernel) (running : List ThreadPtr) :
    Quiet k (finalState id (dieSweep env fuel n k running)) := by
  induction fuel generalizing n k running with
  | zero => exact Quiet.qrefl _
  | succ fuel ih =>
    unfold dieSweep
    split
    · have hp := dieSweepPass_quiet ((running.length + 1) * (running.length + 1)) k running 0
      split
      · rename_i k1 running1 heq
        rw [heq] at hp
        exact (hp.qtrans (envUnpin_quiet env n k1 running1)).qtrans (ih _ _ _)
      · rename_i e heq
        rw [heq] at hp
        exact hp
    · exact Quiet.qrefl _

theorem dieSweep_cpus (env : Env) (fuel n : Nat) (k : Kernel) (running : List ThreadPtr) :
    (finalState id (dieSweep env fuel n k running)).cpus = k.cpus := by
  induction fuel generalizing n k running with
  | zero => rfl
  | succ fuel ih =>
    unfold dieSweep
    split
    · have hp := dieSweepPass_cpus ((running.length + 1) * (running.length + 1)) k running 0
      split
      · rename_i k1 running1 heq
        rw [heq] at hp
        rw [ih]
        exact hp
      · rename_i e heq
        rw [heq] at hp
        exact hp
    · rfl

theorem dieCheckThreads_final (k : Kernel) (this : Pid) (thisThread : ThreadPtr)
    (l : List ThreadPtr) : finalState id (dieCheckThreads k this thisThread l) = k := by
  induction l with
  | nil => rfl
  | cons t ts ih =>
    unfold dieCheckThreads
    split
    · exact ih
    · rename_i e heq
      unfold dieCheckThread at heq
      split at heq
      · cases heq; rfl
      · split at heq
        · cases heq; rfl
        · split at heq
          · cases heq; rfl
          · cases heq

theorem dieCheckThreads_ok (k k1 : Kernel) (this : Pid) (thisThread : ThreadPtr)
    (l : List ThreadPtr) (h : dieCheckThreads k this thisThread l = .ok k1) :
    k1 = k ∧ ∀ t ∈ l, t ≠ 0 ∧ (k.threads t).parent = this ∧
      (t ≠ thisThread → (k.threads t).state = ThreadState.ThreadStateDying) := by
  induction l with
  | nil =>
    unfold dieCheckThreads at h
    cases h
    exact ⟨rfl, fun t ht => by cases ht⟩
  | cons a ts ih =>
    unfold dieCheckThreads at h
    split at h
    · rename_i u heq
      obtain ⟨hk, hall⟩ := ih h
      refine ⟨hk, fun t ht => ?_⟩
      rcases List.mem_cons.mp ht with hta | hta
      · subst hta
        unfold dieCheckThread at heq
        split at heq
        · cases heq
        · split at heq
          · cases heq
          · split at heq
            · cases heq
            · rename_i h0 hp hs
              refine ⟨h0, by simpa using hp, fun hne => ?_⟩
              by_contra hc
              exact hs ⟨hc, hne⟩
      · exact hall t hta
    · cases h

theorem dieEvictLocal_quiet (fuel : Nat) (k : Kernel) (this : Pid) (cpu j : Nat) :
    Quiet k (finalState id (dieEvictLocal fuel k this cpu j)) := by
  induction fuel generalizing k j with
  | zero => exact Quiet.qrefl _
  | succ fuel ih =>
    unfold dieEvictLocal
    simp only []
    repeat' split
    · exact Quiet.qrefl _
    · exact (quiet_setCPU _ _ _).qtrans (ih _ _)
    · exact ih _ _
    · exact ih _ _
    · exact Quiet.qrefl _

theorem dieEvictLocal_threads (fuel : Nat) (k : Kernel) (this : Pid) (cpu j : Nat) :
    (finalState id (dieEvictLocal fuel k this cpu j)).threads = k.threads := by
  induction fuel generalizing k j with
  | zero => rfl
  | succ fuel ih =>
    unfold dieEvictLocal
    simp only []
    repeat' split
    · rfl
    · rw [ih]; rfl
    · exact ih _ _
    · exact ih _ _
    · rfl

theorem dieEvictQueue_quiet (fuel : Nat) (k : Kernel) (this : Pid) (i j : Nat) :
    Quiet k (finalState id (dieEvictQueue fuel k this i j)) := by
  induction fuel generalizing k j with
  | zero => exact Quiet.qrefl _
  | succ fuel ih =>
    unfold dieEvictQueue
    simp only []
    repeat' split
    · exact Quiet.qrefl _
    · exact (quiet_setCPU _ _ _).qtrans (ih _ _)
    · exact ih _ _
    · exact Quiet.qrefl _

theorem dieEvictQueue_threads (fuel : Nat) (k : Kernel) (this : Pid) (i j : Nat) :
    (finalState id (dieEvictQueue fuel k this i j)).threads = k.threads := by
  induction fuel generalizing k j with
  | zero => rfl
  | succ fuel ih =>
    unfold dieEvictQueue
    simp only []
    repeat' split
    · rfl
    · rw [ih]; rfl
    · exact ih _ _
    · rfl

theorem rel_bind {α β : Type} (R : Kernel → Kernel → Prop)
    (htrans : ∀ a b c, R a b → R b c → R a c) (pa : α → Kernel) (pb : β → Kernel)
    {k : Kernel} {r : Except (Stop × Kernel) α} {f : α → Except (Stop × Kernel) β}
    (h1 : R k (finalState pa r))
    (h2 : ∀ a, r = .ok a → R (pa a) (finalState pb (f a))) :
    R k (finalState pb (r >>= f)) := by
  cases r with
  | ok a => exact htrans _ _ _ h1 (h2 a rfl)
  | error e => exact h1

theorem quiet_bind {k : Kernel} {r : Run} {f : Kernel → Run} (h1 : Quiet k (finalState id r))
    (h2 : ∀ k1, r = .ok k1 → Quiet k1 (finalState id (f k1))) :
    Quiet k (finalState id (r >>= f)) :=
  rel_bind Quiet (fun _ _ _ => Quiet.qtrans) id id h1 h2

theorem threads_bind {k : Kernel} {r : Run} {f : Kernel → Run}
    (h1 : (finalState id r).threads = k.threads)
    (h2 : ∀ k1, r = .ok k1 → (finalState id (f k1)).threads = k1.threads) :
    (finalState id (r >>= f)).threads = k.threads :=
  rel_bind (fun a b => b.threads = a.threads) (fun _ _ _ hab hbc => hbc.trans hab) id id h1 h2

theorem state_bind {α β : Type} (p : Pid) (pa : α → Kernel) (pb : β → Kernel) {k : Kernel}
    {r : Except (Stop × Kernel) α} {f : α → Except (Stop × Kernel) β}
    (h1 : ((finalState pa r).procs p).m_state = (k.procs p).m_state)
    (h2 : ∀ a, r = .ok a →
      ((finalState pb (f a)).procs p).m_state = ((pa a).procs p).m_state) :
    ((finalState pb (r >>= f)).procs p).m_state = (k.procs p).m_state :=
  rel_bind (fun a b => (b.procs p).m_state = (a.procs p).m_state)
    (fun _ _ _ hab hbc => hbc.trans hab) pa pb h1 h2

theorem dieClearCurrent_quiet (k : Kernel) (this : Pid) (i : Nat) :
    Quiet k (finalState id (dieClearCurrent k this i)) := by
  unfold dieClearCurrent
  repeat' split
  · exact Quiet.qrefl _
  · exact quiet_setCPU _ _ _
  · exact Quiet.qrefl _

theorem dieClearCurrent_threads (k : Kernel) (this : Pid) (i : Nat) :
    (finalState id (dieClearCurrent k this i)).threads = k.threads := by
  unfold dieClearCurrent
  repeat' split
  all_goals rfl

theorem dieSendIPIs_quiet (k : Kernel) (i : Nat) : Quiet k (dieSendIPIs k i) := by
  have h1 : Quiet k (if (k.cpus i).currentThread = 0 then
      k.emit (Event.sendIPI i IcrShorthand.ICR_DSH_SELF) else k) := by
    split
    · exact quiet_emit _ _ (by intro w; simp)
    · exact Quiet.qrefl _
  unfold dieSendIPIs
  simp only []
  by_cases hc : (k.cpus i).currentThread = 0
  · simp only [hc, if_true, Kernel.emit_cpus]
    exact h1.qtrans (by rw [if_pos hc]; exact quiet_emit _ _ (by intro w; simp))
  · simp only [hc, if_false]
    exact Quiet.qrefl _

theorem dieSendIPIs_threads (k : Kernel) (i : Nat) : (dieSendIPIs k i).threads = k.threads := by
  unfold dieSendIPIs
  simp only []
  repeat' split
  all_goals rfl

theorem dieEvictOther_quiet (fuel : Nat) (k : Kernel) (this : Pid) (i : Nat) :
    Quiet k (finalState id (dieEvictOther fuel k this i)) := by
  unfold dieEvictOther
  refine quiet_bind (dieClearCurrent_quiet k this i) fun k1 _ => ?_
  refine quiet_bind (dieEvictQueue_quiet fuel k1 this i 0) fun k2 _ => ?_
  exact dieSendIPIs_quiet k2 i

theorem dieEvictOther_threads (fuel : Nat) (k : Kernel) (this : Pid) (i : Nat) :
    (finalState id (dieEvictOther fuel k this i)).threads = k.threads := by
  unfold dieEvictOther
  refine threads_bind (dieClearCurrent_threads k this i) fun k1 _ => ?_
  refine threads_bind (dieEvictQueue_threads fuel k1 this i 0) fun k2 _ => ?_
  exact dieSendIPIs_threads k2 i

theorem dieEvictRemote_quiet (fuel : Nat) (this : Pid) (cpu n i : Nat) (k : Kernel) :
    Quiet k (finalState id (dieEvictRemote fuel this cpu n i k)) := by
  induction n generalizing i k with
  | zero => exact Quiet.qrefl _
  | succ n ih =>
    unfold dieEvictRemote
    split
    · exact ih _ _
    · have hp := dieEvictOther_quiet fuel k this i
      split
      · rename_i k1 heq
        rw [heq] at hp
        exact hp.qtrans (ih _ _)
      · rename_i e heq
        rw [heq] at hp
        exact hp

theorem dieEvictRemote_threads (fuel : Nat) (this : Pid) (cpu n i : Nat) (k : Kernel) :
    (finalState id (dieEvictRemote fuel this cpu n i k)).threads = k.threads := by
  induction n generalizing i k with
  | zero => rfl
  | succ n ih =>
    unfold dieEvictRemote
    split
    · exact ih _ _
    · have hp := dieEvictOther_threads fuel k this i
      split
      · rename_i k1 heq
        rw [heq] at hp
        rw [ih]
        exact hp
      · rename_i e heq
        rw [heq] at hp
        exact hp

theorem dieEvict_quiet (fuel : Nat) (k : Kernel) (this : Pid) (thisThread : ThreadPtr)
    (cpu : Nat) : Quiet k (finalState id (dieEvict fuel k this thisThread cpu)) := by
  unfold dieEvict
  have h1 : Quiet k (k.emit (Event.sendIPI cpu IcrShorthand.ICR_DSH_OTHER)) :=
    quiet_emit _ _ (by intro w; simp)
  refine quiet_bind ?_ fun k2 _ => ?_
  · rw [dieCheckThreads_final]; exact h1
  · refine quiet_bind (dieEvictLocal_quiet fuel k2 this cpu 0) fun k3 _ => ?_
    exact dieEvictRemote_quiet _ _ _ _ _ _

theorem dieEvict_ok (fuel : Nat) (k k1 : Kernel) (this : Pid) (thisThread : ThreadPtr)
    (cpu : Nat) (h : dieEvict fuel k this thisThread cpu = .ok k1) :
    k1.threads = k.threads ∧ ∀ t ∈ (k.procs this).m_threads, t ≠ 0 ∧
      (k.threads t).parent = this ∧
      (t ≠ thisThread → (k.threads t).state = ThreadState.ThreadStateDying) := by
  unfold dieEvict at h
  obtain ⟨k2, h2, hA⟩ := bind_eq_ok h
  obtain ⟨k3, h3, hB⟩ := bind_eq_ok hA
  obtain ⟨hk2, hall⟩ := dieCheckThreads_ok _ _ _ _ _ h2
  subst hk2
  have hl := dieEvictLocal_threads fuel (k.emit (Event.sendIPI cpu IcrShorthand.ICR_DSH_OTHER))
    this cpu 0
  rw [h3] at hl
  have hr := dieEvictRemote_threads fuel this cpu k3.processorCount 0 k3
  rw [hB] at hr
  simp only [finalState_ok, id] at hl hr
  exact ⟨hr.trans hl, hall⟩

end Process

/-! ## The child loop -/

theorem ChildFrame.crefl (k : Kernel) : ChildFrame k k :=
  ⟨rfl, rfl, rfl, fun _ => rfl, fun _ => rfl, fun _ h => h, fun _ h => h⟩

theorem ChildFrame.ctrans {k k1 k2 : Kernel} (h1 : ChildFrame k k1) (h2 : ChildFrame k1 k2) :
    ChildFrame k k2 :=
  ⟨h2.threads.trans h1.threads, h2.cpus.trans h1.cpus,
    h2.processorCount.trans h1.processorCount,
    fun w => (h2.signals w).trans (h1.signals w),
    fun p => (h2.mthreads p).trans (h1.mthreads p),
    fun p h => h2.dead p (h1.dead p h), fun p h => h2.orphan p (h1.orphan p h)⟩

theorem childFrame_emit (k : Kernel) (e : Event) (h : ∀ w, e ≠ Event.watcherSignal w) :
    ChildFrame k (k.emit e) :=
  ⟨rfl, rfl, rfl, fun w => by rw [signalCount_emit]; simp [h w], fun _ => rfl, fun _ h => h,
    fun _ h => h⟩

theorem childFrame_setProc (k : Kernel) (p : Pid) (pr : Process)
    (h1 : pr.m_threads = (k.procs p).m_threads)
    (h2 : (k.procs p).m_state = ProcessState.Process_Dead →
      pr.m_state = ProcessState.Process_Dead)
    (h3 : (k.procs p).m_parent = none → pr.m_parent = none) :
    ChildFrame k (k.setProc p pr) := by
  refine ⟨rfl, rfl, rfl, fun _ => rfl, fun q => ?_, fun q hq => ?_, fun q hq => ?_⟩
  · by_cases h : q = p
    · subst h; simpa using h1
    · simp [h]
  · by_cases h : q = p
    · subst h; simpa using h2 hq
    · simpa [h] using hq
  · by_cases h : q = p
    · subst h; simpa using h3 hq
    · simpa [h] using hq

namespace Process

theorem childFrame_bind {k : Kernel} {r : Run} {f : Kernel → Run}
    (h1 : ChildFrame k (finalState id r))
    (h2 : ∀ k1, r = .ok k1 → ChildFrame k1 (finalState id (f k1))) :
    ChildFrame k (finalState id (r >>= f)) :=
  rel_bind ChildFrame (fun _ _ _ => ChildFrame.ctrans) id id h1 h2

theorem childTerminates_frame (k : Kernel) (c : Pid) : ChildFrame k (childTerminates k c) :=
  childFrame_setProc k c _ rfl (fun _ => rfl) (fun h => h)

theorem childTerminates_procs_ne (k : Kernel) (c p : Pid) (h : p ≠ c) :
    (childTerminates k c).procs p = k.procs p := by
  simp [childTerminates, h]

theorem childTerminates_dead (k : Kernel) (c : Pid) :
    ((childTerminates k c).procs c).m_state = ProcessState.Process_Dead := by
  simp [childTerminates]

theorem Watch_dying (k : Kernel) (c : Pid) (w : WatcherPtr)
    (h : (k.procs c).m_state = ProcessState.Process_Dying) :
    Watch k c w true
      = .ok (k.setProc c { k.procs c with m_watching := (k.procs c).m_watching ++ [w] }) := by
  simp [Watch, h]

theorem watchAppend_frame (k : Kernel) (c : Pid) (w : WatcherPtr) :
    ChildFrame k (k.setProc c { k.procs c with m_watching := (k.procs c).m_watching ++ [w] }) :=
  childFrame_setProc k c _ rfl (fun h => h) (fun h => h)

theorem dieAwaitChild_frame (env : Env) (k : Kernel) (c : Pid) :
    ChildFrame k (finalState id (dieAwaitChild env k c)) ∧
      ∀ p, p ≠ c → (finalState id (dieAwaitChild env k c)).procs p = k.procs p := by
  have he : ChildFrame k (k.emit (Event.signal (k.procs c).m_mainThread Signal.SIGKILL)) :=
    childFrame_emit k _ (by intro w; simp)
  unfold dieAwaitChild
  split
  · simp only []
    split
    · exact ⟨he.ctrans (childTerminates_frame _ _),
        fun p hp => by simp [childTerminates_procs_ne _ _ _ hp]⟩
    · exact ⟨he, fun p _ => rfl⟩
  · split
    · rename_i hd
      rw [Watch_dying k c env.localWatcher hd]
      simp only []
      split
      · exact ⟨(watchAppend_frame k c env.localWatcher).ctrans (childTerminates_frame _ _),
          fun p hp => by simp [childTerminates_procs_ne _ _ _ hp, hp]⟩
      · exact ⟨watchAppend_frame k c env.localWatcher, fun p hp => by simp [hp]⟩
    · exact ⟨ChildFrame.crefl _, fun p _ => rfl⟩

theorem dieAwaitChild_ok (env : Env) (k k1 : Kernel) (c : Pid)
    (h : dieAwaitChild env k c = .ok k1) :
    (k1.procs c).m_state = ProcessState.Process_Dead := by
  unfold dieAwaitChild at h
  split at h
  · simp only [] at h
    split at h
    · cases h; exact childTerminates_dead _ _
    · cases h
  · split at h
    · rename_i hd
      rw [Watch_dying k c env.localWatcher hd] at h
      simp only [] at h
      split at h
      · cases h; exact childTerminates_dead _ _
      · cases h
    · rename_i hr hd
      cases h
      cases hs : (k.procs c).m_state <;> simp_all

theorem dieUnlinkChild_frame (k : Kernel) (this c : Pid) :
    ChildFrame k (dieUnlinkChild k this c) := by
  unfold dieUnlinkChild
  exact ChildFrame.ctrans
    (childFrame_setProc k c { k.procs c with m_parent := none } rfl (fun h => h) (fun _ => rfl))
    (childFrame_setProc _ this _ rfl (fun h => h) (fun h => h))

theorem dieUnlinkChild_state (k : Kernel) (this c p : Pid) :
    ((dieUnlinkChild k this c).procs p).m_state = (k.procs p).m_state := by
  unfold dieUnlinkChild
  by_cases h1 : p = this
  · subst h1
    by_cases h2 : p = c
    · subst h2; simp
    · simp [h2]
  · by_cases h2 : p = c
    · subst h2; simp [h1]
    · simp [h1, h2]

theorem dieUnlinkChild_watching (k : Kernel) (this c p : Pid) :
    ((dieUnlinkChild k this c).procs p).m_watching = (k.procs p).m_watching := by
  unfold dieUnlinkChild
  by_cases h1 : p = this
  · subst h1
    by_cases h2 : p = c
    · subst h2; simp
    · simp [h2]
  · by_cases h2 : p = c
    · subst h2; simp [h1]
    · simp [h1, h2]

theorem dieUnlinkChild_parent (k : Kernel) (this c : Pid) :
    ((dieUnlinkChild k this c).procs c).m_parent = none := by
  unfold dieUnlinkChild
  by_cases h : c = this
  · subst h; simp
  · simp [h]

theorem dieUnlinkChild_children (k : Kernel) (this c : Pid) :
    ((dieUnlinkChild k this c).procs this).m_children
      = listRemove (k.procs this).m_children c := by
  unfold dieUnlinkChild
  by_cases h : this = c
  · subst h; simp
  · simp [h]

theorem dieAwaitChild_children (env : Env) (k : Kernel) (c p : Pid) :
    ((finalState id (dieAwaitChild env k c)).procs p).m_children = (k.procs p).m_children := by
  by_cases hp : p = c
  · subst hp
    unfold dieAwaitChild
    split
    · simp only []
      split <;> simp [childTerminates]
    · split
      · rename_i hd
        rw [Watch_dying k p env.localWatcher hd]
        simp only []
        split <;> simp [childTerminates]
      · rfl
  · rw [(dieAwaitChild_frame env k c).2 p hp]

theorem dieChild_frame (env : Env) (k : Kernel) (this c : Pid) :
    ChildFrame k (finalState id (dieChild env k this c)) ∧
      ∀ p, p ≠ c →
        ((finalState id (dieChild env k this c)).procs p).m_state = (k.procs p).m_state ∧
        ((finalState id (dieChild env k this c)).procs p).m_watching
          = (k.procs p).m_watching := by
  have hf := dieAwaitChild_frame env k c
  unfold dieChild
  cases hr : dieAwaitChild env k c with
  | error e =>
    rw [hr] at hf
    refine ⟨hf.1, fun p hp => ?_⟩
    have h2 := hf.2 p hp
    simp only [finalState_error] at h2
    rw [bind_error]
    simp [finalState_error, h2]
  | ok k1 =>
    rw [hr] at hf
    simp only [finalState_ok, id] at hf
    rw [bind_ok]
    refine ⟨hf.1.ctrans (dieUnlinkChild_frame _ _ _), fun p hp => ?_⟩
    simp only [finalState_ok, id]
    rw [dieUnlinkChild_state, dieUnlinkChild_watching, hf.2 p hp]
    exact ⟨rfl, rfl⟩

theorem dieChild_ok (env : Env) (k k1 : Kernel) (this c : Pid)
    (h : dieChild env k this c = .ok k1) :
    (k1.procs c).m_state = ProcessState.Process_Dead ∧ (k1.procs c).m_parent = none ∧
      (k1.procs this).m_children = listRemove (k.procs this).m_children c := by
  unfold dieChild at h
  obtain ⟨k2, h2, h3⟩ := bind_eq_ok h
  cases h3
  have hc := dieAwaitChild_children env k c this
  rw [h2] at hc
  simp only [finalState_ok, id] at hc
  refine ⟨?_, dieUnlinkChild_parent _ _ _, ?_⟩
  · rw [dieUnlinkChild_state]; exact dieAwaitChild_ok env k k2 c h2
  · rw [dieUnlinkChild_children, hc]

theorem mem_listRemove {l : List Nat} {v x : Nat} : x ∈ listRemove l v ↔ x ∈ l ∧ x ≠ v := by
  simp [listRemove]

theorem dieChildren_frame (env : Env) (fuel : Nat) (k : Kernel) (this : Pid) :
    ChildFrame k (finalState id (dieChildren env fuel k this)) ∧
      ∀ p, p ∉ (k.procs this).m_children →
        ((finalState id (dieChildren env fuel k this)).procs p).m_state = (k.procs p).m_state ∧
        ((finalState id (dieChildren env fuel k this)).procs p).m_watching
          = (k.procs p).m_watching := by
  induction fuel generalizing k with
  | zero => exact ⟨ChildFrame.crefl _, fun p _ => ⟨rfl, rfl⟩⟩
  | succ fuel ih =>
    unfold dieChildren
    split
    · exact ⟨ChildFrame.crefl _, fun p _ => ⟨rfl, rfl⟩⟩
    · rename_i c cs hcs
      have hf := dieChild_frame env k this c
      cases hr : dieChild env k this c with
      | error e =>
        rw [hr] at hf
        rw [bind_error]
        refine ⟨hf.1, fun p hp => hf.2 p ?_⟩
        rintro rfl
        exact hp (by rw [hcs]; exact List.mem_cons_self _ _)
      | ok k1 =>
        rw [hr] at hf
        simp only [finalState_ok, id] at hf
        rw [bind_ok]
        obtain ⟨-, -, hch⟩ := dieChild_ok env k k1 this c hr
        refine ⟨hf.1.ctrans (ih k1).1, fun p hp => ?_⟩
        have hpc : p ≠ c := by
          rintro rfl
          exact hp (by rw [hcs]; exact List.mem_cons_self _ _)
        have hp1 : p ∉ (k1.procs this).m_children := by
          rw [hch]
          intro hm
          exact hp (mem_listRemove.mp hm).1
        obtain ⟨h1, h2⟩ := (ih k1).2 p hp1
        exact ⟨h1.trans (hf.2 p hpc).1, h2.trans (hf.2 p hpc).2⟩

theorem dieChildren_ok (env : Env) (fuel : Nat) (k k1 : Kernel) (this : Pid)
    (h : dieChildren env fuel k this = .ok k1) :
    (k1.procs this).m_children = [] ∧
      ∀ c ∈ (k.procs this).m_children,
        (k1.procs c).m_state = ProcessState.Process_Dead ∧ (k1.procs c).m_parent = none := by
  induction fuel generalizing k with
  | zero => cases h
  | succ fuel ih =>
    unfold dieChildren at h
    split at h
    · rename_i hnil
      cases h
      exact ⟨hnil, fun c hc => by rw [hnil] at hc; cases hc⟩
    · rename_i c cs hcs
      obtain ⟨k2, h2, h3⟩ := bind_eq_ok h
      obtain ⟨hd, ho, hch⟩ := dieChild_ok env k k2 this c h2
      obtain ⟨hnil, hall⟩ := ih k2 h3
      have hfr := (dieChildren_frame env fuel k2 this).1
      rw [h3] at hfr
      simp only [finalState_ok, id] at hfr
      refine ⟨hnil, fun c1 hc1 => ?_⟩
      by_cases hcc : c1 = c
      · subst hcc
        exact ⟨hfr.dead _ hd, hfr.orphan _ ho⟩
      · exact hall c1 (by rw [hch]; exact mem_listRemove.mpr ⟨hc1, hcc⟩)

/-! ## `die` up to the write of `Process_Dead` -/

theorem dieEnter_ok (k k1 : Kernel) (this : Pid) (thisThread : ThreadPtr)
    (h : dieEnter k this thisThread = .ok k1) :
    (k.procs this).m_state = ProcessState.Process_Running ∧
      k1 = (acquireTestLock (k.writeProcessState this ProcessState.Process_Dying) thisThread).2 := by
  unfold dieEnter at h
  split at h
  · cases h
  · rename_i hs
    simp only [] at h
    split at h
    · split at h <;> cases h
    · split at h
      · cases h
      · cases h
        exact ⟨not_not.mp hs, rfl⟩

theorem dieEnter_final (k : Kernel) (this : Pid) (thisThread : ThreadPtr) (e : Stop × Kernel)
    (h : dieEnter k this thisThread = .error e) :
    (e.1 = Stop.assertFailed 567 ∨ e.2.procs = k.procs) ∧ e.2.cpus = k.cpus := by
  unfold dieEnter at h
  split at h
  · cases h; exact ⟨Or.inr rfl, rfl⟩
  · simp only [] at h
    split at h
    · split at h
      · cases h
        refine ⟨Or.inr ?_, ?_⟩ <;> split <;> rfl
      · cases h
        refine ⟨Or.inr ?_, ?_⟩ <;> split <;> rfl
    · split at h
      · cases h; exact ⟨Or.inl rfl, rfl⟩
      · cases h

theorem retired_of_threads {k k1 : Kernel} (h : k1.threads = k.threads) (t : ThreadPtr)
    (hr : Retired k t) : Retired k1 t := by
  unfold Retired at *
  rw [h]
  exact hr

theorem dieQuiesce_ok (env : Env) (fuel : Nat) (k k2 : Kernel) (this : Pid)
    (thisThread : ThreadPtr) (h : dieQuiesce env fuel k this thisThread = .ok k2) :
    (∀ w, signalCount k2 w = signalCount k w) ∧
    k2.processorCount = k.processorCount ∧
    (∀ p, (k2.procs p).m_threads = (k.procs p).m_threads) ∧
    (k2.procs this).m_children = [] ∧
    (∀ c ∈ (k.procs this).m_children,
      (k2.procs c).m_state = ProcessState.Process_Dead ∧ (k2.procs c).m_parent = none) ∧
    (∀ p, p ∉ (k.procs this).m_children →
      (k2.procs p).m_state = (k.procs p).m_state ∧
      (k2.procs p).m_watching = (k.procs p).m_watching) ∧
    (∀ t ∈ (k.procs this).m_threads, t ≠ thisThread → t ≠ 0 → Retired k2 t) := by
  unfold dieQuiesce at h
  obtain ⟨kC, hC, hS⟩ := bind_eq_ok h
  have hT := dieThreads_quiet k this thisThread
  have hCf := dieChildren_frame env fuel (dieThreads k this thisThread).1 this
  rw [hC] at hCf
  simp only [finalState_ok, id] at hCf
  obtain ⟨hnil, hall⟩ := dieChildren_ok env fuel _ kC this hC
  have hSq := dieSweep_quiet env fuel 0 kC (dieThreads k this thisThread).2
  rw [hS] at hSq
  simp only [finalState_ok, id] at hSq
  rw [hT.procs] at hall hCf
  refine ⟨fun w => ?_, ?_, fun p => ?_, ?_, fun c hc => ?_, fun p hp => ?_, fun t ht h1 h0 => ?_⟩
  · rw [hSq.signals, hCf.1.signals, hT.signals]
  · rw [hSq.processorCount, hCf.1.processorCount, hT.processorCount]
  · rw [hSq.procs, hCf.1.mthreads, hT.procs]
  · rw [hSq.procs]; exact hnil
  · rw [hSq.procs]; exact hall c hc
  · rw [hSq.procs]; exact hCf.2 p hp
  · exact hSq.retired t (retired_of_threads hCf.1.threads t
      (dieThreads_retired k this thisThread t ht h1 h0))

theorem dieUntilDead_ok (env : Env) (fuel : Nat) (k kf : Kernel) (this : Pid)
    (thisThread : ThreadPtr) (cpu : Nat)
    (h : dieUntilDead env fuel k this thisThread cpu = .ok kf) :
    (k.procs this).m_state = ProcessState.Process_Running ∧
    (∀ w, signalCount kf w = signalCount k w) ∧
    (kf.procs this).m_threads = (k.procs this).m_threads ∧
    (kf.procs this).m_children = [] ∧
    (∀ c ∈ (k.procs this).m_children,
      (kf.procs c).m_state = ProcessState.Process_Dead ∧ (kf.procs c).m_parent = none) ∧
    (this ∉ (k.procs this).m_children →
      (kf.procs this).m_state = ProcessState.Process_Dying ∧
      (kf.procs this).m_watching = (k.procs this).m_watching) ∧
    (∀ t ∈ (k.procs this).m_threads, t ≠ 0 ∧ (kf.threads t).parent = this ∧
      (t ≠ thisThread → (kf.threads t).state = ThreadState.ThreadStateDying ∧
        (kf.threads t).timeSlice = 0 ∧ (kf.threads t).timeSliceDefault = 0)) := by
  unfold dieUntilDead at h
  obtain ⟨k1, h1, hA⟩ := bind_eq_ok h
  obtain ⟨k2, h2, hB⟩ := bind_eq_ok hA
  obtain ⟨k3, h3, hC⟩ := bind_eq_ok hB
  cases hC
  obtain ⟨hrun, hk1⟩ := dieEnter_ok k k1 this thisThread h1
  have hp1 : ∀ p, k1.procs p
      = if p = this then { k.procs this with m_state := ProcessState.Process_Dying }
        else k.procs p := by
    intro p; rw [hk1]; simp
  have hs1 : ∀ w, signalCount k1 w = signalCount k w := by
    intro w; rw [hk1]; simp [signalCount, List.count_append]
  have hpt : (k1.procs this) = { k.procs this with m_state := ProcessState.Process_Dying } := by
    rw [hp1]; simp
  obtain ⟨hq1, -, hq3, hq4, hq5, hq6, hq7⟩ := dieQuiesce_ok env fuel k1 k2 this thisThread h2
  rw [hpt] at hq5 hq6 hq7
  simp only [] at hq5 hq6 hq7
  have hEq := dieEvict_quiet fuel k2 this thisThread cpu
  rw [h3] at hEq
  simp only [finalState_ok, id] at hEq
  obtain ⟨hth, hchk⟩ := dieEvict_ok fuel k2 k3 this thisThread cpu h3
  have hm2 : (k2.procs this).m_threads = (k.procs this).m_threads := by
    rw [hq3, hpt]
  rw [hm2] at hchk
  have hpf : ∀ p, (dieCloseHandles k3 this).procs p
      = if p = this then { k2.procs this with m_handles := [] } else k2.procs p := by
    intro p; simp [dieCloseHandles, hEq.procs]
  refine ⟨hrun, fun w => ?_, ?_, ?_, fun c hc => ?_, fun hself => ?_, fun t ht => ?_⟩
  · have : signalCount (dieCloseHandles k3 this) w = signalCount k3 w := by
      simp [dieCloseHandles, signalCount, List.count_append]
    rw [this, hEq.signals, hq1, hs1]
  · rw [hpf]; simpa using hm2
  · rw [hpf]; simpa using hq4
  · rw [hpf]
    by_cases hct : c = this
    · subst hct; simpa using hq5 c hc
    · simpa [hct] using hq5 c hc
  · rw [hpf]
    have := hq6 this hself
    rw [hpt] at this
    simpa using this
  · obtain ⟨h0, hpar, hdy⟩ := hchk t ht
    have hthf : (dieCloseHandles k3 this).threads = k2.threads := by
      simp [dieCloseHandles, hth]
    rw [hthf]
    refine ⟨h0, hpar, fun hne => ?_⟩
    exact ⟨hdy hne, hq7 t ht hne h0 (hdy hne)⟩

/-! ## The watcher block and the rest of `die` -/

theorem foldl_emit (f : WatcherPtr → Event) (l : List WatcherPtr) (k : Kernel) :
    l.foldl (fun acc w => acc.emit (f w)) k = { k with log := k.log ++ l.map f } := by
  induction l generalizing k with
  | nil => simp
  | cons a rest ih =>
    rw [List.foldl_cons, ih]
    simp [Kernel.emit, List.append_assoc]

theorem signalWatchers_eq (k : Kernel) (this : Pid) :
    signalWatchers k this
      = { k with
          procs := fun p =>
            if p = this then
              { k.procs this with m_state := ProcessState.Process_Dead, m_watching := [] }
            else k.procs p
          log := k.log ++ Event.processState this ProcessState.Process_Dead ::
            (k.procs this).m_watching.map Event.watcherSignal } := by
  unfold signalWatchers
  simp only [foldl_emit]
  simp only [Kernel.setProc, Kernel.writeProcessState, Kernel.emit, if_true, List.append_assoc,
    List.singleton_append]
  congr 1
  funext p
  by_cases h : p = this <;> simp [h]

theorem count_map_watcherSignal (l : List WatcherPtr) (w : WatcherPtr) :
    (l.map Event.watcherSignal).count (Event.watcherSignal w) = l.count w := by
  induction l with
  | nil => rfl
  | cons a rest ih =>
    by_cases h : a = w
    · subst h; simp [ih]
    · have h2 : Event.watcherSignal a ≠ Event.watcherSignal w := by
        intro hc; exact h (Event.watcherSignal.inj hc)
      simp [List.count_cons, ih, h, h2]

theorem signalWatchers_signalCount (k : Kernel) (this : Pid) (w : WatcherPtr) :
    signalCount (signalWatchers k this) w = signalCount k w + (k.procs this).m_watching.count w := by
  rw [signalWatchers_eq]
  simp [signalCount, List.count_append, List.count_cons, count_map_watcherSignal]

theorem dieNotifyParent_quiet (k : Kernel) (this : Pid) : Quiet k (dieNotifyParent k this) := by
  unfold dieNotifyParent
  repeat' split
  · exact quiet_emit _ _ (by intro w; simp)
  · exact Quiet.qrefl _
  · exact Quiet.qrefl _

theorem dieExit_final (env : Env) (k : Kernel) (this : Pid) (thisThread : ThreadPtr) :
    (finalState id (dieExit env k this thisThread)).procs = k.procs ∧
      ∀ w, signalCount (finalState id (dieExit env k this thisThread)) w = signalCount k w := by
  unfold dieExit
  simp only []
  repeat' split
  all_goals
    refine ⟨rfl, fun w => ?_⟩
    simp [signalCount, List.count_append]

theorem dieFromDead_final (env : Env) (k : Kernel) (this : Pid) (thisThread : ThreadPtr) :
    (finalState id (dieFromDead env k this thisThread)).procs = (signalWatchers k this).procs ∧
      ∀ w, signalCount (finalState id (dieFromDead env k this thisThread)) w
        = signalCount k w + (k.procs this).m_watching.count w := by
  unfold dieFromDead
  simp only []
  have hn := dieNotifyParent_quiet (signalWatchers k this) this
  have he := dieExit_final env
    ((dieNotifyParent (signalWatchers k this) this).emit (Event.markedForDestruction this))
    this thisThread
  refine ⟨?_, fun w => ?_⟩
  · rw [he.1]; simp [hn.procs]
  · rw [he.2, signalCount_emit]
    simp [hn.signals, signalWatchers_signalCount]

/-! ## Operations that leave the lifecycle state alone -/

theorem killSweepPass_quiet (fuel : Nat) (k : Kernel) (running : List ThreadPtr) (it : Nat) :
    Quiet k (finalState Prod.fst (killSweepPass fuel k running it)) := by
  induction fuel generalizing k running it with
  | zero => exact Quiet.qrefl _
  | succ fuel ih =>
    unfold killSweepPass
    simp only []
    split
    · split
      · exact Quiet.qrefl _
      · split
        · refine Quiet.qtrans ?_ (ih _ _ _)
          refine Quiet.qtrans (acquireTestLock_quiet k (running.getD it 0)) ?_
          refine Quiet.qtrans (quiet_emit _ _ ?_)
            (Quiet.qtrans (markDying_quiet _ _) (quiet_emit _ _ ?_))
          all_goals (intro w; simp)
        · exact (acquireTestLock_quiet k (running.getD it 0)).qtrans (ih _ _ _)
    · exact Quiet.qrefl _

theorem killSweep_quiet (env : Env) (fuel n : Nat) (k : Kernel) (running : List ThreadPtr) :
    Quiet k (finalState id (killSweep env fuel n k running)) := by
  induction fuel generalizing n k running with
  | zero => exact Quiet.qrefl _
  | succ fuel ih =>
    unfold killSweep
    split
    · have hp := killSweepPass_quiet ((running.length + 1) * (running.length + 1)) k running 0
      split
      · rename_i k1 running1 heq
        rw [heq] at hp
        exact (hp.qtrans (envUnpin_quiet env n k1 running1)).qtrans (ih _ _ _)
      · rename_i e heq
        rw [heq] at hp
        exact hp
    · exact Quiet.qrefl _

theorem killRemove_state (fuel : Nat) (k : Kernel) (this : Pid) (ref : ThreadPtr) (it : Nat)
    (p : Pid) :
    ((finalState id (killRemove fuel k this ref it)).procs p).m_state = (k.procs p).m_state := by
  induction fuel generalizing k it with
  | zero => rfl
  | succ fuel ih =>
    unfold killRemove
    simp only []
    repeat' split
    · rfl
    · rfl
    · rw [ih]
      by_cases h : p = this
      · subst h; simp
      · simp [h]
    · exact ih _ _

theorem kill_all_other_threads_state (env : Env) (fuel : Nat) (k : Kernel) (this : Pid)
    (thisThread : ThreadPtr) (p : Pid) :
    ((finalState id (kill_all_other_threads env fuel k this thisThread)).procs p).m_state
      = (k.procs p).m_state := by
  unfold kill_all_other_threads
  split
  · rfl
  · simp only []
    have hT := dieThreads_quiet k this thisThread
    have hS := killSweep_quiet env fuel 0 (dieThreads k this thisThread).1
      (dieThreads k this thisThread).2
    split
    · rename_i e heq
      rw [heq] at hS
      simp only [finalState_error] at hS ⊢
      rw [hS.procs, hT.procs]
    · rename_i k1 heq
      rw [heq] at hS
      simp only [finalState_ok, id] at hS
      rw [killRemove_state]
      by_cases h : p = this
      · subst h; simp [hS.procs, hT.procs]
      · simp [h, hS.procs, hT.procs]

theorem Watch_state (k : Kernel) (this : Pid) (watcher : WatcherPtr) (hasTerminated : Bool)
    (p : Pid) :
    ((finalState id (Watch k this watcher hasTerminated)).procs p).m_state
      = (k.procs p).m_state := by
  unfold Watch
  repeat' split
  · rfl
  · rfl
  · by_cases h : p = this
    · subst h; simp
    · simp [h]

theorem Unwatch_state (k : Kernel) (this : Pid) (watcher : WatcherPtr) (p : Pid) :
    ((finalState id (Unwatch k this watcher)).procs p).m_state = (k.procs p).m_state := by
  unfold Unwatch
  split
  · rfl
  · by_cases h : p = this
    · subst h; simp
    · simp [h]

theorem start_state (k : Kernel) (this : Pid) (p : Pid) :
    ((finalState id (start k this)).procs p).m_state = (k.procs p).m_state := by
  unfold start
  split
  · rfl
  · by_cases h : p = this
    · subst h; simp
    · simp [h]

theorem create_child_thread_state (x : Ext) (k : Kernel) (this : Pid) (entry stack : Nat)
    (p : Pid) :
    (((create_child_thread x k this entry stack).1).procs p).m_state = (k.procs p).m_state := by
  unfold create_child_thread
  by_cases h : p = this
  · subst h; simp
  · simp [h]

/-- The two ways `initialize_peb` ends: it stops at line 953 or 956 with the state as it was,
or the pointer is the base of the environment-block region and the block is written. -/
theorem initialize_peb_cases (x : Ext) (k : Kernel) (this : Pid) :
    (∃ s, initialize_peb x k this = .error (s, k) ∧ s.isAlignment = false) ∨
    ∃ usd peb, (k.procs this).userSharedDataRegion = some usd ∧
      (k.procs this).pebRegion = some peb ∧
      (k.threads (k.procs this).m_mainThread).gsBase = peb.base ∧
      initialize_peb x k this = .ok (k.setProc this
        { k.procs this with
          peb :=
            { self := (k.threads (k.procs this).m_mainThread).gsBase,
              pid := (k.procs this).m_pid,
              executableBaseAddress := 0x80000000,
              sharedDataBase := usd.base,
              sharedDataSize := usd.size,
              hirakuBase := usd.base + x.hirakuOffset,
              hirakuSize := x.hirakuSize } }) := by
  unfold initialize_peb
  simp only []
  split
  · left
    split
    · exact ⟨_, rfl, rfl⟩
    · exact ⟨_, rfl, rfl⟩
  · rename_i hreg
    split
    · left
      exact ⟨_, rfl, rfl⟩
    · rename_i usd husd
      right
      cases hp : (k.procs this).pebRegion with
      | none => rw [hp] at hreg; simp at hreg
      | some peb =>
        rw [hp] at hreg
        simp only [Option.map_some', ne_eq, Option.some.injEq, not_not] at hreg
        exact ⟨usd, peb, husd, rfl, hreg.symm, rfl⟩

theorem initialize_peb_state (x : Ext) (k : Kernel) (this : Pid) (p : Pid) :
    ((finalState id (initialize_peb x k this)).procs p).m_state = (k.procs p).m_state := by
  rcases initialize_peb_cases x k this with ⟨s, h, -⟩ | ⟨usd, peb, -, -, -, h⟩
  · rw [h]; rfl
  · rw [h]
    by_cases h : p = this
    · subst h; simp
    · simp [h]

theorem map_user_shared_data_state (x : Ext) (k : Kernel) (this : Pid) (p : Pid) :
    ((finalState id (map_user_shared_data x k this)).procs p).m_state
      = (k.procs p).m_state := by
  unfold map_user_shared_data
  split
  · rfl
  · by_cases h : p = this
    · subst h; simp
    · simp [h]

theorem map_process_environment_block_state (x : Ext) (k : Kernel) (this : Pid) (p : Pid) :
    ((finalState id (map_process_environment_block x k this)).procs p).m_state
      = (k.procs p).m_state := by
  unfold map_process_environment_block
  split
  · rfl
  · by_cases h : p = this
    · subst h; simp
    · simp [h]

theorem load_elf_state (x : Ext) (k : Kernel) (this : Pid) (sp : Nat) (elfInfo : ELFData)
    (argv envp : List (List Nat)) (execPath : Option (List Nat)) (p : Pid) :
    ((finalState Prod.fst (load_elf x k this sp elfInfo argv envp execPath)).procs p).m_state
      = (k.procs p).m_state := by
  have hlay : ∀ (k1 : Kernel) (rip : Nat),
      ((finalState Prod.fst
        (loadElfLayout k1 this rip sp elfInfo argv envp execPath)).procs p).m_state
        = (k1.procs p).m_state := by
    intro k1 rip
    unfold loadElfLayout
    simp only []
    split <;> rfl
  have hrel : ∀ (k1 : Kernel) (dynamic tables : Bool) (plt : List PltEntry),
      ((finalState id (loadElfRelocate k1 this dynamic tables plt)).procs p).m_state
        = (k1.procs p).m_state := by
    intro k1 dynamic tables plt
    unfold loadElfRelocate
    repeat' split
    all_goals rfl
  unfold load_elf
  split
  · split
    · rfl
    · rfl
    · rfl
    · refine state_bind p id Prod.fst (initialize_peb_state x k this p) fun k1 _ => ?_
      exact state_bind p id Prod.fst (hrel k1 _ _ _) fun k2 _ => hlay k2 _
  · exact state_bind p id Prod.fst (initialize_peb_state x k this p) fun k1 _ => hlay k1 _

theorem construct_state (x : Ext) (k : Kernel) (pid : Pid) (parent : Option Pid) (p : Pid)
    (hp : p ≠ pid) :
    ((finalState id (construct x k pid parent)).procs p).m_state = (k.procs p).m_state := by
  unfold construct
  split
  · rfl
  · simp [hp]

theorem forkAddressSpace_state (k : Kernel) (this pid p : Pid) :
    ((finalState id (forkAddressSpace k this pid)).procs p).m_state = (k.procs p).m_state := by
  unfold forkAddressSpace
  split
  · by_cases h : p = pid
    · subst h; simp
    · simp [h]
  · rfl

theorem forkInherit_state (k : Kernel) (this pid p : Pid) :
    ((forkInherit k this pid).procs p).m_state = (k.procs p).m_state := by
  unfold forkInherit
  by_cases h1 : p = this
  · subst h1
    by_cases h2 : p = pid
    · subst h2; simp
    · simp [h2]
  · by_cases h2 : p = pid
    · subst h2; simp [h1]
    · simp [h1, h2]

theorem forkSharedData_state (x : Ext) (k : Kernel) (this pid p : Pid) :
    ((finalState id (forkSharedData x k this pid)).procs p).m_state = (k.procs p).m_state := by
  unfold forkSharedData
  split
  · split
    · by_cases h : p = pid
      · subst h; simp
      · simp [h]
    · exact map_user_shared_data_state x k pid p
  · rfl

theorem forkEnvironment_state (x : Ext) (k : Kernel) (pid p : Pid) :
    ((finalState id (forkEnvironment x k pid)).procs p).m_state = (k.procs p).m_state := by
  unfold forkEnvironment
  refine state_bind p id id (map_process_environment_block_state x k pid p) fun k1 _ => ?_
  split
  · rfl
  · refine state_bind p id id ?_ fun k3 _ => rfl
    rw [initialize_peb_state]
    rfl

theorem fork_state (x : Ext) (k : Kernel) (this : Pid) (thisThread : ThreadPtr) (p : Pid)
    (hp : p ≠ k.nextPID) :
    ((finalState Prod.fst (fork x k this thisThread)).procs p).m_state = (k.procs p).m_state := by
  unfold fork
  split
  · rfl
  · refine state_bind p id Prod.fst ?_ fun k1 _ => ?_
    · exact construct_state x { k with nextPID := k.nextPID + 1 } k.nextPID (some this) p hp
    · refine state_bind p id Prod.fst (forkAddressSpace_state k1 this k.nextPID p) fun k2 _ => ?_
      refine state_bind p id Prod.fst ?_ fun k3 _ => ?_
      · rw [forkSharedData_state, forkInherit_state]; rfl
      · exact state_bind p id Prod.fst (forkEnvironment_state x k3 k.nextPID p) fun k4 _ => rfl

theorem execveSwapSpace_state (k : Kernel) (this p : Pid) :
    ((execveSwapSpace k this).procs p).m_state = (k.procs p).m_state := by
  unfold execveSwapSpace
  simp only []
  split
  all_goals
    by_cases h : p = this
    · subst h; simp
    · simp [h]

theorem execveMap_state (x : Ext) (k : Kernel) (this : Pid) (thisThread : ThreadPtr) (p : Pid) :
    ((finalState id (execveMap x k this thisThread)).procs p).m_state = (k.procs p).m_state := by
  unfold execveMap
  simp only []
  refine state_bind p id id (map_user_shared_data_state x _ this p) fun k2 _ => ?_
  refine state_bind p id id (map_process_environment_block_state x k2 this p) fun k3 _ => ?_
  split
  · rfl
  · rfl

theorem execveFinish_state (thisThread : ThreadPtr) (r : Kernel × Except Nat (Nat × Nat))
    (p : Pid) :
    ((finalState Prod.fst (execveFinish thisThread r)).procs p).m_state
      = (r.1.procs p).m_state := by
  unfold execveFinish
  repeat' split
  all_goals rfl

theorem execve_state (x : Ext) (k : Kernel) (this : Pid) (thisThread : ThreadPtr)
    (exe : ELFData) (argv envp : List (List Nat)) (execPath : Option (List Nat)) (p : Pid) :
    ((finalState Prod.fst (execve x k this thisThread exe argv envp execPath)).procs p).m_state
      = (k.procs p).m_state := by
  unfold execve
  split
  · rfl
  · split
    · exact execveSwapSpace_state k this p
    · refine state_bind p id Prod.fst ?_ fun k1 _ => ?_
      · rw [execveMap_state, execveSwapSpace_state]
      · exact state_bind p Prod.fst Prod.fst (load_elf_state x k1 this _ exe argv envp execPath p)
          fun r _ => execveFinish_state thisThread r p

/-! ## `die` as a whole -/

theorem dieEnter_state (k : Kernel) (this : Pid) (thisThread : ThreadPtr) (p : Pid) :
    ((finalState id (dieEnter k this thisThread)).procs p).m_state = (k.procs p).m_state ∨
      (p = this ∧ (k.procs this).m_state = ProcessState.Process_Running ∧
        ((finalState id (dieEnter k this thisThread)).procs p).m_state
          = ProcessState.Process_Dying) := by
  unfold dieEnter
  split
  · exact Or.inl rfl
  · rename_i hs
    simp only []
    split
    · left
      split <;> (split <;> rfl)
    · by_cases hp : p = this
      · right
        subst hp
        refine ⟨rfl, not_not.mp hs, ?_⟩
        split <;> simp
      · left
        split <;> simp [hp]

theorem dieEnter_children (k k1 : Kernel) (this : Pid) (thisThread : ThreadPtr)
    (h : dieEnter k this thisThread = .ok k1) :
    (k1.procs this).m_children = (k.procs this).m_children := by
  obtain ⟨-, hk1⟩ := dieEnter_ok k k1 this thisThread h
  rw [hk1]; simp

theorem dieQuiesce_state (env : Env) (fuel : Nat) (k : Kernel) (this : Pid)
    (thisThread : ThreadPtr) (p : Pid) (hp : p ∉ (k.procs this).m_children) :
    ((finalState id (dieQuiesce env fuel k this thisThread)).procs p).m_state
      = (k.procs p).m_state := by
  have hT := dieThreads_quiet k this thisThread
  unfold dieQuiesce
  refine state_bind p id id ?_ fun k1 _ => ?_
  · rw [((dieChildren_frame env fuel _ this).2 p (by rw [hT.procs]; exact hp)).1, hT.procs]
  · rw [(dieSweep_quiet env fuel 0 k1 _).procs]; rfl

theorem dieUntilDead_state (env : Env) (fuel : Nat) (k : Kernel) (this : Pid)
    (thisThread : ThreadPtr) (cpu : Nat) (p : Pid) (hp1 : p ≠ this)
    (hp2 : p ∉ (k.procs this).m_children) :
    ((finalState id (dieUntilDead env fuel k this thisThread cpu)).procs p).m_state
      = (k.procs p).m_state := by
  unfold dieUntilDead
  refine state_bind p id id ?_ fun k1 h1 => ?_
  · rcases dieEnter_state k this thisThread p with h | ⟨h, -⟩
    · exact h
    · exact absurd h hp1
  · refine state_bind p id id ?_ fun k2 _ => ?_
    · exact dieQuiesce_state env fuel k1 this thisThread p
        (by rw [dieEnter_children k k1 this thisThread h1]; exact hp2)
    · refine state_bind p id id ?_ fun k3 _ => ?_
      · rw [(dieEvict_quiet fuel k2 this thisThread cpu).procs]; rfl
      · simp [dieCloseHandles, hp1]

theorem signalWatchers_state_ne (k : Kernel) (this p : Pid) (hp : p ≠ this) :
    ((signalWatchers k this).procs p).m_state = (k.procs p).m_state := by
  rw [signalWatchers_eq]; simp [hp]

theorem die_state (env : Env) (fuel : Nat) (k : Kernel) (this : Pid)
    (thisThread : ThreadPtr) (cpu : Nat) (p : Pid) (hp1 : p ≠ this)
    (hp2 : p ∉ (k.procs this).m_children) :
    ((finalState id (die env fuel k this thisThread cpu)).procs p).m_state
      = (k.procs p).m_state := by
  unfold die
  refine state_bind p id id (dieUntilDead_state env fuel k this thisThread cpu p hp1 hp2)
    fun k1 _ => ?_
  rw [(dieFromDead_final env k1 this thisThread).1]
  exact signalWatchers_state_ne k1 this p hp1

theorem dieAwaitChild_parent (env : Env) (k : Kernel) (c p : Pid) :
    ((finalState id (dieAwaitChild env k c)).procs p).m_parent = (k.procs p).m_parent := by
  by_cases hp : p = c
  · subst hp
    unfold dieAwaitChild
    split
    · simp only []
      split <;> simp [childTerminates]
    · split
      · rename_i hd
        rw [Watch_dying k p env.localWatcher hd]
        simp only []
        split <;> simp [childTerminates]
      · rfl
  · rw [(dieAwaitChild_frame env k c).2 p hp]

theorem dieChild_error (env : Env) (k : Kernel) (this c : Pid) (e : Stop × Kernel)
    (h : dieChild env k this c = .error e) :
    e.1 = Stop.waitsForever ∧
      (e.2.procs this).m_children = (k.procs this).m_children ∧
      (e.2.procs c).m_parent = (k.procs c).m_parent := by
  unfold dieChild at h
  cases hr : dieAwaitChild env k c with
  | ok k1 => rw [hr, bind_ok] at h; cases h
  | error e1 =>
    rw [hr, bind_error] at h
    cases h
    have h1 := dieAwaitChild_children env k c this
    have h2 := dieAwaitChild_parent env k c c
    rw [hr] at h1 h2
    refine ⟨?_, h1, h2⟩
    unfold dieAwaitChild at hr
    split at hr
    · simp only [] at hr
      split at hr
      · cases hr
      · cases hr; rfl
    · split at hr
      · rename_i hd
        rw [Watch_dying k c env.localWatcher hd] at hr
        simp only [] at hr
        split at hr
        · cases hr
        · cases hr; rfl
      · cases hr

theorem die_not_running (env : Env) (fuel : Nat) (k : Kernel) (this : Pid)
    (thisThread : ThreadPtr) (cpu : Nat)
    (h : (k.procs this).m_state ≠ ProcessState.Process_Running) :
    die env fuel k this thisThread cpu = .error (Stop.assertFailed 543, k) := by
  unfold die dieUntilDead dieEnter
  rw [if_pos h]
  rfl

/-! ## Every ending of `die` -/

/-- However `dieEnter` ends, it signals no watcher and leaves the watcher list and the child
list of every process alone. -/
theorem dieEnter_watchers (k : Kernel) (this : Pid) (thisThread : ThreadPtr) :
    (∀ w, signalCount (finalState id (dieEnter k this thisThread)) w = signalCount k w) ∧
    (∀ p, ((finalState id (dieEnter k this thisThread)).procs p).m_watching
      = (k.procs p).m_watching) ∧
    (∀ p, ((finalState id (dieEnter k this thisThread)).procs p).m_children
      = (k.procs p).m_children) := by
  unfold dieEnter
  simp only []
  repeat' split
  all_goals
    refine ⟨fun w => ?_, fun p => ?_, fun p => ?_⟩
    · simp [signalCount, List.count_append]
    · by_cases hp : p = this <;> simp [hp]
    · by_cases hp : p = this <;> simp [hp]

/-- However `die` ends before the watcher block, it has signalled no watcher. -/
theorem dieUntilDead_signals (env : Env) (fuel : Nat) (k : Kernel) (this : Pid)
    (thisThread : ThreadPtr) (cpu : Nat) (w : WatcherPtr) :
    signalCount (finalState id (dieUntilDead env fuel k this thisThread cpu)) w
      = signalCount k w := by
  have hb : ∀ (a : Kernel) (r : Run) (f : Kernel → Run),
      signalCount (finalState id r) w = signalCount a w →
      (∀ a1, r = .ok a1 → signalCount (finalState id (f a1)) w = signalCount a1 w) →
      signalCount (finalState id (r >>= f)) w = signalCount a w := fun a r f h1 h2 =>
    rel_bind (fun a b => signalCount b w = signalCount a w)
      (fun _ _ _ hab hbc => hbc.trans hab) id id h1 h2
  unfold dieUntilDead
  refine hb _ _ _ ((dieEnter_watchers k this thisThread).1 w) fun k1 _ => ?_
  refine hb _ _ _ ?_ fun k2 _ => ?_
  · unfold dieQuiesce
    refine hb _ _ _ ?_ fun k3 _ => ?_
    · rw [(dieChildren_frame env fuel _ this).1.signals, (dieThreads_quiet k1 this thisThread).signals]
    · exact (dieSweep_quiet env fuel 0 k3 _).signals w
  · refine hb _ _ _ ((dieEvict_quiet fuel k2 this thisThread cpu).signals w) fun k3 _ => ?_
    simp [dieCloseHandles, signalCount, List.count_append]

/-- However `die` ends before the watcher block, the watcher list of a process that is not a
child of the dying process is as it was. -/
theorem dieUntilDead_watching (env : Env) (fuel : Nat) (k : Kernel) (this : Pid)
    (thisThread : ThreadPtr) (cpu : Nat) (p : Pid) (hp : p ∉ (k.procs this).m_children) :
    ((finalState id (dieUntilDead env fuel k this thisThread cpu)).procs p).m_watching
      = (k.procs p).m_watching := by
  have hb : ∀ (a : Kernel) (r : Run) (f : Kernel → Run),
      ((finalState id r).procs p).m_watching = (a.procs p).m_watching →
      (∀ a1, r = .ok a1 →
        ((finalState id (f a1)).procs p).m_watching = (a1.procs p).m_watching) →
      ((finalState id (r >>= f)).procs p).m_watching = (a.procs p).m_watching :=
    fun a r f h1 h2 =>
      rel_bind (fun a b => (b.procs p).m_watching = (a.procs p).m_watching)
        (fun _ _ _ hab hbc => hbc.trans hab) id id h1 h2
  unfold dieUntilDead
  refine hb _ _ _ ((dieEnter_watchers k this thisThread).2.1 p) fun k1 h1 => ?_
  have hc : p ∉ (k1.procs this).m_children := by
    rw [dieEnter_children k k1 this thisThread h1]; exact hp
  refine hb _ _ _ ?_ fun k2 _ => ?_
  · unfold dieQuiesce
    have hT := dieThreads_quiet k1 this thisThread
    refine hb _ _ _ ?_ fun k3 _ => ?_
    · rw [((dieChildren_frame env fuel _ this).2 p (by rw [hT.procs]; exact hc)).2, hT.procs]
    · rw [(dieSweep_quiet env fuel 0 k3 _).procs]
  · refine hb _ _ _ ?_ fun k3 _ => ?_
    · rw [(dieEvict_quiet fuel k2 this thisThread cpu).procs]
    · by_cases hpt : p = this <;> simp [dieCloseHandles, hpt]

/-- However `die` ends before the watcher block, the state of the dying process, when it is
not its own child, is the one `die` found or `Process_Dying` written over
`Process_Running`. -/
theorem dieUntilDead_state_self (env : Env) (fuel : Nat) (k : Kernel) (this : Pid)
    (thisThread : ThreadPtr) (cpu : Nat) (hself : this ∉ (k.procs this).m_children) :
    ((finalState id (dieUntilDead env fuel k this thisThread cpu)).procs this).m_state
        = (k.procs this).m_state ∨
      ((k.procs this).m_state = ProcessState.Process_Running ∧
        ((finalState id (dieUntilDead env fuel k this thisThread cpu)).procs this).m_state
          = ProcessState.Process_Dying) := by
  have hE := dieEnter_state k this thisThread this
  unfold dieUntilDead
  cases h1 : dieEnter k this thisThread with
  | error e =>
    rw [h1] at hE
    rw [bind_error]
    rcases hE with h | ⟨-, h2, h3⟩
    · exact Or.inl h
    · exact Or.inr ⟨h2, h3⟩
  | ok k1 =>
    rw [h1] at hE
    rw [bind_ok]
    have hrest : ((finalState id (dieQuiesce env fuel k1 this thisThread >>= fun k2 =>
        dieEvict fuel k2 this thisThread cpu >>= fun k3 =>
        (.ok (dieCloseHandles k3 this) : Run))).procs this).m_state
          = (k1.procs this).m_state := by
      refine state_bind this id id ?_ fun k2 _ => ?_
      · exact dieQuiesce_state env fuel k1 this thisThread this
          (by rw [dieEnter_children k k1 this thisThread h1]; exact hself)
      · refine state_bind this id id ?_ fun k3 _ => ?_
        · rw [(dieEvict_quiet fuel k2 this thisThread cpu).procs]; rfl
        · simp [dieCloseHandles]
    rw [hrest]
    rcases hE with h | ⟨-, h2, h3⟩
    · exact Or.inl h
    · exact Or.inr ⟨h2, h3⟩

/-- A `die` that does not reach the watcher block ends where it stopped. -/
theorem die_of_stop (env : Env) (fuel : Nat) (k : Kernel) (this : Pid)
    (thisThread : ThreadPtr) (cpu : Nat)
    (h : stopOf (dieUntilDead env fuel k this thisThread cpu) ≠ none) :
    die env fuel k this thisThread cpu = dieUntilDead env fuel k this thisThread cpu := by
  unfold die
  cases hr : dieUntilDead env fuel k this thisThread cpu with
  | ok k1 => rw [hr] at h; exact absurd rfl h
  | error e => rfl


/-- However the wait for child `c` ends, no process changes its state, except that `c` is
`Process_Dead` when the environment has driven it there. -/
theorem dieAwaitChild_state (env : Env) (k : Kernel) (c p : Pid) :
    ((finalState id (dieAwaitChild env k c)).procs p).m_state = (k.procs p).m_state ∨
      (p = c ∧ env.childDies c = true ∧
        ((finalState id (dieAwaitChild env k c)).procs p).m_state
          = ProcessState.Process_Dead) := by
  by_cases hp : p = c
  · subst hp
    unfold dieAwaitChild
    split
    · simp only []
      split
      · rename_i hd
        exact Or.inr ⟨by simp, hd, by simp [childTerminates]⟩
      · exact Or.inl rfl
    · split
      · rename_i hd
        rw [Watch_dying k p env.localWatcher hd]
        simp only []
        split
        · rename_i hcd
          exact Or.inr ⟨by simp, hcd, by simp [childTerminates]⟩
        · exact Or.inl (by simp)
      · exact Or.inl rfl
  · rw [(dieAwaitChild_frame env k c).2 p hp]
    exact Or.inl rfl

theorem dieChild_state (env : Env) (k : Kernel) (this c p : Pid) :
    ((finalState id (dieChild env k this c)).procs p).m_state = (k.procs p).m_state ∨
      (p = c ∧ env.childDies c = true ∧
        ((finalState id (dieChild env k this c)).procs p).m_state
          = ProcessState.Process_Dead) := by
  have hA := dieAwaitChild_state env k c p
  unfold dieChild
  cases hr : dieAwaitChild env k c with
  | error e =>
    rw [hr] at hA
    rw [bind_error]
    exact hA
  | ok k1 =>
    rw [hr] at hA
    rw [bind_ok]
    simp only [finalState_ok, id] at hA ⊢
    rw [dieUnlinkChild_state]
    exact hA

/-- However the child loop ends, no process changes its state, except that a child of the
dying process is `Process_Dead` when the environment has driven it there. -/
theorem dieChildren_state (env : Env) (fuel : Nat) (k : Kernel) (this p : Pid) :
    ((finalState id (dieChildren env fuel k this)).procs p).m_state = (k.procs p).m_state ∨
      (p ∈ (k.procs this).m_children ∧ env.childDies p = true ∧
        ((finalState id (dieChildren env fuel k this)).procs p).m_state
          = ProcessState.Process_Dead) := by
  induction fuel generalizing k with
  | zero => exact Or.inl rfl
  | succ fuel ih =>
    unfold dieChildren
    split
    · exact Or.inl rfl
    · rename_i c cs hcs
      have hC := dieChild_state env k this c p
      have hmem : c ∈ (k.procs this).m_children := by rw [hcs]; exact List.mem_cons_self _ _
      cases hr : dieChild env k this c with
      | error e =>
        rw [hr] at hC
        rw [bind_error]
        rcases hC with h | ⟨h1, h2, h3⟩
        · exact Or.inl h
        · exact Or.inr ⟨h1 ▸ hmem, h1 ▸ h2, h3⟩
      | ok k1 =>
        rw [hr] at hC
        simp only [finalState_ok, id] at hC
        rw [bind_ok]
        obtain ⟨-, -, hch⟩ := dieChild_ok env k k1 this c hr
        have hfr := (dieChildren_frame env fuel k1 this).1
        rcases ih k1 with h | ⟨h1, h2, h3⟩
        · rcases hC with g | ⟨g1, g2, g3⟩
          · exact Or.inl (h.trans g)
          · exact Or.inr ⟨g1 ▸ hmem, g1 ▸ g2, h.trans g3⟩
        · refine Or.inr ⟨?_, h2, h3⟩
          rw [hch] at h1
          exact (mem_listRemove.mp h1).1

theorem dieQuiesce_state_other (env : Env) (fuel : Nat) (k : Kernel) (this : Pid)
    (thisThread : ThreadPtr) (p : Pid) :
    ((finalState id (dieQuiesce env fuel k this thisThread)).procs p).m_state
        = (k.procs p).m_state ∨
      (p ∈ (k.procs this).m_children ∧ env.childDies p = true ∧
        ((finalState id (dieQuiesce env fuel k this thisThread)).procs p).m_state
          = ProcessState.Process_Dead) := by
  have hT := dieThreads_quiet k this thisThread
  have hC := dieChildren_state env fuel (dieThreads k this thisThread).1 this p
  rw [hT.procs] at hC
  unfold dieQuiesce
  cases h2 : dieChildren env fuel (dieThreads k this thisThread).1 this with
  | error e =>
    rw [h2] at hC
    exact hC
  | ok kc =>
    rw [h2] at hC
    simp only [finalState_ok, id] at hC
    rw [bind_ok, (dieSweep_quiet env fuel 0 kc _).procs]
    exact hC

theorem dieUntilDead_state_other (env : Env) (fuel : Nat) (k : Kernel) (this : Pid)
    (thisThread : ThreadPtr) (cpu : Nat) (p : Pid) (hp : p ≠ this) :
    ((finalState id (dieUntilDead env fuel k this thisThread cpu)).procs p).m_state
        = (k.procs p).m_state ∨
      (p ∈ (k.procs this).m_children ∧ env.childDies p = true ∧
        ((finalState id (dieUntilDead env fuel k this thisThread cpu)).procs p).m_state
          = ProcessState.Process_Dead) := by
  have hE : ((finalState id (dieEnter k this thisThread)).procs p).m_state
      = (k.procs p).m_state := by
    rcases dieEnter_state k this thisThread p with h | ⟨h, -⟩
    · exact h
    · exact absurd h hp
  unfold dieUntilDead
  cases h1 : dieEnter k this thisThread with
  | error e =>
    rw [h1] at hE
    exact Or.inl hE
  | ok k1 =>
    rw [h1] at hE
    simp only [finalState_ok, id] at hE
    rw [bind_ok]
    have hQ := dieQuiesce_state_other env fuel k1 this thisThread p
    rw [dieEnter_children k k1 this thisThread h1, hE] at hQ
    cases h2 : dieQuiesce env fuel k1 this thisThread with
    | error e =>
      rw [h2] at hQ
      exact hQ
    | ok k2 =>
      rw [h2] at hQ
      simp only [finalState_ok, id] at hQ
      rw [bind_ok]
      have hrest : ((finalState id (dieEvict fuel k2 this thisThread cpu >>= fun k3 =>
          (.ok (dieCloseHandles k3 this) : Run))).procs p).m_state = (k2.procs p).m_state := by
        refine state_bind p id id ?_ fun k3 _ => ?_
        · rw [(dieEvict_quiet fuel k2 this thisThread cpu).procs]
        · simp [dieCloseHandles, hp]
      rw [hrest]
      exact hQ

/-- However `die` ends, a process other than the dying one keeps its state, except that a
child of the dying process is `Process_Dead` when the environment has driven it there. -/
theorem die_state_other (env : Env) (fuel : Nat) (k : Kernel) (this : Pid)
    (thisThread : ThreadPtr) (cpu : Nat) (p : Pid) (hp : p ≠ this) :
    ((finalState id (die env fuel k this thisThread cpu)).procs p).m_state
        = (k.procs p).m_state ∨
      (p ∈ (k.procs this).m_children ∧ env.childDies p = true ∧
        ((finalState id (die env fuel k this thisThread cpu)).procs p).m_state
          = ProcessState.Process_Dead) := by
  have hU := dieUntilDead_state_other env fuel k this thisThread cpu p hp
  unfold die
  cases hr : dieUntilDead env fuel k this thisThread cpu with
  | error e =>
    rw [hr] at hU
    exact hU
  | ok k1 =>
    rw [hr] at hU
    simp only [finalState_ok, id] at hU
    rw [bind_ok, (dieFromDead_final env k1 this thisThread).1,
      signalWatchers_state_ne k1 this p hp]
    exact hU

/-- However `die` ends, the state of the dying process, when it is not its own child, is the
one `die` found, or `Process_Dying` over `Process_Running` when `die` stopped before the
watcher block, or `Process_Dead` over `Process_Running` when it reached the block. -/
theorem die_state_self (env : Env) (fuel : Nat) (k : Kernel) (this : Pid)
    (thisThread : ThreadPtr) (cpu : Nat) (hself : this ∉ (k.procs this).m_children) :
    ((finalState id (die env fuel k this thisThread cpu)).procs this).m_state
        = (k.procs this).m_state ∨
      ((k.procs this).m_state = ProcessState.Process_Running ∧
        ((finalState id (die env fuel k this thisThread cpu)).procs this).m_state
          = ProcessState.Process_Dying ∧
        stopOf (dieUntilDead env fuel k this thisThread cpu) ≠ none) ∨
      ((k.procs this).m_state = ProcessState.Process_Running ∧
        ((finalState id (die env fuel k this thisThread cpu)).procs this).m_state
          = ProcessState.Process_Dead ∧
        stopOf (dieUntilDead env fuel k this thisThread cpu) = none) := by
  cases hr : dieUntilDead env fuel k this thisThread cpu with
  | error e =>
    have hs : stopOf (dieUntilDead env fuel k this thisThread cpu) ≠ none := by
      rw [hr]; simp [stopOf]
    have h := dieUntilDead_state_self env fuel k this thisThread cpu hself
    rw [die_of_stop env fuel k this thisThread cpu hs, hr]
    rw [hr] at h
    rcases h with h | ⟨h1, h2⟩
    · exact Or.inl h
    · exact Or.inr (Or.inl ⟨h1, h2, by simp [stopOf]⟩)
  | ok k1 =>
    obtain ⟨hrun, -⟩ := dieUntilDead_ok env fuel k k1 this thisThread cpu hr
    refine Or.inr (Or.inr ⟨hrun, ?_, rfl⟩)
    unfold die
    rw [hr, bind_ok, (dieFromDead_final env k1 this thisThread).1, signalWatchers_eq]
    simp

/-- However `die` ends, the state of the dying process is the one `die` found, or
`Process_Dying` or `Process_Dead` over `Process_Running`. -/
theorem die_state_any (env : Env) (fuel : Nat) (k : Kernel) (this : Pid)
    (thisThread : ThreadPtr) (cpu : Nat) :
    ((finalState id (die env fuel k this thisThread cpu)).procs this).m_state
        = (k.procs this).m_state ∨
      ((k.procs this).m_state = ProcessState.Process_Running ∧
        (((finalState id (die env fuel k this thisThread cpu)).procs this).m_state
            = ProcessState.Process_Dying ∨
          ((finalState id (die env fuel k this thisThread cpu)).procs this).m_state
            = ProcessState.Process_Dead)) := by
  cases hr : dieUntilDead env fuel k this thisThread cpu with
  | ok kd =>
    obtain ⟨hrun, -⟩ := dieUntilDead_ok env fuel k kd this thisThread cpu hr
    refine Or.inr ⟨hrun, Or.inr ?_⟩
    unfold die
    rw [hr, bind_ok, (dieFromDead_final env kd this thisThread).1, signalWatchers_eq]
    simp
  | error e =>
    have hs : stopOf (dieUntilDead env fuel k this thisThread cpu) ≠ none := by
      rw [hr]; simp [stopOf]
    rw [die_of_stop env fuel k this thisThread cpu hs]
    have hE := dieEnter_state k this thisThread this
    unfold dieUntilDead
    cases h1 : dieEnter k this thisThread with
    | error e1 =>
      rw [h1] at hE
      rw [bind_error]
      rcases hE with h | ⟨-, h2, h3⟩
      · exact Or.inl h
      · exact Or.inr ⟨h2, Or.inl h3⟩
    | ok k1 =>
      obtain ⟨hrun, hk1⟩ := dieEnter_ok k k1 this thisThread h1
      have hd : (k1.procs this).m_state = ProcessState.Process_Dying := by
        rw [hk1]; simp
      rw [bind_ok]
      refine Or.inr ⟨hrun, ?_⟩
      have hQ := dieQuiesce_state_other env fuel k1 this thisThread this
      rw [hd] at hQ
      cases h2 : dieQuiesce env fuel k1 this thisThread with
      | error e2 =>
        rw [h2] at hQ
        rw [bind_error]
        rcases hQ with h | ⟨-, -, h⟩
        · exact Or.inl h
        · exact Or.inr h
      | ok k2 =>
        rw [h2] at hQ
        simp only [finalState_ok, id] at hQ
        rw [bind_ok]
        have hrest : ((finalState id (dieEvict fuel k2 this thisThread cpu >>= fun k3 =>
            (.ok (dieCloseHandles k3 this) : Run))).procs this).m_state
              = (k2.procs this).m_state := by
          refine state_bind this id id ?_ fun k3 _ => ?_
          · rw [(dieEvict_quiet fuel k2 this thisThread cpu).procs]
          · simp [dieCloseHandles]
        rw [hrest]
        rcases hQ with h | ⟨-, -, h⟩
        · exact Or.inl h
        · exact Or.inr h

/-! ## Progress of `die` -/

/-- A caller of `die` that is the main thread of its own process is not redirected: it
writes `Process_Dying` and goes on, unless it does not hold its own kernel lock. -/
theorem dieEnter_main (k : Kernel) (this : Pid) (thisThread : ThreadPtr)
    (hrun : (k.procs this).m_state = ProcessState.Process_Running)
    (hmain : thisThread = (k.procs (k.threads thisThread).parent).m_mainThread) :
    dieEnter k this thisThread
      = if (k.threads thisThread).kernelLock then
          .ok (acquireTestLock (k.writeProcessState this ProcessState.Process_Dying)
            thisThread).2
        else
          .error (Stop.assertFailed 567,
            (acquireTestLock (k.writeProcessState this ProcessState.Process_Dying)
              thisThread).2) := by
  unfold dieEnter
  rw [if_neg (by simp [hrun]), if_neg (by simpa using hmain)]
  simp only [acquireTestLock_fst, Kernel.writeProcessState_threads]
  by_cases hl : (k.threads thisThread).kernelLock = true
  · simp [hl]
  · simp [hl]

theorem dieVisitThread_threads_ne (thisThread : ThreadPtr) (acc : Kernel × List ThreadPtr)
    (thread x : ThreadPtr) (h : x ≠ thread) :
    (dieVisitThread thisThread acc thread).1.threads x = acc.1.threads x := by
  unfold dieVisitThread
  split
  · simp only []
    rw [dieRetireThread_threads_ne _ _ _ h, dieWakeThread_threads_ne _ _ _ h]
  · rfl

theorem mem_eraseIdx_of_ne (l : List Nat) (i t : Nat) (h : t ∈ l) (hne : l.getD i 0 ≠ t) :
    t ∈ l.eraseIdx i := by
  rw [List.mem_eraseIdx_iff_getElem?]
  obtain ⟨j, hj⟩ := List.mem_iff_getElem?.mp h
  refine ⟨j, ?_, hj⟩
  intro hji
  subst hji
  apply hne
  simp [List.getD, hj]

theorem markDying_gone (k : Kernel) (t : ThreadPtr) : Gone (markDying k t) t := by
  simp [Gone, markDying_threads]

theorem dieSweepPass_keeps (fuel : Nat) (t : ThreadPtr) :
    ∀ (k : Kernel) (running : List ThreadPtr) (it : Nat) (k1 : Kernel)
      (running1 : List ThreadPtr), dieSweepPass fuel k running it = .ok (k1, running1) →
      (Gone k t → Gone k1 t) ∧
      ((k.threads t).kernelLock = true → (k1.threads t).kernelLock = true) := by
  induction fuel with
  | zero => intro k running it k1 running1 h; cases h
  | succ fuel ih =>
    intro k running it k1 running1 h
    unfold dieSweepPass at h
    simp only [acquireTestLock_fst, acquireTestLock_snd] at h
    generalize running.getD it 0 = thread at h
    split at h
    · split at h
      · obtain ⟨h1, h2⟩ := ih _ _ _ _ _ h
        refine ⟨fun hg => h1 ?_, fun hl => h2 ?_⟩
        · by_cases ht : t = thread
          · subst ht
            simp [Gone, markDying_threads]
          · simpa [Gone, markDying_threads, ht] using hg
        · by_cases ht : t = thread
          · subst ht
            simp [markDying_threads]
          · simpa [markDying_threads, ht] using hl
      · obtain ⟨h1, h2⟩ := ih _ _ _ _ _ h
        refine ⟨fun hg => h1 ?_, fun hl => h2 ?_⟩
        · by_cases ht : t = thread
          · subst ht
            simpa [Gone] using hg
          · simpa [Gone, ht] using hg
        · by_cases ht : t = thread
          · subst ht
            simp
          · simpa [ht] using hl
    · cases h
      exact ⟨id, id⟩

theorem dieSweepPass_leaves (fuel : Nat) :
    ∀ (k : Kernel) (running : List ThreadPtr) (it : Nat) (k1 : Kernel)
      (running1 : List ThreadPtr), dieSweepPass fuel k running it = .ok (k1, running1) →
      running1.Sublist running ∧
      (∀ t ∈ running, (k.threads t).kernelLock = true → t ∈ running1) ∧
      (∀ t ∈ running, t ∉ running1 → Gone k1 t) := by
  induction fuel with
  | zero => intro k running it k1 running1 h; cases h
  | succ fuel ih =>
    intro k running it k1 running1 h
    unfold dieSweepPass at h
    simp only [acquireTestLock_fst, acquireTestLock_snd] at h
    generalize hth : running.getD it 0 = thread at h
    split at h
    · split at h
      · rename_i hlock
        obtain ⟨h1, h2, h3⟩ := ih _ _ _ _ _ h
        refine ⟨h1.trans (List.eraseIdx_sublist _ _), ?_, ?_⟩
        · intro t ht hl
          have hne : thread ≠ t := by
            intro he
            rw [he, hl] at hlock
            simp at hlock
          apply h2 t (mem_eraseIdx_of_ne _ _ _ ht (by rw [hth]; exact hne))
          simpa [markDying_threads, Ne.symm hne] using hl
        · intro t ht hnot
          by_cases hmem : t ∈ running.eraseIdx it
          · exact h3 t hmem hnot
          · have heq : thread = t := by
              by_contra hne
              exact hmem (mem_eraseIdx_of_ne _ _ _ ht (by rw [hth]; exact hne))
            refine (dieSweepPass_keeps fuel t _ _ _ _ _ h).1 ?_
            subst heq
            simp [Gone, markDying_threads]
      · obtain ⟨h1, h2, h3⟩ := ih _ _ _ _ _ h
        refine ⟨h1, ?_, h3⟩
        intro t ht hl
        apply h2 t ht
        by_cases he : t = thread
        · subst he
          simp
        · simpa [he] using hl
    · cases h
      exact ⟨List.Sublist.refl _, fun t ht _ => ht, fun t ht hnot => absurd ht hnot⟩

/-- A pass of the sweep over `runningThreads` ends: a budget of `(length + 1) ^ 2` steps is
enough from the front of the list. -/
theorem dieSweepPass_returns (fuel : Nat) :
    ∀ (k : Kernel) (running : List ThreadPtr) (it : Nat), it ≤ running.length →
      running.length * (running.length + 1) + (running.length - it) + 1 ≤ fuel →
      ∃ r, dieSweepPass fuel k running it = .ok r := by
  induction fuel with
  | zero => intro k running it _ h; omega
  | succ fuel ih =>
    intro k running it hit hf
    unfold dieSweepPass
    simp only [acquireTestLock_fst, acquireTestLock_snd]
    split
    · rename_i hlt
      split
      · apply ih
        · exact Nat.zero_le _
        · rw [List.length_eraseIdx, if_pos hlt]
          obtain ⟨m, hm⟩ : ∃ m, running.length = m + 1 := ⟨running.length - 1, by omega⟩
          rw [hm] at hf hlt ⊢
          have e1 : (m + 1) * (m + 1 + 1) = m * (m + 1) + 2 * m + 2 := by ring
          simp only [Nat.add_sub_cancel, Nat.sub_zero]
          omega
      · apply ih
        · omega
        · omega
    · exact ⟨_, rfl⟩

theorem not_mem_eraseIdx_of_nodup (l : List Nat) (i : Nat) (h : i < l.length)
    (hnd : l.Nodup) : l[i] ∉ l.eraseIdx i := by
  intro hmem
  rw [List.mem_eraseIdx_iff_getElem?] at hmem
  obtain ⟨j, hj, hjt⟩ := hmem
  have hjl : j < l.length := by
    by_contra hc
    rw [List.getElem?_eq_none (by omega)] at hjt
    cases hjt
  rw [List.getElem?_eq_getElem hjl] at hjt
  exact hj ((List.Nodup.getElem_inj_iff hnd).mp (Option.some.inj hjt))

/-- With no thread twice on the list, a thread that a pass of the sweep leaves on the list had
its kernel lock held when the pass started. -/
theorem dieSweepPass_locked (fuel : Nat) :
    ∀ (k : Kernel) (running : List ThreadPtr) (it : Nat) (k1 : Kernel)
      (running1 : List ThreadPtr), running.Nodup →
      (∀ j (hj : j < running.length), j < it → (k.threads running[j]).kernelLock = true) →
      dieSweepPass fuel k running it = .ok (k1, running1) →
      ∀ t ∈ running1, (k.threads t).kernelLock = true := by
  induction fuel with
  | zero => intro k running it k1 running1 _ _ h; cases h
  | succ fuel ih =>
    intro k running it k1 running1 hnd hbefore h
    unfold dieSweepPass at h
    simp only [acquireTestLock_fst, acquireTestLock_snd] at h
    split at h
    · rename_i hlt
      have hget : running.getD it 0 = running[it] := by
        simp [List.getD, List.getElem?_eq_getElem hlt]
      rw [hget] at h
      split at h
      · intro t ht
        have hsub := (dieSweepPass_leaves fuel _ _ _ _ _ h).1
        have hmem : t ∈ running.eraseIdx it := hsub.subset ht
        have hne : t ≠ running[it] := by
          intro he
          rw [he] at hmem
          exact not_mem_eraseIdx_of_nodup running it hlt hnd hmem
        have := ih _ _ _ _ _ (hnd.sublist (List.eraseIdx_sublist _ _))
          (fun j _ hj0 => absurd hj0 (Nat.not_lt_zero _)) h t ht
        simpa [markDying_threads, hne] using this
      · rename_i hl
        have hl1 : (k.threads running[it]).kernelLock = true := by simpa using hl
        intro t ht
        have := ih _ _ _ _ _ hnd (fun j hj hj1 => by
          by_cases he : running[j] = running[it]
          · rw [he]; simp
          · have hjit : j < it := by
              rcases Nat.lt_succ_iff_lt_or_eq.mp hj1 with h1 | h1
              · exact h1
              · subst h1; exact absurd rfl he
            simpa [he] using hbefore j hj hjit) h t ht
        by_cases he : t = running[it]
        · rw [he]
          exact hl1
        · simpa [he] using this
    · obtain ⟨rfl, rfl⟩ : k = k1 ∧ running = running1 := by
        simpa using h
      intro t ht
      obtain ⟨j, hj, rfl⟩ := List.mem_iff_getElem.mp ht
      exact hbefore j hj (by omega)

theorem envUnpin_gone (env : Env) (n : Nat) (k : Kernel) (running : List ThreadPtr)
    (t : ThreadPtr) (h : Gone k t) : Gone (envUnpin env n k running) t := by
  unfold envUnpin Gone at *
  simp only []
  split <;> simpa using h

theorem envUnpin_lock (env : Env) (n : Nat) (k : Kernel) (running : List ThreadPtr)
    (t : ThreadPtr) (ht : t ∈ running) (hu : env.unpins n t = true) :
    ((envUnpin env n k running).threads t).kernelLock = false := by
  unfold envUnpin
  simp [ht, hu]

theorem dieSweepPass_front (k : Kernel) (running : List ThreadPtr) :
    ∃ r, dieSweepPass ((running.length + 1) * (running.length + 1)) k running 0 = .ok r := by
  apply dieSweepPass_returns _ k running 0 (Nat.zero_le _)
  have : (running.length + 1) * (running.length + 1)
      = running.length * (running.length + 1) + running.length + 1 := by ring
  omega

/-- A sweep over threads whose kernel locks are all free ends after one pass, with every one
of them dying. -/
theorem dieSweep_unlocked (env : Env) (fuel n : Nat) (k : Kernel) (running : List ThreadPtr)
    (hnd : running.Nodup) (hl : ∀ t ∈ running, (k.threads t).kernelLock = false)
    (hf : 2 ≤ fuel) :
    ∃ k1, dieSweep env fuel n k running = .ok k1 ∧ (∀ t, Gone k t → Gone k1 t) ∧
      ∀ t ∈ running, Gone k1 t := by
  obtain ⟨f, rfl⟩ : ∃ f, fuel = f + 2 := ⟨fuel - 2, by omega⟩
  unfold dieSweep
  split
  · obtain ⟨⟨k1, r1⟩, hr⟩ := dieSweepPass_front k running
    rw [hr]
    simp only []
    have hlocked := dieSweepPass_locked _ k running 0 k1 r1 hnd
      (fun j _ hj0 => absurd hj0 (Nat.not_lt_zero _)) hr
    obtain ⟨hsub, -, hgone⟩ := dieSweepPass_leaves _ k running 0 k1 r1 hr
    have hnil : r1 = [] := by
      cases r1 with
      | nil => rfl
      | cons a rest =>
        have h1 := hlocked a (List.mem_cons_self _ _)
        rw [hl a (hsub.subset (List.mem_cons_self _ _))] at h1
        cases h1
    subst hnil
    refine ⟨envUnpin env n k1 [], ?_, ?_, ?_⟩
    · unfold dieSweep
      simp
    · intro t ht
      exact envUnpin_gone _ _ _ _ _ ((dieSweepPass_keeps _ t k running 0 k1 [] hr).1 ht)
    · intro t ht
      exact envUnpin_gone _ _ _ _ _ (hgone t ht (List.not_mem_nil _))
  · rename_i hlen
    have hnil : running = [] := by
      cases running with
      | nil => rfl
      | cons a rest => simp at hlen
    subst hnil
    exact ⟨k, rfl, fun _ h => h, fun t ht => absurd ht (List.not_mem_nil _)⟩

/-- The sweep ends when the other processors release every pinned thread during one of the
sweeps `0` to `N`: every thread of `runningThreads` is dying then, and a dying thread stays
dying. -/
theorem dieSweep_returns (env : Env) (N : Nat) :
    ∀ (d fuel n : Nat) (k : Kernel) (running : List ThreadPtr), n + d = N + 1 →
      running.Nodup →
      (∀ t ∈ running, ∃ m, m ≤ N ∧ env.unpins m t = true) →
      (∀ t ∈ running, (k.threads t).kernelLock = false ∨ ∀ m, m < n → env.unpins m t = false) →
      d + 2 ≤ fuel →
      ∃ k1, dieSweep env fuel n k running = .ok k1 ∧ (∀ t, Gone k t → Gone k1 t) ∧
        ∀ t ∈ running, Gone k1 t := by
  intro d
  induction d with
  | zero =>
    intro fuel n k running hn hnd hu hinv hf
    refine dieSweep_unlocked env fuel n k running hnd (fun t ht => ?_) (by omega)
    rcases hinv t ht with h | h
    · exact h
    · obtain ⟨m, hm, hmt⟩ := hu t ht
      rw [h m (by omega)] at hmt
      cases hmt
  | succ d ih =>
    intro fuel n k running hn hnd hu hinv hf
    obtain ⟨f, rfl⟩ : ∃ f, fuel = f + 1 := ⟨fuel - 1, by omega⟩
    unfold dieSweep
    split
    · obtain ⟨⟨k1, r1⟩, hr⟩ := dieSweepPass_front k running
      rw [hr]
      simp only []
      obtain ⟨hsub, -, hgone⟩ := dieSweepPass_leaves _ k running 0 k1 r1 hr
      have hlocked := dieSweepPass_locked _ k running 0 k1 r1 hnd
        (fun j _ hj0 => absurd hj0 (Nat.not_lt_zero _)) hr
      obtain ⟨k2, h2, hk, hall⟩ := ih f (n + 1) (envUnpin env n k1 r1) r1 (by omega)
        (hnd.sublist hsub) (fun t ht => hu t (hsub.subset ht))
        (fun t ht => by
          by_cases hun : env.unpins n t = true
          · exact Or.inl (envUnpin_lock env n k1 r1 t ht hun)
          · right
            intro m hm
            rcases Nat.lt_succ_iff_lt_or_eq.mp hm with h1 | h1
            · rcases hinv t (hsub.subset ht) with h | h
              · rw [hlocked t ht] at h
                cases h
              · exact h m h1
            · subst h1
              simpa using hun)
        (by omega)
      refine ⟨k2, h2, fun t ht => ?_, fun t ht => ?_⟩
      · exact hk t (envUnpin_gone _ _ _ _ _ ((dieSweepPass_keeps _ t k running 0 k1 r1 hr).1 ht))
      · by_cases hm : t ∈ r1
        · exact hall t hm
        · exact hk t (envUnpin_gone _ _ _ _ _ (hgone t ht hm))
    · rename_i hlen
      have hnil : running = [] := by
        cases running with
        | nil => rfl
        | cons a rest => simp at hlen
      subst hnil
      exact ⟨k, rfl, fun _ h => h, fun t ht => absurd ht (List.not_mem_nil _)⟩

/-- The body of the thread loop for a thread other than the driving thread: with its kernel
lock free the thread is dying afterwards and `runningThreads` is as before, with its kernel
lock held the thread is added at the end of `runningThreads`. -/
theorem dieVisitThread_cases (thisThread thread : ThreadPtr) (acc : Kernel × List ThreadPtr)
    (hne : thread ≠ thisThread) (h0 : thread ≠ 0) :
    (Gone (dieVisitThread thisThread acc thread).1 thread ∧
      (dieVisitThread thisThread acc thread).2 = acc.2) ∨
    (dieVisitThread thisThread acc thread).2 = acc.2 ++ [thread] := by
  have hlock : ((dieWakeThread acc.1 thread).threads thread).kernelLock
      = (acc.1.threads thread).kernelLock := by
    unfold dieWakeThread
    simp only []
    repeat' split
    all_goals simp
  unfold dieVisitThread
  rw [if_pos ⟨hne, h0⟩]
  unfold dieRetireThread
  simp only [acquireTestLock_fst, acquireTestLock_snd, Kernel.writeThreadState_threads]
  cases hl : (acc.1.threads thread).kernelLock with
  | false =>
    left
    simp [hlock, hl, Gone, markDying_threads]
  | true =>
    right
    simp [hlock, hl]

theorem dieVisitThread_skip (thisThread thread : ThreadPtr) (acc : Kernel × List ThreadPtr)
    (h : ¬ (thread ≠ thisThread ∧ thread ≠ 0)) : dieVisitThread thisThread acc thread = acc := by
  unfold dieVisitThread
  rw [if_neg h]

/-- The thread loop over a list without repetitions: `runningThreads` has no repetitions and
holds visited threads only, threads that are not visited are left alone, and a visited thread
other than the driving thread that is not on `runningThreads` is dying. -/
theorem foldl_dieVisitThread_split (thisThread : ThreadPtr) :
    ∀ (l : List ThreadPtr) (acc : Kernel × List ThreadPtr), l.Nodup →
      (∀ t ∈ l, t ∉ acc.2) → acc.2.Nodup →
      (l.foldl (dieVisitThread thisThread) acc).2.Nodup ∧
      (∀ t ∈ (l.foldl (dieVisitThread thisThread) acc).2, t ∈ acc.2 ∨ t ∈ l) ∧
      (∀ t ∈ acc.2, t ∈ (l.foldl (dieVisitThread thisThread) acc).2) ∧
      (∀ t, t ∉ l → (l.foldl (dieVisitThread thisThread) acc).1.threads t = acc.1.threads t) ∧
      (∀ t ∈ l, t ≠ thisThread → t ≠ 0 → t ∉ (l.foldl (dieVisitThread thisThread) acc).2 →
        Gone (l.foldl (dieVisitThread thisThread) acc).1 t) := by
  intro l
  induction l with
  | nil =>
    intro acc _ _ hnd
    exact ⟨hnd, fun t ht => Or.inl ht, fun t ht => ht, fun t _ => rfl,
      fun t ht => absurd ht (List.not_mem_nil _)⟩
  | cons a rest ih =>
    intro acc hl hdis hnd
    rw [List.foldl_cons]
    obtain ⟨harest, hrest⟩ := List.nodup_cons.mp hl
    have ha : a ∉ acc.2 := hdis a (List.mem_cons_self _ _)
    have hacc2 : (dieVisitThread thisThread acc a).2 = acc.2 ∨
        (dieVisitThread thisThread acc a).2 = acc.2 ++ [a] := by
      by_cases hv : a ≠ thisThread ∧ a ≠ 0
      · rcases dieVisitThread_cases thisThread a acc hv.1 hv.2 with h | h
        · exact Or.inl h.2
        · exact Or.inr h
      · rw [dieVisitThread_skip thisThread a acc hv]
        exact Or.inl rfl
    have hnd1 : (dieVisitThread thisThread acc a).2.Nodup := by
      rcases hacc2 with h | h
      · rw [h]; exact hnd
      · rw [h]
        refine List.Nodup.append hnd (List.nodup_singleton a) ?_
        intro x hx hxa
        have hxe : x = a := by simpa using hxa
        exact ha (hxe ▸ hx)
    have hdis1 : ∀ t ∈ rest, t ∉ (dieVisitThread thisThread acc a).2 := by
      intro t ht hm
      have ht0 := hdis t (List.mem_cons_of_mem _ ht)
      rcases hacc2 with h | h
      · rw [h] at hm; exact ht0 hm
      · rw [h] at hm
        rcases List.mem_append.mp hm with h1 | h1
        · exact ht0 h1
        · have hta : t = a := by simpa using h1
          exact harest (hta ▸ ht)
    obtain ⟨i1, i2, i3, i4, i5⟩ := ih (dieVisitThread thisThread acc a) hrest hdis1 hnd1
    refine ⟨i1, fun t ht => ?_, fun t ht => ?_, fun t ht => ?_, fun t ht h1 h0 hnot => ?_⟩
    · rcases i2 t ht with h | h
      · rcases hacc2 with g | g
        · rw [g] at h; exact Or.inl h
        · rw [g] at h
          rcases List.mem_append.mp h with h1 | h1
          · exact Or.inl h1
          · have hta : t = a := by simpa using h1
            exact Or.inr (hta ▸ List.mem_cons_self _ _)
      · exact Or.inr (List.mem_cons_of_mem _ h)
    · apply i3
      rcases hacc2 with g | g
      · rw [g]; exact ht
      · rw [g]; exact List.mem_append_left _ ht
    · have hta : t ≠ a := fun he => ht (he ▸ List.mem_cons_self _ _)
      have htr : t ∉ rest := fun hm => ht (List.mem_cons_of_mem _ hm)
      rw [i4 t htr, dieVisitThread_threads_ne thisThread acc a t hta]
    · rcases List.mem_cons.mp ht with hta | htr
      · subst hta
        have hg : Gone (dieVisitThread thisThread acc t).1 t := by
          rcases dieVisitThread_cases thisThread t acc h1 h0 with h | h
          · exact h.1
          · exact absurd (i3 t (by rw [h]; simp)) hnot
        unfold Gone at *
        rw [i4 t harest]
        exact hg
      · exact i5 t htr h1 h0 hnot

theorem dieAwaitChild_returns (env : Env) (k : Kernel) (c : Pid)
    (h : (k.procs c).m_state = ProcessState.Process_Dead ∨ env.childDies c = true) :
    ∃ k1, dieAwaitChild env k c = .ok k1 := by
  unfold dieAwaitChild
  split
  · rename_i hr
    rcases h with h | h
    · rw [h] at hr; cases hr
    · simp [h]
  · split
    · rename_i hd
      rcases h with h | h
      · rw [h] at hd; cases hd
      · rw [Watch_dying k c env.localWatcher hd]
        simp [h]
    · exact ⟨k, rfl⟩

/-- The child loop ends when every child is dead or is driven there by the environment, with
a budget of one round per child and one more. -/
theorem dieChildren_returns (env : Env) :
    ∀ (fuel : Nat) (k : Kernel) (this : Pid),
      (∀ c ∈ (k.procs this).m_children,
        (k.procs c).m_state = ProcessState.Process_Dead ∨ env.childDies c = true) →
      (k.procs this).m_children.length + 1 ≤ fuel →
      ∃ k1, dieChildren env fuel k this = .ok k1 := by
  intro fuel
  induction fuel with
  | zero => intro k this _ h; omega
  | succ fuel ih =>
    intro k this hc hf
    unfold dieChildren
    split
    · exact ⟨k, rfl⟩
    · rename_i c cs hcs
      obtain ⟨ka, hka⟩ := dieAwaitChild_returns env k c
        (hc c (by rw [hcs]; exact List.mem_cons_self _ _))
      have hchild : dieChild env k this c = .ok (dieUnlinkChild ka this c) := by
        unfold dieChild
        rw [hka]
        rfl
      rw [hchild, bind_ok]
      obtain ⟨-, -, hch⟩ := dieChild_ok env k _ this c hchild
      have hfr := (dieChild_frame env k this c).1
      rw [hchild] at hfr
      simp only [finalState_ok, id] at hfr
      have hst := dieChild_state env k this c
      rw [hchild] at hst
      simp only [finalState_ok, id] at hst
      apply ih
      · intro c1 hc1
        rw [hch] at hc1
        obtain ⟨hm, -⟩ := mem_listRemove.mp hc1
        rcases hc c1 hm with h | h
        · exact Or.inl (hfr.dead c1 h)
        · exact Or.inr h
      · rw [hch, hcs]
        have : (listRemove (c :: cs) c).length ≤ cs.length := by
          unfold listRemove
          rw [List.filter_cons_of_neg (by simp)]
          exact List.length_filter_le _ _
        rw [hcs] at hf
        simp only [List.length_cons] at hf
        omega

theorem getD_mem (l : List Nat) (j : Nat) (h : j < l.length) : l.getD j 0 ∈ l := by
  rw [List.getD_eq_getElem _ _ h]
  exact List.getElem_mem h

theorem evict_budget (len len1 j fuel : Nat) (hj : j < len) (hl : len1 + 1 ≤ len)
    (hf : len * (len + 1) + (len - j) + 1 ≤ fuel + 1) :
    len1 * (len1 + 1) + (len1 - 1) + 1 ≤ fuel := by
  have h1 : len1 * (len1 + 1) ≤ (len - 1) * (len - 1 + 1) :=
    Nat.mul_le_mul (by omega) (by omega)
  obtain ⟨m, hm⟩ : ∃ m, len = m + 1 := ⟨len - 1, by omega⟩
  subst hm
  simp only [Nat.add_sub_cancel] at h1
  have e1 : (m + 1) * (m + 1 + 1) = m * (m + 1) + 2 * m + 2 := by ring
  omega

/-- The eviction loop on the processor that runs `die` ends when no entry of the run queue is
null, within `(length + 1) ^ 2` steps; it changes nothing but that run queue, which it only
shortens. -/
theorem dieEvictLocal_returns (fuel : Nat) :
    ∀ (k : Kernel) (this : Pid) (cpu j : Nat), (0 : Nat) ∉ (k.cpus cpu).runQueue →
      (k.cpus cpu).runQueue.length * ((k.cpus cpu).runQueue.length + 1)
        + ((k.cpus cpu).runQueue.length - j) + 1 ≤ fuel →
      ∃ k1, dieEvictLocal fuel k this cpu j = .ok k1 ∧ k1.threads = k.threads ∧
        k1.procs = k.procs ∧ k1.processorCount = k.processorCount ∧
        (∀ i, ((k1.cpus i).runQueue.Sublist (k.cpus i).runQueue) ∧
          (k1.cpus i).currentThread = (k.cpus i).currentThread) := by
  induction fuel with
  | zero => intro k this cpu j _ h; omega
  | succ fuel ih =>
    intro k this cpu j h0 hf
    unfold dieEvictLocal
    simp only []
    split
    · rename_i hlt
      have hmem := getD_mem _ _ hlt
      have hne0 : (k.cpus cpu).runQueue.getD j 0 ≠ 0 := fun he => h0 (he ▸ hmem)
      split
      · try rw [if_neg hne0]
        split
        · have hsub : ((k.cpus cpu).runQueue.eraseIdx j).Sublist (k.cpus cpu).runQueue :=
            List.eraseIdx_sublist _ _
          obtain ⟨k1, h1, h2, h3, h4, h5⟩ := ih (k.setCPU cpu
            { k.cpus cpu with runQueue := (k.cpus cpu).runQueue.eraseIdx j }) this cpu (0 + 1)
            (by simpa using fun hm => h0 (hsub.subset hm))
            (by
              simp only [Kernel.setCPU_cpus, if_true]
              refine evict_budget _ _ j fuel hlt ?_ hf
              rw [List.length_eraseIdx, if_pos hlt]
              omega)
          refine ⟨k1, h1, h2, h3, h4, fun i => ?_⟩
          obtain ⟨g1, g2⟩ := h5 i
          by_cases hi : i = cpu
          · subst hi
            simp only [Kernel.setCPU_cpus, if_true] at g1 g2
            exact ⟨g1.trans hsub, g2⟩
          · simp only [Kernel.setCPU_cpus, if_neg hi] at g1 g2
            exact ⟨g1, g2⟩
        · exact ih k this cpu (j + 1) h0 (by omega)
      · exact ih k this cpu (j + 1) h0 (by omega)
    · exact ⟨k, rfl, rfl, rfl, rfl, fun i => ⟨List.Sublist.refl _, rfl⟩⟩

theorem length_listRemove_lt (l : List Nat) (v : Nat) (h : v ∈ l) :
    (listRemove l v).length + 1 ≤ l.length := by
  unfold listRemove
  induction l with
  | nil => cases h
  | cons a rest ih =>
    by_cases ha : a = v
    · subst ha
      rw [List.filter_cons_of_neg (by simp)]
      have := List.length_filter_le (fun x => decide (x ≠ a)) rest
      simp only [List.length_cons]
      omega
    · rw [List.filter_cons_of_pos (by simpa using ha)]
      have hv : v ∈ rest := by
        rcases List.mem_cons.mp h with h1 | h1
        · exact absurd h1.symm ha
        · exact h1
      simp only [List.length_cons]
      have := ih hv
      omega

theorem listRemove_sublist (l : List Nat) (v : Nat) : (listRemove l v).Sublist l :=
  List.filter_sublist l

/-- The run-queue loop for another processor ends when no entry of the run queue is null,
within `(length + 1) ^ 2` steps; it changes nothing but that run queue, which it only
shortens. -/
theorem dieEvictQueue_returns (fuel : Nat) :
    ∀ (k : Kernel) (this : Pid) (i j : Nat), (0 : Nat) ∉ (k.cpus i).runQueue →
      (k.cpus i).runQueue.length * ((k.cpus i).runQueue.length + 1)
        + ((k.cpus i).runQueue.length - j) + 1 ≤ fuel →
      ∃ k1, dieEvictQueue fuel k this i j = .ok k1 ∧ k1.threads = k.threads ∧
        k1.procs = k.procs ∧ k1.processorCount = k.processorCount ∧
        (∀ c, ((k1.cpus c).runQueue.Sublist (k.cpus c).runQueue) ∧
          (k1.cpus c).currentThread = (k.cpus c).currentThread) := by
  induction fuel with
  | zero => intro k this i j _ h; omega
  | succ fuel ih =>
    intro k this i j h0 hf
    unfold dieEvictQueue
    simp only []
    split
    · rename_i hlt
      have hmem := getD_mem _ _ hlt
      have hne0 : (k.cpus i).runQueue.getD j 0 ≠ 0 := fun he => h0 (he ▸ hmem)
      rw [if_neg hne0]
      split
      · have hsub := listRemove_sublist (k.cpus i).runQueue ((k.cpus i).runQueue.getD j 0)
        obtain ⟨k1, h1, h2, h3, h4, h5⟩ := ih (k.setCPU i
          { k.cpus i with
            runQueue := listRemove (k.cpus i).runQueue ((k.cpus i).runQueue.getD j 0) })
          this i (0 + 1)
          (by simpa using fun hm => h0 (hsub.subset hm))
          (by
            simp only [Kernel.setCPU_cpus, if_true]
            exact evict_budget _ _ j fuel hlt (length_listRemove_lt _ _ hmem) hf)
        refine ⟨k1, h1, h2, h3, h4, fun c => ?_⟩
        obtain ⟨g1, g2⟩ := h5 c
        by_cases hc : c = i
        · subst hc
          simp only [Kernel.setCPU_cpus, if_true] at g1 g2
          exact ⟨g1.trans hsub, g2⟩
        · simp only [Kernel.setCPU_cpus, if_neg hc] at g1 g2
          exact ⟨g1, g2⟩
      · exact ih k this i (j + 1) h0 (by omega)
    · exact ⟨k, rfl, rfl, rfl, rfl, fun c => ⟨List.Sublist.refl _, rfl⟩⟩

theorem dieSendIPIs_cpus (k : Kernel) (i : Nat) : (dieSendIPIs k i).cpus = k.cpus := by
  unfold dieSendIPIs
  simp only []
  repeat' split
  all_goals rfl

theorem queue_budget (len len1 fuel : Nat) (hl : len1 ≤ len)
    (hf : len * (len + 1) + (len - 0) + 1 ≤ fuel) :
    len1 * (len1 + 1) + (len1 - 0) + 1 ≤ fuel := by
  have h1 : len1 * (len1 + 1) ≤ len * (len + 1) := Nat.mul_le_mul hl (by omega)
  omega

/-- The body of the processor loop for another processor ends when no entry of its run queue
is null and its current thread, when it belongs to the dying process, is dying. It changes no
thread and no process, shortens run queues only, and changes a current thread only to null. -/
theorem dieEvictOther_returns (fuel : Nat) (k : Kernel) (this : Pid) (i : Nat)
    (h0 : (0 : Nat) ∉ (k.cpus i).runQueue)
    (hf : (k.cpus i).runQueue.length * ((k.cpus i).runQueue.length + 1)
      + ((k.cpus i).runQueue.length - 0) + 1 ≤ fuel)
    (hcur : (k.cpus i).currentThread ≠ 0 →
      (k.threads (k.cpus i).currentThread).parent = this →
      (k.threads (k.cpus i).currentThread).state = ThreadState.ThreadStateDying) :
    ∃ k1, dieEvictOther fuel k this i = .ok k1 ∧ k1.threads = k.threads ∧
      k1.procs = k.procs ∧ k1.processorCount = k.processorCount ∧
      (∀ c, ((k1.cpus c).runQueue.Sublist (k.cpus c).runQueue) ∧
        ((k1.cpus c).currentThread = (k.cpus c).currentThread ∨
          (k1.cpus c).currentThread = 0)) := by
  have hclear : ∃ ka, dieClearCurrent k this i = .ok ka ∧ ka.threads = k.threads ∧
      ka.procs = k.procs ∧ ka.processorCount = k.processorCount ∧
      (∀ c, (ka.cpus c).runQueue = (k.cpus c).runQueue ∧
        ((ka.cpus c).currentThread = (k.cpus c).currentThread ∨
          (ka.cpus c).currentThread = 0)) := by
    unfold dieClearCurrent
    split
    · rename_i hc
      rw [if_neg (by simpa using hcur hc.1 hc.2)]
      refine ⟨_, rfl, rfl, rfl, rfl, fun c => ?_⟩
      by_cases hci : c = i
      · subst hci; simp
      · simp [hci]
    · exact ⟨k, rfl, rfl, rfl, rfl, fun c => ⟨rfl, Or.inl rfl⟩⟩
  obtain ⟨ka, ha, ha1, ha2, ha3, ha4⟩ := hclear
  obtain ⟨kb, hb, hb1, hb2, hb3, hb4⟩ := dieEvictQueue_returns fuel ka this i 0
    (by rw [(ha4 i).1]; exact h0) (by rw [(ha4 i).1]; exact hf)
  refine ⟨dieSendIPIs kb i, ?_, ?_, ?_, ?_, fun c => ?_⟩
  · unfold dieEvictOther
    rw [ha, bind_ok, hb, bind_ok]
  · rw [dieSendIPIs_threads, hb1, ha1]
  · rw [(dieSendIPIs_quiet kb i).procs, hb2, ha2]
  · rw [(dieSendIPIs_quiet kb i).processorCount, hb3, ha3]
  · rw [dieSendIPIs_cpus]
    obtain ⟨g1, g2⟩ := hb4 c
    obtain ⟨g3, g4⟩ := ha4 c
    refine ⟨by rw [← g3]; exact g1, ?_⟩
    rw [g2]
    exact g4

/-- The processor loop ends when no run queue holds a null entry and the current thread of
every other processor, when it belongs to the dying process, is dying. -/
theorem dieEvictRemote_returns (fuel : Nat) (this : Pid) (cpu : Nat) :
    ∀ (n i : Nat) (k : Kernel),
      (∀ c, (0 : Nat) ∉ (k.cpus c).runQueue ∧
        (k.cpus c).runQueue.length * ((k.cpus c).runQueue.length + 1)
          + ((k.cpus c).runQueue.length - 0) + 1 ≤ fuel ∧
        (c ≠ cpu → (k.cpus c).currentThread ≠ 0 →
          (k.threads (k.cpus c).currentThread).parent = this →
          (k.threads (k.cpus c).currentThread).state = ThreadState.ThreadStateDying)) →
      ∃ k1, dieEvictRemote fuel this cpu n i k = .ok k1 ∧ k1.threads = k.threads ∧
        k1.procs = k.procs := by
  intro n
  induction n with
  | zero => intro i k _; exact ⟨k, rfl, rfl, rfl⟩
  | succ n ih =>
    intro i k hinv
    unfold dieEvictRemote
    split
    · exact ih (i + 1) k hinv
    · rename_i hi
      obtain ⟨k1, h1, h2, h3, -, h5⟩ := dieEvictOther_returns fuel k this i (hinv i).1
        (hinv i).2.1 ((hinv i).2.2 hi)
      rw [h1]
      simp only []
      obtain ⟨k2, g1, g2, g3⟩ := ih (i + 1) k1 (fun c => by
        obtain ⟨q1, q2, q3⟩ := hinv c
        obtain ⟨s1, s2⟩ := h5 c
        refine ⟨fun hm => q1 (s1.subset hm), queue_budget _ _ fuel s1.length_le q2, ?_⟩
        intro hc hne hpar
        rw [h2] at hpar ⊢
        rcases s2 with s2 | s2
        · rw [s2] at hne hpar ⊢
          exact q3 hc hne hpar
        · exact absurd s2 hne)
      exact ⟨k2, g1, g2.trans h2, g3.trans h3⟩

theorem dieCheckThreads_returns (k : Kernel) (this : Pid) (thisThread : ThreadPtr)
    (l : List ThreadPtr)
    (h : ∀ t ∈ l, t ≠ 0 ∧ (k.threads t).parent = this ∧
      (t ≠ thisThread → (k.threads t).state = ThreadState.ThreadStateDying)) :
    dieCheckThreads k this thisThread l = .ok k := by
  induction l with
  | nil => rfl
  | cons a ts ih =>
    obtain ⟨h0, hp, hs⟩ := h a (List.mem_cons_self _ _)
    have hc : dieCheckThread k this thisThread a = .ok () := by
      unfold dieCheckThread
      rw [if_neg h0, if_neg (by simpa using hp)]
      by_cases ha : a = thisThread
      · simp [ha]
      · simp [hs ha]
    unfold dieCheckThreads
    rw [hc]
    exact ih fun t ht => h t (List.mem_cons_of_mem _ ht)

/-- The eviction part of `die` ends when the thread list is well formed with every thread
but the driving one dying, no run queue holds a null entry, and the current thread of every
other processor, when it belongs to the dying process, is dying. -/
theorem dieEvict_returns (fuel : Nat) (k : Kernel) (this : Pid) (thisThread : ThreadPtr)
    (cpu : Nat)
    (hth : ∀ t ∈ (k.procs this).m_threads, t ≠ 0 ∧ (k.threads t).parent = this ∧
      (t ≠ thisThread → (k.threads t).state = ThreadState.ThreadStateDying))
    (hinv : ∀ c, (0 : Nat) ∉ (k.cpus c).runQueue ∧
      (k.cpus c).runQueue.length * ((k.cpus c).runQueue.length + 1)
        + ((k.cpus c).runQueue.length - 0) + 1 ≤ fuel ∧
      (c ≠ cpu → (k.cpus c).currentThread ≠ 0 →
        (k.threads (k.cpus c).currentThread).parent = this →
        (k.threads (k.cpus c).currentThread).state = ThreadState.ThreadStateDying)) :
    ∃ k1, dieEvict fuel k this thisThread cpu = .ok k1 := by
  have hchk := dieCheckThreads_returns (k.emit (Event.sendIPI cpu IcrShorthand.ICR_DSH_OTHER))
    this thisThread (k.procs this).m_threads hth
  obtain ⟨k3, h3, t3, -, -, c3⟩ := dieEvictLocal_returns fuel
    (k.emit (Event.sendIPI cpu IcrShorthand.ICR_DSH_OTHER)) this cpu 0 (hinv cpu).1
    (hinv cpu).2.1
  obtain ⟨k4, h4, -, -⟩ := dieEvictRemote_returns fuel this cpu k3.processorCount 0 k3
    (fun c => by
      obtain ⟨q1, q2, q3⟩ := hinv c
      obtain ⟨s1, s2⟩ := c3 c
      refine ⟨fun hm => q1 (s1.subset hm), queue_budget _ _ fuel s1.length_le q2, ?_⟩
      intro hc hne hpar
      rw [t3] at hpar ⊢
      rw [s2] at hne hpar ⊢
      exact q3 hc hne hpar)
  refine ⟨k4, ?_⟩
  unfold dieEvict
  rw [hchk, bind_ok, h3, bind_ok, h4]

theorem setLock_of_locked (k : Kernel) (t : ThreadPtr) (h : (k.threads t).kernelLock = true) :
    (k.setThread t { k.threads t with kernelLock := true }).threads = k.threads := by
  funext x
  by_cases hx : x = t
  · subst hx
    simp only [Kernel.setThread_threads, if_true]
    cases hth : k.threads x
    rw [hth] at h
    simp only at h
    simp [h]
  · simp [hx]

/-- Progress of `die`: from a state that is ready for it, with a budget of `N + 3` sweeps, one
round per child and one more, and `(length + 1) ^ 2` steps for every run queue, `die` reaches
its watcher block. -/
theorem dieUntilDead_returns (env : Env) (N fuel : Nat) (k : Kernel) (this : Pid)
    (thisThread : ThreadPtr) (cpu : Nat) (hr : DieReady env N k this thisThread cpu)
    (hN : N + 3 ≤ fuel) (hch : (k.procs this).m_children.length + 1 ≤ fuel)
    (hq : ∀ c, ((k.cpus c).runQueue.length + 1) * ((k.cpus c).runQueue.length + 1) ≤ fuel) :
    ∃ k1, dieUntilDead env fuel k this thisThread cpu = .ok k1 := by
  have hent : dieEnter k this thisThread
      = .ok (acquireTestLock (k.writeProcessState this ProcessState.Process_Dying)
          thisThread).2 := by
    rw [dieEnter_main k this thisThread hr.running hr.main, if_pos hr.locked]
  generalize hk1 : (acquireTestLock (k.writeProcessState this ProcessState.Process_Dying)
    thisThread).2 = k1 at hent
  have hk1t : k1.threads = k.threads := by
    rw [← hk1]
    exact setLock_of_locked (k.writeProcessState this ProcessState.Process_Dying) thisThread
      hr.locked
  have hk1c : k1.cpus = k.cpus := by rw [← hk1]; rfl
  have hk1p : ∀ p, k1.procs p
      = if p = this then { k.procs this with m_state := ProcessState.Process_Dying }
        else k.procs p := by
    intro p; rw [← hk1]; simp
  have hk1m : (k1.procs this).m_threads = (k.procs this).m_threads := by
    rw [hk1p]; simp
  have hk1ch : (k1.procs this).m_children = (k.procs this).m_children := by
    rw [hk1p]; simp
  -- the thread loop
  have hT := dieThreads_quiet k1 this thisThread
  have hTc := dieThreads_cpus k1 this thisThread
  obtain ⟨s1, s2, -, -, s5⟩ := foldl_dieVisitThread_split thisThread (k1.procs this).m_threads
    (k1, []) (by rw [hk1m]; exact hr.nodup) (fun t _ => List.not_mem_nil t) List.nodup_nil
  have hrun : ∀ t ∈ (dieThreads k1 this thisThread).2, t ∈ (k.procs this).m_threads := by
    intro t ht
    rcases s2 t ht with h | h
    · exact absurd h (List.not_mem_nil t)
    · rw [hk1m] at h; exact h
  -- the child loop
  obtain ⟨kC, hC⟩ := dieChildren_returns env fuel (dieThreads k1 this thisThread).1 this
    (by
      intro c hc
      rw [hT.procs, hk1ch] at hc
      rw [hT.procs, hk1p]
      by_cases hct : c = this
      · subst hct
        rcases hr.children c hc with h | h
        · rw [hr.running] at h; cases h
        · exact Or.inr h
      · rw [if_neg hct]
        exact hr.children c hc)
    (by rw [hT.procs, hk1ch]; exact hch)
  have hCf := (dieChildren_frame env fuel (dieThreads k1 this thisThread).1 this).1
  rw [hC] at hCf
  simp only [finalState_ok, id] at hCf
  -- the sweep
  obtain ⟨k2, h2, g1, g2⟩ := dieSweep_returns env N (N + 1) fuel 0 kC
    (dieThreads k1 this thisThread).2 (by omega) s1
    (fun t ht => hr.unpins t (hrun t ht))
    (fun t _ => Or.inr fun m hm => absurd hm (Nat.not_lt_zero m)) (by omega)
  have hS := dieSweep_quiet env fuel 0 kC (dieThreads k1 this thisThread).2
  have hSc := dieSweep_cpus env fuel 0 kC (dieThreads k1 this thisThread).2
  rw [h2] at hS hSc
  simp only [finalState_ok, id] at hS hSc
  have hgone : ∀ t ∈ (k.procs this).m_threads, t ≠ thisThread →
      (k2.threads t).state = ThreadState.ThreadStateDying := by
    intro t ht hne
    by_cases hm : t ∈ (dieThreads k1 this thisThread).2
    · exact (g2 t hm).1
    · have hg : Gone (dieThreads k1 this thisThread).1 t :=
        s5 t (by rw [hk1m]; exact ht) hne (hr.threads t ht).1 hm
      have hg2 : Gone kC t := by
        unfold Gone at *
        rw [hCf.threads]
        exact hg
      exact (g1 t hg2).1
  have hpar : ∀ t, (k2.threads t).parent = (k.threads t).parent := by
    intro t
    rw [hS.parents, hCf.threads, hT.parents, hk1t]
  have hcpu : k2.cpus = k.cpus := by
    rw [hSc, hCf.cpus, hTc, hk1c]
  have hmth : (k2.procs this).m_threads = (k.procs this).m_threads := by
    rw [hS.procs, hCf.mthreads, hT.procs, hk1m]
  -- the eviction
  obtain ⟨k3, h3⟩ := dieEvict_returns fuel k2 this thisThread cpu
    (by
      intro t ht
      rw [hmth] at ht
      exact ⟨(hr.threads t ht).1, by rw [hpar]; exact (hr.threads t ht).2, hgone t ht⟩)
    (by
      intro c
      rw [hcpu]
      refine ⟨hr.queues c, ?_, ?_⟩
      · have := hq c
        have e : ((k.cpus c).runQueue.length + 1) * ((k.cpus c).runQueue.length + 1)
            = (k.cpus c).runQueue.length * ((k.cpus c).runQueue.length + 1)
              + (k.cpus c).runQueue.length + 1 := by ring
        omega
      · intro hc hne hp
        rw [hpar] at hp
        obtain ⟨q1, q2⟩ := hr.current c hc hne hp
        exact hgone _ q1 q2)
  refine ⟨dieCloseHandles k3 this, ?_⟩
  unfold dieUntilDead dieQuiesce
  rw [hent, bind_ok, hC, bind_ok, h2, bind_ok, h3, bind_ok]

/-- The sample state is ready for `die` on process 1 driven by its main thread 1 on processor
0, with every pinned thread released during sweep 1. -/
theorem sampleKernel_ready : DieReady sampleEnv 1 sampleKernel 1 1 0 :=
  { running := by decide
    main := by decide
    locked := by decide
    children := by decide
    threads := by decide
    nodup := by decide
    notOwnChild := by decide
    unpins := fun t _ => ⟨1, Nat.le_refl 1, rfl⟩
    queues := fun c => by
      match c with
      | 0 => decide
      | 1 => decide
      | n + 2 => exact List.not_mem_nil 0
    current := fun c hc => by
      match c with
      | 0 => exact absurd rfl hc
      | 1 => decide
      | n + 2 => exact fun h => absurd rfl h }

/-- The sample state is ready for `die` on process 2 driven by thread 1, the main thread of
its parent, on processor 0. -/
theorem sampleKernel_ready_foreign : DieReady sampleEnv 1 sampleKernel 2 1 0 :=
  { running := by decide
    main := by decide
    locked := by decide
    children := by decide
    threads := by decide
    nodup := by decide
    notOwnChild := by decide
    unpins := fun t _ => ⟨1, Nat.le_refl 1, rfl⟩
    queues := fun c => by
      match c with
      | 0 => decide
      | 1 => decide
      | n + 2 => exact List.not_mem_nil 0
    current := fun c hc => by
      match c with
      | 0 => exact absurd rfl hc
      | 1 => decide
      | n + 2 => exact fun h => absurd rfl h }

theorem sampleKernel_budget (c : Nat) :
    ((sampleKernel.cpus c).runQueue.length + 1) * ((sampleKernel.cpus c).runQueue.length + 1)
      ≤ 10 := by
  match c with
  | 0 => decide
  | 1 => decide
  | n + 2 => exact (by decide : (0 + 1) * (0 + 1) ≤ 10)

/-! ## The lifecycle of a process -/

/-- C2: when `die` reaches the watcher block that writes `Process_Dead`, every entry of the
thread list other than the driving thread is a thread whose state is `ThreadStateDying` and
whose time slice (and default time slice) is 0; the block itself changes no thread. -/
theorem threads_dying_when_dead_is_written (env : Env) (fuel : Nat) (k k1 : Kernel)
    (this : Pid) (thisThread : ThreadPtr) (cpu : Nat)
    (h : dieUntilDead env fuel k this thisThread cpu = .ok k1) :
    (signalWatchers k1 this).threads = k1.threads ∧
    ∀ t ∈ (k1.procs this).m_threads, t ≠ thisThread →
      (k1.threads t).state = ThreadState.ThreadStateDying ∧
      (k1.threads t).timeSlice = 0 ∧ (k1.threads t).timeSliceDefault = 0 := by
  obtain ⟨-, -, h3, -, -, -, h7⟩ := dieUntilDead_ok env fuel k k1 this thisThread cpu h
  refine ⟨by rw [signalWatchers_eq], fun t ht hne => ?_⟩
  rw [h3] at ht
  exact (h7 t ht).2.2 hne

/-- Witness for C2 on the sample state, where thread 2 is blocked and thread 3 is pinned in
the kernel until the second sweep: `die` reaches the watcher block, the thread list still is
`[1, 2, 3]`, and its entries other than the driving thread 1 are dying with no time slice
left. -/
theorem threads_dying_when_dead_is_written_witness :
    stopOf (dieUntilDead sampleEnv 10 sampleKernel 1 1 0) = none ∧
    ((finalState id (dieUntilDead sampleEnv 10 sampleKernel 1 1 0)).procs 1).m_threads
      = [1, 2, 3] ∧
    ∀ t ∈ ((finalState id (dieUntilDead sampleEnv 10 sampleKernel 1 1 0)).procs 1).m_threads,
      t ≠ 1 →
      ((finalState id (dieUntilDead sampleEnv 10 sampleKernel 1 1 0)).threads t).state
        = ThreadState.ThreadStateDying ∧
      ((finalState id (dieUntilDead sampleEnv 10 sampleKernel 1 1 0)).threads t).timeSlice = 0 ∧
      ((finalState id (dieUntilDead sampleEnv 10 sampleKernel 1 1 0)).threads t).timeSliceDefault
        = 0 :=
  ⟨by decide, by decide,
    (threads_dying_when_dead_is_written sampleEnv 10 sampleKernel
      (finalState id (dieUntilDead sampleEnv 10 sampleKernel 1 1 0)) 1 1 0
      (run_eq_ok _ (by decide))).2⟩

/-! ## Watchers -/

/-- C4: `Watch` on a process whose state is `Process_Dead` returns after exactly one
`watcher->signal()` and changes nothing else: the watcher is not added to the list. -/
theorem Watch_on_dead_signals_synchronously (k : Kernel) (this : Pid) (watcher : WatcherPtr)
    (hdead : (k.procs this).m_state = ProcessState.Process_Dead) :
    Watch k this watcher true = .ok (k.emit (Event.watcherSignal watcher)) ∧
    emitted id k (Watch k this watcher true) = [Event.watcherSignal watcher] ∧
    (finalState id (Watch k this watcher true)).procs = k.procs := by
  have h : Watch k this watcher true = .ok (k.emit (Event.watcherSignal watcher)) := by
    simp [Watch, hdead]
  refine ⟨h, ?_, ?_⟩
  · rw [h]; simp [emitted]
  · rw [h]; rfl

/-- Witness for C4: process 4 of the sample state is dead and holds watcher 300; `Watch` with
watcher 7 signals 7 once and leaves the list as `[300]`. -/
theorem Watch_on_dead_signals_synchronously_witness :
    (sampleKernel.procs 4).m_state = ProcessState.Process_Dead ∧
    emitted id sampleKernel (Watch sampleKernel 4 7 true) = [Event.watcherSignal 7] ∧
    ((finalState id (Watch sampleKernel 4 7 true)).procs 4).m_watching = [300] :=
  ⟨by decide,
    (Watch_on_dead_signals_synchronously sampleKernel 4 7 (by decide)).2.1, by decide⟩

/-- C5: `Watch` with an event mask that contains `ProcessTerminated`, on a process whose state
is `Process_Running` or `Process_Dying`, appends the watcher at the end of the watcher list,
signals nothing (the log is unchanged), and leaves the state of the process, its previously
registered watchers and every other process as they were. -/
theorem Watch_on_live_appends (k : Kernel) (this : Pid) (watcher : WatcherPtr)
    (hlive : (k.procs this).m_state = ProcessState.Process_Running ∨
      (k.procs this).m_state = ProcessState.Process_Dying) :
    Watch k this watcher true
      = .ok (k.setProc this
          { k.procs this with m_watching := (k.procs this).m_watching ++ [watcher] }) ∧
    ((finalState id (Watch k this watcher true)).procs this).m_watching
      = (k.procs this).m_watching ++ [watcher] ∧
    (finalState id (Watch k this watcher true)).log = k.log ∧
    ((finalState id (Watch k this watcher true)).procs this).m_state = (k.procs this).m_state ∧
    ∀ p, p ≠ this → (finalState id (Watch k this watcher true)).procs p = k.procs p := by
  have hnd : (k.procs this).m_state ≠ ProcessState.Process_Dead := by
    rcases hlive with h | h <;> rw [h] <;> decide
  have h : Watch k this watcher true
      = .ok (k.setProc this
          { k.procs this with m_watching := (k.procs this).m_watching ++ [watcher] }) := by
    simp [Watch, hnd]
  refine ⟨h, ?_, ?_, ?_, fun p hp => ?_⟩
  · rw [h]; simp
  · rw [h]; rfl
  · rw [h]; simp
  · rw [h]; simp [hp]

/-- Witness for C5: process 3 of the sample state is dying and holds watcher 200; `Watch` with
watcher 7 leaves the list `[200, 7]`. -/
theorem Watch_on_live_appends_witness :
    (sampleKernel.procs 3).m_state = ProcessState.Process_Dying ∧
    ((finalState id (Watch sampleKernel 3 7 true)).procs 3).m_watching
      = (sampleKernel.procs 3).m_watching ++ [7] ∧
    (sampleKernel.procs 3).m_watching ++ [7] = [200, 7] :=
  ⟨by decide, (Watch_on_live_appends sampleKernel 3 7 (Or.inr (by decide))).2.1, by decide⟩

theorem setProc_self (k : Kernel) (p : Pid) : k.setProc p (k.procs p) = k := by
  cases k with
  | mk threads procs cpus processorCount nextPID nextThread nextSpace log =>
    simp only [Kernel.setProc, Kernel.mk.injEq, and_true, true_and]
    funext q
    by_cases h : q = p
    · subst h; simp
    · simp [h]

theorem filter_ne_of_not_mem (l : List Nat) (v : Nat) (h : v ∉ l) :
    l.filter (fun x => x ≠ v) = l := by
  rw [List.filter_eq_self]
  intro a ha
  have : a ≠ v := fun hc => h (hc ▸ ha)
  simpa using this

/-- C6: `Unwatch` on a process that is not dead leaves the watcher list without the watcher
and with every other entry in its original order (the list filtered by "is not the watcher"),
and changes nothing else; on a dead process it changes nothing; for a watcher that is not
registered it changes nothing. -/
theorem Unwatch_removes_watcher (k : Kernel) (this : Pid) (watcher : WatcherPtr) :
    ((k.procs this).m_state ≠ ProcessState.Process_Dead →
      watcher ∉ ((finalState id (Unwatch k this watcher)).procs this).m_watching ∧
      ((finalState id (Unwatch k this watcher)).procs this).m_watching
        = (k.procs this).m_watching.filter (fun x => x ≠ watcher) ∧
      stopOf (Unwatch k this watcher) = none ∧
      (finalState id (Unwatch k this watcher)).log = k.log ∧
      ((finalState id (Unwatch k this watcher)).procs this).m_state = (k.procs this).m_state ∧
      ∀ p, p ≠ this → (finalState id (Unwatch k this watcher)).procs p = k.procs p) ∧
    ((k.procs this).m_state = ProcessState.Process_Dead → Unwatch k this watcher = .ok k) ∧
    (watcher ∉ (k.procs this).m_watching → Unwatch k this watcher = .ok k) := by
  refine ⟨fun hnd => ?_, fun hd => ?_, fun hnm => ?_⟩
  · have h : Unwatch k this watcher
        = .ok (k.setProc this
            { k.procs this with m_watching := listRemove (k.procs this).m_watching watcher }) := by
      simp [Unwatch, hnd]
    rw [h]
    refine ⟨?_, ?_, rfl, rfl, ?_, fun p hp => ?_⟩
    · simp [listRemove]
    · simp [listRemove]
    · simp
    · simp [hp]
  · simp [Unwatch, hd]
  · unfold Unwatch
    split
    · rfl
    · have hl : listRemove (k.procs this).m_watching watcher = (k.procs this).m_watching :=
        filter_ne_of_not_mem _ _ hnm
      rw [hl]
      exact congrArg Except.ok (setProc_self k this)

/-- Witness for C6: watchers 100 and 101 are registered on the running process 1 of the sample
state; `Unwatch` of 100 leaves `[101]`. -/
theorem Unwatch_removes_watcher_witness :
    (sampleKernel.procs 1).m_state ≠ ProcessState.Process_Dead ∧
    100 ∉ ((finalState id (Unwatch sampleKernel 1 100)).procs 1).m_watching ∧
    ((finalState id (Unwatch sampleKernel 1 100)).procs 1).m_watching = [101] :=
  ⟨by decide, ((Unwatch_removes_watcher sampleKernel 1 100).1 (by decide)).1, by decide⟩

/-! ## Repeated termination and children -/

/-- C7, the claim fails: process 3 of the sample state is already dying, and `die` on it, run
by its main thread 5, does not return to its caller: it stops at the assertion of line 543. -/
theorem die_on_dying_process_does_not_return :
    (sampleKernel.procs 3).m_state = ProcessState.Process_Dying ∧
    (sampleKernel.threads 5).parent = 3 ∧ (sampleKernel.procs 3).m_mainThread = 5 ∧
    stopOf (die sampleEnv 10 sampleKernel 3 5 0) = some (Stop.assertFailed 543) ∧
    ¬ ∃ k1, die sampleEnv 10 sampleKernel 3 5 0 = .ok k1 := by
  refine ⟨by decide, by decide, by decide, by decide, ?_⟩
  rintro ⟨k1, h⟩
  have hs : stopOf (die sampleEnv 10 sampleKernel 3 5 0) = none := by rw [h]; rfl
  exact absurd hs (by decide)

/-- C7 as amended: `die` on a process whose state is already `Process_Dying` or
`Process_Dead` fails the assertion of line 543 before any teardown step: the call does not
return, nothing is written to the log and the whole state is as it was. A process is
therefore taken through at most one full teardown. -/
theorem die_twice_stops_at_entry_assertion (env : Env) (fuel : Nat) (k : Kernel) (this : Pid)
    (thisThread : ThreadPtr) (cpu : Nat)
    (h : (k.procs this).m_state = ProcessState.Process_Dying ∨
      (k.procs this).m_state = ProcessState.Process_Dead) :
    die env fuel k this thisThread cpu = .error (Stop.assertFailed 543, k) ∧
    emitted id k (die env fuel k this thisThread cpu) = [] := by
  have hnr : (k.procs this).m_state ≠ ProcessState.Process_Running := by
    rcases h with h | h <;> rw [h] <;> decide
  have hd := die_not_running env fuel k this thisThread cpu hnr
  refine ⟨hd, ?_⟩
  rw [hd]
  simp [emitted]

/-- Witness for C7 as amended: a second `die` on the dead process 4 of the sample state stops
at the assertion and emits nothing. -/
theorem die_twice_stops_at_entry_assertion_witness :
    (sampleKernel.procs 4).m_state = ProcessState.Process_Dead ∧
    emitted id sampleKernel (die sampleEnv 10 sampleKernel 4 1 0) = [] :=
  ⟨by decide,
    (die_twice_stops_at_entry_assertion sampleEnv 10 sampleKernel 4 1 0
      (Or.inr (by decide))).2⟩

/-- C8: in the child loop of `die` the wait for the front child returns only when the child
is `Process_Dead`; when the wait does not return, the child keeps its parent reference and
stays on the children list; when it returns, the child is dead, its parent reference is
cleared and it is off the list. When `die` reaches the watcher block that writes
`Process_Dead`, the children list is empty and every former child is dead and unlinked. -/
theorem children_dead_before_parent (env : Env) (fuel : Nat) (k : Kernel) (this child : Pid)
    (thisThread : ThreadPtr) (cpu : Nat) :
    (∀ k1, dieAwaitChild env k child = .ok k1 →
      (k1.procs child).m_state = ProcessState.Process_Dead) ∧
    (∀ e, dieChild env k this child = .error e →
      (e.2.procs this).m_children = (k.procs this).m_children ∧
      (e.2.procs child).m_parent = (k.procs child).m_parent) ∧
    (∀ k1, dieChild env k this child = .ok k1 →
      (k1.procs child).m_state = ProcessState.Process_Dead ∧
      (k1.procs child).m_parent = none ∧
      (k1.procs this).m_children = (k.procs this).m_children.filter (fun c => c ≠ child)) ∧
    (∀ k1, dieUntilDead env fuel k this thisThread cpu = .ok k1 →
      (k1.procs this).m_children = [] ∧
      ∀ c ∈ (k.procs this).m_children,
        (k1.procs c).m_state = ProcessState.Process_Dead ∧ (k1.procs c).m_parent = none) := by
  refine ⟨fun k1 h => dieAwaitChild_ok env k k1 child h,
    fun e h => (dieChild_error env k this child e h).2,
    fun k1 h => dieChild_ok env k k1 this child h, fun k1 h => ?_⟩
  obtain ⟨-, -, -, h4, h5, -, -⟩ := dieUntilDead_ok env fuel k k1 this thisThread cpu h
  exact ⟨h4, h5⟩

/-- Witness for C8 on the sample state, where process 1 has the running child 2 and the dying
child 3: `die` reaches the watcher block with an empty children list and both children
dead. -/
theorem children_dead_before_parent_witness :
    (sampleKernel.procs 1).m_children = [2, 3] ∧
    stopOf (dieUntilDead sampleEnv 10 sampleKernel 1 1 0) = none ∧
    ((finalState id (dieUntilDead sampleEnv 10 sampleKernel 1 1 0)).procs 1).m_children = [] ∧
    ∀ c ∈ (sampleKernel.procs 1).m_children,
      ((finalState id (dieUntilDead sampleEnv 10 sampleKernel 1 1 0)).procs c).m_state
        = ProcessState.Process_Dead ∧
      ((finalState id (dieUntilDead sampleEnv 10 sampleKernel 1 1 0)).procs c).m_parent = none :=
  ⟨by decide, by decide,
    ((children_dead_before_parent sampleEnv 10 sampleKernel 1 2 1 0).2.2.2
      (finalState id (dieUntilDead sampleEnv 10 sampleKernel 1 1 0))
      (run_eq_ok _ (by decide))).1,
    ((children_dead_before_parent sampleEnv 10 sampleKernel 1 2 1 0).2.2.2
      (finalState id (dieUntilDead sampleEnv 10 sampleKernel 1 1 0))
      (run_eq_ok _ (by decide))).2⟩

/-! ## Eviction from the run queues -/

/-- C9, the code at a failing input: threads 2 and 3 of process 1 sit next to each other at
the front of the run queue of processor 1. `die` of process 1 completes (the process is dead
and its driving thread is switched away), yet the run queue of processor 1 still holds
thread 3 of the dead process: after removing thread 2 at index 0 the loop went on at index 1
and never looked at thread 3, which had moved to index 0. -/
theorem eviction_skips_front_of_queue :
    (sampleCrowded.cpus 1).runQueue = [2, 3, 4] ∧
    (sampleCrowded.threads 2).parent = 1 ∧ (sampleCrowded.threads 3).parent = 1 ∧
    stopOf (die sampleEnv 10 sampleCrowded 1 1 0) = some Stop.switchedAway ∧
    ((finalState id (die sampleEnv 10 sampleCrowded 1 1 0)).procs 1).m_state
      = ProcessState.Process_Dead ∧
    ((finalState id (die sampleEnv 10 sampleCrowded 1 1 0)).cpus 1).runQueue = [3, 4] ∧
    ((finalState id (die sampleEnv 10 sampleCrowded 1 1 0)).threads 3).parent = 1 := by
  decide

/-- C10, the code at a failing input: thread 3 of process 1 is the current thread of the
remote processor 1 while `die` of process 1 runs on processor 0. `die` clears the current
thread of processor 1 and takes thread 3 off its run queue, but it calls `SendIPI` for
processor 1 twice, not once. -/
theorem remote_processor_interrupted_twice :
    (sampleKernel.cpus 1).currentThread = 3 ∧ (sampleKernel.threads 3).parent = 1 ∧
    (sampleKernel.cpus 1).runQueue = [3, 4] ∧
    stopOf (die sampleEnv 10 sampleKernel 1 1 0) = some Stop.switchedAway ∧
    ((finalState id (die sampleEnv 10 sampleKernel 1 1 0)).cpus 1).currentThread = 0 ∧
    ((finalState id (die sampleEnv 10 sampleKernel 1 1 0)).cpus 1).runQueue = [4] ∧
    (emitted id sampleKernel (die sampleEnv 10 sampleKernel 1 1 0)).count
      (Event.sendIPI 1 IcrShorthand.ICR_DSH_SELF) = 2 := by
  decide

/-! ## The thread that drives `die` -/

theorem dieEnter_redirect (k : Kernel) (this : Pid) (thisThread : ThreadPtr)
    (hrun : (k.procs this).m_state = ProcessState.Process_Running)
    (hown : (k.threads thisThread).parent = this)
    (hsec : thisThread ≠ (k.procs this).m_mainThread) :
    dieEnter k this thisThread
      = .error (Stop.parked,
          (k.emit (Event.signal (k.procs this).m_mainThread Signal.SIGKILL)).setThread thisThread
            { k.threads thisThread with kernelLock := false }) := by
  unfold dieEnter
  simp [hrun, hown, hsec]

/-- A caller of `die` that is not the main thread of its own process and belongs to another
process than the one to be killed sends `SIGKILL` to the main thread of its own process and
fails the assertion of line 555. -/
theorem dieEnter_foreign_secondary (k : Kernel) (this : Pid) (thisThread : ThreadPtr)
    (hrun : (k.procs this).m_state = ProcessState.Process_Running)
    (hfor : (k.threads thisThread).parent ≠ this)
    (hsec : thisThread ≠ (k.procs (k.threads thisThread).parent).m_mainThread) :
    dieEnter k this thisThread
      = .error (Stop.assertFailed 555,
          k.emit (Event.signal (k.procs (k.threads thisThread).parent).m_mainThread
            Signal.SIGKILL)) := by
  unfold dieEnter
  simp [hrun, hfor, hsec]

theorem dieQuiesce_parents (env : Env) (fuel : Nat) (k k2 : Kernel) (this : Pid)
    (thisThread : ThreadPtr) (h : dieQuiesce env fuel k this thisThread = .ok k2)
    (t : ThreadPtr) : (k2.threads t).parent = (k.threads t).parent := by
  unfold dieQuiesce at h
  obtain ⟨kC, hC, hS⟩ := bind_eq_ok h
  have hT := dieThreads_quiet k this thisThread
  have hCf := (dieChildren_frame env fuel (dieThreads k this thisThread).1 this).1
  rw [hC] at hCf
  simp only [finalState_ok, id] at hCf
  have hSq := dieSweep_quiet env fuel 0 kC (dieThreads k this thisThread).2
  rw [hS] at hSq
  simp only [finalState_ok, id] at hSq
  rw [hSq.parents, hCf.threads, hT.parents]

theorem dieUntilDead_parents (env : Env) (fuel : Nat) (k kf : Kernel) (this : Pid)
    (thisThread : ThreadPtr) (cpu : Nat)
    (h : dieUntilDead env fuel k this thisThread cpu = .ok kf) (t : ThreadPtr) :
    (kf.threads t).parent = (k.threads t).parent := by
  unfold dieUntilDead at h
  obtain ⟨k1, h1, hA⟩ := bind_eq_ok h
  obtain ⟨k2, h2, hB⟩ := bind_eq_ok hA
  obtain ⟨k3, h3, hC⟩ := bind_eq_ok hB
  cases hC
  obtain ⟨-, hk1⟩ := dieEnter_ok k k1 this thisThread h1
  have hq := dieQuiesce_parents env fuel k1 k2 this thisThread h2 t
  obtain ⟨hth, -⟩ := dieEvict_ok fuel k2 k3 this thisThread cpu h3
  have h1p : (k1.threads t).parent = (k.threads t).parent := by
    rw [hk1]
    by_cases htt : t = thisThread
    · subst htt; simp
    · simp [htt]
  have hc : (dieCloseHandles k3 this).threads = k3.threads := by simp [dieCloseHandles]
  rw [hc, hth, hq, h1p]

theorem dieFromDead_entry_parents (k : Kernel) (this : Pid) (t : ThreadPtr) :
    (((dieNotifyParent (signalWatchers k this) this).emit
      (Event.markedForDestruction this)).threads t).parent = (k.threads t).parent := by
  rw [Kernel.emit_threads, (dieNotifyParent_quiet _ this).parents, signalWatchers_eq]

theorem dieExit_ok_iff (env : Env) (k : Kernel) (this : Pid) (thisThread : ThreadPtr) :
    (∃ k1, dieExit env k this thisThread = .ok k1) ↔ (k.threads thisThread).parent ≠ this := by
  unfold dieExit
  constructor
  · rintro ⟨k1, h⟩
    split at h
    · simp only [] at h
      split at h <;> cases h
    · assumption
  · intro h
    rw [if_neg h]
    exact ⟨k, rfl⟩

/-- State in which `die` leaves for good when the driving thread belongs to the dead process
(lines 760-778). -/
theorem dieExit_own (env : Env) (k : Kernel) (this : Pid) (thisThread : ThreadPtr)
    (hown : (k.threads thisThread).parent = this) :
    stopOf (dieExit env k this thisThread)
      = some (if env.switchReturns then Stop.kernelPanic 779 else Stop.switchedAway) ∧
    ((finalState id (dieExit env k this thisThread)).threads thisThread).state
      = ThreadState.ThreadStateDying ∧
    ((finalState id (dieExit env k this thisThread)).threads thisThread).timeSlice = 0 ∧
    thisThread ∉ ((finalState id (dieExit env k this thisThread)).cpus env.exitCPU).runQueue ∧
    ((finalState id (dieExit env k this thisThread)).cpus env.exitCPU).currentThread
      = (k.cpus env.exitCPU).idleThread ∧
    ((finalState id (dieExit env k this thisThread)).cpus env.exitCPU).idleThread
      = (k.cpus env.exitCPU).idleThread ∧
    (finalState id (dieExit env k this thisThread)).log
      = k.log ++ [Event.threadState thisThread ThreadState.ThreadStateDying,
          Event.doSwitch env.exitCPU] := by
  unfold dieExit
  rw [if_pos hown]
  simp only []
  split <;> simp [stopOf, listRemove, *]

end Process

/-! ## The log of `die` -/

theorem LogFrame.lrefl (P : Event → Bool) (k : Kernel) : LogFrame P k k :=
  ⟨⟨[], by simp, by simp⟩⟩

theorem LogFrame.ltrans {P : Event → Bool} {k k1 k2 : Kernel} (h1 : LogFrame P k k1)
    (h2 : LogFrame P k1 k2) : LogFrame P k k2 := by
  obtain ⟨e1, hl1, hp1⟩ := h1.grows
  obtain ⟨e2, hl2, hp2⟩ := h2.grows
  refine ⟨⟨e1 ++ e2, by rw [hl2, hl1, List.append_assoc], ?_⟩⟩
  intro e he
  rcases List.mem_append.mp he with h | h
  · exact hp1 e h
  · exact hp2 e h

theorem LogFrame.lmono {P Q : Event → Bool} {k k1 : Kernel} (h : LogFrame P k k1)
    (hPQ : ∀ e, P e = true → Q e = true) : LogFrame Q k k1 := by
  obtain ⟨evs, hl, hp⟩ := h.grows
  exact ⟨⟨evs, hl, fun e he => hPQ e (hp e he)⟩⟩

theorem LogFrame.count_eq {P : Event → Bool} {k k1 : Kernel} (h : LogFrame P k k1) (e : Event)
    (he : P e = false) : k1.log.count e = k.log.count e := by
  obtain ⟨evs, hl, hp⟩ := h.grows
  rw [hl, List.count_append]
  have : evs.count e = 0 := by
    apply List.count_eq_zero_of_not_mem
    intro hmem
    have := hp e hmem
    rw [he] at this
    cases this
  omega

theorem logFrame_emit (P : Event → Bool) (k : Kernel) (e : Event) (h : P e = true) :
    LogFrame P k (k.emit e) :=
  ⟨⟨[e], rfl, by simpa using h⟩⟩

theorem logFrame_of_log (P : Event → Bool) (k k1 : Kernel) (h : k1.log = k.log) :
    LogFrame P k k1 :=
  ⟨⟨[], by simp [h], by simp⟩⟩

theorem logFrame_of_append (P : Event → Bool) (k k1 : Kernel) (evs : List Event)
    (h : k1.log = k.log ++ evs) (hp : ∀ e ∈ evs, P e = true) : LogFrame P k k1 :=
  ⟨⟨evs, h, hp⟩⟩

theorem logFrame_bind {P : Event → Bool} {k : Kernel} {r : Run} {f : Kernel → Run}
    (h1 : LogFrame P k (finalState id r))
    (h2 : ∀ k1, r = .ok k1 → LogFrame P k1 (finalState id (f k1))) :
    LogFrame P k (finalState id (r >>= f)) :=
  Process.rel_bind (LogFrame P) (fun _ _ _ => LogFrame.ltrans) id id h1 h2

namespace Process

theorem markDying_log (k : Kernel) (t : ThreadPtr) :
    (markDying k t).log = k.log ++ [Event.threadState t ThreadState.ThreadStateDying] := rfl

theorem dieVisitThread_log (thisThread : ThreadPtr) (acc : Kernel × List ThreadPtr)
    (thread : ThreadPtr) :
    (dieVisitThread thisThread acc thread).1.log
      = acc.1.log ++
        (if thread ≠ thisThread ∧ thread ≠ 0 then dieVisitEvents (acc.1.threads thread) thread
          else []) := by
  unfold dieVisitThread
  split
  · unfold dieRetireThread dieWakeThread dieVisitEvents
    simp only [acquireTestLock_fst, acquireTestLock_snd]
    cases hst : (acc.1.threads thread).state <;> cases hb : (acc.1.threads thread).blocker <;>
      cases hl : (acc.1.threads thread).kernelLock <;>
      simp [hst, hb, hl, markDying_log]
  · simp

theorem dieVisitThread_not_blocked (thisThread : ThreadPtr) (acc : Kernel × List ThreadPtr)
    (thread : ThreadPtr) (h1 : thread ≠ thisThread) (h0 : thread ≠ 0) :
    ((dieVisitThread thisThread acc thread).1.threads thread).state
      ≠ ThreadState.ThreadStateBlocked := by
  unfold dieVisitThread
  rw [if_pos ⟨h1, h0⟩]
  unfold dieRetireThread
  simp only []
  split <;> simp [markDying_threads]

theorem dieVisitEvents_count_other (th : Thread) (a t : ThreadPtr) (b : Nat) (h : a ≠ t) :
    (dieVisitEvents th a).count (Event.blockerInterrupt t b) = 0 := by
  apply List.count_eq_zero_of_not_mem
  unfold dieVisitEvents
  cases th.blocker <;> simp [h, Ne.symm h] <;> repeat' split <;> simp [h, Ne.symm h]

theorem dieVisitEvents_count_awake (th : Thread) (a t : ThreadPtr) (b : Nat)
    (h : th.state ≠ ThreadState.ThreadStateBlocked) :
    (dieVisitEvents th a).count (Event.blockerInterrupt t b) = 0 := by
  apply List.count_eq_zero_of_not_mem
  unfold dieVisitEvents
  cases th.blocker <;> simp [h] <;> repeat' split <;> simp

theorem dieVisitEvents_count_blocked (th : Thread) (t : ThreadPtr) (b : Nat)
    (hs : th.state = ThreadState.ThreadStateBlocked) (hb : th.blocker = some b) :
    (dieVisitEvents th t).count (Event.blockerInterrupt t b) = 1 := by
  unfold dieVisitEvents
  rw [hs, hb]
  cases th.kernelLock <;> simp [List.count_cons]

theorem dieVisitEvents_retires_other (th : Thread) (a t : ThreadPtr) (h : a ≠ t) :
    (dieVisitEvents th a).filter (Event.retires t) = [] := by
  rw [List.filter_eq_nil_iff]
  intro e he
  unfold dieVisitEvents at he
  have hne : ∀ s, Event.threadState a s ≠ Event.threadState t ThreadState.ThreadStateZombie ∧
      Event.threadState a s ≠ Event.threadState t ThreadState.ThreadStateDying := by
    intro s
    constructor <;> (intro hc; exact h (Event.threadState.inj hc).1)
  simp only [List.mem_append, List.mem_singleton] at he
  rcases he with (((he | he) | he) | he) | he
  · subst he; simp [Event.retires]
  · split at he
    · simp only [List.mem_singleton] at he; subst he; simp [Event.retires]
    · cases he
  · split at he
    · split at he
      · simp only [List.mem_cons, List.mem_singleton, List.not_mem_nil, or_false] at he
        rcases he with he | he | he | he <;> subst he <;> simp [Event.retires, hne]
      · cases he
    · cases he
  · subst he; simp [Event.retires, hne]
  · split at he
    · simp only [List.mem_singleton] at he; subst he; simp [Event.retires]
    · simp only [List.mem_cons, List.mem_singleton, List.not_mem_nil, or_false] at he
      rcases he with he | he <;> subst he <;> simp [Event.retires, hne]

theorem dieVisitEvents_retires_head (th : Thread) (t : ThreadPtr) :
    ((dieVisitEvents th t).filter (Event.retires t)).head?
      = some (Event.threadState t ThreadState.ThreadStateZombie) := by
  unfold dieVisitEvents
  cases hst : th.state <;> cases hb : th.blocker <;> cases hl : th.kernelLock <;>
    simp [Event.retires, List.filter_cons]

theorem foldl_dieVisitThread_grows (thisThread : ThreadPtr) (l : List ThreadPtr)
    (acc : Kernel × List ThreadPtr) :
    LogFrame (fun _ => true) acc.1 (l.foldl (dieVisitThread thisThread) acc).1 := by
  induction l generalizing acc with
  | nil => exact LogFrame.lrefl _ _
  | cons a rest ih =>
    refine LogFrame.ltrans ⟨⟨_, dieVisitThread_log thisThread acc a, fun _ _ => rfl⟩⟩ (ih _)

theorem dieVisitThread_count_awake (thisThread : ThreadPtr) (acc : Kernel × List ThreadPtr)
    (a t : ThreadPtr) (b : Nat)
    (h : (acc.1.threads t).state ≠ ThreadState.ThreadStateBlocked) :
    (dieVisitThread thisThread acc a).1.log.count (Event.blockerInterrupt t b)
        = acc.1.log.count (Event.blockerInterrupt t b) ∧
      ((dieVisitThread thisThread acc a).1.threads t).state
        ≠ ThreadState.ThreadStateBlocked := by
  constructor
  · rw [dieVisitThread_log, List.count_append]
    split
    · by_cases hat : a = t
      · subst hat
        rw [dieVisitEvents_count_awake _ _ _ _ h, Nat.add_zero]
      · rw [dieVisitEvents_count_other _ _ _ _ hat, Nat.add_zero]
    · simp
  · by_cases hat : t = a
    · subst hat
      by_cases hv : t ≠ thisThread ∧ t ≠ 0
      · exact dieVisitThread_not_blocked thisThread acc t hv.1 hv.2
      · unfold dieVisitThread
        rw [if_neg hv]
        exact h
    · rw [dieVisitThread_threads_ne thisThread acc a t hat]
      exact h

theorem foldl_dieVisitThread_count_awake (thisThread : ThreadPtr) (l : List ThreadPtr)
    (acc : Kernel × List ThreadPtr) (t : ThreadPtr) (b : Nat)
    (h : (acc.1.threads t).state ≠ ThreadState.ThreadStateBlocked) :
    (l.foldl (dieVisitThread thisThread) acc).1.log.count (Event.blockerInterrupt t b)
      = acc.1.log.count (Event.blockerInterrupt t b) := by
  induction l generalizing acc with
  | nil => rfl
  | cons a rest ih =>
    obtain ⟨hc, hs⟩ := dieVisitThread_count_awake thisThread acc a t b h
    rw [List.foldl_cons, ih _ hs, hc]

theorem foldl_dieVisitThread_count_blocked (thisThread : ThreadPtr) (l : List ThreadPtr)
    (acc : Kernel × List ThreadPtr) (t : ThreadPtr) (b : Nat) (ht : t ∈ l)
    (h1 : t ≠ thisThread) (h0 : t ≠ 0)
    (hs : (acc.1.threads t).state = ThreadState.ThreadStateBlocked)
    (hb : (acc.1.threads t).blocker = some b) :
    (l.foldl (dieVisitThread thisThread) acc).1.log.count (Event.blockerInterrupt t b)
      = acc.1.log.count (Event.blockerInterrupt t b) + 1 := by
  induction l generalizing acc with
  | nil => cases ht
  | cons a rest ih =>
    rw [List.foldl_cons]
    by_cases hat : a = t
    · subst hat
      rw [foldl_dieVisitThread_count_awake thisThread rest _ a b
        (dieVisitThread_not_blocked thisThread acc a h1 h0)]
      rw [dieVisitThread_log, if_pos ⟨h1, h0⟩, List.count_append,
        dieVisitEvents_count_blocked _ _ _ hs hb]
    · have hmem : t ∈ rest := by
        rcases List.mem_cons.mp ht with h | h
        · exact absurd h.symm hat
        · exact h
      have hth := dieVisitThread_threads_ne thisThread acc a t (Ne.symm hat)
      rw [ih _ hmem (by rw [hth]; exact hs) (by rw [hth]; exact hb)]
      rw [dieVisitThread_log, List.count_append]
      split
      · rw [dieVisitEvents_count_other _ _ _ _ hat]
      · simp

theorem foldl_dieVisitThread_retires (thisThread : ThreadPtr) (l : List ThreadPtr)
    (acc : Kernel × List ThreadPtr) (t : ThreadPtr) (ht : t ∈ l) (h1 : t ≠ thisThread)
    (h0 : t ≠ 0) :
    ∃ evs, (l.foldl (dieVisitThread thisThread) acc).1.log = acc.1.log ++ evs ∧
      (evs.filter (Event.retires t)).head?
        = some (Event.threadState t ThreadState.ThreadStateZombie) := by
  induction l generalizing acc with
  | nil => cases ht
  | cons a rest ih =>
    rw [List.foldl_cons]
    by_cases hat : a = t
    · subst hat
      obtain ⟨evs, hl, -⟩ := (foldl_dieVisitThread_grows thisThread rest
        (dieVisitThread thisThread acc a)).grows
      refine ⟨dieVisitEvents (acc.1.threads a) a ++ evs, ?_, ?_⟩
      · rw [hl, dieVisitThread_log, if_pos ⟨h1, h0⟩, List.append_assoc]
      · rw [List.filter_append]
        have hh := dieVisitEvents_retires_head (acc.1.threads a) a
        cases hf : (dieVisitEvents (acc.1.threads a) a).filter (Event.retires a) with
        | nil => rw [hf] at hh; cases hh
        | cons e es => rw [hf] at hh; simpa using hh
    · have hmem : t ∈ rest := by
        rcases List.mem_cons.mp ht with h | h
        · exact absurd h.symm hat
        · exact h
      obtain ⟨evs, hl, hh⟩ := ih (dieVisitThread thisThread acc a) hmem
      refine ⟨(if a ≠ thisThread ∧ a ≠ 0 then dieVisitEvents (acc.1.threads a) a else [])
        ++ evs, ?_, ?_⟩
      · rw [hl, dieVisitThread_log, List.append_assoc]
      · rw [List.filter_append]
        have : (if a ≠ thisThread ∧ a ≠ 0 then dieVisitEvents (acc.1.threads a) a
            else []).filter (Event.retires t) = [] := by
          split
          · exact dieVisitEvents_retires_other _ _ _ hat
          · rfl
        rw [this, List.nil_append]
        exact hh

/-! ### Nothing after the first thread loop interrupts a blocker -/

theorem dieEnter_log (k : Kernel) (this : Pid) (thisThread : ThreadPtr) :
    LogFrame Event.notInterrupt k (finalState id (dieEnter k this thisThread)) := by
  unfold dieEnter
  simp only []
  repeat' split
  all_goals first
    | exact logFrame_of_log _ _ _ rfl
    | exact logFrame_of_append _ _ _ [_] rfl (by simp [Event.notInterrupt, Event.isInterrupt])

theorem dieAwaitChild_log (env : Env) (k : Kernel) (c : Pid) :
    LogFrame Event.notInterrupt k (finalState id (dieAwaitChild env k c)) := by
  unfold dieAwaitChild
  split
  · simp only []
    split
    · exact logFrame_of_append _ _ _ [_] rfl (by simp [Event.notInterrupt, Event.isInterrupt])
    · exact logFrame_emit _ _ _ (by rfl)
  · split
    · rename_i hd
      rw [Watch_dying k c env.localWatcher hd]
      simp only []
      split
      · exact logFrame_of_log _ _ _ rfl
      · exact logFrame_of_log _ _ _ rfl
    · exact LogFrame.lrefl _ _

theorem dieChild_log (env : Env) (k : Kernel) (this c : Pid) :
    LogFrame Event.notInterrupt k (finalState id (dieChild env k this c)) := by
  unfold dieChild
  refine logFrame_bind (dieAwaitChild_log env k c) fun k1 _ => ?_
  exact logFrame_of_log _ _ _ rfl

theorem dieChildren_log (env : Env) (fuel : Nat) (k : Kernel) (this : Pid) :
    LogFrame Event.notInterrupt k (finalState id (dieChildren env fuel k this)) := by
  induction fuel generalizing k with
  | zero => exact LogFrame.lrefl _ _
  | succ fuel ih =>
    unfold dieChildren
    split
    · exact LogFrame.lrefl _ _
    · exact logFrame_bind (dieChild_log env k this _) fun k1 _ => ih k1

theorem dieSweepPass_log (fuel : Nat) (k : Kernel) (running : List ThreadPtr) (it : Nat) :
    LogFrame Event.notInterrupt k (finalState Prod.fst (dieSweepPass fuel k running it)) := by
  induction fuel generalizing k running it with
  | zero => exact LogFrame.lrefl _ _
  | succ fuel ih =>
    unfold dieSweepPass
    simp only []
    split
    · split
      · refine LogFrame.ltrans ?_ (ih _ _ _)
        refine ⟨⟨[Event.acquireStateLock (running.getD it 0),
          Event.threadState (running.getD it 0) ThreadState.ThreadStateDying,
          Event.releaseStateLock (running.getD it 0)], ?_, ?_⟩⟩
        · simp [markDying_log]
        · intro e he
          simp only [List.mem_cons, List.mem_singleton, List.not_mem_nil, or_false] at he
          rcases he with he | he | he <;> subst he <;> rfl
      · exact LogFrame.ltrans
          (logFrame_of_log _ k (acquireTestLock k (running.getD it 0)).2 rfl) (ih _ _ _)
    · exact LogFrame.lrefl _ _

theorem dieSweep_log (env : Env) (fuel n : Nat) (k : Kernel) (running : List ThreadPtr) :
    LogFrame Event.notInterrupt k (finalState id (dieSweep env fuel n k running)) := by
  induction fuel generalizing n k running with
  | zero => exact LogFrame.lrefl _ _
  | succ fuel ih =>
    unfold dieSweep
    split
    · have hp := dieSweepPass_log ((running.length + 1) * (running.length + 1)) k running 0
      split
      · rename_i k1 running1 heq
        rw [heq] at hp
        exact LogFrame.ltrans
          (LogFrame.ltrans hp (logFrame_of_log _ k1 (envUnpin env n k1 running1) rfl)) (ih _ _ _)
      · rename_i e heq
        rw [heq] at hp
        exact hp
    · exact LogFrame.lrefl _ _

theorem dieEvictLocal_log (fuel : Nat) (k : Kernel) (this : Pid) (cpu j : Nat) :
    (finalState id (dieEvictLocal fuel k this cpu j)).log = k.log := by
  induction fuel generalizing k j with
  | zero => rfl
  | succ fuel ih =>
    unfold dieEvictLocal
    simp only []
    repeat' split
    · rfl
    · rw [ih]; rfl
    · exact ih _ _
    · exact ih _ _
    · rfl

theorem dieEvictQueue_log (fuel : Nat) (k : Kernel) (this : Pid) (i j : Nat) :
    (finalState id (dieEvictQueue fuel k this i j)).log = k.log := by
  induction fuel generalizing k j with
  | zero => rfl
  | succ fuel ih =>
    unfold dieEvictQueue
    simp only []
    repeat' split
    · rfl
    · rw [ih]; rfl
    · exact ih _ _
    · rfl

theorem dieClearCurrent_log (k : Kernel) (this : Pid) (i : Nat) :
    (finalState id (dieClearCurrent k this i)).log = k.log := by
  unfold dieClearCurrent
  repeat' split
  all_goals rfl

theorem dieSendIPIs_log (k : Kernel) (i : Nat) :
    LogFrame Event.notInterrupt k (dieSendIPIs k i) := by
  unfold dieSendIPIs
  simp only []
  by_cases hc : (k.cpus i).currentThread = 0
  · simp only [hc, if_true, Kernel.emit_cpus]
    exact LogFrame.ltrans (logFrame_emit _ k _ (by rfl)) (logFrame_emit _ _ _ (by rfl))
  · simp only [hc, if_false]
    exact LogFrame.lrefl _ _

theorem dieEvictOther_log (fuel : Nat) (k : Kernel) (this : Pid) (i : Nat) :
    LogFrame Event.notInterrupt k (finalState id (dieEvictOther fuel k this i)) := by
  unfold dieEvictOther
  refine logFrame_bind (logFrame_of_log _ _ _ (dieClearCurrent_log k this i)) fun k1 _ => ?_
  refine logFrame_bind (logFrame_of_log _ _ _ (dieEvictQueue_log fuel k1 this i 0)) fun k2 _ => ?_
  exact dieSendIPIs_log k2 i

theorem dieEvictRemote_log (fuel : Nat) (this : Pid) (cpu n i : Nat) (k : Kernel) :
    LogFrame Event.notInterrupt k (finalState id (dieEvictRemote fuel this cpu n i k)) := by
  induction n generalizing i k with
  | zero => exact LogFrame.lrefl _ _
  | succ n ih =>
    unfold dieEvictRemote
    split
    · exact ih _ _
    · have hp := dieEvictOther_log fuel k this i
      split
      · rename_i k1 heq
        rw [heq] at hp
        exact LogFrame.ltrans hp (ih _ _)
      · rename_i e heq
        rw [heq] at hp
        exact hp

theorem dieEvict_log (fuel : Nat) (k : Kernel) (this : Pid) (thisThread : ThreadPtr)
    (cpu : Nat) :
    LogFrame Event.notInterrupt k (finalState id (dieEvict fuel k this thisThread cpu)) := by
  unfold dieEvict
  refine logFrame_bind ?_ fun k2 _ => ?_
  · rw [dieCheckThreads_final]; exact logFrame_emit _ _ _ (by rfl)
  · refine logFrame_bind (logFrame_of_log _ _ _ (dieEvictLocal_log fuel k2 this cpu 0))
      fun k3 _ => ?_
    exact dieEvictRemote_log _ _ _ _ _ _

theorem signalWatchers_log (k : Kernel) (this : Pid) :
    LogFrame Event.notInterrupt k (signalWatchers k this) := by
  refine ⟨⟨Event.processState this ProcessState.Process_Dead ::
    (k.procs this).m_watching.map Event.watcherSignal, by rw [signalWatchers_eq], ?_⟩⟩
  intro e he
  rcases List.mem_cons.mp he with h | h
  · subst h; rfl
  · obtain ⟨w, -, hw⟩ := List.mem_map.mp h
    subst hw; rfl

theorem dieNotifyParent_log (k : Kernel) (this : Pid) :
    LogFrame Event.notInterrupt k (dieNotifyParent k this) := by
  unfold dieNotifyParent
  repeat' split
  · exact logFrame_emit _ _ _ (by rfl)
  · exact LogFrame.lrefl _ _
  · exact LogFrame.lrefl _ _

theorem dieExit_log (env : Env) (k : Kernel) (this : Pid) (thisThread : ThreadPtr) :
    LogFrame Event.notInterrupt k (finalState id (dieExit env k this thisThread)) := by
  have h : LogFrame Event.notInterrupt k
      ((k.writeThreadState thisThread ThreadState.ThreadStateDying).emit
        (Event.doSwitch env.exitCPU)) :=
    LogFrame.ltrans (logFrame_of_append _ k
      (k.writeThreadState thisThread ThreadState.ThreadStateDying)
      [Event.threadState thisThread ThreadState.ThreadStateDying] rfl
      (by simp [Event.notInterrupt, Event.isInterrupt]))
      (logFrame_emit _ _ (Event.doSwitch env.exitCPU) (by rfl))
  unfold dieExit
  simp only []
  repeat' split
  · exact LogFrame.ltrans h (logFrame_of_log _ _ _ rfl)
  · exact LogFrame.ltrans h (logFrame_of_log _ _ _ rfl)
  · exact LogFrame.lrefl _ _

theorem dieFromDead_log (env : Env) (k : Kernel) (this : Pid) (thisThread : ThreadPtr) :
    LogFrame Event.notInterrupt k (finalState id (dieFromDead env k this thisThread)) := by
  unfold dieFromDead
  simp only []
  exact LogFrame.ltrans (signalWatchers_log k this)
    (LogFrame.ltrans (dieNotifyParent_log _ this)
      (LogFrame.ltrans (logFrame_emit _ _ _ (by rfl)) (dieExit_log env _ this thisThread)))

/-- Everything `die` logs once the first thread loop is over: no blocker is interrupted. -/
theorem die_log_after_threads (env : Env) (fuel : Nat) (k k1 : Kernel) (this : Pid)
    (thisThread : ThreadPtr) (cpu : Nat) (hent : dieEnter k this thisThread = .ok k1) :
    LogFrame Event.notInterrupt (dieThreads k1 this thisThread).1
        (finalState id (dieUntilDead env fuel k this thisThread cpu)) ∧
      LogFrame Event.notInterrupt (dieThreads k1 this thisThread).1
        (finalState id (die env fuel k this thisThread cpu)) := by
  have hU : LogFrame Event.notInterrupt (dieThreads k1 this thisThread).1
      (finalState id (dieUntilDead env fuel k this thisThread cpu)) := by
    unfold dieUntilDead
    rw [hent, bind_ok]
    refine logFrame_bind ?_ fun k2 _ => ?_
    · unfold dieQuiesce
      exact logFrame_bind (dieChildren_log env fuel _ this) fun k3 _ => dieSweep_log env fuel 0 k3 _
    · refine logFrame_bind (dieEvict_log fuel k2 this thisThread cpu) fun k3 _ => ?_
      exact logFrame_of_append _ k3 (dieCloseHandles k3 this) [Event.handlesCleared this] rfl
        (by simp [Event.notInterrupt, Event.isInterrupt])
  refine ⟨hU, ?_⟩
  unfold die
  exact logFrame_bind hU fun kd _ => dieFromDead_log env kd this thisThread

theorem dieEnter_ok_log (k k1 : Kernel) (this : Pid) (thisThread : ThreadPtr)
    (hent : dieEnter k this thisThread = .ok k1) :
    k1.log = k.log ++ [Event.processState this ProcessState.Process_Dying] ∧
      k1.procs this = { k.procs this with m_state := ProcessState.Process_Dying } ∧
      (∀ p, p ≠ this → k1.procs p = k.procs p) ∧
      (∀ t, (k1.threads t).state = (k.threads t).state ∧
        (k1.threads t).blocker = (k.threads t).blocker) := by
  obtain ⟨-, hk1⟩ := dieEnter_ok k k1 this thisThread hent
  subst hk1
  refine ⟨rfl, by simp, fun p hp => by simp [hp], fun t => ?_⟩
  by_cases ht : t = thisThread
  · subst ht; simp
  · simp [ht]

theorem zombie_before_dying_of_head (t : ThreadPtr) (l : List Event)
    (h : (l.filter (Event.retires t)).head?
      = some (Event.threadState t ThreadState.ThreadStateZombie)) (pre post : List Event)
    (hl : l = pre ++ Event.threadState t ThreadState.ThreadStateDying :: post) :
    Event.threadState t ThreadState.ThreadStateZombie ∈ pre := by
  subst hl
  induction pre with
  | nil =>
    simp [Event.retires, List.filter_cons] at h
  | cons a rest ih =>
    by_cases ha : a = Event.threadState t ThreadState.ThreadStateZombie
    · subst ha; exact List.mem_cons_self _ _
    · refine List.mem_cons_of_mem _ (ih ?_)
      by_cases hd : a = Event.threadState t ThreadState.ThreadStateDying
      · subst hd
        simp [Event.retires, List.filter_cons] at h
      · have hr : Event.retires t a = false := by simp [Event.retires, ha, hd]
        rw [List.cons_append, List.filter_cons, hr] at h
        simpa using h

theorem dieThreads_entry (k k1 : Kernel) (this : Pid) (thisThread : ThreadPtr)
    (hent : dieEnter k this thisThread = .ok k1) :
    dieThreads k1 this thisThread
      = (k.procs this).m_threads.foldl (dieVisitThread thisThread) (k1, []) := by
  obtain ⟨-, h2, -, -⟩ := dieEnter_ok_log k k1 this thisThread hent
  unfold dieThreads
  rw [h2]

/-- C11: a thread of the dying process other than the driving thread that is blocked with
blocker `b` has `b->interrupt()` called exactly once by `die`, however far `die` gets after the
first thread loop, and among the writes of `Zombie` and `Dying` to its state that `die` makes
the first one is `Zombie`: every write of `Dying` comes after a write of `Zombie`. -/
theorem blocked_thread_interrupted_once (env : Env) (fuel : Nat) (k k1 : Kernel) (this : Pid)
    (thisThread : ThreadPtr) (cpu : Nat) (thread : ThreadPtr) (b : Nat)
    (hent : dieEnter k this thisThread = .ok k1)
    (hmem : thread ∈ (k.procs this).m_threads) (hne : thread ≠ thisThread) (h0 : thread ≠ 0)
    (hs : (k.threads thread).state = ThreadState.ThreadStateBlocked)
    (hb : (k.threads thread).blocker = some b) :
    (finalState id (die env fuel k this thisThread cpu)).log.count
        (Event.blockerInterrupt thread b)
      = k.log.count (Event.blockerInterrupt thread b) + 1 ∧
    ((emitted id k (die env fuel k this thisThread cpu)).filter (Event.retires thread)).head?
      = some (Event.threadState thread ThreadState.ThreadStateZombie) ∧
    (∀ pre post, emitted id k (die env fuel k this thisThread cpu)
        = pre ++ Event.threadState thread ThreadState.ThreadStateDying :: post →
      Event.threadState thread ThreadState.ThreadStateZombie ∈ pre) := by
  obtain ⟨hlog, -, -, hth⟩ := dieEnter_ok_log k k1 this thisThread hent
  have hT := dieThreads_entry k k1 this thisThread hent
  have hA := (die_log_after_threads env fuel k k1 this thisThread cpu hent).2
  have hhead : ((emitted id k (die env fuel k this thisThread cpu)).filter
      (Event.retires thread)).head?
      = some (Event.threadState thread ThreadState.ThreadStateZombie) := by
    obtain ⟨rest, hrest, -⟩ := hA.grows
    obtain ⟨evs, hevs, hz⟩ := foldl_dieVisitThread_retires thisThread (k.procs this).m_threads
      (k1, []) thread hmem hne h0
    unfold emitted
    rw [hrest, hT, hevs]
    simp only []
    rw [hlog]
    simp only [List.append_assoc, List.drop_left, List.filter_append]
    have hp : [Event.processState this ProcessState.Process_Dying].filter (Event.retires thread)
        = [] := by
      simp [Event.retires, List.filter_cons]
    rw [hp, List.nil_append]
    cases hf : evs.filter (Event.retires thread) with
    | nil => rw [hf] at hz; cases hz
    | cons e es => rw [hf] at hz; simpa using hz
  refine ⟨?_, hhead, zombie_before_dying_of_head thread _ hhead⟩
  rw [hA.count_eq (Event.blockerInterrupt thread b) rfl, hT,
    foldl_dieVisitThread_count_blocked thisThread _ (k1, []) thread b hmem hne h0
      (by rw [(hth thread).1]; exact hs) (by rw [(hth thread).2]; exact hb)]
  simp only []
  rw [hlog, List.count_append]
  simp

theorem blocked_thread_interrupted_once_witness :
    (sampleKernel.threads 2).state = ThreadState.ThreadStateBlocked ∧
    (finalState id (die sampleEnv 10 sampleKernel 1 1 0)).log.count
        (Event.blockerInterrupt 2 77) = 1 ∧
    ((emitted id sampleKernel (die sampleEnv 10 sampleKernel 1 1 0)).filter
        (Event.retires 2)).head?
      = some (Event.threadState 2 ThreadState.ThreadStateZombie) :=
  have h := blocked_thread_interrupted_once sampleEnv 10 sampleKernel
    (finalState id (dieEnter sampleKernel 1 1)) 1 1 0 2 77 (run_eq_ok _ (by decide))
    (by decide) (by decide) (by decide) (by decide) (by decide)
  ⟨by decide, h.1, h.2.1⟩

/-- C13, as stated: thread 1 is not the main thread of process 2 (thread 4 is), yet
`die` on process 2 driven by thread 1, the main thread of the parent process 1, sends no
`SIGKILL` to thread 4, carries out the whole teardown and returns. -/
theorem die_by_foreign_main_thread_tears_down :
    (sampleKernel.procs 2).m_state = ProcessState.Process_Running ∧
    (sampleKernel.procs 2).m_mainThread = 4 ∧
    stopOf (die sampleEnv 10 sampleKernel 2 1 0) = none ∧
    (emitted id sampleKernel (die sampleEnv 10 sampleKernel 2 1 0)).count
      (Event.signal 4 Signal.SIGKILL) = 0 ∧
    ((finalState id (die sampleEnv 10 sampleKernel 2 1 0)).procs 2).m_state
      = ProcessState.Process_Dead ∧
    ((finalState id (die sampleEnv 10 sampleKernel 2 1 0)).threads 4).state
      = ThreadState.ThreadStateDying ∧
    (sampleKernel.procs 2).m_handles ≠
      ((finalState id (die sampleEnv 10 sampleKernel 2 1 0)).procs 2).m_handles := by
  decide

/-- C13, amended: when `die` is invoked on a running process by one of that process's own
threads other than its main thread, the call sends `SIGKILL` to the main thread and nothing
else, leaves every process, every processor and every thread as it was except that the caller
releases its own kernel lock, and parks the caller for good. A caller from another process
that is not the main thread of its own process sends `SIGKILL` to the main thread of its own
process, changes nothing else and fails the assertion of line 555. A caller that is the main
thread of its own process, whichever process that is, is not redirected: the entry of `die`
sends no signal, writes `Process_Dying`, and goes on with the teardown when the caller holds
its kernel lock. -/
theorem die_by_secondary_thread_redirects (env : Env) (fuel : Nat) (k : Kernel) (this : Pid)
    (thisThread : ThreadPtr) (cpu : Nat)
    (hrun : (k.procs this).m_state = ProcessState.Process_Running) :
    ((k.threads thisThread).parent = this → thisThread ≠ (k.procs this).m_mainThread →
      stopOf (die env fuel k this thisThread cpu) = some Stop.parked ∧
      emitted id k (die env fuel k this thisThread cpu)
        = [Event.signal (k.procs this).m_mainThread Signal.SIGKILL] ∧
      (finalState id (die env fuel k this thisThread cpu)).procs = k.procs ∧
      (finalState id (die env fuel k this thisThread cpu)).cpus = k.cpus ∧
      (∀ t, (finalState id (die env fuel k this thisThread cpu)).threads t
        = if t = thisThread then { k.threads t with kernelLock := false } else k.threads t)) ∧
    ((k.threads thisThread).parent ≠ this →
      thisThread ≠ (k.procs (k.threads thisThread).parent).m_mainThread →
      stopOf (die env fuel k this thisThread cpu) = some (Stop.assertFailed 555) ∧
      emitted id k (die env fuel k this thisThread cpu)
        = [Event.signal (k.procs (k.threads thisThread).parent).m_mainThread Signal.SIGKILL] ∧
      (finalState id (die env fuel k this thisThread cpu)).procs = k.procs ∧
      (finalState id (die env fuel k this thisThread cpu)).cpus = k.cpus ∧
      (finalState id (die env fuel k this thisThread cpu)).threads = k.threads) ∧
    (thisThread = (k.procs (k.threads thisThread).parent).m_mainThread →
      stopOf (dieEnter k this thisThread)
        = (if (k.threads thisThread).kernelLock then none
            else some (Stop.assertFailed 567)) ∧
      emitted id k (dieEnter k this thisThread)
        = [Event.processState this ProcessState.Process_Dying] ∧
      ((finalState id (dieEnter k this thisThread)).procs this).m_state
        = ProcessState.Process_Dying) := by
  refine ⟨fun hown hsec => ?_, fun hfor hsec => ?_, fun hmain => ?_⟩
  · have h : die env fuel k this thisThread cpu
        = .error (Stop.parked,
            (k.emit (Event.signal (k.procs this).m_mainThread Signal.SIGKILL)).setThread
              thisThread { k.threads thisThread with kernelLock := false }) := by
      unfold die dieUntilDead
      rw [dieEnter_redirect k this thisThread hrun hown hsec]
      rfl
    rw [h]
    refine ⟨rfl, ?_, rfl, rfl, ?_⟩
    · simp [emitted, finalState]
    · intro t
      by_cases ht : t = thisThread
      · subst ht; simp [finalState]
      · simp [finalState, ht]
  · have h : die env fuel k this thisThread cpu
        = .error (Stop.assertFailed 555,
            k.emit (Event.signal (k.procs (k.threads thisThread).parent).m_mainThread
              Signal.SIGKILL)) := by
      unfold die dieUntilDead
      rw [dieEnter_foreign_secondary k this thisThread hrun hfor hsec]
      rfl
    rw [h]
    refine ⟨rfl, ?_, rfl, rfl, rfl⟩
    simp [emitted, finalState]
  · rw [dieEnter_main k this thisThread hrun hmain]
    by_cases hl : (k.threads thisThread).kernelLock = true
    · simp [hl, stopOf, emitted, finalState]
    · simp [hl, stopOf, emitted, finalState]

/-- Witness for C13 on the sample state: thread 2 of process 1 is parked by `die` on process
1, thread 3 of process 1 fails the assertion of line 555 in `die` on process 2, and thread 1,
the main thread of process 1, passes the entry of `die` on process 2 with no signal sent. -/
theorem die_by_secondary_thread_redirects_witness :
    stopOf (die sampleEnv 10 sampleKernel 1 2 0) = some Stop.parked ∧
    emitted id sampleKernel (die sampleEnv 10 sampleKernel 1 2 0)
      = [Event.signal 1 Signal.SIGKILL] ∧
    ((finalState id (die sampleEnv 10 sampleKernel 1 2 0)).procs 1).m_state
      = ProcessState.Process_Running ∧
    stopOf (die sampleEnv 10 sampleKernel 2 3 0) = some (Stop.assertFailed 555) ∧
    emitted id sampleKernel (dieEnter sampleKernel 2 1)
      = [Event.processState 2 ProcessState.Process_Dying] :=
  have h := (die_by_secondary_thread_redirects sampleEnv 10 sampleKernel 1 2 0
    (by decide)).1 (by decide) (by decide)
  ⟨h.1, h.2.1, by rw [h.2.2.1]; decide,
    ((die_by_secondary_thread_redirects sampleEnv 10 sampleKernel 2 3 0 (by decide)).2.1
      (by decide) (by decide)).1,
    ((die_by_secondary_thread_redirects sampleEnv 10 sampleKernel 2 1 0 (by decide)).2.2
      (by decide)).2.1⟩

/-! ## `fork` -/

theorem resizeHandles_length (l : List Handle) (n : Nat) : (resizeHandles l n).length = n := by
  unfold resizeHandles
  simp only [List.length_append, List.length_take, List.length_replicate]
  omega

theorem forkCopyHandles_length (src : List Handle) (n : Nat) (dst : List Handle) :
    (forkCopyHandles src n dst).length = dst.length := by
  induction n with
  | zero => rfl
  | succ n ih => simp [forkCopyHandles, ih]

theorem forkCopyHandles_getElem? (src : List Handle) (n : Nat) (dst : List Handle) (j : Nat) :
    (forkCopyHandles src n dst)[j]?
      = if j < n ∧ j < dst.length then some (src.getD j HANDLE_NULL) else dst[j]? := by
  induction n with
  | zero => simp [forkCopyHandles]
  | succ n ih =>
    unfold forkCopyHandles
    rw [List.getElem?_set]
    by_cases hj : n = j
    · subst hj
      simp only [forkCopyHandles_length, if_true, Nat.lt_succ_self, true_and]
      split
      · rfl
      · rw [List.getElem?_eq_none (by omega)]
    · rw [if_neg hj, ih]
      by_cases h1 : j < n
      · have h2 : j < n + 1 := by omega
        simp [h1, h2]
      · have h2 : ¬ j < n + 1 := by omega
        simp [h1, h2]

theorem forkCopyHandles_resize (src dst : List Handle) :
    forkCopyHandles src src.length (resizeHandles dst src.length) = src := by
  apply List.ext_getElem?
  intro j
  rw [forkCopyHandles_getElem?, resizeHandles_length]
  by_cases hj : j < src.length
  · simp [hj, List.getD_eq_getElem?_getD, List.getElem?_eq_getElem hj]
  · simp only [hj, and_self, if_false]
    rw [List.getElem?_eq_none (by rw [resizeHandles_length]; omega),
      List.getElem?_eq_none (by omega)]

theorem construct_ok (x : Ext) (k k1 : Kernel) (pid : Pid) (parent : Option Pid)
    (h : construct x k pid parent = .ok k1) :
    (k1.procs pid).inherited = ([HANDLE_NULL, HANDLE_NULL, HANDLE_NULL], 0, 0, 0, 0) ∧
      (k1.procs pid).m_state = ProcessState.Process_Running ∧
      ∀ p, p ≠ pid → k1.procs p = k.procs p := by
  unfold construct at h
  split at h
  · cases h
  · cases h
    refine ⟨by simp [Process.inherited], by simp, fun p hp => by simp [hp]⟩

theorem forkAddressSpace_inherited (k : Kernel) (this pid p : Pid) :
    ((finalState id (forkAddressSpace k this pid)).procs p).inherited
      = (k.procs p).inherited := by
  unfold forkAddressSpace
  split
  · by_cases h : p = pid
    · subst h; simp [Process.inherited]
    · simp [h]
  · rfl

theorem forkInherit_inherited (k : Kernel) (this pid : Pid) (h : this ≠ pid) :
    ((forkInherit k this pid).procs pid).inherited
        = ((k.procs this).m_handles, (k.procs this).uid, (k.procs this).gid,
            (k.procs this).egid, (k.procs pid).egid) ∧
      ((forkInherit k this pid).procs this).inherited = (k.procs this).inherited ∧
      ∀ p, p ≠ this → p ≠ pid → (forkInherit k this pid).procs p = k.procs p := by
  unfold forkInherit
  refine ⟨?_, ?_, ?_⟩
  · simp [Process.inherited, Ne.symm h, forkCopyHandles_resize]
  · simp [Process.inherited, h]
  · intro p h1 h2
    simp [h1, h2]

theorem map_user_shared_data_inherited (x : Ext) (k : Kernel) (this p : Pid) :
    ((finalState id (map_user_shared_data x k this)).procs p).inherited
      = (k.procs p).inherited := by
  unfold map_user_shared_data
  split
  · rfl
  · by_cases h : p = this
    · subst h; simp [Process.inherited]
    · simp [h]

theorem map_process_environment_block_inherited (x : Ext) (k : Kernel) (this p : Pid) :
    ((finalState id (map_process_environment_block x k this)).procs p).inherited
      = (k.procs p).inherited := by
  unfold map_process_environment_block
  split
  · rfl
  · by_cases h : p = this
    · subst h; simp [Process.inherited]
    · simp [h]

theorem initialize_peb_inherited (x : Ext) (k : Kernel) (this p : Pid) :
    ((finalState id (initialize_peb x k this)).procs p).inherited = (k.procs p).inherited := by
  rcases initialize_peb_cases x k this with ⟨s, h, -⟩ | ⟨usd, peb, -, -, -, h⟩
  · rw [h]; rfl
  · rw [h]
    by_cases h : p = this
    · subst h; simp [Process.inherited]
    · simp [h]

theorem inherited_bind {α β : Type} (p : Pid) (pa : α → Kernel) (pb : β → Kernel) {k : Kernel}
    {r : Except (Stop × Kernel) α} {f : α → Except (Stop × Kernel) β}
    (h1 : ((finalState pa r).procs p).inherited = (k.procs p).inherited)
    (h2 : ∀ a, r = .ok a →
      ((finalState pb (f a)).procs p).inherited = ((pa a).procs p).inherited) :
    ((finalState pb (r >>= f)).procs p).inherited = (k.procs p).inherited :=
  rel_bind (fun a b => (b.procs p).inherited = (a.procs p).inherited)
    (fun _ _ _ hab hbc => hbc.trans hab) pa pb h1 h2

theorem forkSharedData_inherited (x : Ext) (k : Kernel) (this pid p : Pid) :
    ((finalState id (forkSharedData x k this pid)).procs p).inherited
      = (k.procs p).inherited := by
  unfold forkSharedData
  split
  · split
    · by_cases h : p = pid
      · subst h; simp [Process.inherited]
      · simp [h]
    · exact map_user_shared_data_inherited x k pid p
  · rfl

theorem forkEnvironment_inherited (x : Ext) (k : Kernel) (pid p : Pid) :
    ((finalState id (forkEnvironment x k pid)).procs p).inherited
      = (k.procs p).inherited := by
  unfold forkEnvironment
  refine inherited_bind p id id (map_process_environment_block_inherited x k pid p)
    fun k1 _ => ?_
  split
  · rfl
  · refine inherited_bind p id id ?_ fun k3 _ => rfl
    rw [initialize_peb_inherited]
    rfl

/-- What the new process of a returning `fork` got from its parent. -/
theorem fork_ok_inherited (x : Ext) (k k1 : Kernel) (this : Pid) (thisThread : ThreadPtr)
    (pid : Pid) (h : fork x k this thisThread = .ok (k1, pid)) (hfresh : this ≠ k.nextPID) :
    pid = k.nextPID ∧
      (k1.procs pid).inherited
        = ((k.procs this).m_handles, (k.procs this).uid, (k.procs this).gid,
            (k.procs this).egid, 0) ∧
      (k1.procs this).inherited = (k.procs this).inherited := by
  unfold fork at h
  split at h
  · cases h
  · obtain ⟨kc, hc, hA⟩ := bind_eq_ok h
    obtain ⟨ka, ha, hB⟩ := bind_eq_ok hA
    obtain ⟨ks, hs, hC⟩ := bind_eq_ok hB
    obtain ⟨ke, he, hD⟩ := bind_eq_ok hC
    cases hD
    obtain ⟨hnew, -, hold⟩ := construct_ok x _ kc k.nextPID (some this) hc
    have hold1 : kc.procs this = k.procs this := hold this hfresh
    have haI := forkAddressSpace_inherited kc this k.nextPID
    rw [ha] at haI
    simp only [finalState_ok, id] at haI
    have hsI := forkSharedData_inherited x (forkInherit ka this k.nextPID) this k.nextPID
    rw [hs] at hsI
    simp only [finalState_ok, id] at hsI
    have heI := forkEnvironment_inherited x ks k.nextPID
    rw [he] at heI
    simp only [finalState_ok, id] at heI
    obtain ⟨hi1, hi2, -⟩ := forkInherit_inherited ka this k.nextPID hfresh
    have hthis : (ka.procs this).inherited = (k.procs this).inherited := by
      rw [haI, hold1]
    have hpid : (ka.procs k.nextPID).inherited
        = ([HANDLE_NULL, HANDLE_NULL, HANDLE_NULL], 0, 0, 0, 0) := by
      rw [haI, hnew]
    refine ⟨rfl, ?_, ?_⟩
    · rw [heI, hsI, hi1]
      simp only [Process.inherited, Prod.mk.injEq] at hthis hpid ⊢
      obtain ⟨a1, a2, a3, -, a5⟩ := hthis
      obtain ⟨-, -, -, -, b5⟩ := hpid
      exact ⟨a1, a2, a3, a5, b5⟩
    · rw [heI, hsI, hi2, hthis]

/-- C14: the handle table of the process `fork` returns is the parent's table at the time of
the call, entry by entry (same length, same kernel object and same close-on-exec flag at every
index), and the parent's table is unchanged. The PID the scheduler hands out is not the
parent's. -/
theorem fork_copies_handle_table (x : Ext) (k k1 : Kernel) (this : Pid) (thisThread : ThreadPtr)
    (pid : Pid) (h : fork x k this thisThread = .ok (k1, pid)) (hfresh : this ≠ k.nextPID) :
    (k1.procs pid).m_handles = (k.procs this).m_handles ∧
    (k1.procs pid).m_handles.length = (k.procs this).m_handles.length ∧
    (∀ i : Nat, (k1.procs pid).m_handles[i]? = (k.procs this).m_handles[i]?) ∧
    (k1.procs this).m_handles = (k.procs this).m_handles := by
  obtain ⟨-, hc, hp⟩ := fork_ok_inherited x k k1 this thisThread pid h hfresh
  simp only [Process.inherited, Prod.mk.injEq] at hc hp
  exact ⟨hc.1, by rw [hc.1], fun i => by rw [hc.1], hp.1⟩

theorem fork_copies_handle_table_witness :
    ((finalState Prod.fst (fork sampleExt sampleKernel 1 1)).procs 10).m_handles
      = [{ ko := some 40, closeOnExec := false }] ∧
    ((finalState Prod.fst (fork sampleExt sampleKernel 1 1)).procs 1).m_handles
      = (sampleKernel.procs 1).m_handles :=
  have h := fork_copies_handle_table sampleExt sampleKernel
    (finalState Prod.fst (fork sampleExt sampleKernel 1 1)) 1 1 10
    (pair_eq_ok _ _ (by decide)) (by decide)
  ⟨h.1, h.2.2.2⟩

/-- C15, the code: `fork` called by the main thread of process 1, whose credentials are
`uid` 1000, `gid` 1001, `euid` 1002 and `egid` 1003, returns a process with the parent's `uid`
and `gid`, but with `euid` 1003 and `egid` 0: line 833 assigns the parent's `egid` to the
child's `euid` a second time, and the child's `egid` keeps the value the constructor gave it. -/
theorem fork_child_euid_is_parent_egid :
    stopOf (fork sampleExt sampleKernel 1 1) = none ∧
    ((sampleKernel.procs 1).uid, (sampleKernel.procs 1).gid, (sampleKernel.procs 1).euid,
      (sampleKernel.procs 1).egid) = (1000, 1001, 1002, 1003) ∧
    ((finalState Prod.fst (fork sampleExt sampleKernel 1 1)).procs 10).uid = 1000 ∧
    ((finalState Prod.fst (fork sampleExt sampleKernel 1 1)).procs 10).gid = 1001 ∧
    ((finalState Prod.fst (fork sampleExt sampleKernel 1 1)).procs 10).euid = 1003 ∧
    ((finalState Prod.fst (fork sampleExt sampleKernel 1 1)).procs 10).egid = 0 := by
  decide

/-- C16, the code: thread 3, a thread of process 1 that is not its main thread, calls
`create_elf_process` for an image whose segments fail to load with error 5. The `die` of the
new process 10 takes the caller for a secondary thread of the dying process: it sends `SIGKILL`
to the main thread of the caller's own process 1 and stops at the assertion of line 555. No
error is returned, process 10 is still `Process_Running` and still has its address space. -/
theorem create_elf_process_failure_halts_caller :
    (sampleKernel.threads 3).parent = 1 ∧
    (sampleKernel.procs 1).m_mainThread = 1 ∧
    sampleBadImage.elfLoadSegments = some 5 ∧
    stopOf (create_elf_process sampleEnv sampleBadImage 10 sampleKernel 3 1 sampleELF [] []
      none (some 1)) = some (Stop.assertFailed 555) ∧
    emitted Prod.fst sampleKernel (create_elf_process sampleEnv sampleBadImage 10 sampleKernel
      3 1 sampleELF [] [] none (some 1)) = [Event.signal 1 Signal.SIGKILL] ∧
    ((finalState Prod.fst (create_elf_process sampleEnv sampleBadImage 10 sampleKernel 3 1
      sampleELF [] [] none (some 1))).procs 10).m_state = ProcessState.Process_Running ∧
    ((finalState Prod.fst (create_elf_process sampleEnv sampleBadImage 10 sampleKernel 3 1
      sampleELF [] [] none (some 1))).procs 10).addressSpace = some 10 := by
  decide

end Process

/-! ## Arithmetic on addresses -/

theorem two64_eq : (2 : Nat) ^ 64 = 18446744073709551616 := by norm_num

theorem sub64_lt (a b : Nat) : sub64 a b < 18446744073709551616 := by
  unfold sub64
  rw [two64_eq]
  split <;> omega

theorem sub64_eq (a b : Nat) (ha : a < 18446744073709551616) (hb : b ≤ a) :
    sub64 a b = a - b := by
  unfold sub64
  rw [two64_eq]
  split <;> omega

theorem sub64_mod16 (a b : Nat) : sub64 a b % 16 = (a % 16 + 16 - b % 16) % 16 := by
  unfold sub64
  rw [two64_eq]
  split <;> omega

theorem add64_eq (a b : Nat) (h : a + b < 18446744073709551616) : add64 a b = a + b := by
  unfold add64
  rw [two64_eq]
  omega

namespace Process

theorem copyStrings_length (m : Mem) (stackStr : Nat) (l : List (List Nat)) :
    (copyStrings m stackStr l).2.2.length = l.length := by
  induction l generalizing m stackStr with
  | nil => rfl
  | cons a rest ih => simp [copyStrings, ih]

theorem pushAuxv_snd (m : Mem) (stackStr argc envc : Nat) (elfInfo : ELFData)
    (hirakuBase : Nat) :
    (pushAuxv m stackStr argc envc elfInfo hirakuBase).2
      = sub64 (sub64 (sub64 (sub64 (sub64 (sub64 (sub64 (sub64 stackStr (stackStr % 16))
          (8 * ((argc + envc) % 2))) 8) 16) 16) 16) 16) 16 := rfl

theorem pushAuxv_snd_mod16 (m : Mem) (stackStr argc envc : Nat) (elfInfo : ELFData)
    (hirakuBase : Nat) :
    (pushAuxv m stackStr argc envc elfInfo hirakuBase).2 % 16
      = (8 + 8 * ((argc + envc) % 2)) % 16 := by
  rw [pushAuxv_snd]
  simp only [sub64_mod16]
  omega

theorem pushPointers_snd (m : Mem) (stack : Nat) (ptrs : List Nat) :
    (pushPointers m stack ptrs).2 = sub64 (sub64 stack 8) (8 * ptrs.length) := rfl

theorem pushPointers_snd_mod16 (m : Mem) (stack : Nat) (ptrs : List Nat) :
    (pushPointers m stack ptrs).2 % 16 = (stack % 16 + 8 + 8 * (ptrs.length % 2)) % 16 := by
  rw [pushPointers_snd]
  simp only [sub64_mod16]
  omega

/-- The stack pointer `load_elf` computes is a multiple of 16. -/
theorem loadElfStack_aligned (m : Mem) (sp : Nat) (elfInfo : ELFData) (hirakuBase : Nat)
    (argv envp : List (List Nat)) (execPath : Option (List Nat)) :
    (loadElfStack m sp elfInfo hirakuBase argv envp execPath).2 % 16 = 0 := by
  unfold loadElfStack
  simp only []
  rw [sub64_mod16, pushPointers_snd_mod16, pushPointers_snd_mod16, pushAuxv_snd_mod16,
    copyStrings_length, copyStrings_length]
  omega

/-! ## The stops of `die`, `load_elf`, `execve` and `create_elf_process` -/

theorem noAlignment_bind {α β : Type} {r : Except (Stop × Kernel) α}
    {f : α → Except (Stop × Kernel) β} (h1 : noAlignment r = true)
    (h2 : ∀ a, r = .ok a → noAlignment (f a) = true) : noAlignment (r >>= f) = true := by
  cases r with
  | ok a => exact h2 a rfl
  | error e => exact h1

theorem dieEnter_noAlignment (k : Kernel) (this : Pid) (thisThread : ThreadPtr) :
    noAlignment (dieEnter k this thisThread) = true := by
  unfold dieEnter
  simp only []
  repeat' split
  all_goals rfl

theorem dieAwaitChild_noAlignment (env : Env) (k : Kernel) (c : Pid) :
    noAlignment (dieAwaitChild env k c) = true := by
  unfold dieAwaitChild
  split
  · simp only []
    split <;> rfl
  · split
    · rename_i hd
      rw [Watch_dying k c env.localWatcher hd]
      simp only []
      split <;> rfl
    · rfl

theorem dieChildren_noAlignment (env : Env) (fuel : Nat) (k : Kernel) (this : Pid) :
    noAlignment (dieChildren env fuel k this) = true := by
  induction fuel generalizing k with
  | zero => rfl
  | succ fuel ih =>
    unfold dieChildren
    split
    · rfl
    · unfold dieChild
      refine noAlignment_bind (noAlignment_bind (dieAwaitChild_noAlignment env k _)
        fun k1 _ => rfl) fun k1 _ => ih k1

theorem dieSweepPass_noAlignment (fuel : Nat) (k : Kernel) (running : List ThreadPtr)
    (it : Nat) : noAlignment (dieSweepPass fuel k running it) = true := by
  induction fuel generalizing k running it with
  | zero => rfl
  | succ fuel ih =>
    unfold dieSweepPass
    simp only []
    split
    · split
      · exact ih _ _ _
      · exact ih _ _ _
    · rfl

theorem dieSweep_noAlignment (env : Env) (fuel n : Nat) (k : Kernel)
    (running : List ThreadPtr) : noAlignment (dieSweep env fuel n k running) = true := by
  induction fuel generalizing n k running with
  | zero => rfl
  | succ fuel ih =>
    unfold dieSweep
    split
    · have hp := dieSweepPass_noAlignment ((running.length + 1) * (running.length + 1)) k
        running 0
      split
      · exact ih _ _ _
      · rename_i e heq
        rw [heq] at hp
        exact hp
    · rfl

theorem dieCheckThreads_noAlignment (k : Kernel) (this : Pid) (thisThread : ThreadPtr)
    (l : List ThreadPtr) : noAlignment (dieCheckThreads k this thisThread l) = true := by
  induction l with
  | nil => rfl
  | cons t ts ih =>
    unfold dieCheckThreads
    split
    · exact ih
    · rename_i e heq
      unfold dieCheckThread at heq
      split at heq
      · cases heq; rfl
      · split at heq
        · cases heq; rfl
        · split at heq
          · cases heq; rfl
          · cases heq

theorem dieEvictLocal_noAlignment (fuel : Nat) (k : Kernel) (this : Pid) (cpu j : Nat) :
    noAlignment (dieEvictLocal fuel k this cpu j) = true := by
  induction fuel generalizing k j with
  | zero => rfl
  | succ fuel ih =>
    unfold dieEvictLocal
    simp only []
    repeat' split
    · rfl
    · exact ih _ _
    · exact ih _ _
    · exact ih _ _
    · rfl

theorem dieEvictQueue_noAlignment (fuel : Nat) (k : Kernel) (this : Pid) (i j : Nat) :
    noAlignment (dieEvictQueue fuel k this i j) = true := by
  induction fuel generalizing k j with
  | zero => rfl
  | succ fuel ih =>
    unfold dieEvictQueue
    simp only []
    repeat' split
    · rfl
    · exact ih _ _
    · exact ih _ _
    · rfl

theorem dieClearCurrent_noAlignment (k : Kernel) (this : Pid) (i : Nat) :
    noAlignment (dieClearCurrent k this i) = true := by
  unfold dieClearCurrent
  repeat' split
  all_goals rfl

theorem dieEvictOther_noAlignment (fuel : Nat) (k : Kernel) (this : Pid) (i : Nat) :
    noAlignment (dieEvictOther fuel k this i) = true := by
  unfold dieEvictOther
  refine noAlignment_bind (dieClearCurrent_noAlignment k this i) fun k1 _ => ?_
  exact noAlignment_bind (dieEvictQueue_noAlignment fuel k1 this i 0) fun k2 _ => rfl

theorem dieEvictRemote_noAlignment (fuel : Nat) (this : Pid) (cpu n i : Nat) (k : Kernel) :
    noAlignment (dieEvictRemote fuel this cpu n i k) = true := by
  induction n generalizing i k with
  | zero => rfl
  | succ n ih =>
    unfold dieEvictRemote
    split
    · exact ih _ _
    · have hp := dieEvictOther_noAlignment fuel k this i
      split
      · exact ih _ _
      · rename_i e heq
        rw [heq] at hp
        exact hp

theorem dieExit_noAlignment (env : Env) (k : Kernel) (this : Pid) (thisThread : ThreadPtr) :
    noAlignment (dieExit env k this thisThread) = true := by
  unfold dieExit
  simp only []
  repeat' split
  all_goals rfl

theorem die_noAlignment (env : Env) (fuel : Nat) (k : Kernel) (this : Pid)
    (thisThread : ThreadPtr) (cpu : Nat) :
    noAlignment (die env fuel k this thisThread cpu) = true := by
  unfold die dieUntilDead
  refine noAlignment_bind ?_ fun kd _ => dieExit_noAlignment env _ this thisThread
  refine noAlignment_bind (dieEnter_noAlignment k this thisThread) fun k1 _ => ?_
  refine noAlignment_bind ?_ fun k2 _ => ?_
  · unfold dieQuiesce
    exact noAlignment_bind (dieChildren_noAlignment env fuel _ this)
      fun k3 _ => dieSweep_noAlignment env fuel 0 k3 _
  · refine noAlignment_bind ?_ fun k3 _ => rfl
    unfold dieEvict
    refine noAlignment_bind (dieCheckThreads_noAlignment _ this thisThread _) fun k4 _ => ?_
    exact noAlignment_bind (dieEvictLocal_noAlignment fuel k4 this cpu 0)
      fun k5 _ => dieEvictRemote_noAlignment fuel this cpu _ 0 k5

theorem map_user_shared_data_noAlignment (x : Ext) (k : Kernel) (this : Pid) :
    noAlignment (map_user_shared_data x k this) = true := by
  unfold map_user_shared_data
  split <;> rfl

theorem map_process_environment_block_noAlignment (x : Ext) (k : Kernel) (this : Pid) :
    noAlignment (map_process_environment_block x k this) = true := by
  unfold map_process_environment_block
  split <;> rfl

theorem initialize_peb_noAlignment (x : Ext) (k : Kernel) (this : Pid) :
    noAlignment (initialize_peb x k this) = true := by
  rcases initialize_peb_cases x k this with ⟨s, h, hs⟩ | ⟨usd, peb, -, -, -, h⟩
  · rw [h]
    simp [noAlignment, stopOf, hs]
  · rw [h]; rfl

theorem loadElfPlt_stop (m : Mem) (hirakuBase : Nat) (plt : List PltEntry) (e : Stop × Mem)
    (h : loadElfPlt m hirakuBase plt = .error e) : e.1 = Stop.assertFailed 365 := by
  induction plt generalizing m with
  | nil => cases h
  | cons a rest ih =>
    unfold loadElfPlt at h
    split at h
    · split at h
      · exact ih _ h
      · split at h
        · cases h; rfl
        · split at h
          · exact ih _ h
          · exact ih _ h
    · exact ih _ h

theorem loadElfRelocate_noAlignment (k : Kernel) (this : Pid) (dynamic tables : Bool)
    (plt : List PltEntry) : noAlignment (loadElfRelocate k this dynamic tables plt) = true := by
  unfold loadElfRelocate
  split
  · split
    · rfl
    · split
      · rfl
      · rename_i e heq
        have := loadElfPlt_stop _ _ _ e heq
        obtain ⟨st, m⟩ := e
        simp only [] at this
        subst this
        rfl
  · rfl

theorem loadElfLayout_noAlignment (k : Kernel) (this : Pid) (rip sp : Nat) (elfInfo : ELFData)
    (argv envp : List (List Nat)) (execPath : Option (List Nat)) :
    noAlignment (loadElfLayout k this rip sp elfInfo argv envp execPath) = true := by
  unfold loadElfLayout
  simp only []
  rw [if_neg (by rw [loadElfStack_aligned]; simp)]
  rfl

theorem loadElfLayout_ok (k k1 : Kernel) (this : Pid) (rip sp : Nat) (elfInfo : ELFData)
    (argv envp : List (List Nat)) (execPath : Option (List Nat)) (v : Except Nat (Nat × Nat))
    (h : loadElfLayout k this rip sp elfInfo argv envp execPath = .ok (k1, v)) :
    ∃ stack, v = .ok (rip, stack) ∧ stack % 16 = 0 := by
  unfold loadElfLayout at h
  simp only [] at h
  rw [if_neg (by rw [loadElfStack_aligned]; simp)] at h
  cases h
  exact ⟨_, rfl, loadElfStack_aligned _ _ _ _ _ _ _⟩

theorem load_elf_noAlignment (x : Ext) (k : Kernel) (this : Pid) (sp : Nat) (elfInfo : ELFData)
    (argv envp : List (List Nat)) (execPath : Option (List Nat)) :
    noAlignment (load_elf x k this sp elfInfo argv envp execPath) = true := by
  unfold load_elf
  split
  · split
    · rfl
    · rfl
    · rfl
    · refine noAlignment_bind (initialize_peb_noAlignment x k this) fun k1 _ => ?_
      exact noAlignment_bind (loadElfRelocate_noAlignment k1 this _ _ _)
        fun k2 _ => loadElfLayout_noAlignment k2 this _ sp elfInfo argv envp execPath
  · exact noAlignment_bind (initialize_peb_noAlignment x k this)
      fun k1 _ => loadElfLayout_noAlignment k1 this _ sp elfInfo argv envp execPath

/-- A stack pointer that `load_elf` returns is a multiple of 16. -/
theorem load_elf_ok_aligned (x : Ext) (k k1 : Kernel) (this : Pid) (sp : Nat)
    (elfInfo : ELFData) (argv envp : List (List Nat)) (execPath : Option (List Nat))
    (rip stack : Nat)
    (h : load_elf x k this sp elfInfo argv envp execPath = .ok (k1, .ok (rip, stack))) :
    stack % 16 = 0 := by
  unfold load_elf at h
  split at h
  · split at h
    · cases h
    · cases h
    · cases h
    · obtain ⟨ka, -, hA⟩ := bind_eq_ok h
      obtain ⟨kb, -, hB⟩ := bind_eq_ok hA
      obtain ⟨st, hv, hst⟩ := loadElfLayout_ok _ _ _ _ _ _ _ _ _ _ hB
      cases hv
      exact hst
  · obtain ⟨ka, -, hA⟩ := bind_eq_ok h
    obtain ⟨st, hv, hst⟩ := loadElfLayout_ok _ _ _ _ _ _ _ _ _ _ hA
    cases hv
    exact hst

theorem execveMap_noAlignment (x : Ext) (k : Kernel) (this : Pid) (thisThread : ThreadPtr) :
    noAlignment (execveMap x k this thisThread) = true := by
  unfold execveMap
  simp only []
  refine noAlignment_bind (map_user_shared_data_noAlignment x _ this) fun k2 _ => ?_
  refine noAlignment_bind (map_process_environment_block_noAlignment x k2 this) fun k3 _ => ?_
  split <;> rfl

theorem execve_noAlignment (x : Ext) (k : Kernel) (this : Pid) (thisThread : ThreadPtr)
    (exe : ELFData) (argv envp : List (List Nat)) (execPath : Option (List Nat)) :
    noAlignment (execve x k this thisThread exe argv envp execPath) = true := by
  unfold execve
  split
  · rfl
  · split
    · rfl
    · refine noAlignment_bind (execveMap_noAlignment x _ this thisThread) fun k1 _ => ?_
      refine noAlignment_bind (load_elf_noAlignment x k1 this _ exe argv envp execPath)
        fun r hr => ?_
      unfold execveFinish
      split
      · rfl
      · rename_i v hv
        obtain ⟨kr, res⟩ := r
        simp only [] at hv
        subst hv
        have := load_elf_ok_aligned x k1 kr this _ exe argv envp execPath v.1 v.2 hr
        simp only []
        rw [if_neg (by rw [this]; simp)]
        rfl

theorem createElfAbort_noAlignment (env : Env) (fuel : Nat) (k : Kernel) (pid : Pid)
    (thisThread : ThreadPtr) (cpu : Nat) (err : Nat) :
    noAlignment (createElfAbort env fuel k pid thisThread cpu err) = true := by
  unfold createElfAbort
  exact noAlignment_bind (die_noAlignment env fuel k pid thisThread cpu) fun k1 _ => rfl

theorem createElfMap_noAlignment (x : Ext) (k : Kernel) (pid : Pid) :
    noAlignment (createElfMap x k pid) = true := by
  unfold createElfMap
  split
  · rfl
  · simp only []
    refine noAlignment_bind (map_user_shared_data_noAlignment x _ pid) fun k2 _ => ?_
    refine noAlignment_bind (map_process_environment_block_noAlignment x k2 pid) fun k3 _ => ?_
    split <;> rfl

theorem create_elf_process_noAlignment (env : Env) (x : Ext) (fuel : Nat) (k : Kernel)
    (thisThread : ThreadPtr) (cpu : Nat) (exe : ELFData) (argv envp : List (List Nat))
    (execPath : Option (List Nat)) (parent : Option Pid) :
    noAlignment (create_elf_process env x fuel k thisThread cpu exe argv envp execPath parent)
      = true := by
  unfold create_elf_process
  split
  · rfl
  · refine noAlignment_bind ?_ fun k1 _ => ?_
    · unfold construct
      split <;> rfl
    · simp only []
      split
      · exact createElfAbort_noAlignment env fuel _ _ thisThread cpu _
      · refine noAlignment_bind (createElfMap_noAlignment x _ _) fun k3 _ => ?_
        refine noAlignment_bind (load_elf_noAlignment x k3 _ _ exe argv envp execPath)
          fun r hr => ?_
        unfold createElfFinish
        split
        · exact createElfAbort_noAlignment env fuel _ _ thisThread cpu _
        · rename_i v hv
          obtain ⟨kr, res⟩ := r
          simp only [] at hv
          subst hv
          have := load_elf_ok_aligned x k3 kr _ _ exe argv envp execPath v.1 v.2 hr
          simp only []
          rw [if_neg (by rw [this]; simp)]
          rfl

/-- C17: whatever the argument strings, the environment strings, the executable path and the
initial stack pointer are, the stack pointer `load_elf` computes is a multiple of 16; so is
every stack pointer `load_elf` returns, and neither `load_elf` nor `execve` nor
`create_elf_process` ever stops at its alignment assertion (lines 452, 514 and 134). -/
theorem stack_pointer_is_16_byte_aligned (env : Env) (x : Ext) (fuel : Nat) (k : Kernel)
    (this : Pid) (thisThread : ThreadPtr) (cpu : Nat) (sp : Nat) (elfInfo : ELFData)
    (argv envp : List (List Nat)) (execPath : Option (List Nat)) (parent : Option Pid) :
    (∀ (m : Mem) (hirakuBase : Nat),
      (loadElfStack m sp elfInfo hirakuBase argv envp execPath).2 % 16 = 0) ∧
    (∀ k1 rip stack,
      load_elf x k this sp elfInfo argv envp execPath = .ok (k1, .ok (rip, stack)) →
        stack % 16 = 0) ∧
    stopOf (load_elf x k this sp elfInfo argv envp execPath) ≠ some (Stop.assertFailed 452) ∧
    stopOf (execve x k this thisThread elfInfo argv envp execPath)
      ≠ some (Stop.assertFailed 514) ∧
    stopOf (create_elf_process env x fuel k thisThread cpu elfInfo argv envp execPath parent)
      ≠ some (Stop.assertFailed 134) := by
  have key : ∀ {α : Type} (r : Except (Stop × Kernel) α) (s : Stop),
      noAlignment r = true → s.isAlignment = true → stopOf r ≠ some s := by
    intro α r s hr hs hc
    unfold noAlignment at hr
    rw [hc] at hr
    simp [hs] at hr
  refine ⟨fun m hb => loadElfStack_aligned m sp elfInfo hb argv envp execPath,
    fun k1 rip stack h => load_elf_ok_aligned x k k1 this sp elfInfo argv envp execPath rip
      stack h,
    key _ _ (load_elf_noAlignment x k this sp elfInfo argv envp execPath) rfl,
    key _ _ (execve_noAlignment x k this thisThread elfInfo argv envp execPath) rfl,
    key _ _ (create_elf_process_noAlignment env x fuel k thisThread cpu elfInfo argv envp
      execPath parent) rfl⟩

theorem stack_pointer_is_16_byte_aligned_witness :
    (loadElfStack (fun _ => 0) 481040531456 sampleELF 8448 [[104, 105], [97]] [[65, 61, 49]]
      none).2 % 16 = 0 ∧
    stopOf (execve sampleExt sampleKernel 1 1 sampleELF [[104, 105], [97]] [[65, 61, 49]] none)
      ≠ some (Stop.assertFailed 514) :=
  have h := stack_pointer_is_16_byte_aligned sampleEnv sampleExt 10 sampleKernel 1 1 0
    481040531456 sampleELF [[104, 105], [97]] [[65, 61, 49]] none (some 1)
  ⟨h.1 _ _, h.2.2.2.1⟩

/-! ## The bindings of the interpreter's PLT -/

theorem loadElfPlt_strong (m : Mem) (hirakuBase : Nat) (plt : List PltEntry)
    (hbad : ∃ e ∈ plt, e.jumpSlot = true ∧ e.named = true ∧ e.binding ≠ STB_WEAK) :
    ∃ m1, loadElfPlt m hirakuBase plt = .error (Stop.assertFailed 365, m1) := by
  induction plt generalizing m with
  | nil =>
    obtain ⟨e, he, -⟩ := hbad
    cases he
  | cons a rest ih =>
    unfold loadElfPlt
    by_cases ha : a.jumpSlot = true ∧ a.named = true ∧ a.binding ≠ STB_WEAK
    · obtain ⟨h1, h2, h3⟩ := ha
      simp [h1, h2, h3]
    · have hrest : ∃ e ∈ rest, e.jumpSlot = true ∧ e.named = true ∧ e.binding ≠ STB_WEAK := by
        obtain ⟨e, he, hp⟩ := hbad
        rcases List.mem_cons.mp he with h | h
        · subst h; exact absurd hp ha
        · exact ⟨e, h, hp⟩
      repeat' split
      all_goals first
        | exact ih _ hrest
        | (rename_i h1 h2 h3; exact absurd ⟨h1, by simpa using h2, h3⟩ ha)

theorem loadElfPlt_weak (m : Mem) (hirakuBase : Nat) (plt : List PltEntry)
    (hweak : ∀ e ∈ plt, e.jumpSlot = true → e.named = true → e.binding = STB_WEAK) :
    ∃ m1, loadElfPlt m hirakuBase plt = .ok m1 := by
  induction plt generalizing m with
  | nil => exact ⟨m, rfl⟩
  | cons a rest ih =>
    have hrest : ∀ e ∈ rest, e.jumpSlot = true → e.named = true → e.binding = STB_WEAK :=
      fun e he => hweak e (List.mem_cons_of_mem _ he)
    unfold loadElfPlt
    repeat' split
    all_goals first
      | exact ih _ hrest
      | (rename_i h1 h2 h3
         exact absurd (hweak a (List.mem_cons_self _ _) h1 (by simpa using h2)) h3)

theorem map_user_shared_data_eq (x : Ext) (k k1 : Kernel) (this : Pid)
    (h : map_user_shared_data x k this = .ok k1) :
    ∃ space, k1 = k.setProc this
      { k.procs this with
        userSharedDataRegion :=
          some { base := x.PROC_USER_SHARED_DATA_BASE, size := x.sharedDataSize,
                 space := space } } := by
  unfold map_user_shared_data at h
  split at h
  · cases h
  · cases h
    exact ⟨_, rfl⟩

theorem map_process_environment_block_eq (x : Ext) (k k1 : Kernel) (this : Pid)
    (h : map_process_environment_block x k this = .ok k1) :
    ∃ space, k1 = k.setProc this
      { k.procs this with
        pebRegion :=
          some { base := x.anonBase x.pebSize x.PROC_PEB_BASE, size := x.pebSize,
                 space := space } } := by
  unfold map_process_environment_block at h
  split at h
  · cases h
  · cases h
    exact ⟨_, rfl⟩

/-- After `createElfMap` the process has its two regions, and the `gsBase` of its main thread
is the base of the environment-block region. -/
theorem createElfMap_eq (x : Ext) (k k1 : Kernel) (pid : Pid)
    (h : createElfMap x k pid = .ok k1) :
    (∃ peb, (k1.procs pid).pebRegion = some peb ∧
      (k1.threads (k1.procs pid).m_mainThread).gsBase = peb.base) ∧
    (k1.procs pid).m_pid = (k.procs pid).m_pid ∧
    (k1.procs pid).m_handles = (k.procs pid).m_handles ∧
    (k1.procs pid).m_mainThread = (k.procs pid).m_mainThread := by
  unfold createElfMap at h
  split at h
  · cases h
  · simp only [] at h
    obtain ⟨ka, h1, hA⟩ := bind_eq_ok h
    obtain ⟨kb, h2, hB⟩ := bind_eq_ok hA
    obtain ⟨s1, hka⟩ := map_user_shared_data_eq _ _ _ _ h1
    obtain ⟨s2, hkb⟩ := map_process_environment_block_eq _ _ _ _ h2
    split at hB
    · cases hB
    · rename_i peb hpeb
      cases hB
      subst hkb
      subst hka
      simp at hpeb
      refine ⟨⟨peb, ?_, ?_⟩, ?_, ?_, ?_⟩
      all_goals simp [hpeb]

theorem execveMap_eq (x : Ext) (k k1 : Kernel) (this : Pid) (thisThread : ThreadPtr)
    (h : execveMap x k this thisThread = .ok k1) :
    (∃ peb, (k1.procs this).pebRegion = some peb ∧ (k1.threads thisThread).gsBase = peb.base ∧
      peb.base = x.anonBase x.pebSize x.PROC_PEB_BASE) ∧
    (k1.procs this).m_pid = (k.procs this).m_pid ∧
    (k1.procs this).m_mainThread = (k.procs this).m_mainThread ∧
    ∀ t, t ≠ thisThread → (k1.threads t).gsBase = (k.threads t).gsBase := by
  unfold execveMap at h
  simp only [] at h
  obtain ⟨ka, h1, hA⟩ := bind_eq_ok h
  obtain ⟨kb, h2, hB⟩ := bind_eq_ok hA
  obtain ⟨s1, hka⟩ := map_user_shared_data_eq _ _ _ _ h1
  obtain ⟨s2, hkb⟩ := map_process_environment_block_eq _ _ _ _ h2
  split at hB
  · cases hB
  · rename_i peb hpeb
    cases hB
    subst hkb
    subst hka
    simp at hpeb
    refine ⟨⟨peb, ?_, ?_, ?_⟩, ?_, ?_, ?_⟩
    · simp [hpeb]
    · simp [hpeb]
    · rw [← hpeb]
    · simp
    · simp
    · intro t ht
      simp [ht]

theorem initialize_peb_ok (x : Ext) (k : Kernel) (this : Pid) (usd peb : MappedRegion)
    (h : (k.procs this).userSharedDataRegion = some usd)
    (hpeb : (k.procs this).pebRegion = some peb)
    (hgs : (k.threads (k.procs this).m_mainThread).gsBase = peb.base) :
    ∃ k1, initialize_peb x k this = .ok k1 := by
  unfold initialize_peb
  simp only [hpeb, hgs, h, Option.map_some', ne_eq, not_true_eq_false, if_false]
  exact ⟨_, rfl⟩

theorem load_elf_strong (x : Ext) (k : Kernel) (this : Pid) (sp : Nat) (elfInfo : ELFData)
    (argv envp : List (List Nat)) (execPath : Option (List Nat)) (entry : Nat)
    (plt : List PltEntry) (usd peb : MappedRegion)
    (hl : elfInfo.linkerPath = true)
    (hx : x.linker = LinkerLoad.loaded entry true true plt)
    (husd : (k.procs this).userSharedDataRegion = some usd)
    (hpeb : (k.procs this).pebRegion = some peb)
    (hgs : (k.threads (k.procs this).m_mainThread).gsBase = peb.base)
    (hbad : ∃ e ∈ plt, e.jumpSlot = true ∧ e.named = true ∧ e.binding ≠ STB_WEAK) :
    stopOf (load_elf x k this sp elfInfo argv envp execPath)
      = some (Stop.assertFailed 365) := by
  obtain ⟨k1, hk1⟩ := initialize_peb_ok x k this usd peb husd hpeb hgs
  unfold load_elf
  rw [if_pos hl, hx]
  simp only []
  rw [hk1, bind_ok]
  obtain ⟨m1, hm1⟩ := loadElfPlt_strong (k1.userMem this) (k1.procs this).peb.hirakuBase plt hbad
  unfold loadElfRelocate
  simp only [if_true, Bool.not_true, Bool.false_eq_true, if_false]
  rw [hm1]
  rfl

theorem load_elf_strong_stops (x : Ext) (k : Kernel) (this : Pid) (sp : Nat) (elfInfo : ELFData)
    (argv envp : List (List Nat)) (execPath : Option (List Nat)) (entry : Nat)
    (plt : List PltEntry)
    (hl : elfInfo.linkerPath = true)
    (hx : x.linker = LinkerLoad.loaded entry true true plt)
    (hbad : ∃ e ∈ plt, e.jumpSlot = true ∧ e.named = true ∧ e.binding ≠ STB_WEAK) :
    ∃ s, stopOf (load_elf x k this sp elfInfo argv envp execPath) = some s := by
  rcases initialize_peb_cases x k this with ⟨s, he, -⟩ | ⟨usd, peb, husd, hpeb, hgs, -⟩
  · refine ⟨s, ?_⟩
    unfold load_elf
    rw [if_pos hl, hx]
    simp only []
    rw [he]
    rfl
  · exact ⟨_, load_elf_strong x k this sp elfInfo argv envp execPath entry plt usd peb hl hx
      husd hpeb hgs hbad⟩

/-! ## The address space of a process that calls `execve` -/

theorem inSpace_of_procs {k k1 : Kernel} {p : Pid} {sp : Nat} (h : InSpace k p sp)
    (hp : k1.procs p = k.procs p) : InSpace k1 p sp :=
  ⟨by rw [hp]; exact h.own, by rw [hp]; exact h.peb, by rw [hp]; exact h.usd⟩

theorem map_user_shared_data_inSpace (x : Ext) (k : Kernel) (this : Pid) (sp : Nat)
    (h : InSpace k this sp) :
    (∃ k1, map_user_shared_data x k this = .ok k1 ∧
      (k1.procs this).userSharedDataRegion
        = some { base := x.PROC_USER_SHARED_DATA_BASE, size := x.sharedDataSize, space := sp }) ∧
    InSpace (finalState id (map_user_shared_data x k this)) this sp ∧
    (finalState id (map_user_shared_data x k this)).log = k.log ∧
    (finalState id (map_user_shared_data x k this)).threads = k.threads := by
  unfold map_user_shared_data
  rw [h.own]
  refine ⟨⟨_, rfl, by simp⟩, ⟨by simp [h.own], ?_, ?_⟩, rfl, rfl⟩
  · intro r hr
    exact h.peb r (by simpa using hr)
  · intro r hr
    simp at hr
    rw [← hr]

theorem map_process_environment_block_inSpace (x : Ext) (k : Kernel) (this : Pid) (sp : Nat)
    (h : InSpace k this sp) :
    (∃ k1, map_process_environment_block x k this = .ok k1 ∧
      (k1.procs this).pebRegion
        = some { base := x.anonBase x.pebSize x.PROC_PEB_BASE, size := x.pebSize, space := sp } ∧
      (k1.procs this).userSharedDataRegion = (k.procs this).userSharedDataRegion) ∧
    InSpace (finalState id (map_process_environment_block x k this)) this sp ∧
    (finalState id (map_process_environment_block x k this)).log = k.log ∧
    (finalState id (map_process_environment_block x k this)).threads = k.threads := by
  unfold map_process_environment_block
  rw [h.own]
  refine ⟨⟨_, rfl, by simp, by simp⟩, ⟨by simp [h.own], ?_, ?_⟩, rfl, rfl⟩
  · intro r hr
    simp at hr
    rw [← hr]
  · intro r hr
    exact h.usd r (by simpa using hr)

theorem initialize_peb_inSpace (x : Ext) (k : Kernel) (this : Pid) (sp : Nat)
    (h : InSpace k this sp) :
    InSpace (finalState id (initialize_peb x k this)) this sp ∧
    (finalState id (initialize_peb x k this)).log = k.log := by
  rcases initialize_peb_cases x k this with ⟨s, he, -⟩ | ⟨usd, peb, -, -, -, he⟩
  · rw [he]
    exact ⟨h, rfl⟩
  · rw [he]
    refine ⟨⟨by simp [h.own], ?_, ?_⟩, rfl⟩
    · intro r hr
      exact h.peb r (by simpa using hr)
    · intro r hr
      exact h.usd r (by simpa using hr)

theorem loadElfRelocate_inSpace (k : Kernel) (this : Pid) (dynamic tables : Bool)
    (plt : List PltEntry) (sp : Nat) (h : InSpace k this sp) :
    InSpace (finalState id (loadElfRelocate k this dynamic tables plt)) this sp ∧
    (finalState id (loadElfRelocate k this dynamic tables plt)).log = k.log := by
  unfold loadElfRelocate
  repeat' split
  all_goals exact ⟨inSpace_of_procs h rfl, rfl⟩

theorem loadElfLayout_inSpace (k : Kernel) (this : Pid) (rip stackPointer : Nat)
    (elfInfo : ELFData) (argv envp : List (List Nat)) (execPath : Option (List Nat)) (sp : Nat)
    (h : InSpace k this sp) :
    InSpace (finalState Prod.fst
      (loadElfLayout k this rip stackPointer elfInfo argv envp execPath)) this sp ∧
    (finalState Prod.fst
      (loadElfLayout k this rip stackPointer elfInfo argv envp execPath)).log = k.log := by
  unfold loadElfLayout
  simp only []
  split
  all_goals exact ⟨inSpace_of_procs h rfl, rfl⟩

theorem inSpace_bind {α β : Type} (this : Pid) (sp : Nat) (pa : α → Kernel) (pb : β → Kernel)
    {k : Kernel} {r : Except (Stop × Kernel) α} {f : α → Except (Stop × Kernel) β}
    (h : InSpace k this sp)
    (h1 : InSpace k this sp → InSpace (finalState pa r) this sp ∧ (finalState pa r).log = k.log)
    (h2 : ∀ a, r = .ok a → InSpace (pa a) this sp →
      InSpace (finalState pb (f a)) this sp ∧ (finalState pb (f a)).log = (pa a).log) :
    InSpace (finalState pb (r >>= f)) this sp ∧ (finalState pb (r >>= f)).log = k.log := by
  cases r with
  | ok a =>
    obtain ⟨ha, hl⟩ := h1 h
    obtain ⟨hb, hl2⟩ := h2 a rfl ha
    exact ⟨hb, hl2.trans hl⟩
  | error e => exact h1 h

theorem load_elf_inSpace (x : Ext) (k : Kernel) (this : Pid) (stackPointer : Nat)
    (elfInfo : ELFData) (argv envp : List (List Nat)) (execPath : Option (List Nat)) (sp : Nat)
    (h : InSpace k this sp) :
    InSpace (finalState Prod.fst
      (load_elf x k this stackPointer elfInfo argv envp execPath)) this sp ∧
    (finalState Prod.fst
      (load_elf x k this stackPointer elfInfo argv envp execPath)).log = k.log := by
  unfold load_elf
  split
  · split
    · exact ⟨h, rfl⟩
    · exact ⟨h, rfl⟩
    · exact ⟨h, rfl⟩
    · refine inSpace_bind this sp id Prod.fst h (initialize_peb_inSpace x k this sp)
        fun k1 _ h1 => ?_
      exact inSpace_bind this sp id Prod.fst h1 (loadElfRelocate_inSpace k1 this _ _ _ sp)
        fun k2 _ h2 => loadElfLayout_inSpace k2 this _ _ _ _ _ _ sp h2
  · exact inSpace_bind this sp id Prod.fst h (initialize_peb_inSpace x k this sp)
      fun k1 _ h1 => loadElfLayout_inSpace k1 this _ _ _ _ _ _ sp h1

theorem execveSwapSpace_inSpace (k : Kernel) (this : Pid) (old : Nat)
    (hold : (k.procs this).addressSpace = some old) :
    InSpace (execveSwapSpace k this) this k.nextSpace ∧
    (execveSwapSpace k this).log = k.log ++ [Event.spaceDeleted old] ∧
    ((execveSwapSpace k this).procs this).pebRegion = none ∧
    ((execveSwapSpace k this).procs this).userSharedDataRegion = none ∧
    (execveSwapSpace k this).threads = k.threads := by
  unfold execveSwapSpace
  simp only [hold]
  refine ⟨⟨by simp, ?_, ?_⟩, rfl, by simp, by simp, rfl⟩
  · intro r hr
    simp at hr
  · intro r hr
    simp at hr

theorem execveMap_inSpace (x : Ext) (k : Kernel) (this : Pid) (thisThread : ThreadPtr)
    (sp : Nat) (h : InSpace k this sp) :
    (∃ k1, execveMap x k this thisThread = .ok k1 ∧
      (k1.procs this).userSharedDataRegion
        = some { base := x.PROC_USER_SHARED_DATA_BASE, size := x.sharedDataSize, space := sp }) ∧
    InSpace (finalState id (execveMap x k this thisThread)) this sp ∧
    (finalState id (execveMap x k this thisThread)).log = k.log := by
  have h0 : InSpace (k.setThread thisThread
      { k.threads thisThread with
        scRsp := x.anonBase 0x400000 0x7000000000 + 0x400000,
        scRbp := x.anonBase 0x400000 0x7000000000 + 0x400000 }) this sp :=
    inSpace_of_procs h rfl
  obtain ⟨⟨k2, hk2, husd⟩, hi2, hl2, -⟩ := map_user_shared_data_inSpace x _ this sp h0
  rw [hk2] at hi2 hl2
  simp only [finalState_ok, id] at hi2 hl2
  obtain ⟨⟨k3, hk3, hpeb, husd3⟩, hi3, hl3, -⟩ :=
    map_process_environment_block_inSpace x k2 this sp hi2
  rw [hk3] at hi3 hl3
  simp only [finalState_ok, id] at hi3 hl3
  unfold execveMap
  simp only []
  rw [hk2, bind_ok, hk3, bind_ok, hpeb]
  simp only []
  refine ⟨⟨_, rfl, by simpa [husd3] using husd⟩, inSpace_of_procs hi3 rfl, ?_⟩
  exact hl3.trans hl2

theorem execveFinish_inSpace (thisThread : ThreadPtr) (r : Kernel × Except Nat (Nat × Nat))
    (this : Pid) (sp : Nat) (h : InSpace r.1 this sp) :
    InSpace (finalState Prod.fst (execveFinish thisThread r)) this sp ∧
    (finalState Prod.fst (execveFinish thisThread r)).log = r.1.log := by
  unfold execveFinish
  repeat' split
  all_goals exact ⟨inSpace_of_procs h rfl, rfl⟩

/-- However `execve` ends, the process is in the new address space, and all the call logged
is the deletion of the old one. -/
theorem execve_inSpace (x : Ext) (k : Kernel) (this : Pid) (thisThread : ThreadPtr)
    (exe : ELFData) (argv envp : List (List Nat)) (execPath : Option (List Nat)) (old : Nat)
    (hown : (k.threads thisThread).parent = this)
    (hold : (k.procs this).addressSpace = some old) :
    InSpace (finalState Prod.fst (execve x k this thisThread exe argv envp execPath)) this
      k.nextSpace ∧
    (finalState Prod.fst (execve x k this thisThread exe argv envp execPath)).log
      = k.log ++ [Event.spaceDeleted old] := by
  obtain ⟨hS, hlog, -, -, -⟩ := execveSwapSpace_inSpace k this old hold
  unfold execve
  rw [if_neg (by simpa using hown)]
  split
  · exact ⟨hS, hlog⟩
  · rw [← hlog]
    refine inSpace_bind this k.nextSpace id Prod.fst hS
      (fun h => (execveMap_inSpace x _ this thisThread _ h).2) fun k1 _ h1 => ?_
    exact inSpace_bind this k.nextSpace Prod.fst Prod.fst h1
      (load_elf_inSpace x k1 this _ exe argv envp execPath _)
      fun r _ hr => execveFinish_inSpace thisThread r this _ hr

/-- C20: on every return path of `execve`, with or without an error, the address space of the
process is the newly created one, the call has deleted the old address space exactly once and
deleted nothing else, and the two region references of the process are null or regions of the
new address space; when the segments fail to load both are null. -/
theorem execve_replaces_address_space (x : Ext) (k k1 : Kernel) (this : Pid)
    (thisThread : ThreadPtr) (exe : ELFData) (argv envp : List (List Nat))
    (execPath : Option (List Nat)) (err : Option Nat) (old : Nat)
    (h : execve x k this thisThread exe argv envp execPath = .ok (k1, err))
    (hold : (k.procs this).addressSpace = some old) (hfresh : old ≠ k.nextSpace) :
    (k1.procs this).addressSpace = some k.nextSpace ∧
    emitted Prod.fst k (execve x k this thisThread exe argv envp execPath)
      = [Event.spaceDeleted old] ∧
    k1.log.count (Event.spaceDeleted old) = k.log.count (Event.spaceDeleted old) + 1 ∧
    (∀ r, (k1.procs this).pebRegion = some r → r.space = k.nextSpace ∧ r.space ≠ old) ∧
    (∀ r, (k1.procs this).userSharedDataRegion = some r →
      r.space = k.nextSpace ∧ r.space ≠ old) ∧
    (x.elfLoadSegments ≠ none →
      err = x.elfLoadSegments ∧ (k1.procs this).pebRegion = none ∧
      (k1.procs this).userSharedDataRegion = none) := by
  have hown : (k.threads thisThread).parent = this := by
    by_contra hc
    unfold execve at h
    rw [if_pos hc] at h
    cases h
  obtain ⟨hI, hlog⟩ := execve_inSpace x k this thisThread exe argv envp execPath old hown hold
  have hem : emitted Prod.fst k (execve x k this thisThread exe argv envp execPath)
      = [Event.spaceDeleted old] := by
    unfold emitted
    rw [hlog]
    simp
  rw [h] at hI hlog
  simp only [finalState_ok] at hI hlog
  refine ⟨hI.own, hem, ?_, ?_, ?_, ?_⟩
  · rw [hlog, List.count_append]
    simp
  · intro r hr
    have := hI.peb r hr
    exact ⟨this, by rw [this]; exact Ne.symm hfresh⟩
  · intro r hr
    have := hI.usd r hr
    exact ⟨this, by rw [this]; exact Ne.symm hfresh⟩
  · intro hseg
    obtain ⟨-, -, hp, hu, -⟩ := execveSwapSpace_inSpace k this old hold
    unfold execve at h
    rw [if_neg (by simpa using hown)] at h
    split at h
    · rename_i e he
      cases h
      exact ⟨he.symm, hp, hu⟩
    · rename_i he
      exact absurd he hseg

theorem execve_replaces_address_space_witness :
    ((finalState Prod.fst (execve sampleBadImage sampleKernel 1 1 sampleELF [] [] none)).procs
      1).addressSpace = some 10 ∧
    emitted Prod.fst sampleKernel (execve sampleBadImage sampleKernel 1 1 sampleELF [] [] none)
      = [Event.spaceDeleted 1] ∧
    ((finalState Prod.fst (execve sampleBadImage sampleKernel 1 1 sampleELF [] [] none)).procs
      1).pebRegion = none :=
  have h := execve_replaces_address_space sampleBadImage sampleKernel
    (finalState Prod.fst (execve sampleBadImage sampleKernel 1 1 sampleELF [] [] none)) 1 1
    sampleELF [] [] none (some 5) 1 (pair_eq_ok _ _ (by decide)) (by decide) (by decide)
  ⟨h.1, h.2.1, (h.2.2.2.2.2 (by decide)).2.1⟩

/-! ## A binding that is not weak -/

theorem execveSwapSpace_own (k : Kernel) (this : Pid) :
    InSpace (execveSwapSpace k this) this k.nextSpace := by
  unfold execveSwapSpace
  simp only []
  split
  all_goals
    refine ⟨by simp, ?_, ?_⟩
    · intro r hr
      simp at hr
    · intro r hr
      simp at hr

theorem stop_bind_of_ok {α β : Type} {r : Except (Stop × Kernel) α}
    {f : α → Except (Stop × Kernel) β} {a : α} (h : r = .ok a) :
    stopOf (r >>= f) = stopOf (f a) := by
  rw [h]
  rfl

theorem execve_strong (x : Ext) (k : Kernel) (this : Pid) (thisThread : ThreadPtr)
    (elfInfo : ELFData) (argv envp : List (List Nat)) (execPath : Option (List Nat))
    (entry : Nat) (plt : List PltEntry)
    (hl : elfInfo.linkerPath = true)
    (hx : x.linker = LinkerLoad.loaded entry true true plt)
    (hbad : ∃ e ∈ plt, e.jumpSlot = true ∧ e.named = true ∧ e.binding ≠ STB_WEAK)
    (hown : (k.threads thisThread).parent = this) (hseg : x.elfLoadSegments = none)
    (hmain : thisThread = (k.procs this).m_mainThread ∨
      (k.threads (k.procs this).m_mainThread).gsBase = x.anonBase x.pebSize x.PROC_PEB_BASE) :
    stopOf (execve x k this thisThread elfInfo argv envp execPath)
      = some (Stop.assertFailed 365) := by
  obtain ⟨⟨k1, hk1, husd⟩, -, -⟩ :=
    execveMap_inSpace x (execveSwapSpace k this) this thisThread k.nextSpace
      (execveSwapSpace_own k this)
  obtain ⟨⟨peb, hpeb, hgs, hbase⟩, -, hm, hoth⟩ := execveMap_eq _ _ _ _ _ hk1
  have hm0 : ((execveSwapSpace k this).procs this).m_mainThread = (k.procs this).m_mainThread := by
    unfold execveSwapSpace
    simp only []
    split <;> simp
  have ht0 : (execveSwapSpace k this).threads = k.threads := by
    unfold execveSwapSpace
    simp only []
    split <;> rfl
  have hgs1 : (k1.threads (k1.procs this).m_mainThread).gsBase = peb.base := by
    rw [hm, hm0]
    by_cases he : (k.procs this).m_mainThread = thisThread
    · rw [he]
      exact hgs
    · rw [hoth _ he, ht0, hbase]
      rcases hmain with h1 | h1
      · exact absurd h1.symm he
      · exact h1
  unfold execve
  rw [if_neg (by simpa using hown), hseg]
  simp only []
  rw [stop_bind_of_ok hk1]
  have hs := load_elf_strong x k1 this (k1.threads thisThread).scRsp elfInfo argv envp execPath
    entry plt _ peb hl hx husd hpeb hgs1 hbad
  cases hr : load_elf x k1 this (k1.threads thisThread).scRsp elfInfo argv envp execPath with
  | ok v => rw [hr] at hs; cases hs
  | error e => rw [hr] at hs; exact hs

theorem execve_strong_stops (x : Ext) (k : Kernel) (this : Pid) (thisThread : ThreadPtr)
    (elfInfo : ELFData) (argv envp : List (List Nat)) (execPath : Option (List Nat))
    (entry : Nat) (plt : List PltEntry)
    (hl : elfInfo.linkerPath = true)
    (hx : x.linker = LinkerLoad.loaded entry true true plt)
    (hbad : ∃ e ∈ plt, e.jumpSlot = true ∧ e.named = true ∧ e.binding ≠ STB_WEAK)
    (hown : (k.threads thisThread).parent = this) (hseg : x.elfLoadSegments = none) :
    ∃ s, stopOf (execve x k this thisThread elfInfo argv envp execPath) = some s := by
  obtain ⟨⟨k1, hk1, -⟩, -, -⟩ :=
    execveMap_inSpace x (execveSwapSpace k this) this thisThread k.nextSpace
      (execveSwapSpace_own k this)
  obtain ⟨s, hs⟩ := load_elf_strong_stops x k1 this (k1.threads thisThread).scRsp elfInfo argv
    envp execPath entry plt hl hx hbad
  refine ⟨s, ?_⟩
  unfold execve
  rw [if_neg (by simpa using hown), hseg]
  simp only []
  rw [stop_bind_of_ok hk1]
  cases hr : load_elf x k1 this (k1.threads thisThread).scRsp elfInfo argv envp execPath with
  | ok v => rw [hr] at hs; cases hs
  | error e => rw [hr] at hs; exact hs

theorem createElfMap_ok (x : Ext) (k : Kernel) (pid : Pid) (sp : Nat) (h : InSpace k pid sp) :
    ∃ k1, createElfMap x k pid = .ok k1 ∧
      (k1.procs pid).userSharedDataRegion
        = some { base := x.PROC_USER_SHARED_DATA_BASE, size := x.sharedDataSize, space := sp } := by
  have h0 : InSpace (k.setThread (k.procs pid).m_mainThread
      { k.threads (k.procs pid).m_mainThread with
        rsp := x.anonBase 0x400000 0x7000000000 + 0x400000,
        rbp := x.anonBase 0x400000 0x7000000000 + 0x400000 }) pid sp :=
    inSpace_of_procs h rfl
  obtain ⟨⟨k2, hk2, husd⟩, hi2, -, -⟩ := map_user_shared_data_inSpace x _ pid sp h0
  rw [hk2] at hi2
  simp only [finalState_ok, id] at hi2
  obtain ⟨⟨k3, hk3, hpeb, husd3⟩, -, -, -⟩ :=
    map_process_environment_block_inSpace x k2 pid sp hi2
  unfold createElfMap
  rw [h.own]
  simp only []
  rw [hk2, bind_ok, hk3, bind_ok, hpeb]
  simp only []
  exact ⟨_, rfl, by simpa [husd3] using husd⟩

theorem create_elf_process_strong (env : Env) (x : Ext) (fuel : Nat) (k : Kernel)
    (thisThread : ThreadPtr) (cpu : Nat) (elfInfo : ELFData) (argv envp : List (List Nat))
    (execPath : Option (List Nat)) (parent : Option Pid) (entry : Nat) (plt : List PltEntry)
    (hl : elfInfo.linkerPath = true)
    (hx : x.linker = LinkerLoad.loaded entry true true plt)
    (hbad : ∃ e ∈ plt, e.jumpSlot = true ∧ e.named = true ∧ e.binding ≠ STB_WEAK)
    (hwd : x.workingDirOk = true) (hfile : x.elfLoadFile = none)
    (hseg : x.elfLoadSegments = none) :
    stopOf (create_elf_process env x fuel k thisThread cpu elfInfo argv envp execPath parent)
      = some (Stop.assertFailed 365) := by
  unfold create_elf_process
  rw [hfile]
  simp only []
  have hc : ∃ k1, construct x { k with nextPID := k.nextPID + 1 } k.nextPID parent = .ok k1 ∧
      InSpace k1 k.nextPID k.nextSpace := by
    unfold construct
    rw [hwd]
    refine ⟨_, rfl, ⟨by simp, ?_, ?_⟩⟩
    · intro r hr
      simp at hr
    · intro r hr
      simp at hr
  obtain ⟨k1, hk1, hI⟩ := hc
  rw [stop_bind_of_ok hk1, hseg]
  simp only []
  obtain ⟨k3, hk3, husd⟩ := createElfMap_ok x
    (k1.setThread (k1.procs k.nextPID).m_mainThread
      { k1.threads (k1.procs k.nextPID).m_mainThread with
        timeSliceDefault := x.THREAD_TIMESLICE_DEFAULT,
        timeSlice := x.THREAD_TIMESLICE_DEFAULT, priority := 4 }) k.nextPID k.nextSpace
    (inSpace_of_procs hI rfl)
  rw [stop_bind_of_ok hk3]
  obtain ⟨⟨peb, hpeb, hgs⟩, -, -, -⟩ := createElfMap_eq _ _ _ _ hk3
  have hs := load_elf_strong x k3 k.nextPID (k3.threads (k3.procs k.nextPID).m_mainThread).rsp
    elfInfo argv envp execPath entry plt _ peb hl hx husd hpeb hgs hbad
  cases hr : load_elf x k3 k.nextPID (k3.threads (k3.procs k.nextPID).m_mainThread).rsp
      elfInfo argv envp execPath with
  | ok v => rw [hr] at hs; cases hs
  | error e => rw [hr] at hs; exact hs

/-- C19, as stated: the interpreter of the sample has a named `JUMP_SLOT` entry of binding 1
(`STB_GLOBAL`). `load_elf` stops at the assertion of line 365 and returns nothing, and neither
`execve` nor `create_elf_process` returns an error: they stop at the same assertion. -/
theorem strong_binding_is_not_returned_as_error :
    sampleStrongPlt.linker = LinkerLoad.loaded 547608330240 true true
      [{ jumpSlot := true, named := true, binding := 2, symbol := some 64, offset := 4096,
         addend := 0 },
       { jumpSlot := true, named := true, binding := 1, symbol := some 128, offset := 4104,
         addend := 0 }] ∧
    STB_WEAK = 2 ∧
    stopOf (load_elf sampleStrongPlt sampleKernel 1 481040531456 sampleDynELF [] [] none)
      = some (Stop.assertFailed 365) ∧
    (valueOf (load_elf sampleStrongPlt sampleKernel 1 481040531456 sampleDynELF [] []
      none)).isNone = true ∧
    (valueOf (execve sampleStrongPlt sampleKernel 1 1 sampleDynELF [] [] none)).isNone = true ∧
    (valueOf (create_elf_process sampleEnv sampleStrongPlt 10 sampleKernel 1 0 sampleDynELF [] []
      none (some 1))).isNone = true := by
  decide

/-- C19, amended: when the PLT of the program interpreter has a named `JUMP_SLOT` entry whose
binding is not `STB_WEAK`, `load_elf` stops at the assertion of line 365 and returns nothing;
`execve` and `create_elf_process`, once they get as far as `load_elf`, stop there with it
and return no error. When every named `JUMP_SLOT` entry is weak the PLT loop runs to its
end. The stop is the assertion of line 365 when the environment block is where `load_elf`
writes it, that is when the `gsBase` of the main thread is the base of the environment-block
region: `create_elf_process` sees to that itself, and `execve` does for a caller that is the
main thread. In every other state `load_elf` and `execve` stop as well, at the store of line
953, and return nothing. -/
theorem strong_binding_fails_assertion (env : Env) (x : Ext) (fuel : Nat) (k : Kernel)
    (this : Pid) (thisThread : ThreadPtr) (cpu : Nat) (sp : Nat) (elfInfo : ELFData)
    (argv envp : List (List Nat)) (execPath : Option (List Nat)) (parent : Option Pid)
    (entry : Nat) (plt : List PltEntry)
    (hl : elfInfo.linkerPath = true)
    (hx : x.linker = LinkerLoad.loaded entry true true plt)
    (hbad : ∃ e ∈ plt, e.jumpSlot = true ∧ e.named = true ∧ e.binding ≠ STB_WEAK) :
    (∀ usd peb, (k.procs this).userSharedDataRegion = some usd →
      (k.procs this).pebRegion = some peb →
      (k.threads (k.procs this).m_mainThread).gsBase = peb.base →
      stopOf (load_elf x k this sp elfInfo argv envp execPath)
        = some (Stop.assertFailed 365)) ∧
    ((k.threads thisThread).parent = this → x.elfLoadSegments = none →
      (thisThread = (k.procs this).m_mainThread ∨
        (k.threads (k.procs this).m_mainThread).gsBase
          = x.anonBase x.pebSize x.PROC_PEB_BASE) →
      stopOf (execve x k this thisThread elfInfo argv envp execPath)
        = some (Stop.assertFailed 365)) ∧
    (x.workingDirOk = true → x.elfLoadFile = none → x.elfLoadSegments = none →
      stopOf (create_elf_process env x fuel k thisThread cpu elfInfo argv envp execPath parent)
        = some (Stop.assertFailed 365)) ∧
    (∀ (weak : List PltEntry) (m : Mem) (hirakuBase : Nat),
      (∀ e ∈ weak, e.jumpSlot = true → e.named = true → e.binding = STB_WEAK) →
        ∃ m1, loadElfPlt m hirakuBase weak = .ok m1) ∧
    (∃ s, stopOf (load_elf x k this sp elfInfo argv envp execPath) = some s) ∧
    ((k.threads thisThread).parent = this → x.elfLoadSegments = none →
      ∃ s, stopOf (execve x k this thisThread elfInfo argv envp execPath) = some s) :=
  ⟨fun usd peb husd hpeb hgs => load_elf_strong x k this sp elfInfo argv envp execPath entry
      plt usd peb hl hx husd hpeb hgs hbad,
    fun hown hseg hmain => execve_strong x k this thisThread elfInfo argv envp execPath entry
      plt hl hx hbad hown hseg hmain,
    fun hwd hfile hseg => create_elf_process_strong env x fuel k thisThread cpu elfInfo argv
      envp execPath parent entry plt hl hx hbad hwd hfile hseg,
    fun weak m hb hweak => loadElfPlt_weak m hb weak hweak,
    load_elf_strong_stops x k this sp elfInfo argv envp execPath entry plt hl hx hbad,
    fun hown hseg => execve_strong_stops x k this thisThread elfInfo argv envp execPath entry
      plt hl hx hbad hown hseg⟩

theorem strong_binding_fails_assertion_witness :
    stopOf (execve sampleStrongPlt sampleKernel 1 1 sampleDynELF [] [] none)
      = some (Stop.assertFailed 365) ∧
    stopOf (create_elf_process sampleEnv sampleStrongPlt 10 sampleKernel 1 0 sampleDynELF [] []
      none (some 1)) = some (Stop.assertFailed 365) :=
  have h := strong_binding_fails_assertion sampleEnv sampleStrongPlt 10 sampleKernel 1 1 0
    481040531456 sampleDynELF [] [] none (some 1) 547608330240
    [{ jumpSlot := true, named := true, binding := 2, symbol := some 64, offset := 4096,
       addend := 0 },
     { jumpSlot := true, named := true, binding := 1, symbol := some 128, offset := 4104,
       addend := 0 }]
    rfl rfl ⟨_, List.mem_cons_of_mem _ (List.mem_cons_self _ _), rfl, rfl, by decide⟩
  ⟨h.2.1 (by decide) rfl (Or.inl (by decide)), h.2.2.1 rfl rfl rfl⟩

/-! ## Reading the stack that `load_elf` builds -/

theorem storeByte_read (m : Mem) (a b y : Nat) (ha : a < 18446744073709551616) :
    storeByte m a b y = if y = a then b % 256 else m y := by
  unfold storeByte
  rw [two64_eq, Nat.mod_eq_of_lt ha]

theorem storeBytes_read (m : Mem) (a : Nat) (bs : List Nat) (y : Nat)
    (h : a + bs.length ≤ 18446744073709551616) :
    storeBytes m a bs y
      = if a ≤ y ∧ y < a + bs.length then bs.getD (y - a) 0 % 256 else m y := by
  induction bs generalizing m a with
  | nil =>
    simp only [storeBytes, List.length_nil]
    rw [if_neg (by omega)]
  | cons b rest ih =>
    unfold storeBytes
    simp only [List.length_cons] at h
    cases rest with
    | nil =>
      simp only [storeBytes, List.length_cons, List.length_nil]
      rw [storeByte_read _ _ _ _ (by omega)]
      by_cases hy : y = a
      · subst hy; simp
      · have : ¬ (a ≤ y ∧ y < a + (0 + 1)) := by omega
        rw [if_neg hy, if_neg this]
    | cons c rest2 =>
      simp only [List.length_cons] at h ih ⊢
      rw [add64_eq a 1 (by omega), ih _ _ (by omega)]
      by_cases h1 : a + 1 ≤ y ∧ y < a + 1 + (rest2.length + 1)
      · have h2 : a ≤ y ∧ y < a + (rest2.length + 1 + 1) := by omega
        rw [if_pos h1, if_pos h2]
        have : y - a = (y - (a + 1)) + 1 := by omega
        rw [this, List.getD_cons_succ]
      · rw [if_neg h1, storeByte_read _ _ _ _ (by omega)]
        by_cases hy : y = a
        · subst hy
          simp
        · have h2 : ¬ (a ≤ y ∧ y < a + (rest2.length + 1 + 1)) := by omega
          rw [if_neg hy, if_neg h2]

theorem wordBytes_length (v : Nat) : (wordBytes v).length = 8 := rfl

theorem loadWord_of_bytes (m : Mem) (a v : Nat) (ha : a + 8 ≤ 18446744073709551616)
    (h : ∀ i, i < 8 → m (a + i) = (wordBytes v).getD i 0) :
    loadWord m a = v % 18446744073709551616 := by
  unfold loadWord
  rw [add64_eq a 0 (by omega), add64_eq a 1 (by omega), add64_eq a 2 (by omega),
    add64_eq a 3 (by omega), add64_eq a 4 (by omega), add64_eq a 5 (by omega),
    add64_eq a 6 (by omega), add64_eq a 7 (by omega)]
  rw [h 0 (by omega), h 1 (by omega), h 2 (by omega), h 3 (by omega), h 4 (by omega),
    h 5 (by omega), h 6 (by omega), h 7 (by omega)]
  simp only [wordBytes, List.getD_cons_zero, List.getD_cons_succ]
  norm_num
  omega

theorem storeBytes_above (m : Mem) (a : Nat) (bs : List Nat) (y : Nat)
    (h : a + bs.length ≤ 18446744073709551616) (hy : a + bs.length ≤ y) :
    storeBytes m a bs y = m y := by
  rw [storeBytes_read m a bs y h, if_neg (by omega)]

theorem storeBytes_at (m : Mem) (a : Nat) (bs : List Nat) (j : Nat)
    (h : a + bs.length ≤ 18446744073709551616) (hj : j < bs.length) :
    storeBytes m a bs (a + j) = bs.getD j 0 % 256 := by
  rw [storeBytes_read m a bs (a + j) h, if_pos (by omega)]
  congr 2
  omega

theorem wordBytes_mod (v i : Nat) : (wordBytes v).getD i 0 % 256 = (wordBytes v).getD i 0 := by
  unfold wordBytes
  rcases i with _ | _ | _ | _ | _ | _ | _ | _ | i <;>
    simp only [List.getD_cons_zero, List.getD_cons_succ, List.getD_nil] <;> omega

theorem loadWord_storeWord (m : Mem) (a v : Nat) (ha : a + 8 ≤ 18446744073709551616) :
    loadWord (storeWord m a v) a = v % 18446744073709551616 := by
  apply loadWord_of_bytes _ _ _ ha
  intro i hi
  unfold storeWord
  rw [storeBytes_at _ _ _ _ (by rw [wordBytes_length]; exact ha) (by rw [wordBytes_length]; exact hi),
    wordBytes_mod]

theorem agreeAbove_trans {T1 T2 : Nat} {m1 m2 m3 : Mem} (h1 : AgreeAbove T1 m1 m2)
    (h2 : AgreeAbove T2 m2 m3) (h : T2 ≤ T1) : AgreeAbove T1 m1 m3 :=
  fun y hy => (h2 y (by omega)).trans (h1 y hy)

theorem loadWord_agree {T : Nat} {m1 m2 : Mem} (h : AgreeAbove T m1 m2) (a : Nat)
    (ha : T ≤ a) (hw : a + 8 ≤ 18446744073709551616) : loadWord m2 a = loadWord m1 a := by
  unfold loadWord
  rw [add64_eq a 0 (by omega), add64_eq a 1 (by omega), add64_eq a 2 (by omega),
    add64_eq a 3 (by omega), add64_eq a 4 (by omega), add64_eq a 5 (by omega),
    add64_eq a 6 (by omega), add64_eq a 7 (by omega)]
  rw [h _ (by omega), h _ (by omega), h _ (by omega), h _ (by omega), h _ (by omega),
    h _ (by omega), h _ (by omega), h _ (by omega)]

theorem storeWord_agree (m : Mem) (a v : Nat) (ha : a + 8 ≤ 18446744073709551616) :
    AgreeAbove (a + 8) m (storeWord m a v) := by
  intro y hy
  unfold storeWord
  exact storeBytes_above _ _ _ _ (by rw [wordBytes_length]; exact ha)
    (by rw [wordBytes_length]; exact hy)

theorem storeWords_agree (m : Mem) (a : Nat) (ws : List Nat)
    (ha : a + 8 * ws.length ≤ 18446744073709551616) :
    AgreeAbove (a + 8 * ws.length) m (storeWords m a ws) := by
  induction ws generalizing m a with
  | nil => intro y _; rfl
  | cons w rest ih =>
    simp only [List.length_cons] at ha ⊢
    unfold storeWords
    cases rest with
    | nil =>
      simp only [storeWords, List.length_nil]
      intro y hy
      exact storeWord_agree m a w (by omega) y (by omega)
    | cons w2 rest2 =>
      simp only [List.length_cons] at ha ih ⊢
      rw [add64_eq a 8 (by omega)]
      intro y hy
      rw [ih (storeWord m a w) (a + 8) (by omega) y (by omega)]
      exact storeWord_agree m a w (by omega) y (by omega)

theorem storeBytes_below (m : Mem) (a : Nat) (bs : List Nat) (y : Nat)
    (h : a + bs.length ≤ 18446744073709551616) (hy : y < a) :
    storeBytes m a bs y = m y := by
  rw [storeBytes_read m a bs y h, if_neg (by omega)]

theorem storeWords_below (m : Mem) (a : Nat) (ws : List Nat) (y : Nat)
    (ha : a + 8 * ws.length ≤ 18446744073709551616) (hy : y < a) :
    storeWords m a ws y = m y := by
  induction ws generalizing m a with
  | nil => rfl
  | cons w rest ih =>
    simp only [List.length_cons] at ha
    unfold storeWords
    cases rest with
    | nil =>
      simp only [storeWords]
      unfold storeWord
      exact storeBytes_below _ _ _ _ (by rw [wordBytes_length]; omega) hy
    | cons w2 rest2 =>
      simp only [List.length_cons] at ha ih
      rw [add64_eq a 8 (by omega), ih (storeWord m a w) (a + 8) (by omega) (by omega)]
      unfold storeWord
      exact storeBytes_below _ _ _ _ (by rw [wordBytes_length]; omega) hy

theorem loadWord_congr (m1 m2 : Mem) (a : Nat) (hw : a + 8 ≤ 18446744073709551616)
    (h : ∀ y, a ≤ y → y < a + 8 → m2 y = m1 y) : loadWord m2 a = loadWord m1 a := by
  unfold loadWord
  rw [add64_eq a 0 (by omega), add64_eq a 1 (by omega), add64_eq a 2 (by omega),
    add64_eq a 3 (by omega), add64_eq a 4 (by omega), add64_eq a 5 (by omega),
    add64_eq a 6 (by omega), add64_eq a 7 (by omega)]
  rw [h _ (by omega) (by omega), h _ (by omega) (by omega), h _ (by omega) (by omega),
    h _ (by omega) (by omega), h _ (by omega) (by omega), h _ (by omega) (by omega),
    h _ (by omega) (by omega), h _ (by omega) (by omega)]

theorem storeWords_word (m : Mem) (a : Nat) (ws : List Nat) (i : Nat)
    (ha : a + 8 * ws.length ≤ 18446744073709551616) (hi : i < ws.length) :
    loadWord (storeWords m a ws) (a + 8 * i) = ws.getD i 0 % 18446744073709551616 := by
  induction ws generalizing m a i with
  | nil => simp at hi
  | cons w rest ih =>
    simp only [List.length_cons] at ha hi
    unfold storeWords
    cases i with
    | zero =>
      simp only [Nat.mul_zero, Nat.add_zero, List.getD_cons_zero]
      rw [← loadWord_storeWord m a w (by omega)]
      apply loadWord_congr _ _ _ (by omega)
      intro y hy1 hy2
      cases rest with
      | nil => rfl
      | cons w2 rest2 =>
        simp only [List.length_cons] at ha
        rw [add64_eq a 8 (by omega)]
        exact storeWords_below _ _ _ _ (by simp only [List.length_cons]; omega) (by omega)
    | succ i =>
      cases rest with
      | nil => simp at hi
      | cons w2 rest2 =>
        simp only [List.length_cons] at ha hi ih
        rw [add64_eq a 8 (by omega), List.getD_cons_succ]
        have := ih (storeWord m a w) (a + 8) i (by omega) (by omega)
        rw [← this]
        congr 1
        omega

theorem agreeAbove_mono {T T1 : Nat} {m1 m2 : Mem} (h : AgreeAbove T m1 m2) (hT : T ≤ T1) :
    AgreeAbove T1 m1 m2 := fun y hy => h y (by omega)

theorem agreeAbove_refl (T : Nat) (m : Mem) : AgreeAbove T m m := fun _ _ => rfl

theorem holdsString_agree {T : Nat} {m1 m2 : Mem} {p : Nat} {s : List Nat}
    (h : HoldsString m1 p s) (ha : AgreeAbove T m1 m2) (hp : T ≤ p) : HoldsString m2 p s :=
  ⟨fun j hj => (ha _ (by omega)).trans (h.1 j hj), (ha _ (by omega)).trans h.2⟩

theorem takeWhile_of_cstring (s : List Nat) (h : CString s) :
    (s.takeWhile fun c => decide (c ≠ 0)) = s := by
  rw [List.takeWhile_eq_self_iff]
  intro c hc
  simpa using (h c hc).1

theorem strcpy_agree (m : Mem) (p : Nat) (s : List Nat)
    (hp : p + strlen s + 1 ≤ 18446744073709551616) :
    AgreeAbove (p + strlen s + 1) m (strcpy m p s) := by
  intro y hy
  unfold strcpy
  unfold strlen at hp hy
  exact storeBytes_above _ _ _ _ (by simp only [List.length_append, List.length_singleton]; omega)
    (by simp only [List.length_append, List.length_singleton]; omega)

theorem strlen_of_cstring (s : List Nat) (h : CString s) : strlen s = s.length := by
  unfold strlen
  rw [takeWhile_of_cstring s h]

theorem strcpy_holds (m : Mem) (p : Nat) (s : List Nat) (h : CString s)
    (hp : p + s.length + 1 ≤ 18446744073709551616) : HoldsString (strcpy m p s) p s := by
  unfold strcpy
  rw [takeWhile_of_cstring s h]
  constructor
  · intro j hj
    rw [storeBytes_at _ _ _ _ (by simp only [List.length_append, List.length_singleton]; omega)
      (by simp only [List.length_append, List.length_singleton]; omega)]
    rw [List.getD_append _ _ _ _ hj]
    have hm : s.getD j 0 ∈ s := by
      rw [List.getD_eq_getElem _ _ hj]
      exact List.getElem_mem _
    exact Nat.mod_eq_of_lt (h _ hm).2
  · rw [storeBytes_at _ _ _ _ (by simp only [List.length_append, List.length_singleton]; omega)
      (by simp only [List.length_append, List.length_singleton]; omega)]
    rw [List.getD_append_right _ _ _ _ (le_refl _)]
    simp

theorem copyStrings_spec (m : Mem) (top : Nat) (l : List (List Nat))
    (htop : top < 18446744073709551616) (hfit : stringsSize l ≤ top)
    (hl : ∀ s ∈ l, CString s) :
    (copyStrings m top l).2.1 = top - stringsSize l ∧
    (copyStrings m top l).2.2 = stringAddrs top l ∧
    AgreeAbove top m (copyStrings m top l).1 ∧
    ∀ i, i < l.length →
      HoldsString (copyStrings m top l).1 ((stringAddrs top l).getD i 0) (l.getD i []) := by
  induction l generalizing m top with
  | nil => exact ⟨rfl, rfl, agreeAbove_refl _ _, fun i hi => by simp at hi⟩
  | cons a rest ih =>
    simp only [stringsSize] at hfit
    have hs : sub64 top (a.length + 1) = top - (a.length + 1) := sub64_eq _ _ htop (by omega)
    have ha : CString a := hl a (List.mem_cons_self _ _)
    obtain ⟨h1, h2, h3, h4⟩ := ih (strcpy m (top - (a.length + 1)) a) (top - (a.length + 1))
      (by omega) (by omega) (fun s hs => hl s (List.mem_cons_of_mem _ hs))
    have hcp := strcpy_agree m (top - (a.length + 1)) a (by rw [strlen_of_cstring a ha]; omega)
    rw [strlen_of_cstring a ha] at hcp
    unfold copyStrings
    simp only [hs, stringsSize, stringAddrs]
    refine ⟨by rw [h1]; omega, by rw [h2], ?_, ?_⟩
    · intro y hy
      rw [h3 y (by omega)]
      exact hcp y (by omega)
    · intro i hi
      cases i with
      | zero =>
        simp only [List.getD_cons_zero]
        exact holdsString_agree (strcpy_holds m _ a ha (by omega)) h3 (le_refl _)
      | succ i =>
        simp only [List.getD_cons_succ]
        exact h4 i (by simpa using hi)

theorem stringAddrs_length (top : Nat) (l : List (List Nat)) :
    (stringAddrs top l).length = l.length := by
  induction l generalizing top with
  | nil => rfl
  | cons a rest ih => simp [stringAddrs, ih]

theorem stringAddrs_bounds (top : Nat) (l : List (List Nat)) (hfit : stringsSize l ≤ top)
    (i : Nat) (hi : i < l.length) :
    top - stringsSize l ≤ (stringAddrs top l).getD i 0 ∧
    (stringAddrs top l).getD i 0 + (l.getD i []).length + 1 ≤ top := by
  induction l generalizing top i with
  | nil => simp at hi
  | cons a rest ih =>
    simp only [stringsSize] at hfit
    cases i with
    | zero =>
      simp only [stringAddrs, stringsSize, List.getD_cons_zero]
      omega
    | succ i =>
      simp only [stringAddrs, stringsSize, List.getD_cons_succ]
      have := ih (top - (a.length + 1)) (by omega) i (by simpa using hi)
      omega

theorem stringAddrs_descend (top : Nat) (l : List (List Nat)) (hfit : stringsSize l ≤ top)
    (i j : Nat) (hij : i < j) (hj : j < l.length) :
    (stringAddrs top l).getD j 0 + (l.getD j []).length + 1 ≤ (stringAddrs top l).getD i 0 := by
  induction l generalizing top i j with
  | nil => simp at hj
  | cons a rest ih =>
    simp only [stringsSize] at hfit
    cases j with
    | zero => omega
    | succ j =>
      cases i with
      | zero =>
        simp only [stringAddrs, List.getD_cons_zero, List.getD_cons_succ]
        exact (stringAddrs_bounds (top - (a.length + 1)) rest (by omega) j
          (by simpa using hj)).2
      | succ i =>
        simp only [stringAddrs, List.getD_cons_succ]
        exact ih (top - (a.length + 1)) (by omega) i j (by omega) (by simpa using hj)

theorem copyExecPath_spec (m : Mem) (top : Nat) (execPath : Option (List Nat))
    (htop : top < 18446744073709551616) (hfit : execPathSize execPath ≤ top) :
    (copyExecPath m top execPath).2 = top - execPathSize execPath ∧
    AgreeAbove top m (copyExecPath m top execPath).1 := by
  cases execPath with
  | none => exact ⟨rfl, agreeAbove_refl _ _⟩
  | some path =>
    simp only [execPathSize] at hfit
    have hs : sub64 top (strlen path + 1) = top - (strlen path + 1) :=
      sub64_eq _ _ htop (by omega)
    unfold copyExecPath
    simp only [hs, execPathSize]
    refine ⟨trivial, ?_⟩
    exact agreeAbove_mono (strcpy_agree m _ path (by omega)) (by omega)

theorem storeAux_spec (m : Mem) (a t v : Nat) (ha : a + 16 ≤ 18446744073709551616) :
    AgreeAbove (a + 16) m (storeAux m a t v) ∧
    loadWord (storeAux m a t v) a = t % 18446744073709551616 ∧
    loadWord (storeAux m a t v) (a + 8) = v % 18446744073709551616 := by
  unfold storeAux
  rw [add64_eq a 8 (by omega)]
  refine ⟨?_, ?_, ?_⟩
  · intro y hy
    rw [storeWord_agree _ (a + 8) v (by omega) y (by omega)]
    exact storeWord_agree m a t (by omega) y (by omega)
  · rw [← loadWord_storeWord m a t (by omega)]
    apply loadWord_congr _ _ _ (by omega)
    intro y hy1 hy2
    unfold storeWord
    exact storeBytes_below _ _ _ _ (by rw [wordBytes_length]; omega) (by omega)
  · exact loadWord_storeWord _ (a + 8) v (by omega)

theorem pushAuxv_eq (m : Mem) (top argc envc : Nat) (elfInfo : ELFData) (hirakuBase : Nat)
    (s2 s3 s4 s5 s6 s7 : Nat)
    (h2 : sub64 (sub64 (sub64 top (top % 16)) (8 * ((argc + envc) % 2))) 8 = s2)
    (h3 : sub64 s2 16 = s3) (h4 : sub64 s3 16 = s4) (h5 : sub64 s4 16 = s5)
    (h6 : sub64 s5 16 = s6) (h7 : sub64 s6 16 = s7) :
    pushAuxv m top argc envc elfInfo hirakuBase
      = (storeAux (storeAux (storeAux (storeAux (storeAux (storeWord m s2 0) s3 AT_PHDR
          elfInfo.pHdrSegment) s4 AT_PHENT elfInfo.phEntrySize) s5 AT_PHNUM elfInfo.phNum) s6
          AT_ENTRY elfInfo.entry) s7 AT_SYSINFO_EHDR hirakuBase, s7) := by
  subst h2 h3 h4 h5 h6 h7
  rfl

theorem pushAuxv_core (m : Mem) (b : Nat) (elfInfo : ELFData) (hirakuBase : Nat)
    (hb : b + 88 ≤ 18446744073709551616) :
    AgreeAbove (b + 88) m
      (storeAux (storeAux (storeAux (storeAux (storeAux (storeWord m (b + 80) 0) (b + 64)
        AT_PHDR elfInfo.pHdrSegment) (b + 48) AT_PHENT elfInfo.phEntrySize) (b + 32) AT_PHNUM
        elfInfo.phNum) (b + 16) AT_ENTRY elfInfo.entry) b AT_SYSINFO_EHDR hirakuBase) ∧
    (∀ k, k < 11 →
      loadWord
          (storeAux (storeAux (storeAux (storeAux (storeAux (storeWord m (b + 80) 0) (b + 64)
            AT_PHDR elfInfo.pHdrSegment) (b + 48) AT_PHENT elfInfo.phEntrySize) (b + 32)
            AT_PHNUM elfInfo.phNum) (b + 16) AT_ENTRY elfInfo.entry) b AT_SYSINFO_EHDR
            hirakuBase) (b + 8 * k)
        = ([AT_SYSINFO_EHDR, hirakuBase, AT_ENTRY, elfInfo.entry, AT_PHNUM, elfInfo.phNum,
            AT_PHENT, elfInfo.phEntrySize, AT_PHDR, elfInfo.pHdrSegment, AT_NULL].getD k 0)
          % 18446744073709551616) := by
  generalize hM2 : storeWord m (b + 80) 0 = M2
  generalize hM3 : storeAux M2 (b + 64) AT_PHDR elfInfo.pHdrSegment = M3
  generalize hM4 : storeAux M3 (b + 48) AT_PHENT elfInfo.phEntrySize = M4
  generalize hM5 : storeAux M4 (b + 32) AT_PHNUM elfInfo.phNum = M5
  generalize hM6 : storeAux M5 (b + 16) AT_ENTRY elfInfo.entry = M6
  generalize hM7 : storeAux M6 b AT_SYSINFO_EHDR hirakuBase = M7
  have g2 : AgreeAbove (b + 88) m M2 := by
    rw [← hM2]; exact storeWord_agree m (b + 80) 0 (by omega)
  have w2 : loadWord M2 (b + 80) = 0 % 18446744073709551616 := by
    rw [← hM2]; exact loadWord_storeWord m (b + 80) 0 (by omega)
  obtain ⟨g3, t3, v3⟩ := storeAux_spec M2 (b + 64) AT_PHDR elfInfo.pHdrSegment (by omega)
  rw [hM3] at g3 t3 v3
  obtain ⟨g4, t4, v4⟩ := storeAux_spec M3 (b + 48) AT_PHENT elfInfo.phEntrySize (by omega)
  rw [hM4] at g4 t4 v4
  obtain ⟨g5, t5, v5⟩ := storeAux_spec M4 (b + 32) AT_PHNUM elfInfo.phNum (by omega)
  rw [hM5] at g5 t5 v5
  obtain ⟨g6, t6, v6⟩ := storeAux_spec M5 (b + 16) AT_ENTRY elfInfo.entry (by omega)
  rw [hM6] at g6 t6 v6
  obtain ⟨g7, t7, v7⟩ := storeAux_spec M6 b AT_SYSINFO_EHDR hirakuBase (by omega)
  rw [hM7] at g7 t7 v7
  have c6 : AgreeAbove (b + 16) M6 M7 := g7
  have c5 : AgreeAbove (b + 32) M5 M7 := agreeAbove_trans (agreeAbove_mono g6 (by omega)) c6 (by omega)
  have c4 : AgreeAbove (b + 48) M4 M7 := agreeAbove_trans (agreeAbove_mono g5 (by omega)) c5 (by omega)
  have c3 : AgreeAbove (b + 64) M3 M7 := agreeAbove_trans (agreeAbove_mono g4 (by omega)) c4 (by omega)
  have c2 : AgreeAbove (b + 80) M2 M7 := agreeAbove_trans (agreeAbove_mono g3 (by omega)) c3 (by omega)
  refine ⟨agreeAbove_trans g2 c2 (by omega), ?_⟩
  intro k hk
  rcases k with _ | _ | _ | _ | _ | _ | _ | _ | _ | _ | _ | k
  · exact t7
  · exact v7
  · rw [loadWord_agree c6 _ (by omega) (by omega)]; exact t6
  · rw [loadWord_agree c6 _ (by omega) (by omega)]; exact v6
  · rw [loadWord_agree c5 _ (by omega) (by omega)]; exact t5
  · rw [loadWord_agree c5 _ (by omega) (by omega)]; exact v5
  · rw [loadWord_agree c4 _ (by omega) (by omega)]; exact t4
  · rw [loadWord_agree c4 _ (by omega) (by omega)]; exact v4
  · rw [loadWord_agree c3 _ (by omega) (by omega)]; exact t3
  · rw [loadWord_agree c3 _ (by omega) (by omega)]; exact v3
  · rw [loadWord_agree c2 _ (by omega) (by omega)]; exact w2
  · omega

theorem pushAuxv_spec (m : Mem) (top argc envc : Nat) (elfInfo : ELFData) (hirakuBase : Nat)
    (b : Nat) (htop : top < 18446744073709551616)
    (hb : b + 88 + 8 * ((argc + envc) % 2) + top % 16 = top) :
    (pushAuxv m top argc envc elfInfo hirakuBase).2 = b ∧
    AgreeAbove top m (pushAuxv m top argc envc elfInfo hirakuBase).1 ∧
    (∀ k, k < 11 →
      loadWord (pushAuxv m top argc envc elfInfo hirakuBase).1 (b + 8 * k)
        = ([AT_SYSINFO_EHDR, hirakuBase, AT_ENTRY, elfInfo.entry, AT_PHNUM, elfInfo.phNum,
            AT_PHENT, elfInfo.phEntrySize, AT_PHDR, elfInfo.pHdrSegment, AT_NULL].getD k 0)
          % 18446744073709551616) := by
  have e2 : sub64 (sub64 (sub64 top (top % 16)) (8 * ((argc + envc) % 2))) 8 = b + 80 := by
    rw [sub64_eq top _ htop (by omega),
      sub64_eq (top - top % 16) (8 * ((argc + envc) % 2)) (by omega) (by omega),
      sub64_eq _ 8 (by omega) (by omega)]
    omega
  have e3 : sub64 (b + 80) 16 = b + 64 := by rw [sub64_eq _ _ (by omega) (by omega)]; omega
  have e4 : sub64 (b + 64) 16 = b + 48 := by rw [sub64_eq _ _ (by omega) (by omega)]; omega
  have e5 : sub64 (b + 48) 16 = b + 32 := by rw [sub64_eq _ _ (by omega) (by omega)]; omega
  have e6 : sub64 (b + 32) 16 = b + 16 := by rw [sub64_eq _ _ (by omega) (by omega)]; omega
  have e7 : sub64 (b + 16) 16 = b := by rw [sub64_eq _ _ (by omega) (by omega)]; omega
  rw [pushAuxv_eq m top argc envc elfInfo hirakuBase (b + 80) (b + 64) (b + 48) (b + 32)
    (b + 16) b e2 e3 e4 e5 e6 e7]
  obtain ⟨c0, hw⟩ := pushAuxv_core m b elfInfo hirakuBase (by omega)
  exact ⟨rfl, agreeAbove_mono c0 (by omega), hw⟩

theorem pushPointers_spec (m : Mem) (stack : Nat) (ptrs : List Nat)
    (hs : stack < 18446744073709551616) (hfit : 8 + 8 * ptrs.length ≤ stack) :
    (pushPointers m stack ptrs).2 = stack - 8 - 8 * ptrs.length ∧
    AgreeAbove stack m (pushPointers m stack ptrs).1 ∧
    (∀ i, i < ptrs.length →
      loadWord (pushPointers m stack ptrs).1 (stack - 8 - 8 * ptrs.length + 8 * i)
        = ptrs.getD i 0 % 18446744073709551616) ∧
    loadWord (pushPointers m stack ptrs).1 (stack - 8 - 8 * ptrs.length + 8 * ptrs.length)
      = 0 := by
  have e1 : sub64 stack 8 = stack - 8 := sub64_eq _ _ hs (by omega)
  have e2 : sub64 (stack - 8) (8 * ptrs.length) = stack - 8 - 8 * ptrs.length :=
    sub64_eq _ _ (by omega) (by omega)
  unfold pushPointers
  simp only [e1, e2]
  have g1 : AgreeAbove stack m (storeWord m (stack - 8) 0) :=
    agreeAbove_mono (storeWord_agree m (stack - 8) 0 (by omega)) (by omega)
  have g2 := storeWords_agree (storeWord m (stack - 8) 0) (stack - 8 - 8 * ptrs.length) ptrs
    (by omega)
  refine ⟨trivial, agreeAbove_trans g1 (agreeAbove_mono g2 (by omega)) (le_refl _), ?_, ?_⟩
  · intro i hi
    exact storeWords_word _ _ _ _ (by omega) hi
  · rw [loadWord_agree g2 _ (le_refl _) (by omega)]
    have : stack - 8 - 8 * ptrs.length + 8 * ptrs.length = stack - 8 := by omega
    rw [this, loadWord_storeWord m (stack - 8) 0 (by omega)]

theorem stringAddrs_lt (top : Nat) (l : List (List Nat)) (i : Nat) :
    (stringAddrs top l).getD i 0 ≤ top := by
  induction l generalizing top i with
  | nil => simp [stringAddrs]
  | cons a rest ih =>
    cases i with
    | zero => simp only [stringAddrs, List.getD_cons_zero]; omega
    | succ i =>
      simp only [stringAddrs, List.getD_cons_succ]
      have := ih (top - (a.length + 1)) i
      omega

theorem layout_core (MA ME MX MU MV MW : Mem) (sp T U V W : Nat)
    (argv envp : List (List Nat)) (xs : Nat) (vals : List Nat)
    (hsp : sp < 18446744073709551616)
    (hT : T + stringsSize argv + stringsSize envp + xs = sp) (hU : U + 88 ≤ T)
    (hV : V + 8 + 8 * envp.length = U) (hW : W + 8 + 8 * argv.length = V) (hW8 : 8 ≤ W)
    (a4 : ∀ i, i < argv.length →
      HoldsString MA ((stringAddrs sp argv).getD i 0) (argv.getD i []))
    (b3 : AgreeAbove (sp - stringsSize argv) MA ME)
    (b4 : ∀ i, i < envp.length →
      HoldsString ME ((stringAddrs (sp - stringsSize argv) envp).getD i 0) (envp.getD i []))
    (x3 : AgreeAbove (sp - stringsSize argv - stringsSize envp) ME MX)
    (u3 : AgreeAbove T MX MU)
    (u4 : ∀ k, k < 11 → loadWord MU (U + 8 * k) = vals.getD k 0 % 18446744073709551616)
    (v3 : AgreeAbove U MU MV)
    (v4 : ∀ i, i < envp.length → loadWord MV (V + 8 * i)
      = (stringAddrs (sp - stringsSize argv) envp).getD i 0 % 18446744073709551616)
    (v5 : loadWord MV (V + 8 * envp.length) = 0)
    (w3 : AgreeAbove V MV MW)
    (w4 : ∀ i, i < argv.length → loadWord MW (W + 8 * i)
      = (stringAddrs sp argv).getD i 0 % 18446744073709551616)
    (w5 : loadWord MW (W + 8 * argv.length) = 0) :
    loadWord (storeWord MW (W - 8) argv.length) (W - 8) = argv.length ∧
    (∀ i, i < argv.length →
      loadWord (storeWord MW (W - 8) argv.length) (W - 8 + 8 + 8 * i)
        = (stringAddrs sp argv).getD i 0 ∧
      HoldsString (storeWord MW (W - 8) argv.length) ((stringAddrs sp argv).getD i 0)
        (argv.getD i [])) ∧
    loadWord (storeWord MW (W - 8) argv.length) (W - 8 + 8 + 8 * argv.length) = 0 ∧
    (∀ i, i < envp.length →
      loadWord (storeWord MW (W - 8) argv.length) (W - 8 + 16 + 8 * argv.length + 8 * i)
        = (stringAddrs (sp - stringsSize argv) envp).getD i 0 ∧
      HoldsString (storeWord MW (W - 8) argv.length)
        ((stringAddrs (sp - stringsSize argv) envp).getD i 0) (envp.getD i [])) ∧
    loadWord (storeWord MW (W - 8) argv.length)
      (W - 8 + 16 + 8 * argv.length + 8 * envp.length) = 0 ∧
    (∀ k, k < 11 →
      loadWord (storeWord MW (W - 8) argv.length)
          (W - 8 + 24 + 8 * argv.length + 8 * envp.length + 8 * k)
        = vals.getD k 0 % 18446744073709551616) ∧
    W - 8 + 24 + 8 * argv.length + 8 * envp.length + 88
      ≤ sp - stringsSize argv - stringsSize envp := by
  have cW : AgreeAbove W MW (storeWord MW (W - 8) argv.length) :=
    agreeAbove_mono (storeWord_agree MW (W - 8) argv.length (by omega)) (by omega)
  have cV : AgreeAbove V MV (storeWord MW (W - 8) argv.length) :=
    agreeAbove_trans w3 cW (by omega)
  have cU : AgreeAbove U MU (storeWord MW (W - 8) argv.length) :=
    agreeAbove_trans v3 cV (by omega)
  have cT : AgreeAbove T MX (storeWord MW (W - 8) argv.length) :=
    agreeAbove_trans u3 cU (by omega)
  have cE : AgreeAbove (sp - stringsSize argv - stringsSize envp) ME
      (storeWord MW (W - 8) argv.length) := agreeAbove_trans x3 cT (by omega)
  have cA : AgreeAbove (sp - stringsSize argv) MA (storeWord MW (W - 8) argv.length) :=
    agreeAbove_trans b3 cE (by omega)
  refine ⟨?_, ?_, ?_, ?_, ?_, ?_, ?_⟩
  · rw [loadWord_storeWord MW (W - 8) argv.length (by omega)]
    exact Nat.mod_eq_of_lt (by omega)
  · intro i hi
    have hb := stringAddrs_bounds sp argv (by omega) i hi
    refine ⟨?_, holdsString_agree (a4 i hi) cA hb.1⟩
    rw [loadWord_agree cW _ (by omega) (by omega)]
    have e : W - 8 + 8 + 8 * i = W + 8 * i := by omega
    rw [e, w4 i hi]
    exact Nat.mod_eq_of_lt (by omega)
  · rw [loadWord_agree cW _ (by omega) (by omega)]
    have e : W - 8 + 8 + 8 * argv.length = W + 8 * argv.length := by omega
    rw [e, w5]
  · intro i hi
    have hb := stringAddrs_bounds (sp - stringsSize argv) envp (by omega) i hi
    refine ⟨?_, holdsString_agree (b4 i hi) cE hb.1⟩
    rw [loadWord_agree cV _ (by omega) (by omega)]
    have e : W - 8 + 16 + 8 * argv.length + 8 * i = V + 8 * i := by omega
    rw [e, v4 i hi]
    exact Nat.mod_eq_of_lt (by omega)
  · rw [loadWord_agree cV _ (by omega) (by omega)]
    have e : W - 8 + 16 + 8 * argv.length + 8 * envp.length = V + 8 * envp.length := by omega
    rw [e, v5]
  · intro k hk
    rw [loadWord_agree cU _ (by omega) (by omega)]
    have e : W - 8 + 24 + 8 * argv.length + 8 * envp.length + 8 * k = U + 8 * k := by omega
    rw [e]
    exact u4 k hk
  · omega

theorem stackImage_of_core (M : Mem) (st sp : Nat) (elfInfo : ELFData) (hirakuBase : Nat)
    (argv envp : List (List Nat)) (xs : Nat)
    (hfit : stringsSize argv + stringsSize envp + xs ≤ sp)
    (h1 : loadWord M st = argv.length)
    (h2 : ∀ i, i < argv.length →
      loadWord M (st + 8 + 8 * i) = (stringAddrs sp argv).getD i 0 ∧
      HoldsString M ((stringAddrs sp argv).getD i 0) (argv.getD i []))
    (h3 : loadWord M (st + 8 + 8 * argv.length) = 0)
    (h4 : ∀ i, i < envp.length →
      loadWord M (st + 16 + 8 * argv.length + 8 * i)
        = (stringAddrs (sp - stringsSize argv) envp).getD i 0 ∧
      HoldsString M ((stringAddrs (sp - stringsSize argv) envp).getD i 0) (envp.getD i []))
    (h5 : loadWord M (st + 16 + 8 * argv.length + 8 * envp.length) = 0)
    (h6 : ∀ k, k < 11 →
      loadWord M (st + 24 + 8 * argv.length + 8 * envp.length + 8 * k)
        = ([AT_SYSINFO_EHDR, hirakuBase, AT_ENTRY, elfInfo.entry, AT_PHNUM, elfInfo.phNum,
            AT_PHENT, elfInfo.phEntrySize, AT_PHDR, elfInfo.pHdrSegment, AT_NULL].getD k 0)
          % 18446744073709551616)
    (h7 : st + 24 + 8 * argv.length + 8 * envp.length + 88
      ≤ sp - stringsSize argv - stringsSize envp) :
    StackImage M st sp elfInfo hirakuBase argv envp := by
  refine ⟨h1, fun i hi => ?_, h3, fun i hi => ?_, h5, ?_, fun i hi => ?_, fun i hi => ?_,
    fun i j hij hj => ?_, fun i j hij hj => ?_, fun i j hi hj => ?_⟩
  · rw [(h2 i hi).1]; exact (h2 i hi).2
  · rw [(h4 i hi).1]; exact (h4 i hi).2
  · rw [two64_eq]; exact h6
  · rw [(h2 i hi).1]
    have := stringAddrs_bounds sp argv (by omega) i hi
    omega
  · rw [(h4 i hi).1]
    have := stringAddrs_bounds (sp - stringsSize argv) envp (by omega) i hi
    omega
  · rw [(h2 i (by omega)).1, (h2 j hj).1]
    exact stringAddrs_descend sp argv (by omega) i j hij hj
  · rw [(h4 i (by omega)).1, (h4 j hj).1]
    exact stringAddrs_descend (sp - stringsSize argv) envp (by omega) i j hij hj
  · rw [(h2 i hi).1, (h4 j hj).1]
    have ha := stringAddrs_bounds sp argv (by omega) i hi
    have he := stringAddrs_bounds (sp - stringsSize argv) envp (by omega) j hj
    omega

theorem layout_all (m : Mem) (sp : Nat) (elfInfo : ELFData) (hirakuBase : Nat)
    (argv envp : List (List Nat)) (execPath : Option (List Nat))
    (A E : Mem × Nat × List Nat) (X P Q R : Mem × Nat)
    (hA : copyStrings m sp argv = A) (hE : copyStrings A.1 A.2.1 envp = E)
    (hX : copyExecPath E.1 E.2.1 execPath = X)
    (hP : pushAuxv X.1 X.2 argv.length envp.length elfInfo hirakuBase = P)
    (hQ : pushPointers P.1 P.2 E.2.2 = Q) (hR : pushPointers Q.1 Q.2 A.2.2 = R)
    (hsp : sp < 18446744073709551616) (hfit : stackBytes argv envp execPath ≤ sp)
    (hargv : ∀ s ∈ argv, CString s) (henvp : ∀ s ∈ envp, CString s) :
    StackImage (storeWord R.1 (sub64 R.2 8) argv.length) (sub64 R.2 8) sp elfInfo hirakuBase
      argv envp := by
  simp only [stackBytes] at hfit
  have sa := copyStrings_spec m sp argv hsp (by omega) hargv
  rw [hA] at sa
  obtain ⟨a1, a2, -, a4⟩ := sa
  rw [a1] at hE
  have sb := copyStrings_spec A.1 (sp - stringsSize argv) envp (by omega) (by omega) henvp
  rw [hE] at sb
  obtain ⟨b1, b2, b3, b4⟩ := sb
  rw [b1] at hX
  have sx := copyExecPath_spec E.1 (sp - stringsSize argv - stringsSize envp) execPath
    (by omega) (by omega)
  rw [hX] at sx
  obtain ⟨x1, x3⟩ := sx
  rw [x1] at hP
  have su := pushAuxv_spec X.1
    (sp - stringsSize argv - stringsSize envp - execPathSize execPath) argv.length envp.length
    elfInfo hirakuBase
    (sp - stringsSize argv - stringsSize envp - execPathSize execPath
      - (sp - stringsSize argv - stringsSize envp - execPathSize execPath) % 16
      - 8 * ((argv.length + envp.length) % 2) - 88) (by omega) (by omega)
  rw [hP] at su
  obtain ⟨u1, u3, u4⟩ := su
  rw [u1, b2] at hQ
  have sv := pushPointers_spec P.1
    (sp - stringsSize argv - stringsSize envp - execPathSize execPath
      - (sp - stringsSize argv - stringsSize envp - execPathSize execPath) % 16
      - 8 * ((argv.length + envp.length) % 2) - 88)
    (stringAddrs (sp - stringsSize argv) envp) (by omega)
    (by rw [stringAddrs_length]; omega)
  rw [hQ, stringAddrs_length] at sv
  obtain ⟨v1, v3, v4, v5⟩ := sv
  rw [v1, a2] at hR
  have sw := pushPointers_spec Q.1
    (sp - stringsSize argv - stringsSize envp - execPathSize execPath
      - (sp - stringsSize argv - stringsSize envp - execPathSize execPath) % 16
      - 8 * ((argv.length + envp.length) % 2) - 88 - 8 - 8 * envp.length)
    (stringAddrs sp argv) (by omega) (by rw [stringAddrs_length]; omega)
  rw [hR, stringAddrs_length] at sw
  obtain ⟨w1, w3, w4, w5⟩ := sw
  rw [w1, sub64_eq _ 8 (by omega) (by omega)]
  obtain ⟨c1, c2, c3, c4, c5, c6, c7⟩ :=
    layout_core A.1 E.1 X.1 P.1 Q.1 R.1 sp _ _ _ _ argv envp (execPathSize execPath) _ hsp
      (by omega) (by omega) (by omega) (by omega) (by omega) a4 b3 b4 x3 u3 u4 v3 v4 v5 w3 w4 w5
  exact stackImage_of_core _ _ sp elfInfo hirakuBase argv envp (execPathSize execPath)
    (by omega) c1 c2 c3 c4 c5 c6 c7

/-- The stack image `load_elf` builds, read upwards from the stack pointer it returns. -/
theorem loadElfStack_image (m : Mem) (sp : Nat) (elfInfo : ELFData) (hirakuBase : Nat)
    (argv envp : List (List Nat)) (execPath : Option (List Nat))
    (hsp : sp < 18446744073709551616) (hfit : stackBytes argv envp execPath ≤ sp)
    (hargv : ∀ s ∈ argv, CString s) (henvp : ∀ s ∈ envp, CString s) :
    StackImage (loadElfStack m sp elfInfo hirakuBase argv envp execPath).1
      (loadElfStack m sp elfInfo hirakuBase argv envp execPath).2 sp elfInfo hirakuBase argv
      envp :=
  layout_all m sp elfInfo hirakuBase argv envp execPath _ _ _ _ _ _ rfl rfl rfl rfl rfl rfl hsp
    hfit hargv henvp

theorem stackOf_eq_ok (r : Except (Stop × Kernel) (Kernel × Except Nat (Nat × Nat)))
    (v : Nat × Nat) (h : stackOf r = some v) : r = .ok (finalState Prod.fst r, .ok v) := by
  cases r with
  | error e => cases h
  | ok a =>
    obtain ⟨k, res⟩ := a
    cases res with
    | error e => cases h
    | ok w =>
      cases h
      rfl

theorem loadElfLayout_image (k k1 : Kernel) (this : Pid) (rip sp : Nat) (elfInfo : ELFData)
    (argv envp : List (List Nat)) (execPath : Option (List Nat)) (rip1 stack : Nat)
    (h : loadElfLayout k this rip sp elfInfo argv envp execPath = .ok (k1, .ok (rip1, stack)))
    (hsp : sp < 18446744073709551616) (hfit : stackBytes argv envp execPath ≤ sp)
    (hargv : ∀ s ∈ argv, CString s) (henvp : ∀ s ∈ envp, CString s) :
    (k1.procs this).peb = (k.procs this).peb ∧
    StackImage (k1.userMem this) stack sp elfInfo (k.procs this).peb.hirakuBase argv envp := by
  have himg := loadElfStack_image (k.userMem this) sp elfInfo (k.procs this).peb.hirakuBase argv
    envp execPath hsp hfit hargv henvp
  unfold loadElfLayout at h
  simp only [] at h
  rw [if_neg (by rw [loadElfStack_aligned]; simp)] at h
  simp only [Except.ok.injEq, Prod.mk.injEq] at h
  obtain ⟨hk, -, hst⟩ := h
  subst hk
  subst hst
  refine ⟨rfl, ?_⟩
  have hm : (k.setUserMem this (loadElfStack (k.userMem this) sp elfInfo
      (k.procs this).peb.hirakuBase argv envp execPath).1).userMem this
      = (loadElfStack (k.userMem this) sp elfInfo (k.procs this).peb.hirakuBase argv envp
          execPath).1 := by
    simp [Kernel.setUserMem]
  rw [hm]
  exact himg

theorem loadElfRelocate_peb (k k1 : Kernel) (this : Pid) (dynamic tables : Bool)
    (plt : List PltEntry) (h : loadElfRelocate k this dynamic tables plt = .ok k1) :
    (k1.procs this).peb = (k.procs this).peb := by
  unfold loadElfRelocate at h
  split at h
  · split at h
    · cases h
    · split at h
      · cases h; rfl
      · cases h
  · cases h; rfl

/-- C18: when `load_elf` returns an entry point and a stack pointer, the memory of the process
holds at that stack pointer the stack image of the calling convention: `argc`; one pointer per
argument string, each at a NUL-terminated copy of its string, and a null word; the same for
the environment strings; the entries `AT_SYSINFO_EHDR`, `AT_ENTRY`, `AT_PHNUM`, `AT_PHENT` and
`AT_PHDR` with the `hirakuBase` of the environment block and the values of the image, and a
null `AT_NULL` word; the copies of the strings lie above these words and apart from each
other. The strings are strings of non-zero bytes, and the stack below `sp` has room for the
image. -/
theorem load_elf_builds_stack_image (x : Ext) (k k1 : Kernel) (this : Pid) (sp : Nat)
    (elfInfo : ELFData) (argv envp : List (List Nat)) (execPath : Option (List Nat))
    (rip stack : Nat)
    (h : load_elf x k this sp elfInfo argv envp execPath = .ok (k1, .ok (rip, stack)))
    (hsp : sp < 2 ^ 64) (hfit : stackBytes argv envp execPath ≤ sp)
    (hargv : ∀ s ∈ argv, CString s) (henvp : ∀ s ∈ envp, CString s) :
    StackImage (k1.userMem this) stack sp elfInfo (k1.procs this).peb.hirakuBase argv envp := by
  rw [two64_eq] at hsp
  unfold load_elf at h
  split at h
  · split at h
    · cases h
    · cases h
    · cases h
    · obtain ⟨ka, -, hA⟩ := bind_eq_ok h
      obtain ⟨kb, -, hB⟩ := bind_eq_ok hA
      obtain ⟨hpeb, himg⟩ := loadElfLayout_image kb k1 this _ sp elfInfo argv envp execPath rip
        stack hB hsp hfit hargv henvp
      rw [hpeb]
      exact himg
  · obtain ⟨ka, -, hA⟩ := bind_eq_ok h
    obtain ⟨hpeb, himg⟩ := loadElfLayout_image ka k1 this _ sp elfInfo argv envp execPath rip
      stack hA hsp hfit hargv henvp
    rw [hpeb]
    exact himg

theorem load_elf_builds_stack_image_witness :
    StackImage
      ((finalState Prod.fst (load_elf sampleExt sampleKernel 1 481040531456 sampleELF
        [[104, 105], [97]] [[65, 61, 49]] none)).userMem 1)
      481040531296 481040531456 sampleELF
      ((finalState Prod.fst (load_elf sampleExt sampleKernel 1 481040531456 sampleELF
        [[104, 105], [97]] [[65, 61, 49]] none)).procs 1).peb.hirakuBase
      [[104, 105], [97]] [[65, 61, 49]] :=
  load_elf_builds_stack_image sampleExt sampleKernel
    (finalState Prod.fst (load_elf sampleExt sampleKernel 1 481040531456 sampleELF
      [[104, 105], [97]] [[65, 61, 49]] none)) 1 481040531456 sampleELF [[104, 105], [97]]
    [[65, 61, 49]] none 4194304 481040531296 (stackOf_eq_ok _ _ (by decide)) (by norm_num)
    (by decide) (by simp [CString]) (by simp [CString])

/-! ## Thread identifiers -/

theorem create_child_thread_threads (x : Ext) (k : Kernel) (this : Pid) (entry stack : Nat) :
    ((create_child_thread x k this entry stack).1.procs this).m_threads
      = (k.procs this).m_threads ++ [(create_child_thread x k this entry stack).2] := by
  simp [create_child_thread]

theorem create_child_thread_next (x : Ext) (k : Kernel) (this : Pid) (entry stack : Nat) :
    ((create_child_thread x k this entry stack).1.procs this).m_nextThreadID
      = (k.procs this).m_nextThreadID + 1 ∧
    (create_child_thread x k this entry stack).1.nextThread = k.nextThread + 1 ∧
    (create_child_thread x k this entry stack).2 = k.nextThread + 1 :=
  ⟨by simp [create_child_thread], rfl, rfl⟩

theorem create_child_thread_tid (x : Ext) (k : Kernel) (this : Pid) (entry stack : Nat) :
    ((create_child_thread x k this entry stack).1.threads
      (create_child_thread x k this entry stack).2).tid = (k.procs this).m_nextThreadID := by
  simp [create_child_thread, newThread]

theorem create_child_thread_old (x : Ext) (k : Kernel) (this : Pid) (entry stack : Nat)
    (t : ThreadPtr) (h : t ≤ k.nextThread) :
    (create_child_thread x k this entry stack).1.threads t = k.threads t := by
  have : t ≠ k.nextThread + 1 := Nat.ne_of_lt (Nat.lt_succ_of_le h)
  simp [create_child_thread, this]

theorem create_child_thread_ids (x : Ext) (k : Kernel) (this : Pid) (entry stack : Nat)
    (h : TidOrder k this) :
    threadIDs (create_child_thread x k this entry stack).1 this
      = threadIDs k this ++ [(k.procs this).m_nextThreadID] := by
  unfold threadIDs
  rw [create_child_thread_threads, List.map_append, List.map_singleton,
    create_child_thread_tid]
  congr 1
  apply List.map_congr_left
  intro t ht
  rw [create_child_thread_old _ _ _ _ _ _ (h.used t ht)]

theorem create_child_thread_order (x : Ext) (k : Kernel) (this : Pid) (entry stack : Nat)
    (h : TidOrder k this) : TidOrder (create_child_thread x k this entry stack).1 this := by
  obtain ⟨hn, ht, ha⟩ := create_child_thread_next x k this entry stack
  refine ⟨?_, ?_, ?_⟩
  · intro t hmem
    rw [create_child_thread_threads, List.mem_append, List.mem_singleton] at hmem
    rw [ht]
    rcases hmem with hmem | hmem
    · exact Nat.le_succ_of_le (h.used t hmem)
    · rw [hmem, ha]
  · rw [create_child_thread_ids _ _ _ _ _ h, List.pairwise_append]
    refine ⟨h.increasing, List.pairwise_singleton _ _, ?_⟩
    intro a ha1 b hb
    rw [List.mem_singleton] at hb
    rw [hb]
    exact h.below a ha1
  · intro tid hmem
    rw [create_child_thread_ids _ _ _ _ _ h, List.mem_append, List.mem_singleton] at hmem
    rw [hn]
    rcases hmem with hmem | hmem
    · exact Nat.lt_succ_of_lt (h.below tid hmem)
    · rw [hmem]
      exact Nat.lt_succ_self _

theorem createThreads_order (x : Ext) (this : Pid) (calls : List (Nat × Nat)) :
    ∀ k, TidOrder k this → TidOrder (createThreads x k this calls) this := by
  induction calls with
  | nil => intro k h; exact h
  | cons c rest ih =>
    intro k h
    exact ih _ (create_child_thread_order x k this c.1 c.2 h)

theorem construct_order (x : Ext) (k k0 : Kernel) (pid : Pid) (parent : Option Pid)
    (h : construct x k pid parent = .ok k0) : TidOrder k0 pid := by
  unfold construct at h
  split at h
  · cases h
  · cases h
    refine ⟨?_, ?_, ?_⟩
    · intro t ht
      simp at ht
      rw [ht]
      exact Nat.le_refl _
    · simp [threadIDs]
    · intro tid ht
      simp [threadIDs, newThread] at ht
      simp [ht]

/-- C22: on a freshly constructed process, after any sequence of `create_child_thread` calls
the TIDs along the thread list increase strictly, so they are pairwise distinct, and every one
of them is below the next-TID counter; a further call appends the new thread at the end of the
thread list, gives it the value of the counter as its TID, which is greater than every TID in
the list, and leaves the TIDs of the other threads as they are. -/
theorem thread_ids_distinct_and_increasing (x : Ext) (k k0 : Kernel) (pid : Pid)
    (parent : Option Pid) (calls : List (Nat × Nat)) (entry stack : Nat)
    (h : construct x k pid parent = .ok k0) :
    (threadIDs (createThreads x k0 pid calls) pid).Nodup ∧
    (threadIDs (createThreads x k0 pid calls) pid).Pairwise (· < ·) ∧
    (∀ tid ∈ threadIDs (createThreads x k0 pid calls) pid,
      tid < ((createThreads x k0 pid calls).procs pid).m_nextThreadID) ∧
    ((create_child_thread x (createThreads x k0 pid calls) pid entry stack).1.procs
        pid).m_threads
      = ((createThreads x k0 pid calls).procs pid).m_threads
        ++ [(create_child_thread x (createThreads x k0 pid calls) pid entry stack).2] ∧
    threadIDs (create_child_thread x (createThreads x k0 pid calls) pid entry stack).1 pid
      = threadIDs (createThreads x k0 pid calls) pid
        ++ [((createThreads x k0 pid calls).procs pid).m_nextThreadID] ∧
    ((create_child_thread x (createThreads x k0 pid calls) pid entry stack).1.threads
      (create_child_thread x (createThreads x k0 pid calls) pid entry stack).2).tid
      = ((createThreads x k0 pid calls).procs pid).m_nextThreadID ∧
    ∀ tid ∈ threadIDs (createThreads x k0 pid calls) pid,
      tid < ((create_child_thread x (createThreads x k0 pid calls) pid entry stack).1.threads
        (create_child_thread x (createThreads x k0 pid calls) pid entry stack).2).tid := by
  have ho := createThreads_order x pid calls k0 (construct_order x k k0 pid parent h)
  refine ⟨?_, ho.increasing, ho.below, create_child_thread_threads _ _ _ _ _,
    create_child_thread_ids _ _ _ _ _ ho, create_child_thread_tid _ _ _ _ _, ?_⟩
  · exact ho.increasing.imp (fun hab => Nat.ne_of_lt hab)
  · intro tid ht
    rw [create_child_thread_tid]
    exact ho.below tid ht

theorem thread_ids_distinct_and_increasing_witness :
    (threadIDs (createThreads sampleExt (finalState id (construct sampleExt sampleKernel 10
      none)) 10 [(4096, 8192), (4100, 16384)]) 10).Nodup ∧
    threadIDs (createThreads sampleExt (finalState id (construct sampleExt sampleKernel 10
      none)) 10 [(4096, 8192), (4100, 16384)]) 10 = [1, 2, 3] :=
  ⟨(thread_ids_distinct_and_increasing sampleExt sampleKernel
      (finalState id (construct sampleExt sampleKernel 10 none)) 10 none
      [(4096, 8192), (4100, 16384)] 0 0 (run_eq_ok _ (by decide))).1, by decide⟩

/-! ## The destructor -/

/-- C23: the destructor returns exactly when the process is `Process_Dead` and its parent
reference is null; in any other state it stops at the assertion of line 531, and for a dead
process that still has a parent at the assertion of line 532. When it returns, the address
space pointer is null, and an address space the process had has been deleted. -/
theorem destructor_needs_dead_orphan (k : Kernel) (this : Pid) :
    (stopOf (destructor k this) = none ↔
      (k.procs this).m_state = ProcessState.Process_Dead ∧ (k.procs this).m_parent = none) ∧
    ((k.procs this).m_state ≠ ProcessState.Process_Dead →
      destructor k this = .error (Stop.assertFailed 531, k)) ∧
    ((k.procs this).m_state = ProcessState.Process_Dead → (k.procs this).m_parent ≠ none →
      destructor k this = .error (Stop.assertFailed 532, k)) ∧
    (stopOf (destructor k this) = none →
      ((finalState id (destructor k this)).procs this).addressSpace = none ∧
      (∀ p, p ≠ this → (finalState id (destructor k this)).procs p = k.procs p) ∧
      emitted id k (destructor k this)
        = match (k.procs this).addressSpace with
          | some space => [Event.spaceDeleted space]
          | none => []) := by
  unfold destructor
  by_cases hs : (k.procs this).m_state = ProcessState.Process_Dead
  · by_cases hp : (k.procs this).m_parent = none
    · cases ha : (k.procs this).addressSpace with
      | none => simp [hs, hp, ha, stopOf, finalState, emitted]
      | some space =>
        simp only [hs, hp, ha, ne_eq, not_true_eq_false, if_false]
        refine ⟨by simp [stopOf], by simp, by simp, fun _ => ⟨by simp [finalState], ?_, ?_⟩⟩
        · intro p hne
          simp [finalState, hne]
        · simp [emitted, finalState, Kernel.emit, Kernel.setProc]
    · simp [hs, hp, stopOf]
  · simp [hs, stopOf]

theorem destructor_needs_dead_orphan_witness :
    stopOf (destructor sampleKernel 4) = none ∧
    ((finalState id (destructor sampleKernel 4)).procs 4).addressSpace = none ∧
    emitted id sampleKernel (destructor sampleKernel 4) = [Event.spaceDeleted 1] ∧
    destructor sampleKernel 1 = .error (Stop.assertFailed 531, sampleKernel) :=
  ⟨by decide,
    ((destructor_needs_dead_orphan sampleKernel 4).2.2.2 (by decide)).1,
    by decide,
    (destructor_needs_dead_orphan sampleKernel 1).2.1 (by decide)⟩

/-! ## Retiring a thread and the sweep of the pinned threads -/

/-- C24: a thread other than the driving thread that the thread loop of `die` visits with its
kernel lock free is `Dying` afterwards, with `timeSlice` and `timeSliceDefault` both 0, and
`runningThreads` is as before; visited with its kernel lock held it is a `Zombie` afterwards
and has been added at the end of `runningThreads`. A pass of the sweep takes threads off
`runningThreads` and adds none; a thread whose kernel lock is held when the pass starts is
still on the list after it, and a thread that the pass took off the list had its kernel lock
free, and is `Dying` with both time slices 0 after the pass. -/
theorem die_retires_or_queues (thisThread thread : ThreadPtr) (acc : Kernel × List ThreadPtr)
    (fuel : Nat) (k k1 : Kernel) (running running1 : List ThreadPtr) (it : Nat)
    (hne : thread ≠ thisThread) (h0 : thread ≠ 0) :
    ((acc.1.threads thread).kernelLock = false →
      Gone (dieVisitThread thisThread acc thread).1 thread ∧
      (dieVisitThread thisThread acc thread).2 = acc.2) ∧
    ((acc.1.threads thread).kernelLock = true →
      ((dieVisitThread thisThread acc thread).1.threads thread).state
        = ThreadState.ThreadStateZombie ∧
      (dieVisitThread thisThread acc thread).2 = acc.2 ++ [thread]) ∧
    (dieSweepPass fuel k running it = .ok (k1, running1) →
      running1.Sublist running ∧
      (∀ t ∈ running, (k.threads t).kernelLock = true → t ∈ running1) ∧
      (∀ t ∈ running, t ∉ running1 → (k.threads t).kernelLock = false ∧ Gone k1 t)) := by
  have hlock : ((dieWakeThread acc.1 thread).threads thread).kernelLock
      = (acc.1.threads thread).kernelLock := by
    unfold dieWakeThread
    simp only []
    repeat' split
    all_goals simp
  refine ⟨?_, ?_, ?_⟩
  · intro hl
    unfold dieVisitThread
    rw [if_pos ⟨hne, h0⟩]
    unfold dieRetireThread
    simp only [acquireTestLock_fst, acquireTestLock_snd, Kernel.writeThreadState_threads]
    simp [hlock, hl, Gone, markDying_threads]
  · intro hl
    unfold dieVisitThread
    rw [if_pos ⟨hne, h0⟩]
    unfold dieRetireThread
    simp only [acquireTestLock_fst, acquireTestLock_snd, Kernel.writeThreadState_threads]
    simp [hlock, hl]
  · intro h
    obtain ⟨h1, h2, h3⟩ := dieSweepPass_leaves fuel k running it k1 running1 h
    refine ⟨h1, h2, fun t ht hnot => ⟨?_, h3 t ht hnot⟩⟩
    cases hl : (k.threads t).kernelLock with
    | false => rfl
    | true => exact absurd (h2 t ht hl) hnot

theorem die_retires_or_queues_witness :
    Gone (dieVisitThread 1 (sampleKernel, []) 2).1 2 ∧
    (dieVisitThread 1 (sampleKernel, []) 2).2 = [] ∧
    ((dieVisitThread 1 (sampleKernel, []) 3).1.threads 3).state
      = ThreadState.ThreadStateZombie ∧
    (dieVisitThread 1 (sampleKernel, []) 3).2 = [3] ∧
    Gone (finalState Prod.fst (dieSweepPass 4 sampleKernel [3, 2] 0)) 2 :=
  ⟨((die_retires_or_queues 1 2 (sampleKernel, []) 0 sampleKernel sampleKernel [] [] 0
      (by decide) (by decide)).1 (by decide)).1,
    ((die_retires_or_queues 1 2 (sampleKernel, []) 0 sampleKernel sampleKernel [] [] 0
      (by decide) (by decide)).1 (by decide)).2,
    ((die_retires_or_queues 1 3 (sampleKernel, []) 0 sampleKernel sampleKernel [] [] 0
      (by decide) (by decide)).2.1 (by decide)).1,
    ((die_retires_or_queues 1 3 (sampleKernel, []) 0 sampleKernel sampleKernel [] [] 0
      (by decide) (by decide)).2.1 (by decide)).2,
    (((die_retires_or_queues 1 2 (sampleKernel, []) 4 sampleKernel _ [3, 2] [3] 0
      (by decide) (by decide)).2.2 (pair_eq_ok _ [3] (by decide))).2.2 2 (by decide)
      (by decide)).2⟩

/-! ## A thread that is already dying -/

/-- C25, the code: thread 2 of process 1 is already `Dying` when the thread loop of `die`,
driven by the main thread 1, reaches it. The loop takes its state lock once and releases it
twice, writes `ThreadStateZombie` to its state, tries its kernel lock, and, as the lock is
held, leaves the thread a `Zombie` on `runningThreads`. -/
theorem dying_thread_is_made_zombie :
    (sampleDying.procs 1).m_threads = [1, 2, 3] ∧
    (sampleDying.threads 2).state = ThreadState.ThreadStateDying ∧
    ((dieThreads sampleDying 1 1).1.threads 2).state = ThreadState.ThreadStateZombie ∧
    (dieThreads sampleDying 1 1).2 = [2, 3] ∧
    (dieThreads sampleDying 1 1).1.log.filter (fun e => e.retires 2 ||
        decide (e = Event.acquireStateLock 2) || decide (e = Event.releaseStateLock 2))
      = [Event.acquireStateLock 2, Event.releaseStateLock 2,
          Event.threadState 2 ThreadState.ThreadStateZombie, Event.releaseStateLock 2] ∧
    (dieThreads sampleDying 1 1).1.log.count (Event.acquireStateLock 2) = 1 ∧
    (dieThreads sampleDying 1 1).1.log.count (Event.releaseStateLock 2) = 2 := by
  decide

/-! ## The thread list after `kill_all_other_threads` -/

/-- C27, the code: the thread list of process 1 is 1, 2, 3 and its thread 3 calls
`kill_all_other_threads`. The call returns with thread 3 as the main thread, and with the
killed thread 2 still on the thread list, in front of thread 3: after the removal of thread 1
the loop goes on behind the first entry of the list. -/
theorem kill_all_other_threads_keeps_killed_thread :
    (sampleKernel.procs 1).m_threads = [1, 2, 3] ∧
    (sampleKernel.threads 3).parent = 1 ∧
    stopOf (kill_all_other_threads sampleEnv 10 sampleKernel 1 3) = none ∧
    ((finalState id (kill_all_other_threads sampleEnv 10 sampleKernel 1 3)).procs
      1).m_threads = [2, 3] ∧
    ((finalState id (kill_all_other_threads sampleEnv 10 sampleKernel 1 3)).procs
      1).m_mainThread = 3 ∧
    ((finalState id (kill_all_other_threads sampleEnv 10 sampleKernel 1 3)).threads
      2).state = ThreadState.ThreadStateDying := by
  decide

/-! ## The environment block and the standard handles -/

theorem pidOf_eq_ok (r : Except (Stop × Kernel) (Kernel × Except Nat Pid)) (pid : Pid)
    (h : pidOf r = some pid) : r = .ok (finalState Prod.fst r, .ok pid) := by
  cases r with
  | error e => cases h
  | ok a =>
    obtain ⟨k, res⟩ := a
    cases res with
    | error e => cases h
    | ok w =>
      cases h
      rfl

theorem initialize_peb_eq (x : Ext) (k k1 : Kernel) (this : Pid)
    (h : initialize_peb x k this = .ok k1) :
    ∃ usd peb, (k.procs this).userSharedDataRegion = some usd ∧
      (k.procs this).pebRegion = some peb ∧
      (k.threads (k.procs this).m_mainThread).gsBase = peb.base ∧
      k1 = k.setProc this
        { k.procs this with
          peb :=
            { self := (k.threads (k.procs this).m_mainThread).gsBase,
              pid := (k.procs this).m_pid,
              executableBaseAddress := 0x80000000,
              sharedDataBase := usd.base,
              sharedDataSize := usd.size,
              hirakuBase := usd.base + x.hirakuOffset,
              hirakuSize := x.hirakuSize } } := by
  rcases initialize_peb_cases x k this with ⟨s, he, -⟩ | ⟨usd, peb, husd, hpeb, hgs, he⟩
  · rw [he] at h
    cases h
  · rw [he] at h
    cases h
    exact ⟨usd, peb, husd, hpeb, hgs, rfl⟩

theorem loadElfRelocate_frame (k k1 : Kernel) (this : Pid) (dynamic tables : Bool)
    (plt : List PltEntry) (h : loadElfRelocate k this dynamic tables plt = .ok k1) :
    k1.procs = k.procs ∧ k1.threads = k.threads := by
  unfold loadElfRelocate at h
  split at h
  · split at h
    · cases h
    · split at h
      · cases h; exact ⟨rfl, rfl⟩
      · cases h
  · cases h; exact ⟨rfl, rfl⟩

theorem loadElfLayout_frame (k k1 : Kernel) (this : Pid) (rip sp : Nat) (elfInfo : ELFData)
    (argv envp : List (List Nat)) (execPath : Option (List Nat)) (v : Except Nat (Nat × Nat))
    (h : loadElfLayout k this rip sp elfInfo argv envp execPath = .ok (k1, v)) :
    k1.procs = k.procs ∧ k1.threads = k.threads := by
  unfold loadElfLayout at h
  simp only [] at h
  split at h
  · cases h
  · cases h; exact ⟨rfl, rfl⟩

/-- A `load_elf` that returns an entry point has initialised the environment block from the
shared-data region and the `gsBase` of the main thread, and nothing else of the process. -/
theorem load_elf_initialises (x : Ext) (k k1 : Kernel) (this : Pid) (sp : Nat)
    (elfInfo : ELFData) (argv envp : List (List Nat)) (execPath : Option (List Nat))
    (v : Nat × Nat) (h : load_elf x k this sp elfInfo argv envp execPath = .ok (k1, .ok v)) :
    ∃ usd peb, (k.procs this).userSharedDataRegion = some usd ∧
      (k.procs this).pebRegion = some peb ∧
      (k.threads (k.procs this).m_mainThread).gsBase = peb.base ∧ k1.threads = k.threads ∧
      k1.procs = (k.setProc this
        { k.procs this with
          peb :=
            { self := (k.threads (k.procs this).m_mainThread).gsBase,
              pid := (k.procs this).m_pid,
              executableBaseAddress := 0x80000000,
              sharedDataBase := usd.base,
              sharedDataSize := usd.size,
              hirakuBase := usd.base + x.hirakuOffset,
              hirakuSize := x.hirakuSize } }).procs := by
  unfold load_elf at h
  split at h
  · split at h
    · cases h
    · cases h
    · cases h
    · obtain ⟨ka, h1, hA⟩ := bind_eq_ok h
      obtain ⟨kb, h2, hB⟩ := bind_eq_ok hA
      obtain ⟨usd, peb, husd, hpeb, hgs, hka⟩ := initialize_peb_eq x k ka this h1
      obtain ⟨hp2, ht2⟩ := loadElfRelocate_frame _ _ _ _ _ _ h2
      obtain ⟨hp3, ht3⟩ := loadElfLayout_frame _ _ _ _ _ _ _ _ _ _ hB
      refine ⟨usd, peb, husd, hpeb, hgs, ?_, ?_⟩
      · rw [ht3, ht2, hka]; rfl
      · rw [hp3, hp2, hka]
  · obtain ⟨ka, h1, hA⟩ := bind_eq_ok h
    obtain ⟨usd, peb, husd, hpeb, hgs, hka⟩ := initialize_peb_eq x k ka this h1
    obtain ⟨hp3, ht3⟩ := loadElfLayout_frame _ _ _ _ _ _ _ _ _ _ hA
    refine ⟨usd, peb, husd, hpeb, hgs, ?_, ?_⟩
    · rw [ht3, hka]; rfl
    · rw [hp3, hka]

/-- A `load_elf` that returns an entry point leaves an environment block that matches the
process: it returns only when the `gsBase` of the main thread is the base of the
environment-block region. -/
theorem pebMatches_of_load_elf (x : Ext) (k k1 : Kernel) (this : Pid) (sp : Nat)
    (elfInfo : ELFData) (argv envp : List (List Nat)) (execPath : Option (List Nat))
    (v : Nat × Nat)
    (h : load_elf x k this sp elfInfo argv envp execPath = .ok (k1, .ok v)) :
    PebMatches x k1 this ∧ (k1.procs this).m_pid = (k.procs this).m_pid ∧
      (k1.procs this).m_handles = (k.procs this).m_handles := by
  obtain ⟨usd, peb, husd, hpeb, hgs, ht, hp⟩ :=
    load_elf_initialises x k k1 this sp elfInfo argv envp execPath v h
  refine ⟨⟨peb, usd, ?_, ?_, ?_, ?_, ?_, ?_, ?_, ?_⟩, ?_, ?_⟩
  all_goals simp [hp, ht, hpeb, husd, hgs]

theorem pebMatches_frame (x : Ext) (k k1 : Kernel) (p : Pid) (h : PebMatches x k p)
    (hpeb : (k1.procs p).peb = (k.procs p).peb)
    (hreg : (k1.procs p).pebRegion = (k.procs p).pebRegion)
    (husd : (k1.procs p).userSharedDataRegion = (k.procs p).userSharedDataRegion)
    (hmain : (k1.procs p).m_mainThread = (k.procs p).m_mainThread)
    (hpid : (k1.procs p).m_pid = (k.procs p).m_pid)
    (hgs : (k1.threads (k.procs p).m_mainThread).gsBase
      = (k.threads (k.procs p).m_mainThread).gsBase) : PebMatches x k1 p := by
  obtain ⟨peb, usd, h1, h2, h3, h4, h5, h6, h7, h8⟩ := h
  refine ⟨peb, usd, ?_, ?_, ?_, ?_, ?_, ?_, ?_, ?_⟩
  · rw [hreg, h1]
  · rw [husd, h2]
  · rw [hmain, hgs, h3]
  · rw [hpeb, h4]
  · rw [hpeb, hpid, h5]
  · rw [hpeb, h6]
  · rw [hpeb, h7]
  · rw [hpeb, h8]

theorem construct_eq (x : Ext) (k k1 : Kernel) (pid : Pid) (parent : Option Pid)
    (h : construct x k pid parent = .ok k1) :
    (k1.procs pid).m_handles = [HANDLE_NULL, HANDLE_NULL, HANDLE_NULL] ∧
      (k1.procs pid).m_pid = pid ∧ (k1.procs pid).addressSpace = some k.nextSpace ∧
      (k1.procs pid).m_mainThread = k.nextThread + 1 := by
  unfold construct at h
  split at h
  · cases h
  · cases h
    simp

theorem createElfRegister_handles (x : Ext) (k : Kernel) (pid : Pid)
    (h : (k.procs pid).m_handles = [HANDLE_NULL, HANDLE_NULL, HANDLE_NULL]) :
    ((createElfRegister x k pid).procs pid).m_handles
      = [(match x.nullDev with
          | some file => MakeHandle file
          | none => HANDLE_NULL),
         (match x.logDev with
          | some file => MakeHandle file
          | none => HANDLE_NULL),
         (match x.logDev with
          | some file => MakeHandle file
          | none => HANDLE_NULL)] := by
  unfold createElfRegister
  cases x.nullDev <;> cases x.logDev <;> simp [h]

theorem createElfRegister_frame (x : Ext) (k : Kernel) (pid : Pid) :
    (createElfRegister x k pid).threads = k.threads ∧
    ((createElfRegister x k pid).procs pid).peb = (k.procs pid).peb ∧
    ((createElfRegister x k pid).procs pid).pebRegion = (k.procs pid).pebRegion ∧
    ((createElfRegister x k pid).procs pid).userSharedDataRegion
      = (k.procs pid).userSharedDataRegion ∧
    ((createElfRegister x k pid).procs pid).m_mainThread = (k.procs pid).m_mainThread ∧
    ((createElfRegister x k pid).procs pid).m_pid = (k.procs pid).m_pid := by
  unfold createElfRegister
  cases x.nullDev <;> cases x.logDev <;> simp

theorem createElfAbort_not_ok (env : Env) (fuel : Nat) (k k1 : Kernel) (pid : Pid)
    (thisThread : ThreadPtr) (cpu : Nat) (err : Nat) (p : Pid) :
    createElfAbort env fuel k pid thisThread cpu err ≠ .ok (k1, .ok p) := by
  intro h
  unfold createElfAbort at h
  obtain ⟨ka, -, hA⟩ := bind_eq_ok h
  cases hA

/-- The steps of a successful `create_elf_process`. -/
theorem create_elf_process_steps (env : Env) (x : Ext) (fuel : Nat) (k k1 : Kernel)
    (thisThread : ThreadPtr) (cpu : Nat) (exe : ELFData) (argv envp : List (List Nat))
    (execPath : Option (List Nat)) (parent : Option Pid) (pid : Pid)
    (h : create_elf_process env x fuel k thisThread cpu exe argv envp execPath parent
      = .ok (k1, .ok pid)) :
    pid = k.nextPID ∧ x.elfLoadFile = none ∧ x.elfLoadSegments = none ∧
    ∃ ka kc rk v,
      construct x { k with nextPID := k.nextPID + 1 } k.nextPID parent = .ok ka ∧
      createElfMap x (ka.setThread (ka.procs k.nextPID).m_mainThread
        { ka.threads (ka.procs k.nextPID).m_mainThread with
          timeSliceDefault := x.THREAD_TIMESLICE_DEFAULT,
          timeSlice := x.THREAD_TIMESLICE_DEFAULT, priority := 4 }) k.nextPID = .ok kc ∧
      load_elf x kc k.nextPID (kc.threads (kc.procs k.nextPID).m_mainThread).rsp exe argv envp
        execPath = .ok (rk, .ok v) ∧
      v.2 % 16 = 0 ∧
      k1 = createElfRegister x (rk.setThread (rk.procs k.nextPID).m_mainThread
        { rk.threads (rk.procs k.nextPID).m_mainThread with rsp := v.2, rip := v.1 })
        k.nextPID := by
  unfold create_elf_process at h
  split at h
  · cases h
  · rename_i hf
    obtain ⟨ka, hka, hA⟩ := bind_eq_ok h
    simp only [] at hA
    split at hA
    · exact absurd hA (createElfAbort_not_ok _ _ _ _ _ _ _ _ _)
    · rename_i hs
      obtain ⟨kc, hkc, hB⟩ := bind_eq_ok hA
      obtain ⟨r, hr, hC⟩ := bind_eq_ok hB
      obtain ⟨rk, rv⟩ := r
      cases rv with
      | error err =>
        exact absurd hC (createElfAbort_not_ok _ _ _ _ _ _ _ _ _)
      | ok v =>
        unfold createElfFinish at hC
        simp only [] at hC
        split at hC
        · cases hC
        · rename_i hal
          simp only [Except.ok.injEq, Prod.mk.injEq] at hC
          obtain ⟨hk1, hpid⟩ := hC
          refine ⟨hpid.symm, hf, hs, ka, kc, rk, v, hka, hkc, hr, by simpa using hal, hk1.symm⟩

theorem create_elf_process_of_steps (env : Env) (x : Ext) (fuel : Nat) (k ka kc rk : Kernel)
    (thisThread : ThreadPtr) (cpu : Nat) (exe : ELFData) (argv envp : List (List Nat))
    (execPath : Option (List Nat)) (parent : Option Pid) (v : Nat × Nat)
    (hf : x.elfLoadFile = none) (hs : x.elfLoadSegments = none)
    (hka : construct x { k with nextPID := k.nextPID + 1 } k.nextPID parent = .ok ka)
    (hkc : createElfMap x (ka.setThread (ka.procs k.nextPID).m_mainThread
        { ka.threads (ka.procs k.nextPID).m_mainThread with
          timeSliceDefault := x.THREAD_TIMESLICE_DEFAULT,
          timeSlice := x.THREAD_TIMESLICE_DEFAULT, priority := 4 }) k.nextPID = .ok kc)
    (hr : load_elf x kc k.nextPID (kc.threads (kc.procs k.nextPID).m_mainThread).rsp exe argv
        envp execPath = .ok (rk, .ok v))
    (hal : v.2 % 16 = 0) :
    ∃ k2, create_elf_process env x fuel k thisThread cpu exe argv envp execPath parent
      = .ok (k2, .ok k.nextPID) := by
  unfold create_elf_process
  rw [hf]
  simp only []
  rw [hka]
  simp only [bind, Except.bind]
  rw [hs]
  simp only []
  rw [hkc]
  simp only []
  rw [hr]
  simp only [createElfFinish, hal]
  exact ⟨_, rfl⟩

/-- What a successful `create_elf_process` leaves behind: the environment block matches the
process, the PID is the one returned, and the handle table is the one of the constructor with
the standard handles put in. -/
theorem create_elf_process_ok (env : Env) (x : Ext) (fuel : Nat) (k k1 : Kernel)
    (thisThread : ThreadPtr) (cpu : Nat) (exe : ELFData) (argv envp : List (List Nat))
    (execPath : Option (List Nat)) (parent : Option Pid) (pid : Pid)
    (h : create_elf_process env x fuel k thisThread cpu exe argv envp execPath parent
      = .ok (k1, .ok pid)) :
    PebMatches x k1 pid ∧ (k1.procs pid).m_pid = pid ∧
    (k1.procs pid).m_handles
      = [(match x.nullDev with
          | some file => MakeHandle file
          | none => HANDLE_NULL),
         (match x.logDev with
          | some file => MakeHandle file
          | none => HANDLE_NULL),
         (match x.logDev with
          | some file => MakeHandle file
          | none => HANDLE_NULL)] ∧
    ∀ nullDev logDev, ∃ k2,
      create_elf_process env { x with nullDev := nullDev, logDev := logDev } fuel k thisThread
        cpu exe argv envp execPath parent = .ok (k2, .ok pid) := by
  obtain ⟨hpid, hf, hs, ka, kc, rk, v, hka, hkc, hr, hal, hk1⟩ :=
    create_elf_process_steps env x fuel k k1 thisThread cpu exe argv envp execPath parent pid h
  subst hpid
  obtain ⟨hh, hp, -, hm⟩ := construct_eq _ _ _ _ _ hka
  obtain ⟨-, hp2, hh2, hm2⟩ := createElfMap_eq _ _ _ _ hkc
  obtain ⟨hpm, hp3, hh3⟩ := pebMatches_of_load_elf x kc rk k.nextPID _ exe argv envp execPath v
    hr
  obtain ⟨ft, fpeb, freg, fusd, fmain, fpid⟩ := createElfRegister_frame x
    (rk.setThread (rk.procs k.nextPID).m_mainThread
      { rk.threads (rk.procs k.nextPID).m_mainThread with rsp := v.2, rip := v.1 }) k.nextPID
  refine ⟨?_, ?_, ?_, ?_⟩
  · rw [hk1]
    refine pebMatches_frame x rk _ k.nextPID hpm fpeb freg fusd fmain fpid ?_
    rw [ft]
    simp
  · rw [hk1, fpid]
    simp only [Kernel.setThread_procs]
    rw [hp3, hp2]
    simpa using hp
  · rw [hk1]
    apply createElfRegister_handles
    simp only [Kernel.setThread_procs]
    rw [hh3, hh2]
    simpa using hh
  · intro nullDev logDev
    exact create_elf_process_of_steps env { x with nullDev := nullDev, logDev := logDev } fuel
      k ka kc rk thisThread cpu exe argv envp execPath parent v hf hs hka hkc hr hal

/-- C26: when `create_elf_process` returns a process, its handle table has the three entries
0, 1 and 2: entry 0 is the open file of `/dev/null` when that path resolves and the null
handle when it does not, entries 1 and 2 are the open file of `/dev/kernellog` when that path
resolves and null handles when it does not. With any other outcome of the two lookups the
call returns the same PID, and the three handles follow the lookups in the same way. -/
theorem standard_handles_follow_devices (env : Env) (x : Ext) (fuel : Nat) (k k1 : Kernel)
    (thisThread : ThreadPtr) (cpu : Nat) (exe : ELFData) (argv envp : List (List Nat))
    (execPath : Option (List Nat)) (parent : Option Pid) (pid : Pid)
    (h : create_elf_process env x fuel k thisThread cpu exe argv envp execPath parent
      = .ok (k1, .ok pid)) :
    (k1.procs pid).m_handles
      = [(match x.nullDev with
          | some file => MakeHandle file
          | none => HANDLE_NULL),
         (match x.logDev with
          | some file => MakeHandle file
          | none => HANDLE_NULL),
         (match x.logDev with
          | some file => MakeHandle file
          | none => HANDLE_NULL)] ∧
    ∀ nullDev logDev, ∃ k2,
      create_elf_process env { x with nullDev := nullDev, logDev := logDev } fuel k thisThread
        cpu exe argv envp execPath parent = .ok (k2, .ok pid) ∧
      (k2.procs pid).m_handles
        = [(match nullDev with
            | some file => MakeHandle file
            | none => HANDLE_NULL),
           (match logDev with
            | some file => MakeHandle file
            | none => HANDLE_NULL),
           (match logDev with
            | some file => MakeHandle file
            | none => HANDLE_NULL)] := by
  obtain ⟨-, -, hh, hdev⟩ := create_elf_process_ok env x fuel k k1 thisThread cpu exe argv envp
    execPath parent pid h
  refine ⟨hh, fun nullDev logDev => ?_⟩
  obtain ⟨k2, hk2⟩ := hdev nullDev logDev
  exact ⟨k2, hk2, (create_elf_process_ok env _ fuel k k2 thisThread cpu exe argv envp execPath
    parent pid hk2).2.2.1⟩

theorem standard_handles_follow_devices_witness :
    ((finalState Prod.fst (create_elf_process sampleEnv sampleExt 10 sampleKernel 1 0 sampleELF
      [] [] none (some 1))).procs 10).m_handles
      = [MakeHandle 50, MakeHandle 51, MakeHandle 51] ∧
    ∃ k2, create_elf_process sampleEnv { sampleExt with nullDev := none, logDev := none } 10
        sampleKernel 1 0 sampleELF [] [] none (some 1) = .ok (k2, .ok 10) ∧
      (k2.procs 10).m_handles = [HANDLE_NULL, HANDLE_NULL, HANDLE_NULL] :=
  ⟨(standard_handles_follow_devices sampleEnv sampleExt 10 sampleKernel _ 1 0 sampleELF [] []
      none (some 1) 10 (pidOf_eq_ok _ 10 (by decide))).1,
    (standard_handles_follow_devices sampleEnv sampleExt 10 sampleKernel _ 1 0 sampleELF [] []
      none (some 1) 10 (pidOf_eq_ok _ 10 (by decide))).2 none none⟩

/-! ## The environment block after `create_elf_process`, `fork` and `execve` -/

theorem forkEnvironment_matches (x : Ext) (k k1 : Kernel) (pid : Pid)
    (h : forkEnvironment x k pid = .ok k1) :
    PebMatches x k1 pid ∧ (k1.procs pid).m_pid = (k.procs pid).m_pid := by
  unfold forkEnvironment at h
  obtain ⟨ka, h1, hA⟩ := bind_eq_ok h
  obtain ⟨s1, hka⟩ := map_process_environment_block_eq _ _ _ _ h1
  split at hA
  · cases hA
  · rename_i peb hpeb
    simp only [] at hA
    obtain ⟨kb, h2, hB⟩ := bind_eq_ok hA
    obtain ⟨usd, -, husd, -, -, hkb⟩ := initialize_peb_eq _ _ _ _ h2
    cases hB
    subst hkb
    subst hka
    simp at hpeb husd
    refine ⟨⟨peb, usd, ?_, ?_, ?_, ?_, ?_, ?_, ?_, ?_⟩, ?_⟩
    all_goals simp [hpeb, husd]

theorem forkAddressSpace_pid (k k1 : Kernel) (this pid : Pid)
    (h : forkAddressSpace k this pid = .ok k1) :
    (k1.procs pid).m_pid = (k.procs pid).m_pid := by
  unfold forkAddressSpace at h
  split at h
  · cases h
    simp
  · cases h

theorem forkInherit_pid (k : Kernel) (this pid : Pid) :
    ((forkInherit k this pid).procs pid).m_pid = (k.procs pid).m_pid := by
  unfold forkInherit
  by_cases h : pid = this
  · subst h
    simp
  · simp [h]

theorem forkSharedData_pid (x : Ext) (k k1 : Kernel) (this pid : Pid)
    (h : forkSharedData x k this pid = .ok k1) :
    (k1.procs pid).m_pid = (k.procs pid).m_pid := by
  unfold forkSharedData at h
  split at h
  · split at h
    · cases h
      simp
    · obtain ⟨s, hs⟩ := map_user_shared_data_eq _ _ _ _ h
      subst hs
      simp
  · cases h

theorem fork_matches (x : Ext) (k k1 : Kernel) (this : Pid) (thisThread : ThreadPtr)
    (pid : Pid) (h : fork x k this thisThread = .ok (k1, pid)) :
    PebMatches x k1 pid ∧ (k1.procs pid).m_pid = pid ∧ pid = k.nextPID := by
  unfold fork at h
  split at h
  · cases h
  · obtain ⟨ka, h1, hA⟩ := bind_eq_ok h
    obtain ⟨kb, h2, hB⟩ := bind_eq_ok hA
    obtain ⟨kc, h3, hC⟩ := bind_eq_ok hB
    obtain ⟨kd, h4, hD⟩ := bind_eq_ok hC
    simp only [Except.ok.injEq, Prod.mk.injEq] at hD
    obtain ⟨hk, hp⟩ := hD
    subst hk
    subst hp
    obtain ⟨hm, he⟩ := forkEnvironment_matches _ _ _ _ h4
    refine ⟨hm, ?_, rfl⟩
    rw [he, forkSharedData_pid _ _ _ _ _ h3, forkInherit_pid, forkAddressSpace_pid _ _ _ _ h2]
    exact (construct_eq _ _ _ _ _ h1).2.1

theorem execve_matches (x : Ext) (k k1 : Kernel) (this : Pid) (thisThread : ThreadPtr)
    (exe : ELFData) (argv envp : List (List Nat)) (execPath : Option (List Nat))
    (h : execve x k this thisThread exe argv envp execPath = .ok (k1, none)) :
    PebMatches x k1 this ∧ (k1.procs this).m_pid = (k.procs this).m_pid := by
  unfold execve at h
  split at h
  · cases h
  · split at h
    · cases h
    · obtain ⟨ka, h1, hA⟩ := bind_eq_ok h
      obtain ⟨r, h2, hB⟩ := bind_eq_ok hA
      obtain ⟨rk, rv⟩ := r
      cases rv with
      | error e => cases hB
      | ok v =>
        unfold execveFinish at hB
        simp only [] at hB
        split at hB
        · cases hB
        · cases hB
          obtain ⟨-, hpid, -, -⟩ := execveMap_eq _ _ _ _ _ h1
          have hpid2 : ((execveSwapSpace k this).procs this).m_pid = (k.procs this).m_pid := by
            unfold execveSwapSpace
            simp only []
            split <;> simp
          obtain ⟨hpm, hp3, -⟩ := pebMatches_of_load_elf x ka rk this _ exe argv envp execPath v
            h2
          refine ⟨pebMatches_frame x rk _ this hpm rfl rfl rfl rfl rfl ?_, ?_⟩
          · simp only [Kernel.setThread_threads]
            split
            · rename_i hq
              rw [hq]
            · rfl
          · simp only [Kernel.setThread_procs]
            rw [hp3, hpid, hpid2]

end Process

/-! ## `le_handle_dup` -/

theorem other_flag_bits (flags c : Nat) (hc : c < 2 ^ 32) :
    flags &&& (0xFFFFFFFF ^^^ c) ≠ 0 ↔
      ∃ i, i < 32 ∧ flags.testBit i = true ∧ c.testBit i = false := by
  constructor
  · intro h
    obtain ⟨i, hi⟩ := Nat.ne_zero_implies_bit_true h
    rw [Nat.testBit_and, Nat.testBit_xor,
      show (0xFFFFFFFF : Nat) = 2 ^ 32 - 1 from rfl, Nat.testBit_two_pow_sub_one] at hi
    refine ⟨i, ?_⟩
    by_cases h32 : i < 32
    · cases hb : c.testBit i <;> simp_all
    · have hci : c.testBit i = false :=
        Nat.testBit_lt_two_pow (Nat.lt_of_lt_of_le hc
          (Nat.pow_le_pow_right (by decide) (Nat.le_of_not_lt h32)))
      simp [h32, hci] at hi
  · rintro ⟨i, hi, hf, hb⟩ h0
    have : (flags &&& (0xFFFFFFFF ^^^ c)).testBit i = true := by
      rw [Nat.testBit_and, Nat.testBit_xor,
        show (0xFFFFFFFF : Nat) = 2 ^ 32 - 1 from rfl, Nat.testBit_two_pow_sub_one]
      simp [hi, hf, hb]
    rw [h0] at this
    simp at this

namespace Process

theorem get_handle_valid (k : Kernel) (this : Pid) (id : Int)
    (h : (get_handle k this id).IsValid = true) :
    0 ≤ id ∧ id.toNat < (k.procs this).m_handles.length := by
  unfold get_handle at h
  split at h
  · rename_i h0
    refine ⟨h0, ?_⟩
    by_contra hlen
    rw [List.getD_eq_default _ _ (Nat.le_of_not_lt hlen)] at h
    simp [Handle.IsValid, HANDLE_NULL] at h
  · simp [Handle.IsValid, HANDLE_NULL] at h

theorem get_handle_replace (k : Kernel) (this : Pid) (id old : Int) (h : Handle)
    (hne : old ≠ id) :
    get_handle (handle_replace k this id h).1 this old = get_handle k this old := by
  unfold handle_replace
  by_cases hid : 0 ≤ id ∧ id.toNat < (k.procs this).m_handles.length
  · rw [if_pos hid]
    unfold get_handle
    by_cases h0 : 0 ≤ old
    · have hn : id.toNat ≠ old.toNat := by omega
      simp [h0, List.getD_eq_getElem?_getD, List.getElem?_set_ne hn]
    · simp [h0]
  · rw [if_neg hid]

theorem get_handle_allocate (k : Kernel) (this : Pid) (old : Int) (ko : Option Nat)
    (c : Bool) (hold : 0 ≤ old ∧ old.toNat < (k.procs this).m_handles.length) :
    get_handle (allocate_handle k this ko c).1 this old = get_handle k this old := by
  unfold allocate_handle get_handle
  simp [hold.1, List.getD_eq_getElem?_getD, List.getElem?_append_left hold.2]

theorem get_handle_destroy (k : Kernel) (this : Pid) (id old : Int) (hne : old ≠ id) :
    get_handle (handle_destroy k this id) this old = get_handle k this old := by
  unfold handle_destroy
  by_cases hid : 0 ≤ id ∧ id.toNat < (k.procs this).m_handles.length
  · rw [if_pos hid]
    unfold get_handle
    by_cases h0 : 0 ≤ old
    · have hn : id.toNat ≠ old.toNat := by omega
      simp [h0, List.getD_eq_getElem?_getD, List.getElem?_set_ne hn]
    · simp [h0]
  · rw [if_neg hid]

end Process

/-- C28: `le_handle_dup` returns `EFAULT` when the new-handle value cannot be read; otherwise
`EINVAL` when `oldHandle` is the requested new handle; otherwise `EINVAL` when `flags` has a
bit outside `O_CLOEXEC`; otherwise `EBADF` when `oldHandle` is not a valid handle; in each of
these cases the state, and with it the handle table, is as before. Otherwise it replaces the
entry of a new handle that is not negative, and allocates an entry for a negative one, with a
copy of the old entry that is close-on-exec when `O_CLOEXEC` is set. In every case the entry
of `oldHandle`, and so its close-on-exec flag, is afterwards as before. -/
theorem le_handle_dup_checks_in_order (e : DupEnv) (k : Kernel) (this : Pid) (oldHandle : Int)
    (flags : Nat) :
    (e.load = none → le_handle_dup e k this oldHandle flags = (k, some Errno.EFAULT, none)) ∧
    (e.load = some oldHandle →
      le_handle_dup e k this oldHandle flags = (k, some Errno.EINVAL, none)) ∧
    (∀ newHandle, e.load = some newHandle → oldHandle ≠ newHandle →
      flags &&& (0xFFFFFFFF ^^^ e.O_CLOEXEC) ≠ 0 →
      le_handle_dup e k this oldHandle flags = (k, some Errno.EINVAL, none)) ∧
    (∀ newHandle, e.load = some newHandle → oldHandle ≠ newHandle →
      flags &&& (0xFFFFFFFF ^^^ e.O_CLOEXEC) = 0 →
      (Process.get_handle k this oldHandle).IsValid = false →
      le_handle_dup e k this oldHandle flags = (k, some Errno.EBADF, none)) ∧
    (∀ newHandle, e.load = some newHandle → oldHandle ≠ newHandle →
      flags &&& (0xFFFFFFFF ^^^ e.O_CLOEXEC) = 0 →
      (Process.get_handle k this oldHandle).IsValid = true → 0 ≤ newHandle →
      le_handle_dup e k this oldHandle flags
        = ((Process.handle_replace k this newHandle (dupHandle e k this oldHandle flags)).1,
           (Process.handle_replace k this newHandle (dupHandle e k this oldHandle flags)).2,
           none)) ∧
    (∀ newHandle, e.load = some newHandle → oldHandle ≠ newHandle →
      flags &&& (0xFFFFFFFF ^^^ e.O_CLOEXEC) = 0 →
      (Process.get_handle k this oldHandle).IsValid = true → newHandle < 0 →
      le_handle_dup e k this oldHandle flags
        = if e.storeFaults then
            (Process.handle_destroy
              (Process.allocate_handle k this (dupHandle e k this oldHandle flags).ko
                (dupHandle e k this oldHandle flags).closeOnExec).1 this
              (Process.allocate_handle k this (dupHandle e k this oldHandle flags).ko
                (dupHandle e k this oldHandle flags).closeOnExec).2,
             some Errno.EFAULT, none)
          else
            ((Process.allocate_handle k this (dupHandle e k this oldHandle flags).ko
                (dupHandle e k this oldHandle flags).closeOnExec).1, none,
             some (Process.allocate_handle k this (dupHandle e k this oldHandle flags).ko
                (dupHandle e k this oldHandle flags).closeOnExec).2)) ∧
    Process.get_handle (le_handle_dup e k this oldHandle flags).1 this oldHandle
      = Process.get_handle k this oldHandle ∧
    (e.O_CLOEXEC < 2 ^ 32 →
      (flags &&& (0xFFFFFFFF ^^^ e.O_CLOEXEC) ≠ 0 ↔
        ∃ i, i < 32 ∧ flags.testBit i = true ∧ e.O_CLOEXEC.testBit i = false)) := by
  refine ⟨?_, ?_, ?_, ?_, ?_, ?_, ?_, other_flag_bits flags e.O_CLOEXEC⟩
  · intro h
    simp [le_handle_dup, h]
  · intro h
    simp [le_handle_dup, h]
  · intro n h hne hfl
    simp [le_handle_dup, h, hne, hfl]
  · intro n h hne hfl hv
    simp [le_handle_dup, h, hne, hfl, hv]
  · intro n h hne hfl hv hn
    simp only [le_handle_dup, h, hne, hfl, hv, hn, dupHandle]
    simp
  · intro n h hne hfl hv hn
    have hn2 : ¬ 0 ≤ n := by omega
    simp only [le_handle_dup, h, hne, hfl, hv, hn2, dupHandle]
    simp
  · unfold le_handle_dup
    split
    · rfl
    · rename_i n hload
      split
      · rfl
      · rename_i hne
        split
        · rfl
        · simp only []
          split
          · rfl
          · rename_i hv
            have hold := Process.get_handle_valid k this oldHandle (by simpa using hv)
            split
            · exact Process.get_handle_replace _ _ _ _ _ hne
            · split
              · rw [Process.get_handle_destroy, Process.get_handle_allocate _ _ _ _ _ hold]
                simp only [Process.allocate_handle]
                omega
              · exact Process.get_handle_allocate _ _ _ _ _ hold

theorem le_handle_dup_checks_in_order_witness :
    le_handle_dup (sampleDup 0) sampleHandles 1 1 524288
      = ((Process.handle_replace sampleHandles 1 0
            { ko := some 41, closeOnExec := true }).1, none, none) ∧
    Process.get_handle (le_handle_dup (sampleDup (-1)) sampleHandles 1 0 524288).1 1 0
      = Process.get_handle sampleHandles 1 0 ∧
    Process.get_handle (le_handle_dup (sampleDup (-1)) sampleHandles 1 0 524288).1 1 2
      = { ko := some 40, closeOnExec := true } :=
  ⟨(le_handle_dup_checks_in_order (sampleDup 0) sampleHandles 1 1 524288).2.2.2.2.1 0 rfl
      (by decide) (by decide) (by decide) (by decide),
    (le_handle_dup_checks_in_order (sampleDup (-1)) sampleHandles 1 0 524288).2.2.2.2.2.2.1,
    by decide⟩

namespace AHCI

/-! ## `ReadDiskBlock` and `WriteDiskBlock` -/

theorem two32_eq : (2 : Nat) ^ 32 = 4294967296 := by norm_num

theorem add64_lt (a b : Nat) : add64 a b < 18446744073709551616 := by
  unfold add64
  rw [two64_eq]
  omega

theorem add64_add64 (a b c : Nat) : add64 (add64 a b) c = add64 a (b + c) := by
  unfold add64
  rw [two64_eq]
  omega

theorem add64_zero (a : Nat) (h : a < 18446744073709551616) : add64 a 0 = a := by
  unfold add64
  rw [two64_eq]
  omega

theorem bytesOut_append (l1 l2 : List PortEvent) :
    bytesOut (l1 ++ l2) = bytesOut l1 + bytesOut l2 := by
  induction l1 with
  | nil => simp [bytesOut]
  | cons e rest ih =>
    cases e <;> simp [bytesOut, ih]
    omega

theorem commands_append (l1 l2 : List PortEvent) :
    commands (l1 ++ l2) = commands l1 ++ commands l2 := by
  induction l1 with
  | nil => simp [commands]
  | cons e rest ih =>
    cases e <;> simp [commands, ih]

theorem bytesIn_append (l1 l2 : List PortEvent) :
    bytesIn (l1 ++ l2) = bytesIn l1 + bytesIn l2 := by
  induction l1 with
  | nil => simp [bytesIn]
  | cons e rest ih =>
    cases e <;> simp [bytesIn, ih]
    omega

theorem moved_refl (s s1 : Xfer) (hp : s1.port = s.port) (hb : s1.buffer = s.buffer)
    (hl : s1.lba = s.lba) : Moved s s1 0 0 [] := by
  refine ⟨by rw [hb]; rfl, by rw [hl]; rfl, by rw [hp], ?_, ?_, by rw [hp]; rfl,
    by rw [hp]; simp⟩
  · intro j hj
    omega
  · intro a _
    rw [hp]

theorem moved_trans (s s1 s2 : Xfer) (a b d1 d2 : Nat) (c1 c2 : List (Nat × Nat × Bool))
    (h1 : Moved s s1 a d1 c1) (h2 : Moved s1 s2 b d2 c2) (h : d2 = 0 ∨ d1 = 512 * a) :
    Moved s s2 (a + b) (d1 + d2) (c1 ++ c2) := by
  refine ⟨?_, ?_, ?_, ?_, ?_, ?_, ?_⟩
  · rw [h2.buffer, h1.buffer]
    omega
  · rw [h2.lba, h1.lba]
    omega
  · rw [h2.disk, h1.disk]
  · intro j hj
    by_cases hlt : j < d1
    · rw [h2.frame _ (Or.inl (by rw [h1.buffer]; omega))]
      exact h1.data j hlt
    · have hd : d1 = 512 * a := by omega
      have hj2 : j - d1 < d2 := by omega
      have := h2.data (j - d1) hj2
      rw [h1.buffer, h1.disk, h1.lba] at this
      have e1 : s.buffer + d1 + (j - d1) = s.buffer + j := by omega
      have e2 : s.lba + a + (j - d1) / 512 = s.lba + j / 512 := by omega
      have e3 : (j - d1) % 512 = j % 512 := by omega
      rw [e1, e2, e3] at this
      exact this
  · intro x hx
    rw [h2.frame x (by rw [h1.buffer]; omega), h1.frame x (by omega)]
  · rw [h2.bytes, h1.bytes]
    omega
  · rw [h2.issued, h1.issued, List.append_assoc]

theorem two48_eq : (2 : Nat) ^ 48 = 281474976710656 := by norm_num

namespace Port

theorem Access_read (dev : Device) (p : Port) (lba n : Nat)
    (hok : ∀ l c w, dev.status l c w = 0) :
    Access dev p lba n false
      = (0, { p with
              log := p.log ++ [PortEvent.access lba n false],
              bufVirt := fun o =>
                if o < 512 * n then p.disk (lba % 2 ^ 48 + o / 512) (o % 512)
                else p.bufVirt o }) := by
  simp [Access, hok]

/-- One round of a read loop: `n` sectors are read and `size` bytes of them copied. -/
theorem moved_chunk (dev : Device) (s s1 : Xfer) (n size : Nat)
    (hok : ∀ l c w, dev.status l c w = 0) (hsize : size ≤ 512 * n)
    (hlba : s.lba + n ≤ 281474976710656)
    (hp : s1.port = copyToBuffer (Access dev s.port s.lba n false).2 s.buffer size)
    (hb : s1.buffer = s.buffer + size) (hl : s1.lba = add64 s.lba n) :
    Moved s s1 n size [(s.lba, n, false)] := by
  rw [Access_read dev _ _ _ hok] at hp
  by_cases hn : n = 0
  · subst hn
    have hs0 : size = 0 := by omega
    subst hs0
    refine ⟨hb, by rw [hl, add64_eq _ _ (by omega)], by rw [hp]; rfl, ?_, ?_, ?_, ?_⟩
    · intro j hj
      omega
    · intro a ha
      rw [hp]
      simp only [copyToBuffer]
      rw [if_neg (by omega)]
    · rw [hp]
      simp [copyToBuffer, bytesOut_append, bytesOut]
    · rw [hp]
      simp [copyToBuffer, commands_append, commands]
  · have hmod : s.lba % 2 ^ 48 = s.lba := by
      rw [two48_eq]
      omega
    refine ⟨hb, by rw [hl, add64_eq _ _ (by omega)], by rw [hp]; rfl, ?_, ?_, ?_, ?_⟩
    · intro j hj
      rw [hp]
      simp only [copyToBuffer]
      rw [if_pos ⟨by omega, by omega⟩, if_pos (by omega), hmod]
      rw [show s.buffer + j - s.buffer = j by omega]
    · intro a ha
      rw [hp]
      simp only [copyToBuffer]
      rw [if_neg (by omega)]
    · rw [hp]
      simp [copyToBuffer, bytesOut_append, bytesOut]
    · rw [hp]
      simp [copyToBuffer, commands_append, commands]

theorem readChunks_falls (dev : Device) (hok : ∀ l c w, dev.status l c w = 0) (n : Nat)
    (hn : 0 < n) :
    ∀ (fuel : Nat) (s : Xfer), s.count < 4294967296 →
      s.lba + s.blockCount ≤ 281474976710656 →
      s.blockCount = (s.count + 511) / 512 → s.blockCount / n < fuel →
      ∃ s1 q secs done, readChunks dev n fuel s = .falls s1 ∧
        Moved s s1 secs done (chunkCommands n false s.lba q) ∧ secs = n * q ∧
        s1.blockCount + secs = s.blockCount ∧ s1.count + done = s.count ∧
        s1.blockCount < n ∧ s1.blockCount = (s1.count + 511) / 512 ∧
        (s1.count = 0 ∨ done = 512 * secs) := by
  intro fuel
  induction fuel with
  | zero => intro s _ _ _ h; exact absurd h (Nat.not_lt_zero _)
  | succ fuel ih =>
    intro s hcount hlba hbc hfuel
    by_cases hc : n ≤ s.blockCount ∧ s.count ≠ 0
    · have hsize : (if s.count < 512 * n then s.count else 512 * n) ≠ 0 := by
        split <;> omega
      have hsize2 : (if s.count < 512 * n then s.count else 512 * n) ≤ 512 * n := by
        split <;> omega
      have hsize3 : (if s.count < 512 * n then s.count else 512 * n) ≤ s.count := by
        split <;> omega
      have hrun : readChunks dev n (fuel + 1) s
          = readChunks dev n fuel
              { port := copyToBuffer (Access dev s.port s.lba n false).2 s.buffer
                  (if s.count < 512 * n then s.count else 512 * n),
                buffer := s.buffer + (if s.count < 512 * n then s.count else 512 * n),
                lba := add64 s.lba n, blockCount := s.blockCount - n,
                count := (s.count - (if s.count < 512 * n then s.count else 512 * n))
                  % 2 ^ 32 } := by
        rw [readChunks, if_pos hc]
        simp only []
        rw [if_neg hsize, Access_read dev _ _ _ hok]
        simp
      generalize hsz : (if s.count < 512 * n then s.count else 512 * n) = size at *
      have hszv : (s.count < 512 * n ∧ size = s.count) ∨ (512 * n ≤ s.count ∧ size = 512 * n) := by
        rw [← hsz]
        split <;> omega
      have hfuel2 : (s.blockCount - n) / n < fuel := by
        rw [Nat.div_lt_iff_lt_mul hn] at hfuel ⊢
        rw [Nat.succ_mul] at hfuel
        omega
      have hadd : add64 s.lba n = s.lba + n := add64_eq _ _ (by omega)
      obtain ⟨s1, q, secs, done, hr, hm, hsecs, hb1, hc1, hlt, hinv, hal⟩ :=
        ih { port := copyToBuffer (Access dev s.port s.lba n false).2 s.buffer size,
             buffer := s.buffer + size, lba := add64 s.lba n, blockCount := s.blockCount - n,
             count := (s.count - size) % 2 ^ 32 }
          (by simp only [two32_eq]; omega) (by simp only [hadd]; omega)
          (by simp only [two32_eq]; omega) hfuel2
      have hm0 := moved_chunk dev s
        { port := copyToBuffer (Access dev s.port s.lba n false).2 s.buffer size,
          buffer := s.buffer + size, lba := add64 s.lba n, blockCount := s.blockCount - n,
          count := (s.count - size) % 2 ^ 32 } n size hok hsize2 (by omega) rfl rfl rfl
      simp only [two32_eq] at hc1 hb1
      refine ⟨s1, q + 1, n + secs, size + done, by rw [hrun, hr], ?_, ?_, ?_, ?_, hlt, hinv,
        ?_⟩
      · exact moved_trans _ _ _ _ _ _ _ _ _ hm0 hm (by omega)
      · rw [hsecs, Nat.mul_succ]
        omega
      · omega
      · omega
      · omega
    · refine ⟨s, 0, 0, 0, by rw [readChunks, if_neg hc], moved_refl s s rfl rfl rfl,
        rfl, rfl, rfl, ?_, hbc, Or.inr rfl⟩
      by_cases h0 : s.count = 0
      · omega
      · have : ¬ n ≤ s.blockCount := fun h => hc ⟨h, h0⟩
        omega

theorem readSingles_falls (dev : Device) (hok : ∀ l c w, dev.status l c w = 0) (fuel : Nat)
    (s : Xfer) (hlba : s.lba + s.blockCount ≤ 281474976710656)
    (hbc : s.blockCount = (s.count + 511) / 512) (hlt : s.blockCount < 2) :
    ∃ s1, readSingles dev (fuel + 2) s = .falls s1 ∧
      Moved s s1 s.blockCount s.count (chunkCommands 1 false s.lba s.blockCount) := by
  by_cases h0 : s.count = 0
  · have hb0 : s.blockCount = 0 := by omega
    refine ⟨{ s with blockCount := sub64 s.blockCount 1 }, ?_, ?_⟩
    · rw [readSingles]
      simp [h0]
    · rw [hb0, h0]
      exact moved_refl s _ rfl rfl rfl
  · have hb1 : s.blockCount = 1 := by omega
    have hsize : (if s.count < 512 then s.count else 512) = s.count := by
      split <;> omega
    refine ⟨{ port := copyToBuffer (Access dev s.port s.lba 1 false).2 s.buffer s.count,
              buffer := s.buffer + s.count, lba := add64 s.lba 1,
              blockCount := sub64 (sub64 s.blockCount 1) 1, count := s.count }, ?_, ?_⟩
    · rw [readSingles]
      simp only [hsize]
      rw [if_pos ⟨by omega, h0⟩, if_neg h0, Access_read dev _ _ _ hok]
      simp only [ne_eq, not_true_eq_false, if_false]
      rw [readSingles]
      have hz : sub64 s.blockCount 1 = 0 := by
        rw [hb1]
        decide
      simp [hz]
    · rw [hb1]
      exact moved_chunk dev s _ 1 s.count hok (by omega) (by omega) rfl rfl rfl

/-- C29, as stated: `ReadDiskBlock` is called for the 512 bytes of sector `2 ^ 48 + 7`. The
command it issues carries the bits 0 to 47 of that number, which is 7: the call returns 0 and
the first byte of the buffer is the first byte of sector 7 of the disk, 49, where the first
byte of sector `2 ^ 48 + 7` is 239. -/
theorem ReadDiskBlock_sends_48_bits_of_lba :
    (281474976710663 : Nat) = 2 ^ 48 + 7 ∧
    (ReadDiskBlock sampleDevice 10 sampleDisk 281474976710663 512 1000).map
        (fun r => (r.1, commands r.2.log, r.2.mem 1000))
      = some (0, [(281474976710663, 1, false)], sampleDisk.disk 7 0) ∧
    sampleDisk.disk 7 0 = 49 ∧
    sampleDisk.disk 281474976710663 0 = 239 := by
  decide

/-- C29, amended: for a byte count with `count + 511 < 2 ^ 32`, sectors below `2 ^ 48`, that
is `lba + (count + 511) / 512 ≤ 2 ^ 48`, and a controller that carries out every command,
`ReadDiskBlock` returns 0, given a loop budget of `count / 4096 + 5` rounds. After it, byte
`j` of the caller's buffer, for every `j < count`, is byte `j % 512` of sector `lba + j / 512`;
no byte of the memory outside the `count` bytes of the buffer has changed; the `memcpy` calls
wrote `count` bytes to the buffer in all; and the commands were the reads of the sectors from
`lba` on in chunks of 8 sectors, then of 2 sectors, then of 1 sector, for
`(count + 511) / 512` sectors in all. The disk is as before. -/
theorem ReadDiskBlock_copies_count_bytes (dev : Device) (fuel : Nat) (p : Port)
    (lba count buffer : Nat) (hc : count + 511 < 2 ^ 32)
    (hlba : lba + (count + 511) / 512 ≤ 2 ^ 48)
    (hok : ∀ l c w, dev.status l c w = 0) (hfuel : count / 4096 + 5 ≤ fuel) :
    ∃ p1, ReadDiskBlock dev fuel p lba count buffer = some (0, p1) ∧
      (∀ j, j < count → p1.mem (buffer + j) = p.disk (lba + j / 512) (j % 512)) ∧
      (∀ a, a < buffer ∨ buffer + count ≤ a → p1.mem a = p.mem a) ∧
      bytesOut p1.log = bytesOut p.log + count ∧
      commands p1.log = commands p.log ++ readPlan lba ((count + 511) / 512) ∧
      p1.disk = p.disk := by
  rw [two32_eq] at hc
  rw [two48_eq] at hlba
  have hbc : (count + 511) % 2 ^ 32 / 512 = (count + 511) / 512 := by
    rw [two32_eq, Nat.mod_eq_of_lt hc]
  obtain ⟨s1, q1, secs1, done1, hr1, hm1, hs1, hb1, hc1, hlt1, hinv1, hal1⟩ :=
    readChunks_falls dev hok 8 (by decide) fuel
      { port := p, lba := lba, count := count, buffer := buffer,
        blockCount := (count + 511) / 512 } (by simp only []; omega) hlba rfl
      (by simp only []; omega)
  simp only [] at hb1 hc1
  have hl1 := hm1.lba
  simp only [] at hl1
  obtain ⟨s2, q2, secs2, done2, hr2, hm2, hs2, hb2, hc2, hlt2, hinv2, hal2⟩ :=
    readChunks_falls dev hok 2 (by decide) fuel s1 (by omega) (by omega) hinv1 (by omega)
  have hl2 := hm2.lba
  obtain ⟨f, hf⟩ : ∃ f, fuel = f + 2 := ⟨fuel - 2, by omega⟩
  obtain ⟨s3, hr3, hm3⟩ := readSingles_falls dev hok f s2 (by omega) hinv2 hlt2
  have hm12 := moved_trans _ _ _ _ _ _ _ _ _ hm1 hm2 (by omega)
  have hm := moved_trans _ _ _ _ _ _ _ _ _ hm12 hm3 (by omega)
  have hdone : done1 + done2 + s2.count = count := by omega
  have hq1 : q1 = (count + 511) / 512 / 8 := by omega
  have hq2 : q2 = (count + 511) / 512 % 8 / 2 := by omega
  have hq3 : s2.blockCount = (count + 511) / 512 % 2 := by omega
  refine ⟨s3.port, ?_, ?_, ?_, ?_, ?_, ?_⟩
  · unfold ReadDiskBlock
    simp only [hbc, hr1, hr2]
    rw [← hf, hr3] at *
  · intro j hj
    exact hm.data j (by omega)
  · intro a ha
    exact hm.frame a (by simp only []; omega)
  · rw [hm.bytes, hdone]
  · rw [hm.issued]
    congr 1
    unfold readPlan
    have e1 : add64 lba (8 * ((count + 511) / 512 / 8)) = s1.lba := by
      rw [add64_eq _ _ (by omega), hl1]
      omega
    have e2 : add64 lba ((count + 511) / 512 - (count + 511) / 512 % 2) = s2.lba := by
      rw [add64_eq _ _ (by omega), hl2, hl1]
      omega
    rw [e1, e2, ← hq1, ← hq2, ← hq3]
  · exact hm.disk

theorem ReadDiskBlock_copies_count_bytes_witness :
    ∃ p1, ReadDiskBlock sampleDevice 10 sampleDisk 7 7000 1000 = some (0, p1) ∧
      p1.mem (1000 + 6999) = sampleDisk.disk (7 + 13) 343 ∧
      p1.mem 8000 = sampleDisk.mem 8000 ∧
      bytesOut p1.log = bytesOut sampleDisk.log + 7000 ∧
      commands p1.log = commands sampleDisk.log ++ readPlan 7 ((7000 + 511) / 512) :=
  (ReadDiskBlock_copies_count_bytes sampleDevice 10 sampleDisk 7 7000 1000 (by norm_num)
    (by norm_num) (fun _ _ _ => rfl) (by decide)).imp
    (fun _ h => ⟨h.1, h.2.1 6999 (by decide), h.2.2.1 8000 (by decide), h.2.2.2.1,
      h.2.2.2.2.1⟩)

theorem Access_write_log (dev : Device) (p : Port) (lba n : Nat)
    (hok : ∀ l c w, dev.status l c w = 0) :
    (Access dev p lba n true).1 = 0 ∧
      (Access dev p lba n true).2.log = p.log ++ [PortEvent.access lba n true] := by
  simp [Access, hok]

/-- What the loop of `WriteDiskBlock` reads and issues: every round copies `min(count, 512)`
bytes of the unchanged `count` from the caller's memory and writes one sector. -/
theorem writeSingles_falls (dev : Device) (hok : ∀ l c w, dev.status l c w = 0) :
    ∀ (fuel : Nat) (s : Xfer), s.blockCount < 18446744073709551616 → s.count ≠ 0 →
      s.blockCount < fuel →
      ∃ s1, writeSingles dev fuel s = .falls s1 ∧
        bytesIn s1.port.log
          = bytesIn s.port.log + s.blockCount * (if s.count < 512 then s.count else 512) ∧
        commands s1.port.log
          = commands s.port.log ++ chunkCommands 1 true s.lba s.blockCount := by
  intro fuel
  induction fuel with
  | zero => intro s _ _ h; exact absurd h (Nat.not_lt_zero _)
  | succ fuel ih =>
    intro s hb hc hfuel
    by_cases h0 : s.blockCount = 0
    · refine ⟨{ s with blockCount := sub64 s.blockCount 1 }, ?_, ?_, ?_⟩
      · rw [writeSingles]
        simp [h0]
      · simp [h0]
      · simp [h0, chunkCommands]
    · have hsize : (if s.count < 512 then s.count else 512) ≠ 0 := by
        split <;> omega
      obtain ⟨ha1, ha2⟩ := Access_write_log dev
        (copyFromBuffer s.port s.buffer (if s.count < 512 then s.count else 512)) s.lba 1 hok
      have hsub : sub64 s.blockCount 1 = s.blockCount - 1 :=
        sub64_eq _ _ hb (by omega)
      obtain ⟨q, hq⟩ : ∃ q, s.blockCount = q + 1 := ⟨s.blockCount - 1, by omega⟩
      obtain ⟨s1, hr, hbytes, hcmds⟩ :=
        ih { port := (Access dev (copyFromBuffer s.port s.buffer
                (if s.count < 512 then s.count else 512)) s.lba 1 true).2,
             lba := add64 s.lba 1, count := s.count,
             buffer := s.buffer + (if s.count < 512 then s.count else 512),
             blockCount := s.blockCount - 1 } (by simp only []; omega) hc
          (by simp only []; omega)
      simp only [] at hbytes hcmds
      rw [ha2] at hbytes hcmds
      refine ⟨s1, ?_, ?_, ?_⟩
      · rw [writeSingles]
        simp only []
        rw [if_pos ⟨h0, hc⟩, if_neg hsize, if_neg (by rw [ha1]; simp), hsub]
        exact hr
      · rw [hbytes, hq]
        simp only [copyFromBuffer, bytesIn_append, bytesIn, Nat.add_sub_cancel, Nat.succ_mul]
        omega
      · rw [hcmds, hq]
        simp only [copyFromBuffer, commands_append, commands, Nat.add_sub_cancel,
          chunkCommands, List.append_nil, List.append_assoc, List.singleton_append]

/-- With a controller that carries out every command, `WriteDiskBlock` returns 0 after one
write command for each of the `ceil(count / 512)` sectors from `lba` on, and reads
`min(count, 512)` bytes from the caller's memory for each of them. -/
theorem WriteDiskBlock_bytes_read (dev : Device) (fuel : Nat) (p : Port)
    (lba count buffer : Nat) (hc : count < 2 ^ 32) (hok : ∀ l c w, dev.status l c w = 0)
    (hfuel : count / 512 + 2 ≤ fuel) :
    ∃ p1, WriteDiskBlock dev fuel p lba count buffer = some (0, p1) ∧
      bytesIn p1.log
        = bytesIn p.log + (count + 511) / 512 * (if count < 512 then count else 512) ∧
      commands p1.log = commands p.log ++ chunkCommands 1 true lba ((count + 511) / 512) := by
  rw [two32_eq] at hc
  have hbc : (if count / 512 * 512 < count then count / 512 + 1 else count / 512)
      = (count + 511) / 512 := by
    split <;> omega
  by_cases h0 : count = 0
  · subst h0
    obtain ⟨f, hf⟩ : ∃ f, fuel = f + 1 := ⟨fuel - 1, by omega⟩
    subst hf
    refine ⟨p, ?_, by simp, by simp [chunkCommands]⟩
    simp [WriteDiskBlock, writeSingles]
  · obtain ⟨s1, hr, hbytes, hcmds⟩ := writeSingles_falls dev hok fuel
      { port := p, lba := lba, count := count, buffer := buffer,
        blockCount := (count + 511) / 512 } (by simp only []; omega) h0
      (by simp only []; omega)
    refine ⟨s1.port, ?_, hbytes, hcmds⟩
    unfold WriteDiskBlock
    simp only [hbc, hr]

/-- C30, the code: `WriteDiskBlock` is called for 600 bytes at address 1000, to go to sector
7. It returns 0 after two commands, for the sectors 7 and 8, and before each command it copies
512 bytes from the caller's memory: 1024 bytes in all, the second time the bytes from address
1512 up to address 2024, which is 424 bytes past the end of the buffer at address 1600. The
byte at offset 100 of sector 8 is then the byte at address 1612 of the caller's memory. -/
theorem WriteDiskBlock_reads_past_buffer :
    (WriteDiskBlock sampleDevice 10 samplePort 7 600 1000).map (fun r => (r.1, r.2.log))
      = some (0, [PortEvent.copyIn 1000 512, PortEvent.access 7 1 true,
          PortEvent.copyIn 1512 512, PortEvent.access 8 1 true]) ∧
    (WriteDiskBlock sampleDevice 10 samplePort 7 600 1000).map (fun r => bytesIn r.2.log)
      = some 1024 ∧
    (WriteDiskBlock sampleDevice 10 samplePort 7 600 1000).map (fun r => r.2.disk 8 100)
      = some (samplePort.mem 1612) ∧
    samplePort.mem 1612 = 106 := by
  decide

end Port

end AHCI

end Lemon
